import Mathlib

/-!
# TempCtrl.c: two-channel temperature controller

A shallow embedding of the 1-Wire bus driver (`oneWire_*`) and of the
temperature engine and output controller (`temp_*`) of `TempCtrl.c`.

Conventions of the embedding

* `uint8_t` objects are natural numbers; every store to one is reduced
  modulo 256 where the C expression can exceed eight bits.
* `int16_t` objects (`temp_val_t`) are integers; every store is passed
  through `wrap16`, the two's complement reduction to -32768..32767
  (`int` is 16 bits wide on the AVR target).
* C arrays are functions from the index.
* The 1-Wire line is reached through three slot operations gathered in
  `Bus`; the state of whatever hangs on the line is an arbitrary type `W`.
-/

namespace TempCtrl

/-! ## Constants -/

def ONE_WIRE_DEV_NO : Nat := 2
def ONE_WIRE_CMD_SRCH_ROM : Nat := 0xF0
def ONE_WIRE_CMD_MATCH_ROM : Nat := 0x55
def ONE_WIRE_CMD_SKIP_ROM : Nat := 0xCC
def ONE_WIRE_CMD_CONVERT_T : Nat := 0x44
def ONE_WIRE_CMD_RD_SCRATCH : Nat := 0xBE
def CRC_1WIRE_POLY : Nat := 0x31
def TEMP_OUTPUT_1_COUNT : Nat := 30
def TEMP_OUTPUT_2_COUNT : Nat := 60
def CFG_PARA_CH1_ON : Nat := 0
def CFG_PARA_CH2_ON : Nat := 1
def CFG_PARA_CH1_OFF : Nat := 2
def CFG_PARA_CH2_OFF : Nat := 3
def TEMP_SRC_0 : Nat := 0
def TEMP_SRC_1 : Nat := 1
def TEMP_SRC_0_OR_1 : Nat := 2
def TEMP_SRC_DELTA : Nat := 3
def OUTPUT_CH1_SRC : Nat := TEMP_SRC_0_OR_1
def OUTPUT_CH2_SRC : Nat := TEMP_SRC_DELTA
def OUTPUT_CH1_BIT : Nat := 0x10
def OUTPUT_CH2_BIT : Nat := 0x20

/-- The macro `OUTPUT_CHx_SRC(CH)`. -/
def OUTPUT_CHx_SRC (ch : Nat) : Nat := if ch = 0 then OUTPUT_CH1_SRC else OUTPUT_CH2_SRC

/-- The macro `OUTPUT_CHx_BIT(CH)`. -/
def OUTPUT_CHx_BIT (ch : Nat) : Nat := if ch = 0 then OUTPUT_CH1_BIT else OUTPUT_CH2_BIT

/-! ## Machine integers and arrays -/

/-- Two's complement reduction of an integer to the range of `int16_t`. -/
def wrap16 (x : Int) : Int := (x + 32768) % 65536 - 32768

/-- Array store `a[i] = v`. -/
def setAt {α : Type} (a : Nat → α) (i : Nat) (v : α) : Nat → α :=
  fun j => if j = i then v else a j

/-- Store into a two-dimensional array, `a[i][j] = v`. -/
def setAt2 {α : Type} (a : Nat → Nat → α) (i j : Nat) (v : α) : Nat → Nat → α :=
  fun k => if k = i then setAt (a k) j v else a k

/-! ## Global data -/

/-- The global `oneWire` (`struct oneWire_s`); `data` is the scratchpad
buffer `struct ds18b20_data` addressed by byte offset (`temp_lo` is
offset 0, `temp_hi` offset 1, `crc` offset 8). -/
structure OneWire where
  dev_count : Nat
  last_device : Nat
  last_disc : Nat
  crc8 : Nat
  rom : Nat → Nat → Nat
  data : Nat → Nat

/-- The global `temp_hist` (`struct temp_history`). -/
structure TempHist where
  cnt : Nat
  seconds : Nat
  add_sec : Nat
  minutes : Nat
  hours : Nat
  index : Nat
  valid : Nat → Nat
  value : Nat → Int
  min_array : Nat → Nat → Int
  max_array : Nat → Nat → Int

/-- The global `temp_cfg` (`struct config_data`). -/
structure ConfigData where
  cfg_id : Nat
  para : Nat → Int

/-- The global `output_data` (`struct output_data`). -/
structure OutputData where
  reg1 : Nat → Nat
  reg2 : Nat → Nat
  current : Nat → Nat
  count : Nat → Nat

/-- The globals the temperature engine and the output controller work on,
with the output port register `PORTC`. -/
structure Globals where
  oneWire : OneWire
  temp_hist : TempHist
  temp_cfg : ConfigData
  output_data : OutputData
  PORTC : Nat

/-- The unrolled `for (i = 0; i < 2; i++)` with loop body `f i`. -/
def loop2 {σ : Type} (f : Nat → σ → σ) (s : σ) : σ := f 1 (f 0 s)

/-! ## CRC-8 -/

/-- One pass of the loop body of `oneWire_updateCRC`: returns the new
accumulator; the caller shifts `byte` right. -/
def updateCRC_bit (crc8 byte : Nat) : Nat :=
  if ((crc8 &&& 0x80) != 0) != ((byte &&& 0x01) != 0) then
    ((crc8 <<< 1) ^^^ CRC_1WIRE_POLY) % 256
  else
    (crc8 <<< 1) % 256

/-- The loop of `oneWire_updateCRC` with `n` passes left. -/
def updateCRC_loop : Nat → Nat → Nat → Nat
  | 0, crc8, _ => crc8
  | n + 1, crc8, byte => updateCRC_loop n (updateCRC_bit crc8 byte) (byte >>> 1)

/-- The value of `oneWire.crc8` after `oneWire_updateCRC (byte)`. -/
def updateCRC (crc8 byte : Nat) : Nat := updateCRC_loop 8 crc8 byte

/-- The function `oneWire_updateCRC`. -/
def oneWire_updateCRC (byte : Nat) (ow : OneWire) : OneWire :=
  { ow with crc8 := updateCRC ow.crc8 byte }

/-- One shift of the Dallas/Maxim CRC-8 register for an input bit: the
feedback is the input bit xor the register's least significant bit, the
register moves right, and the taps of x^8+x^5+x^4+1 (0x8C in this
orientation) are toggled when the feedback is one. This follows the
published definition of the 1-Wire CRC, not the source. -/
def dallasCrc8Bit (reg byte : Nat) : Nat :=
  if reg % 2 ≠ byte % 2 then (reg / 2) ^^^ 0x8C else reg / 2

/-- Feed the `n` low bits of a byte, least significant first, to the
Dallas/Maxim CRC-8 register. -/
def dallasCrc8Bits : Nat → Nat → Nat → Nat
  | 0, reg, _ => reg
  | n + 1, reg, byte => dallasCrc8Bits n (dallasCrc8Bit reg byte) (byte / 2)

/-- The Dallas/Maxim 1-Wire CRC-8 of a byte sequence, initial value 0:
the check byte a device appends to its address or scratchpad. -/
def dallasCrc8 (m : List Nat) : Nat :=
  m.foldl (fun reg b => dallasCrc8Bits 8 reg b) 0

/-- Reversal of the eight bits of a byte. -/
def bitrev8 (x : Nat) : Nat :=
  (x / 128) % 2 + 2 * ((x / 64) % 2) + 4 * ((x / 32) % 2) + 8 * ((x / 16) % 2)
    + 16 * ((x / 8) % 2) + 32 * ((x / 4) % 2) + 64 * ((x / 2) % 2) + 128 * (x % 2)

/-- Fold `oneWire_updateCRC` over a byte sequence. -/
def crcFold (ow : OneWire) (m : List Nat) : OneWire :=
  m.foldl (fun s b => oneWire_updateCRC b s) ow

/-! ## Output controller -/

/-- The local `t_on` of `temp_updOutput` for channel `i`. -/
def t_on (g : Globals) (i : Nat) : Int := wrap16 (g.temp_cfg.para (CFG_PARA_CH1_ON + i) * 10)

/-- The local `t_off` of `temp_updOutput` for channel `i`. -/
def t_off (g : Globals) (i : Nat) : Int := wrap16 (g.temp_cfg.para (CFG_PARA_CH1_OFF + i) * 10)

/-- The local `highOn` of `temp_updOutput` for channel `i`. -/
def highOn (g : Globals) (i : Nat) : Bool := decide (t_on g i > t_off g i)

/-- The `switch (OUTPUT_CHx_SRC(i))` of `temp_updOutput`: the local `temp`
the thresholds are compared with. -/
def srcTemp (g : Globals) (i : Nat) : Int :=
  let value := g.temp_hist.value
  if OUTPUT_CHx_SRC i = TEMP_SRC_0 then value 0
  else if OUTPUT_CHx_SRC i = TEMP_SRC_1 then value 1
  else if OUTPUT_CHx_SRC i = TEMP_SRC_DELTA then
    let temp := wrap16 (value 0 - value 1)
    if temp < 0 then wrap16 (temp * -1) else temp
  else if highOn g i then
    (if value 0 > value 1 then value 0 else value 1)
  else
    (if value 0 < value 1 then value 0 else value 1)

/-- The body of the first loop of `temp_updOutput`: the value given to
`output[i]`. -/
def decideOutput (g : Globals) (i : Nat) : Nat :=
  if g.temp_hist.valid i ≠ 0 then
    let temp := srcTemp g i
    if highOn g i then
      if temp ≥ t_on g i then 1
      else if temp ≤ t_off g i then 0
      else g.output_data.current i
    else
      if temp ≤ t_on g i then 1
      else if temp ≥ t_off g i then 0
      else g.output_data.current i
  else 0

/-- The local array `output` of `temp_updOutput` when the delay loop is
entered: both entries decided, then `output[1] |= output_data.reg2[0]`. -/
def rawOutput (g : Globals) : Nat → Nat :=
  let output := loop2 (fun i out => setAt out i (decideOutput g i)) (fun _ => 0)
  setAt output 1 (output 1 ||| g.output_data.reg2 0)

/-- The body of the delay loop of `temp_updOutput` for channel `i`. -/
def delayStep (output : Nat → Nat) (i : Nat) (od : OutputData) : OutputData :=
  if od.current i ≠ output i then
    { od with current := setAt od.current i (output i), count := setAt od.count i 0 }
  else
    let od1 := if od.count i < 0xFF then { od with count := setAt od.count i (od.count i + 1) } else od
    let od2 :=
      if od1.count i ≥ TEMP_OUTPUT_1_COUNT - 1 then { od1 with reg1 := setAt od1.reg1 i (output i) }
      else od1
    if od2.count i ≥ TEMP_OUTPUT_2_COUNT - 1 then { od2 with reg2 := setAt od2.reg2 i (output i) }
    else od2

/-- The final port update of `temp_updOutput` for channel `i`. -/
def writePort (od : OutputData) (i : Nat) (portc : Nat) : Nat :=
  if od.reg1 i ≠ 0 then (portc ||| OUTPUT_CHx_BIT i) % 256
  else portc &&& (0xFF ^^^ OUTPUT_CHx_BIT i)

/-- The function `temp_updOutput`. -/
def temp_updOutput (g : Globals) : Globals :=
  let output := rawOutput g
  let od := loop2 (delayStep output) g.output_data
  { g with output_data := od, PORTC := writePort od 1 (writePort od 0 g.PORTC) }

/-- What the delay loop of `temp_updOutput` does to `reg1[i]` in state `g`:
true when the store `output_data.reg1[i] = output[i]` is executed. -/
def writesReg1 (g : Globals) (i : Nat) : Bool :=
  let od := g.output_data
  let output := rawOutput g
  if od.current i ≠ output i then false
  else
    let od1 := if od.count i < 0xFF then { od with count := setAt od.count i (od.count i + 1) } else od
    decide (od1.count i ≥ TEMP_OUTPUT_1_COUNT - 1)

/-- Everything that other code may change between two calls of
`temp_updOutput`: all globals except `output_data`, which only
`temp_updOutput` writes. -/
structure Inputs where
  oneWire : OneWire
  temp_hist : TempHist
  temp_cfg : ConfigData
  PORTC : Nat

/-- The state on entry to `temp_updOutput` in a cycle: the other globals
have taken the values `inp`, `output_data` is as the previous call left it. -/
def entry (inp : Inputs) (g : Globals) : Globals :=
  { oneWire := inp.oneWire, temp_hist := inp.temp_hist, temp_cfg := inp.temp_cfg,
    output_data := g.output_data, PORTC := inp.PORTC }

/-- One acquisition cycle as the output controller sees it. -/
def cycle (inp : Inputs) (g : Globals) : Globals := temp_updOutput (entry inp g)

/-- The state after the first `n` cycles of the input sequence `ins`. -/
def runCycles (ins : Nat → Inputs) : Nat → Globals → Globals
  | 0, g => g
  | n + 1, g => cycle (ins n) (runCycles ins n g)

/-- The counter of a channel after one pass of the delay loop. -/
def nextCount (cur cnt o : Nat) : Nat :=
  if cur ≠ o then 0 else if cnt < 0xFF then cnt + 1 else cnt

/-- A value representable as `int8_t` (the type of a setpoint). -/
def IsInt8 (x : Int) : Prop := -128 ≤ x ∧ x ≤ 127

instance (x : Int) : Decidable (IsInt8 x) := by
  unfold IsInt8
  exact inferInstance

/-- A concrete state for worked examples: validity flags `valid0 valid1`,
readings `v0 v1`, setpoints `on1 off1` for channel 1 and `on2 off2` for
channel 2, and `output_data` with `current = cur` for both channels,
channel-1 stage 2 equal to `r2` and everything else zero. -/
def demoGlobals (valid0 valid1 : Nat) (v0 v1 on1 off1 on2 off2 : Int) (cur r2 : Nat) : Globals :=
  { oneWire :=
      { dev_count := 0, last_device := 0, last_disc := 0, crc8 := 0,
        rom := fun _ _ => 0, data := fun _ => 0 }
    temp_hist :=
      { cnt := 0, seconds := 0, add_sec := 0, minutes := 0, hours := 0, index := 0
        valid := fun i => if i = 0 then valid0 else valid1
        value := fun i => if i = 0 then v0 else v1
        min_array := fun _ _ => 0, max_array := fun _ _ => 0 }
    temp_cfg :=
      { cfg_id := 0
        para := fun k => if k = 0 then on1 else if k = 1 then on2 else if k = 2 then off1 else off2 }
    output_data :=
      { reg1 := fun _ => 0, reg2 := fun i => if i = 0 then r2 else 0
        current := fun _ => cur, count := fun _ => 0 }
    PORTC := 0 }

/-- Inputs for worked examples: both readings valid and equal to `v`,
channel-1 setpoints on = 10, off = 5, channel-2 setpoints on = 20, off = 10. -/
def demoInputs (v : Int) : Inputs :=
  { oneWire := (demoGlobals 1 1 v v 10 5 20 10 0 0).oneWire
    temp_hist := (demoGlobals 1 1 v v 10 5 20 10 0 0).temp_hist
    temp_cfg := (demoGlobals 1 1 v v 10 5 20 10 0 0).temp_cfg
    PORTC := 0 }

/-! ## 1-Wire bus driver -/

/-- The 1-Wire line as the driver sees it. `W` is the state of whatever is
connected to the line. `resetPulse` is the reset sequence of `oneWire_reset`
(drive low 480 us, release, sample after 70 us) and returns the sampled
level, `true` for high; `readSlot` is the read time slot of `oneWire_readBit`
and returns the sampled level; `writeSlot b` is the write-1 (`b = true`) or
write-0 time slot of `oneWire_writeBit`. The delays themselves are not
modelled. -/
structure Bus (W : Type) where
  resetPulse : W → Bool × W
  readSlot : W → Bool × W
  writeSlot : Bool → W → W

/-- The function `oneWire_reset`: 1 when the presence pulse was seen (line
sampled low). -/
def oneWire_reset {W : Type} (hw : Bus W) (w : W) : Nat × W :=
  let r := hw.resetPulse w
  (if r.1 = false then 1 else 0, r.2)

/-- The function `oneWire_writeBit`. -/
def oneWire_writeBit {W : Type} (hw : Bus W) (data : Nat) (w : W) : W :=
  if data ≠ 0 then hw.writeSlot true w else hw.writeSlot false w

/-- The loop of `oneWire_writeByte` with `n` passes left. -/
def oneWire_writeByte_loop {W : Type} (hw : Bus W) : Nat → Nat → W → W
  | 0, _, w => w
  | n + 1, data, w =>
    oneWire_writeByte_loop hw n (data >>> 1) (oneWire_writeBit hw (data &&& 0x01) w)

/-- The function `oneWire_writeByte`. -/
def oneWire_writeByte {W : Type} (hw : Bus W) (data : Nat) (w : W) : W :=
  oneWire_writeByte_loop hw 8 data w

/-- The function `oneWire_readBit`: 1 when the line was sampled high. -/
def oneWire_readBit {W : Type} (hw : Bus W) (w : W) : Nat × W :=
  let r := hw.readSlot w
  (if r.1 then 1 else 0, r.2)

/-- The loop of `oneWire_readByte` with `n` passes left. -/
def oneWire_readByte_loop {W : Type} (hw : Bus W) : Nat → Nat → W → Nat × W
  | 0, result, w => (result, w)
  | n + 1, result, w =>
    let r := oneWire_readBit hw w
    oneWire_readByte_loop hw n (if r.1 ≠ 0 then (result >>> 1) ||| 0x80 else result >>> 1) r.2

/-- The function `oneWire_readByte`. -/
def oneWire_readByte {W : Type} (hw : Bus W) (w : W) : Nat × W :=
  oneWire_readByte_loop hw 8 0 w

/-- A `for (i = 0; i < n; i++)` loop with body `f i`. -/
def forLoop {σ : Type} : Nat → (Nat → σ → σ) → σ → σ
  | 0, _, s => s
  | n + 1, f, s => f n (forLoop n f s)

/-- The function `oneWire_selectDev`. It changes nothing in `oneWire`. -/
def oneWire_selectDev {W : Type} (hw : Bus W) (dev : Nat) (w : W) (ow : OneWire) : Nat × W :=
  let r := oneWire_reset hw w
  if r.1 = 0 then (0, r.2)
  else
    let w1 := oneWire_writeByte hw ONE_WIRE_CMD_MATCH_ROM r.2
    (1, forLoop 8 (fun i w' => oneWire_writeByte hw (ow.rom dev i) w') w1)

/-- The locals of `oneWire_search` that live across passes of its loop. -/
structure SearchLocals where
  id_bit_no : Nat
  last_zero : Nat
  rom_byte_no : Nat
  rom_byte_mask : Nat

/-- The local `direction` of `oneWire_search` for the pair read from the
bus (which is not `(1,1)`). -/
def searchDirection (l : SearchLocals) (ow : OneWire) (id_bit id_bit_cmp : Nat) : Nat :=
  if id_bit ≠ id_bit_cmp then id_bit
  else if l.id_bit_no < ow.last_disc then
    (if (ow.rom ow.dev_count l.rom_byte_no &&& l.rom_byte_mask) > 0 then 1 else 0)
  else
    (if l.id_bit_no = ow.last_disc then 1 else 0)

/-- The step "set or clear the bit in the ROM byte rom_byte_no with mask
rom_byte_mask" of `oneWire_search`. -/
def searchStore (l : SearchLocals) (ow : OneWire) (direction : Nat) : OneWire :=
  if direction ≠ 0 then
    { ow with rom := setAt2 ow.rom ow.dev_count l.rom_byte_no
                ((ow.rom ow.dev_count l.rom_byte_no ||| l.rom_byte_mask) % 256) }
  else
    { ow with rom := setAt2 ow.rom ow.dev_count l.rom_byte_no
                (ow.rom ow.dev_count l.rom_byte_no &&& (0xFF ^^^ l.rom_byte_mask)) }

/-- The step "increment the byte counter and shift the mask" of
`oneWire_search`, with the CRC update when a ROM byte is complete;
`last_zero` is the value the local has at that point. -/
def searchAdvance (l : SearchLocals) (last_zero : Nat) (ow : OneWire) : SearchLocals × OneWire :=
  if (l.rom_byte_mask <<< 1) % 256 = 0 then
    ({ id_bit_no := l.id_bit_no + 1, last_zero := last_zero,
       rom_byte_no := l.rom_byte_no + 1, rom_byte_mask := 1 },
     oneWire_updateCRC (ow.rom ow.dev_count l.rom_byte_no) ow)
  else
    ({ id_bit_no := l.id_bit_no + 1, last_zero := last_zero,
       rom_byte_no := l.rom_byte_no, rom_byte_mask := (l.rom_byte_mask <<< 1) % 256 },
     ow)

/-- One pass of the `do ... while` body of `oneWire_search`. The first
component is `true` when the pass left the loop by `break`. -/
def searchBody {W : Type} (hw : Bus W) (l : SearchLocals) (w : W) (ow : OneWire) :
    Bool × SearchLocals × W × OneWire :=
  let r1 := oneWire_readBit hw w
  let r2 := oneWire_readBit hw r1.2
  let id_bit := r1.1
  let id_bit_cmp := r2.1
  if id_bit = 1 ∧ id_bit_cmp = 1 then (true, l, r2.2, ow)
  else
    let direction := searchDirection l ow id_bit id_bit_cmp
    let last_zero := if id_bit = id_bit_cmp ∧ direction = 0 then l.id_bit_no else l.last_zero
    let ow1 := searchStore l ow direction
    let w3 := oneWire_writeBit hw direction r2.2
    let a := searchAdvance l last_zero ow1
    (false, a.1, w3, a.2)

/-- The `do ... while (rom_byte_no < 8)` loop of `oneWire_search`, with a
bound on the number of passes; `none` when the bound is used up. -/
def searchLoop {W : Type} (hw : Bus W) :
    Nat → SearchLocals → W → OneWire → Option (SearchLocals × W × OneWire)
  | 0, _, _, _ => none
  | fuel + 1, l, w, ow =>
    let r := searchBody hw l w ow
    if r.1 then some r.2
    else if r.2.1.rom_byte_no < 8 then searchLoop hw fuel r.2.1 r.2.2.1 r.2.2.2
    else some r.2

/-- The end of `oneWire_search`, from the comment "if no device found then
reset counters" on. -/
def searchFinish {W : Type} (result : Nat) (w : W) (ow : OneWire) : Nat × W × OneWire :=
  if result = 0 ∨ ow.rom ow.dev_count 0 = 0 then
    (0, w, { ow with last_device := 0, last_disc := 0 })
  else
    (result, w, { ow with dev_count := (ow.dev_count + 1) % 256 })

/-- The function `oneWire_search`: the returned value, the bus and `oneWire`
afterwards. The loop gets 64 passes, one for each address bit. -/
def oneWire_search {W : Type} (hw : Bus W) (w : W) (ow0 : OneWire) : Option (Nat × W × OneWire) :=
  let ow := { ow0 with crc8 := 0 }
  if ow.dev_count ≥ ONE_WIRE_DEV_NO then some (0, w, ow)
  else if ow.last_device = 0 then
    let r := oneWire_reset hw w
    if r.1 = 0 then some (0, r.2, { ow with last_disc := 0, last_device := 0 })
    else
      let w1 := oneWire_writeByte hw ONE_WIRE_CMD_SRCH_ROM r.2
      match searchLoop hw 64
          { id_bit_no := 1, last_zero := 0, rom_byte_no := 0, rom_byte_mask := 1 } w1 ow with
      | none => none
      | some (l, w2, ow2) =>
        if ¬ (l.id_bit_no < 64 ∨ ow2.crc8 ≠ 0) then
          let ow3 := { ow2 with last_disc := l.last_zero }
          let ow4 := if ow3.last_disc = 0 then { ow3 with last_device := 1 } else ow3
          some (searchFinish 1 w2 ow4)
        else some (searchFinish 0 w2 ow2)
  else some (searchFinish 0 w ow)

/-- The function `oneWire_findFirst`. -/
def oneWire_findFirst {W : Type} (hw : Bus W) (w : W) (ow : OneWire) : Option (Nat × W × OneWire) :=
  oneWire_search hw w { ow with dev_count := 0, last_device := 0, last_disc := 0 }

/-- The function `oneWire_findNext`. -/
def oneWire_findNext {W : Type} (hw : Bus W) (w : W) (ow : OneWire) : Option (Nat × W × OneWire) :=
  oneWire_search hw w ow

/-! ## Temperature engine -/

/-- The function `temp_startTemp`. -/
def temp_startTemp {W : Type} (hw : Bus W) (w : W) : W :=
  let r := oneWire_reset hw w
  if r.1 ≠ 0 then
    oneWire_writeByte hw ONE_WIRE_CMD_CONVERT_T (oneWire_writeByte hw ONE_WIRE_CMD_SKIP_ROM r.2)
  else r.2

/-- The loop `for (n = 0; n < 9; n++, data++)` of `temp_readTemp` with `n`
passes left and `data` pointing at byte offset `off` of `oneWire.data`. -/
def readScratch {W : Type} (hw : Bus W) : Nat → Nat → W → OneWire → W × OneWire
  | 0, _, w, ow => (w, ow)
  | n + 1, off, w, ow =>
    let r := oneWire_readByte hw w
    readScratch hw n (off + 1) r.2 (oneWire_updateCRC r.1 { ow with data := setAt ow.data off r.1 })

/-- The conversion of `temp_readTemp` (branch `TEMP_VAL_MAX > INT8_MAX`):
`temp = (temp_hi << 8) | temp_lo; temp *= 10; temp >>= 4;` on `int16_t`. -/
def convertTemp (temp_hi temp_lo : Nat) : Int :=
  let temp : Int := wrap16 (((temp_hi <<< 8) ||| temp_lo : Nat) : Int)
  let temp := wrap16 (temp * 10)
  temp >>> 4

/-- The body of the outer loop of `temp_readTemp` for slot `i`. -/
def readTempSlot {W : Type} (hw : Bus W) (i : Nat) (s : W × Globals) : W × Globals :=
  let g := s.2
  let g1 := { g with temp_hist := { g.temp_hist with valid := setAt g.temp_hist.valid i 0 } }
  let sel := oneWire_selectDev hw i s.1 g1.oneWire
  if sel.1 ≠ 0 then
    let w1 := oneWire_writeByte hw ONE_WIRE_CMD_RD_SCRATCH sel.2
    let r := readScratch hw 9 0 w1 { g1.oneWire with crc8 := 0 }
    let ow := r.2
    if ow.crc8 = 0 then
      let temp := convertTemp (ow.data 1) (ow.data 0)
      (r.1, { g1 with
                oneWire := ow
                temp_hist := { g1.temp_hist with
                                 value := setAt g1.temp_hist.value i temp
                                 valid := setAt g1.temp_hist.valid i 1 } })
    else (r.1, { g1 with oneWire := ow })
  else (sel.2, g1)

/-- The function `temp_readTemp`. -/
def temp_readTemp {W : Type} (hw : Bus W) (s : W × Globals) : W × Globals :=
  let i_max := if s.2.oneWire.dev_count < 2 then s.2.oneWire.dev_count else 2
  forLoop i_max (readTempSlot hw) s

/-- The bytes returned by `n` consecutive calls of `oneWire_readByte`. -/
def readBytes {W : Type} (hw : Bus W) : Nat → W → List Nat
  | 0, _ => []
  | n + 1, w => (oneWire_readByte hw w).1 :: readBytes hw n (oneWire_readByte hw w).2

/-! ## Bus environments used to state and test claims -/

/-- A scripted line: the samples the driver will see, in order (`true` is
high); when the script is used up the line reads high (idle bus, pull-up).
Write slots have no effect on what is read. -/
def scriptBus : Bus (List Bool) where
  resetPulse := fun s => (s.headD true, s.tail)
  readSlot := fun s => (s.headD true, s.tail)
  writeSlot := fun _ s => s

/-- The eight line samples that make `oneWire_readByte` return the byte
`b`: its bits, least significant first. -/
def byteSamples (b : Nat) : List Bool :=
  (List.range 8).map (fun k => (b / 2 ^ k) % 2 = 1)

/-- Bit `p` (0 is the first bit on the wire) of the 8-byte address `a`. -/
def addrBit (a : Nat → Nat) (p : Nat) : Bool := (a (p / 8) / 2 ^ (p % 8)) % 2 = 1

/-- What the devices of an ideal bus are doing. `idle`: waiting for a reset
pulse. `command n acc`: receiving bit `n` of the ROM command, the bits so far
in `acc`. `search pos phase active`: in a Search ROM pass at address bit
`pos`, with the devices `active` still taking part; in phase 0 they send the
bit, in phase 1 its complement, in phase 2 they read the direction bit of
the master and those whose bit differs drop out. -/
inductive IdealMode where
  | idle : IdealMode
  | command : Nat → Nat → IdealMode
  | search : Nat → Nat → List (Nat → Nat) → IdealMode

/-- An ideal 1-Wire bus: the addresses of the devices on it and what they
are doing. This is a model of the environment (open-drain line, devices
following the Search ROM protocol of Maxim application note 187, which the
source names), not of code of the repository. -/
structure IdealWorld where
  devs : List (Nat → Nat)
  mode : IdealMode

/-- One time slot on the ideal bus. `b` is what the master puts on the line
(`false` for a write-0 slot; `true` for a write-1 slot and for a read slot,
where the master releases the line early). Returns the level on the line
when it is sampled, the wired AND of the master and every sending device. -/
def idealSlot (b : Bool) (w : IdealWorld) : Bool × IdealWorld :=
  match w.mode with
  | .idle => (b, w)
  | .command n acc =>
    let acc1 := if b then acc + 2 ^ n else acc
    (b, { w with mode :=
            if n + 1 < 8 then .command (n + 1) acc1
            else if acc1 = ONE_WIRE_CMD_SRCH_ROM then .search 0 0 w.devs
            else .idle })
  | .search pos 0 active =>
    (b && active.all (fun a => addrBit a pos), { w with mode := .search pos 1 active })
  | .search pos 1 active =>
    (b && active.all (fun a => !addrBit a pos), { w with mode := .search pos 2 active })
  | .search pos _ active =>
    (b, { w with mode :=
            if pos + 1 < 64 then .search (pos + 1) 0 (active.filter (fun a => addrBit a pos == b))
            else .idle })

/-- The ideal bus as a `Bus`: a reset pulse is answered by a presence pulse
(line low) exactly when there is a device, and makes every device wait for a
ROM command. -/
def idealBus : Bus IdealWorld where
  resetPulse := fun w => (w.devs.isEmpty, { w with mode := .command 0 0 })
  readSlot := fun w => idealSlot true w
  writeSlot := fun b w => (idealSlot b w).2

/-- An 8-byte address given by its list of bytes. -/
def addrOf (bytes : List Nat) : Nat → Nat := fun j => bytes.getD j 0

/-- The address is well formed: eight bytes, a non-zero family byte first
and the Dallas/Maxim CRC-8 of the first seven bytes last. -/
def ValidAddr (a : Nat → Nat) : Prop :=
  (∀ j, j < 8 → a j < 256) ∧ a 0 ≠ 0 ∧
    a 7 = dallasCrc8 [a 0, a 1, a 2, a 3, a 4, a 5, a 6]

/-- The state in which `temp_readTemp` reaches slot `i`: the passes for the
slots before `i` are done. -/
def slotEntry {W : Type} (hw : Bus W) (i : Nat) (s : W × Globals) : W × Globals :=
  forLoop i (readTempSlot hw) s

/-- The outcome of `oneWire_selectDev (i)` in the pass for slot `i`, entered
in state `s`. -/
def slotSelect {W : Type} (hw : Bus W) (i : Nat) (s : W × Globals) : Nat × W :=
  oneWire_selectDev hw i s.1 s.2.oneWire

/-- The nine bytes read in the pass for slot `i`, entered in state `s`,
after the select and the read-scratchpad command. -/
def slotBytes {W : Type} (hw : Bus W) (i : Nat) (s : W × Globals) : List Nat :=
  readBytes hw 9 (oneWire_writeByte hw ONE_WIRE_CMD_RD_SCRATCH (slotSelect hw i s).2)

/-- The select succeeded and the CRC accumulator, reset to 0 and folded over
the nine bytes read, is 0. -/
def SlotAccepted {W : Type} (hw : Bus W) (i : Nat) (s : W × Globals) : Prop :=
  (slotSelect hw i s).1 ≠ 0 ∧ (slotBytes hw i s).foldl updateCRC 0 = 0

instance {W : Type} (hw : Bus W) (i : Nat) (s : W × Globals) : Decidable (SlotAccepted hw i s) := by
  unfold SlotAccepted
  exact inferInstance

/-- The line samples of a sequence of bytes. -/
def scratchSamples : List Nat → List Bool
  | [] => []
  | b :: bs => byteSamples b ++ scratchSamples bs

/-- A scratchpad with temperature bytes `temp_lo = 0x6F`, `temp_hi = 0xFE`
(raw value -401, i.e. -25.0625 degrees) and a correct CRC byte. -/
def demoScratch : List Nat := [0x6F, 0xFE, 0x4B, 0x46, 0x7F, 0xFF, 0x01, 0x10, 0x61]

/-- A scripted line for one `temp_readTemp` pass: presence pulse, then the
bytes `scratch`. -/
def demoScript (scratch : List Nat) : List Bool := false :: scratchSamples scratch

/-- A state with one discovered sensor, reading 1.0 degrees marked valid. -/
def demoSensor : Globals :=
  { demoGlobals 1 0 10 0 5 10 20 10 0 0 with
    oneWire := { dev_count := 1, last_device := 1, last_disc := 0, crc8 := 0,
                 rom := fun _ _ => 0x28, data := fun _ => 0 } }

/-- The state of `oneWire_search` when its loop is about to handle bit `k`
of ROM byte `q`, on the way to the address `T`: `ow0` is `oneWire` when the
loop was entered, `lz` the value of `last_zero`. The bytes before `q` and
the bits before `k` of byte `q` of `rom[dev_count]` are those of `T`, the
CRC accumulator holds the fold of the bytes before `q`, and nothing else in
`oneWire` has changed. -/
structure SearchInv (ow0 : OneWire) (T : Nat → Nat) (q k lz : Nat)
    (l : SearchLocals) (ow : OneWire) : Prop where
  k_lt : k < 8
  id_bit_no : l.id_bit_no = 8 * q + k + 1
  last_zero : l.last_zero = lz
  rom_byte_no : l.rom_byte_no = q
  rom_byte_mask : l.rom_byte_mask = 2 ^ k
  dev_count : ow.dev_count = ow0.dev_count
  last_device : ow.last_device = ow0.last_device
  last_disc : ow.last_disc = ow0.last_disc
  data : ow.data = ow0.data
  rom_other : ∀ s, s ≠ ow0.dev_count → ow.rom s = ow0.rom s
  rom_done : ∀ j, j < q → ow.rom ow0.dev_count j = T j
  rom_part : ow.rom ow0.dev_count q % 2 ^ k = T q % 2 ^ k
  crc : ow.crc8 = ((List.range q).map T).foldl updateCRC 0

/-- The ideal bus during a search pass over two devices on the way to the
address `T`, with `d` the first bit position where the two addresses differ:
the devices are at address bit `p`, about to send it, and up to position `d`
both take part, afterwards only `T`. -/
def PassWorld (devs : List (Nat → Nat)) (T : Nat → Nat) (d p : Nat) (w : IdealWorld) : Prop :=
  w.devs = devs ∧ (p < 64 → w.mode = .search p 0 (if p ≤ d then devs else [T]))

/-- The value of the local `last_zero` at bit position `p` of such a pass:
the discrepancy at `d` is recorded when the 0 branch was taken there, that is
when bit `d` of the address found is 0. -/
def passLastZero (d : Nat) (tb : Bool) (p : Nat) : Nat :=
  if d < p ∧ tb = false then d + 1 else 0

/-- Bit `p` of the address as the number 0 or 1. -/
def addrBitNat (a : Nat → Nat) (p : Nat) : Nat := a (p / 8) / 2 ^ (p % 8) % 2

instance (a : Nat → Nat) : Decidable (ValidAddr a) := by
  unfold ValidAddr
  exact inferInstance

/-- The two sensor addresses of the worked example, family bytes 0x10 and
0x20, with their CRC bytes. -/
def demoAddrA : Nat → Nat := addrOf [0x10, 1, 2, 3, 4, 5, 0x01, 248]

/-- Second address of the worked example. -/
def demoAddrB : Nat → Nat := addrOf [0x20, 1, 2, 3, 4, 5, 0x02, 14]

/-- Some content of `oneWire` left over from earlier use. -/
def demoOneWire : OneWire :=
  { dev_count := 7, last_device := 3, last_disc := 9, crc8 := 5,
    rom := fun _ _ => 0xAA, data := fun _ => 0 }

/-! ## Clock and rolling history -/

def TEMP_VAL_MAX : Int := 32767
def TEMP_VAL_MIN : Int := -32768

/-- The function `temp_incrSeconds`: the returned value and `temp_hist`
afterwards. -/
def temp_incrSeconds (h : TempHist) : Nat × TempHist :=
  let h1 := { h with seconds := (h.seconds + 1) % 256, add_sec := (h.add_sec + 1) % 256 }
  let h2 := if h1.add_sec ≥ 2 then { h1 with add_sec := 0, seconds := (h1.seconds + 1) % 256 } else h1
  let h3 :=
    if h2.seconds > 59 then { h2 with seconds := h2.seconds - 60, minutes := (h2.minutes + 1) % 256 }
    else h2
  if h3.minutes > 59 then
    let h4 := { h3 with minutes := 0 }
    (1, if h4.hours < 23 then { h4 with hours := h4.hours + 1 } else h4)
  else (0, h3)

/-- The body of the loop of `temp_updCurMinMax` for channel `i`, with the
local `id` (the index on entry). -/
def updCurMinMax_body (id : Nat) (i : Nat) (h : TempHist) : TempHist :=
  if h.valid i ≠ 0 then
    let tmp := h.value i
    let h1 := if h.min_array i id > tmp then { h with min_array := setAt2 h.min_array i id tmp } else h
    if h1.max_array i id < tmp then { h1 with max_array := setAt2 h1.max_array i id tmp } else h1
  else h

/-- The function `temp_updCurMinMax`. -/
def temp_updCurMinMax (h : TempHist) : TempHist :=
  loop2 (updCurMinMax_body h.index) h

/-- The function `temp_updHistMinMax`. -/
def temp_updHistMinMax (h : TempHist) : TempHist :=
  let id0 := (h.index + 1) % 256
  let id := if id0 > 23 then 0 else id0
  { h with
    index := id
    min_array := setAt2 (setAt2 h.min_array 0 id TEMP_VAL_MAX) 1 id TEMP_VAL_MAX
    max_array := setAt2 (setAt2 h.max_array 0 id TEMP_VAL_MIN) 1 id TEMP_VAL_MIN }

/-- The time counted by the software clock within the hour, in seconds. -/
def counted (h : TempHist) : Nat := 60 * h.minutes + h.seconds

/-- The number of seconds a call of `temp_incrSeconds` adds to the counted
time: 2 when the call takes the leap-second branch, else 1. -/
def secondsAdded (h : TempHist) : Nat := if (h.add_sec + 1) % 256 ≥ 2 then 2 else 1

/-- A run of `n` calls of `temp_incrSeconds` from `h`: the number of calls
that returned 1, the seconds counted, and the state afterwards. -/
def incrRun : Nat → TempHist → Nat × Nat × TempHist
  | 0, h => (0, 0, h)
  | n + 1, h =>
    ((incrRun n h).1 + (temp_incrSeconds (incrRun n h).2.2).1,
     (incrRun n h).2.1 + secondsAdded (incrRun n h).2.2,
     (temp_incrSeconds (incrRun n h).2.2).2)

/-- The state of `temp_hist` when the main loop starts: statics are zero,
`main` has put the sentinels into slot 0 and set `index = 0`. -/
def powerOnHist : TempHist :=
  { cnt := 0, seconds := 0, add_sec := 0, minutes := 0, hours := 0, index := 0
    valid := fun _ => 0, value := fun _ => 0
    min_array := fun _ s => if s = 0 then TEMP_VAL_MAX else 0
    max_array := fun _ s => if s = 0 then TEMP_VAL_MIN else 0 }

/-- A value representable as `int16_t` (the type `temp_val_t`). -/
def IsInt16 (x : Int) : Prop := -32768 ≤ x ∧ x ≤ 32767

instance (x : Int) : Decidable (IsInt16 x) := by
  unfold IsInt16
  exact inferInstance

/-- What an acquisition cycle may have changed in `temp_hist` when
`temp_updCurMinMax` runs, short of a rollover: everything except `index` and
the two history arrays. -/
structure CurInputs where
  cnt : Nat
  seconds : Nat
  add_sec : Nat
  minutes : Nat
  hours : Nat
  valid : Nat → Nat
  value : Nat → Int

/-- One acquisition cycle as the rolling history sees it: the readings and
counters take the values `r`, then `temp_updCurMinMax` runs. -/
def curCycle (r : CurInputs) (h : TempHist) : TempHist :=
  temp_updCurMinMax
    { h with cnt := r.cnt, seconds := r.seconds, add_sec := r.add_sec, minutes := r.minutes,
             hours := r.hours, valid := r.valid, value := r.value }

/-- A sequence of acquisition cycles without a rollover in between. -/
def runCur (rs : List CurInputs) (h : TempHist) : TempHist :=
  rs.foldl (fun s r => curCycle r s) h

/-- The readings of channel `i` in those cycles in which `valid[i] != 0`
when `temp_updCurMinMax` ran. -/
def validValues (i : Nat) (rs : List CurInputs) : List Int :=
  (rs.filter (fun r => r.valid i ≠ 0)).map (fun r => r.value i)

/-- A cycle for worked examples: channel 1 has validity `v` and reading
`t`, channel 2 is invalid. -/
def demoCycle (v : Nat) (t : Int) : CurInputs :=
  { cnt := 0, seconds := 0, add_sec := 0, minutes := 0, hours := 0
    valid := fun i => if i = 0 then v else 0
    value := fun _ => t }

/-- A recording line: every write slot appends the bit written to the log;
reads see an idle (high) line. -/
def logBus : Bus (List Bool) where
  resetPulse := fun s => (true, s)
  readSlot := fun s => (true, s)
  writeSlot := fun b s => s ++ [b]

/-- The values returned by `n` consecutive calls of `oneWire_readBit`. -/
def readBits {W : Type} (hw : Bus W) : Nat → W → List Nat
  | 0, _ => []
  | n + 1, w => (oneWire_readBit hw w).1 :: readBits hw n (oneWire_readBit hw w).2

/-- The bus after `n` consecutive calls of `oneWire_readBit`. -/
def afterReadBits {W : Type} (hw : Bus W) : Nat → W → W
  | 0, w => w
  | n + 1, w => afterReadBits hw n (oneWire_readBit hw w).2

/-- What a search walk leaves alone in `oneWire`: `ow1` differs from `ow`
at most in `crc8` and in the slot `rom[dev_count]`. -/
def SearchFrame (ow ow1 : OneWire) : Prop :=
  ow1.dev_count = ow.dev_count ∧ ow1.last_device = ow.last_device ∧
  ow1.last_disc = ow.last_disc ∧ ow1.data = ow.data ∧
  ∀ s, s ≠ ow.dev_count → ow1.rom s = ow.rom s

/-- The line samples of `n` address bit positions, from position `p` on, on
a bus where one device with address `a` answers a search: at each position
the bit, then its complement. -/
def answerSamples (a : Nat → Nat) : Nat → Nat → List Bool
  | 0, _ => []
  | n + 1, p => addrBit a p :: (!addrBit a p) :: answerSamples a n (p + 1)

/-- A search pass that loses its device before the last address bit: the
presence pulse, the answers of the device with address `a` at the first 63
bit positions, and the idle line (both samples high) at position 64. -/
def lostAtLastBit (a : Nat → Nat) : List Bool :=
  false :: (answerSamples a 63 0 ++ [true, true])

/-- An address whose first seven bytes have the CRC fold 0. -/
def demoAddrC : Nat → Nat := addrOf [0x28, 1, 2, 3, 4, 5, 0x3D, 0x55]

/-- The state of `oneWire` at power-on (static storage is zeroed). -/
def powerOnOneWire : OneWire :=
  { dev_count := 0, last_device := 0, last_disc := 0, crc8 := 0,
    rom := fun _ _ => 0, data := fun _ => 0 }

/-- The hysteresis rule in the words of the specification (output decision,
steps 1 and 3): with `high_on = (on > off)`, on when `source >= on`, off when
`source <= off`, otherwise the previous decision; without `high_on` the
comparisons are inverted. Used to compare `decideOutput` with. -/
def specHysteresis (on_threshold off_threshold source : Int) (previous : Nat) : Nat :=
  if on_threshold > off_threshold then
    (if source ≥ on_threshold then 1 else if source ≤ off_threshold then 0 else previous)
  else
    (if source ≤ on_threshold then 1 else if source ≥ off_threshold then 0 else previous)

/-- The source value of channel 1 in the words of the specification: the
larger of the two readings when `on > off`, else the smaller. -/
def specSource1 (on_threshold off_threshold v0 v1 : Int) : Int :=
  if on_threshold > off_threshold then max v0 v1 else min v0 v1

/-- The addresses `a` and `b` have the same bits at the positions before
`p`. -/
def AgreeTo (a b : Nat → Nat) (p : Nat) : Prop := ∀ i, i < p → addrBit a i = addrBit b i

/-- The devices `active` still taking part at bit position `p` of a search
pass on an ideal bus carrying `devs`: there is one, they are devices of the
bus, they have the same bits before `p`, and every device of the bus with
those bits is among them. -/
structure ActiveInv (devs : List (Nat → Nat)) (p : Nat) (active : List (Nat → Nat)) : Prop where
  nonempty : active ≠ []
  sub : ∀ a, a ∈ active → a ∈ devs
  agree : ∀ a b, a ∈ active → b ∈ active → AgreeTo a b p
  complete : ∀ a b, a ∈ active → b ∈ devs → AgreeTo a b p → b ∈ active

/-- The state of a search pass on the ideal bus carrying `devs` when the
loop of `oneWire_search` is about to handle bit position `p`: the devices
`active` take part and are about to send that bit, and the loop invariant
holds towards the address of each of them. -/
structure GenPass (devs : List (Nat → Nat)) (ow0 : OneWire) (p lz : Nat)
    (active : List (Nat → Nat)) (l : SearchLocals) (w : IdealWorld) (ow : OneWire) : Prop where
  act : ActiveInv devs p active
  world_devs : w.devs = devs
  world_mode : p < 64 → w.mode = .search p 0 active
  inv : ∀ T, T ∈ active → SearchInv ow0 T (p / 8) (p % 8) lz l ow

/-- What one loop pass at bit position `p` does to the devices taking part
and to `last_zero`, when `last_disc` is `ld`: the devices whose bit is the
direction `dirb` stay. Either all had that bit, or there was a discrepancy,
where the direction is 0 from `ld` on, 1 at `ld - 1`, and a 0 is recorded in
`last_zero`. -/
def StepRel (ld p : Nat) (active : List (Nat → Nat)) (lz : Nat)
    (active1 : List (Nat → Nat)) (lz1 : Nat) : Prop :=
  ∃ dirb : Bool,
    (∀ a, a ∈ active1 ↔ a ∈ active ∧ addrBit a p = dirb) ∧
    (((∀ a, a ∈ active → addrBit a p = dirb) ∧ lz1 = lz) ∨
     ((∃ a, a ∈ active ∧ addrBit a p = false) ∧ (∃ b, b ∈ active ∧ addrBit b p = true) ∧
        (ld ≤ p → dirb = false) ∧ (ld = p + 1 → dirb = true) ∧
        lz1 = if dirb then lz else p + 1))

/-- The loop `while (oneWire_findNext() != 0) {}` of `main`, with a bound on
the number of calls; `none` when the bound is used up. -/
def findNextLoop {W : Type} (hw : Bus W) : Nat → W → OneWire → Option (W × OneWire)
  | 0, _, _ => none
  | fuel + 1, w, ow =>
    match oneWire_findNext hw w ow with
    | none => none
    | some (r, w1, ow1) => if r ≠ 0 then findNextLoop hw fuel w1 ow1 else some (w1, ow1)

/-- The start-up discovery of `main`:
`if (oneWire_findFirst() != 0) { while (oneWire_findNext() != 0) {} }`. -/
def startupDiscovery {W : Type} (hw : Bus W) (fuel : Nat) (w : W) (ow : OneWire) :
    Option (W × OneWire) :=
  match oneWire_findFirst hw w ow with
  | none => none
  | some (r, w1, ow1) => if r ≠ 0 then findNextLoop hw fuel w1 ow1 else some (w1, ow1)

/-- Third address of the worked example. -/
def demoAddrD : Nat → Nat := addrOf [0x28, 1, 2, 3, 4, 5, 6, 158]
/-- What holds at bit position `p` of the first search pass (`last_disc = 0`):
as long as `last_zero` is 0 every device of the bus still takes part; once it
is `d + 1`, the devices taking part have bit `d` clear, and a device `U` of
the bus that has bit `d` set shares their bits before `d`. -/
def FirstPassInv (devs : List (Nat → Nat)) (p : Nat) (active : List (Nat → Nat))
    (lz : Nat) : Prop :=
  (lz = 0 → ∀ a, a ∈ devs → a ∈ active) ∧
  (lz ≠ 0 → ∃ d U, lz = d + 1 ∧ d < p ∧ U ∈ devs ∧ addrBit U d = true ∧
    ∀ a, a ∈ active → addrBit a d = false ∧ AgreeTo a U d)

/-- What holds at bit position `p` of the search pass that follows the pass
that found `T1` with `last_zero = d + 1`: either `T1` still takes part and
`p` is at most `d`, or the devices taking part differ from `T1` in a bit
before `p`. -/
def NextPassInv (T1 : Nat → Nat) (d : Nat) (p : Nat) (active : List (Nat → Nat))
    (_ : Nat) : Prop :=
  (T1 ∈ active ∧ p ≤ d) ∨ ∃ i, i < p ∧ ∀ a, a ∈ active → addrBit a i ≠ addrBit T1 i

/-- The ranges of the clock counters and of the history index. -/
def CounterRanges (h : TempHist) : Prop :=
  h.seconds ≤ 59 ∧ h.minutes ≤ 59 ∧ h.hours ≤ 23 ∧ h.add_sec ≤ 1 ∧ h.index ≤ 23

instance (h : TempHist) : Decidable (CounterRanges h) := by
  unfold CounterRanges
  exact inferInstance

/-- An operation of the driver on the line: a reset pulse with the sample
taken in the presence window, a read slot with the sample taken, a write
slot with the bit written. -/
inductive BusEvent where
  | reset : Bool → BusEvent
  | read : Bool → BusEvent
  | write : Bool → BusEvent
  deriving DecidableEq

/-- A bus that behaves like `hw` and keeps a record of the operations done
on it, in order. -/
def traceBus {W : Type} (hw : Bus W) : Bus (W × List BusEvent) where
  resetPulse := fun s =>
    ((hw.resetPulse s.1).1, (hw.resetPulse s.1).2, s.2 ++ [BusEvent.reset (hw.resetPulse s.1).1])
  readSlot := fun s =>
    ((hw.readSlot s.1).1, (hw.readSlot s.1).2, s.2 ++ [BusEvent.read (hw.readSlot s.1).1])
  writeSlot := fun b s => (hw.writeSlot b s.1, s.2 ++ [BusEvent.write b])

/-- The values of `id_bit_no` at which the loop of `oneWire_search`, run as
in `searchLoop`, reads a pair of equal bits other than `(1,1)` (a
discrepancy) and picks the direction 0, in the order of the passes. -/
def zeroChoices {W : Type} (hw : Bus W) : Nat → SearchLocals → W → OneWire → List Nat
  | 0, _, _, _ => []
  | fuel + 1, l, w, ow =>
    let r1 := oneWire_readBit hw w
    let r2 := oneWire_readBit hw r1.2
    let here :=
      if ¬ (r1.1 = 1 ∧ r2.1 = 1) ∧ r1.1 = r2.1 ∧ searchDirection l ow r1.1 r2.1 = 0
      then [l.id_bit_no] else []
    let r := searchBody hw l w ow
    if r.1 then here
    else if r.2.1.rom_byte_no < 8 then here ++ zeroChoices hw fuel r.2.1 r.2.2.1 r.2.2.2
    else here

/-- The bus as the loop of `oneWire_search` finds it: after the reset pulse
and the search command. -/
def searchStart {W : Type} (hw : Bus W) (w : W) : W :=
  oneWire_writeByte hw ONE_WIRE_CMD_SRCH_ROM (oneWire_reset hw w).2

/-- The locals of `oneWire_search` when its loop is entered. -/
def searchInit : SearchLocals :=
  { id_bit_no := 1, last_zero := 0, rom_byte_no := 0, rom_byte_mask := 1 }

/-- Fourth address of the worked example. -/
def demoAddrE : Nat → Nat := addrOf [0x30, 1, 2, 3, 4, 5, 3, 171]
/-- The bits `oneWire_selectDev (dev)` has to put on the line after the
reset: the match-address command, then the eight address bytes of slot
`dev`, each with the least significant bit first. -/
def selectSamples (ow : OneWire) (dev : Nat) : List Bool :=
  scratchSamples (ONE_WIRE_CMD_MATCH_ROM :: (List.range 8).map (ow.rom dev))

/-! ## Menu and configuration -/

def MENU_KEY_MENU : Nat := 1
def MENU_KEY_UP : Nat := 2
def MENU_KEY_DOWN : Nat := 4
def MENU_KEY_OK : Nat := 8
def TEMP_CFG_CH1_MAX : Int := 100
def TEMP_CFG_CH1_MIN : Int := -10
def TEMP_CFG_CH2_MAX : Int := 100
def TEMP_CFG_CH2_MIN : Int := 0
def TEMP_CFG_EE_COUNT : Nat := 4
def TEMP_CFG_EE_OFFSET : Nat := 0
def CFG_PARA_END : Nat := 4
def MENU_PARA_TEMP : Nat := 4
def MENU_PARA_MAX_CH1 : Nat := 5
def MENU_PARA_MAX_CH2 : Nat := 6
def MENU_PARA_MIN_CH1 : Nat := 7
def MENU_PARA_MIN_CH2 : Nat := 8
def PARA_NO : Nat := 9
def MENU_TEMP_VALUE : Nat := 0
def MENU_TEMP_MAX_CH1 : Nat := 1
def MENU_TEMP_MAX_CH2 : Nat := 2
def MENU_TEMP_MIN_CH1 : Nat := 3
def MENU_TEMP_MIN_CH2 : Nat := 4
def MENU_SELECT_CH1_ON : Nat := 5
def MENU_SELECT_CH1_OFF : Nat := 6
def MENU_SELECT_CH2_ON : Nat := 7
def MENU_SELECT_CH2_OFF : Nat := 8
def MENU_EDIT_CH1_ON : Nat := 9
def MENU_EDIT_CH1_OFF : Nat := 10
def MENU_EDIT_CH2_ON : Nat := 11
def MENU_EDIT_CH2_OFF : Nat := 12
def MENU_NO : Nat := 13
def MENU_SELECT_SECONDS : Nat := MENU_SELECT_CH2_OFF
def MENU_SELECT_HOURS : Nat := MENU_SELECT_CH1_ON
def TEXT_ID_CH1_ON : Nat := 1
def TEXT_ID_CH1_OFF : Nat := 2
def TEXT_ID_CH2_ON : Nat := 3
def TEXT_ID_CH2_OFF : Nat := 4
def TEXT_ID_NO : Nat := 8

/-- Conversion of a value to `int8_t` (two's complement, 8 bits). -/
def wrap8 (x : Int) : Int := (x + 128) % 256 - 128

/-- The function `menu_incr` on `int8_t`. -/
def menu_incr (val cmp max : Int) : Int :=
  let val1 := if val < max then wrap8 (val + 1) else val
  if val1 = cmp then
    (if val1 < max then wrap8 (cmp + 1) else wrap8 (max - 1))
  else val1

/-- The function `menu_decr` on `int8_t`. -/
def menu_decr (val cmp min : Int) : Int :=
  let val1 := if val > min then wrap8 (val - 1) else val
  if val1 = cmp then
    (if val1 > min then wrap8 (cmp - 1) else wrap8 (min + 1))
  else val1

/-- The global `temp_ee_cfg` (`struct temp_config_data`), the image of the
8-byte parameter block in the EEPROM. -/
structure EeCfg where
  counter : Nat
  ch1_on : Int
  ch1_off : Int
  ch2_on : Int
  ch2_off : Int
  reserved : Nat → Nat

/-- The fields of the global `menu_cfg` (`struct menu_data`) that
`menu_printMenu` works on. -/
structure MenuCfg where
  menu : Nat
  changed : Nat
  flash : Nat
  key : Nat
  minMaxId : Nat

/-- A row of `menu_setup_tab` (`struct menu_setup_s`). -/
structure MenuSetup where
  text_id : Nat
  menu_key_menu : Nat
  menu_key_up : Nat
  menu_key_down : Nat
  menu_key_ok : Nat
  para : Nat
  para_cmp : Nat
  para_min : Int
  para_max : Int

/-- The table `menu_setup_tab`; initialisers left out in the source are 0.
Rows beyond the table (never read: `menu_cfg.menu` stays below `MENU_NO`) are
given as zero. -/
def menu_setup_tab (menu : Nat) : MenuSetup :=
  match menu with
  | 0 => ⟨TEXT_ID_NO, MENU_SELECT_CH1_ON, MENU_TEMP_MAX_CH1, MENU_TEMP_MIN_CH1, MENU_NO,
          MENU_PARA_TEMP, 0, 0, 0⟩
  | 1 => ⟨TEXT_ID_NO, MENU_NO, MENU_TEMP_MAX_CH2, MENU_TEMP_VALUE, MENU_NO,
          MENU_PARA_MAX_CH1, 0, 0, 0⟩
  | 2 => ⟨TEXT_ID_NO, MENU_NO, MENU_NO, MENU_TEMP_MAX_CH1, MENU_NO, MENU_PARA_MAX_CH2, 0, 0, 0⟩
  | 3 => ⟨TEXT_ID_NO, MENU_NO, MENU_TEMP_VALUE, MENU_TEMP_MIN_CH2, MENU_NO,
          MENU_PARA_MIN_CH1, 0, 0, 0⟩
  | 4 => ⟨TEXT_ID_NO, MENU_NO, MENU_TEMP_MIN_CH1, MENU_NO, MENU_NO, MENU_PARA_MIN_CH2, 0, 0, 0⟩
  | 5 => ⟨TEXT_ID_CH1_ON, MENU_TEMP_VALUE, MENU_SELECT_SECONDS, MENU_SELECT_CH1_OFF,
          MENU_EDIT_CH1_ON, CFG_PARA_CH1_ON, PARA_NO, 0, 0⟩
  | 6 => ⟨TEXT_ID_CH1_OFF, MENU_TEMP_VALUE, MENU_SELECT_CH1_ON, MENU_SELECT_CH2_ON,
          MENU_EDIT_CH1_OFF, CFG_PARA_CH1_OFF, PARA_NO, 0, 0⟩
  | 7 => ⟨TEXT_ID_CH2_ON, MENU_TEMP_VALUE, MENU_SELECT_CH1_OFF, MENU_SELECT_CH2_OFF,
          MENU_EDIT_CH2_ON, CFG_PARA_CH2_ON, PARA_NO, 0, 0⟩
  | 8 => ⟨TEXT_ID_CH2_OFF, MENU_TEMP_VALUE, MENU_SELECT_CH2_ON, MENU_SELECT_HOURS,
          MENU_EDIT_CH2_OFF, CFG_PARA_CH2_OFF, PARA_NO, 0, 0⟩
  | 9 => ⟨TEXT_ID_CH1_ON, MENU_SELECT_CH1_ON, MENU_NO, MENU_NO, MENU_SELECT_CH1_ON,
          CFG_PARA_CH1_ON, CFG_PARA_CH1_OFF, TEMP_CFG_CH1_MIN, TEMP_CFG_CH1_MAX⟩
  | 10 => ⟨TEXT_ID_CH1_OFF, MENU_SELECT_CH1_OFF, MENU_NO, MENU_NO, MENU_SELECT_CH1_OFF,
           CFG_PARA_CH1_OFF, CFG_PARA_CH1_ON, TEMP_CFG_CH1_MIN, TEMP_CFG_CH1_MAX⟩
  | 11 => ⟨TEXT_ID_CH2_ON, MENU_SELECT_CH2_ON, MENU_NO, MENU_NO, MENU_SELECT_CH2_ON,
           CFG_PARA_CH2_ON, CFG_PARA_CH2_OFF, TEMP_CFG_CH2_MIN, TEMP_CFG_CH2_MAX⟩
  | 12 => ⟨TEXT_ID_CH2_OFF, MENU_SELECT_CH2_OFF, MENU_NO, MENU_NO, MENU_SELECT_CH2_OFF,
           CFG_PARA_CH2_OFF, CFG_PARA_CH2_ON, TEMP_CFG_CH2_MIN, TEMP_CFG_CH2_MAX⟩
  | _ => ⟨0, 0, 0, 0, 0, 0, 0, 0, 0⟩

/-- The globals `menu_printMenu`, `menu_loadConfig` and `menu_saveConfig`
write, with the EEPROM as a map from byte addresses to bytes. The display
memory is left out. -/
structure UiState where
  menu_cfg : MenuCfg
  temp_cfg : ConfigData
  temp_ee_cfg : EeCfg
  eeprom : Nat → Nat

/-- The byte `b` read as `int8_t`. -/
def int8OfByte (b : Nat) : Int := wrap8 (b : Int)

/-- The byte stored for the `int8_t` value `v`. -/
def byteOfInt8 (v : Int) : Nat := (v % 256).toNat

/-- The call `eeprom_read_block (&temp_ee_cfg, addr, sizeof (temp_ee_cfg))`. -/
def eeprom_read_block (eeprom : Nat → Nat) (addr : Nat) : EeCfg :=
  { counter := eeprom addr
    ch1_on := int8OfByte (eeprom (addr + 1))
    ch1_off := int8OfByte (eeprom (addr + 2))
    ch2_on := int8OfByte (eeprom (addr + 3))
    ch2_off := int8OfByte (eeprom (addr + 4))
    reserved := fun k => eeprom (addr + 5 + k) }

/-- The call `eeprom_write_block (&temp_ee_cfg, addr, sizeof (temp_ee_cfg))`. -/
def eeprom_write_block (eeprom : Nat → Nat) (addr : Nat) (c : EeCfg) : Nat → Nat :=
  fun a =>
    if a = addr then c.counter
    else if a = addr + 1 then byteOfInt8 c.ch1_on
    else if a = addr + 2 then byteOfInt8 c.ch1_off
    else if a = addr + 3 then byteOfInt8 c.ch2_on
    else if a = addr + 4 then byteOfInt8 c.ch2_off
    else if addr + 5 ≤ a ∧ a < addr + 8 then c.reserved (a - (addr + 5))
    else eeprom a

/-- The function `menu_loadConfig` (the code outside `#if 0`). -/
def menu_loadConfig (s : UiState) : UiState :=
  let s1 := { s with temp_cfg := { s.temp_cfg with cfg_id := 0 } }
  if s1.temp_cfg.cfg_id < TEMP_CFG_EE_COUNT then
    let ee := eeprom_read_block s1.eeprom (TEMP_CFG_EE_OFFSET + s1.temp_cfg.cfg_id * 8)
    { s1 with
      temp_ee_cfg := ee
      temp_cfg := { s1.temp_cfg with
        para := setAt (setAt (setAt (setAt s1.temp_cfg.para CFG_PARA_CH1_ON ee.ch1_on)
                  CFG_PARA_CH1_OFF ee.ch1_off) CFG_PARA_CH2_ON ee.ch2_on)
                  CFG_PARA_CH2_OFF ee.ch2_off } }
  else
    let para := setAt (setAt (setAt (setAt s1.temp_cfg.para CFG_PARA_CH1_ON 5)
                  CFG_PARA_CH1_OFF 10) CFG_PARA_CH2_ON 20) CFG_PARA_CH2_OFF 10
    { s1 with
      temp_cfg := { s1.temp_cfg with cfg_id := 0, para := para }
      temp_ee_cfg := { s1.temp_ee_cfg with
        ch1_on := para CFG_PARA_CH1_ON, ch1_off := para CFG_PARA_CH1_OFF
        ch2_on := para CFG_PARA_CH2_ON, ch2_off := para CFG_PARA_CH2_OFF, counter := 0 } }

/-- The function `menu_saveConfig`. -/
def menu_saveConfig (s : UiState) : UiState :=
  let ee := { s.temp_ee_cfg with
    ch1_on := s.temp_cfg.para CFG_PARA_CH1_ON, ch1_off := s.temp_cfg.para CFG_PARA_CH1_OFF
    ch2_on := s.temp_cfg.para CFG_PARA_CH2_ON, ch2_off := s.temp_cfg.para CFG_PARA_CH2_OFF }
  { s with
    temp_ee_cfg := ee
    eeprom := eeprom_write_block s.eeprom (TEMP_CFG_EE_OFFSET + s.temp_cfg.cfg_id * 8) ee }

/-- The inner `switch (menu_setup.para)` of the MENU key in `menu_printMenu`:
the unsaved value is replaced by the stored one. -/
def menu_restore (setup : MenuSetup) (s : UiState) : UiState :=
  if setup.para = CFG_PARA_CH1_ON then
    { s with temp_cfg := { s.temp_cfg with
        para := setAt s.temp_cfg.para setup.para s.temp_ee_cfg.ch1_on } }
  else if setup.para = CFG_PARA_CH1_OFF then
    { s with temp_cfg := { s.temp_cfg with
        para := setAt s.temp_cfg.para setup.para s.temp_ee_cfg.ch1_off } }
  else if setup.para = CFG_PARA_CH2_ON then
    { s with temp_cfg := { s.temp_cfg with
        para := setAt s.temp_cfg.para setup.para s.temp_ee_cfg.ch2_on } }
  else if setup.para = CFG_PARA_CH2_OFF then
    { s with temp_cfg := { s.temp_cfg with
        para := setAt s.temp_cfg.para setup.para s.temp_ee_cfg.ch2_off } }
  else s

/-- The `switch (menu_cfg.key)` of `menu_printMenu`: the local `menu` and the
globals afterwards. -/
def menu_keySwitch (h : TempHist) (setup : MenuSetup) (menu : Nat) (s : UiState) :
    Nat × UiState :=
  if s.menu_cfg.key = MENU_KEY_MENU then
    let s1 := if setup.para < CFG_PARA_END then menu_restore setup s else s
    if setup.menu_key_menu < MENU_NO then (setup.menu_key_menu, s1)
    else if setup.para ≥ MENU_PARA_MAX_CH1 ∧ setup.para ≤ MENU_PARA_MIN_CH2 then
      let s2 :=
        if s1.menu_cfg.minMaxId < h.hours then
          { s1 with menu_cfg := { s1.menu_cfg with minMaxId := (s1.menu_cfg.minMaxId + 1) % 256 } }
        else s1
      (menu, { s2 with menu_cfg := { s2.menu_cfg with changed := 1 } })
    else (menu, s1)
  else if s.menu_cfg.key = MENU_KEY_UP then
    if setup.menu_key_up < MENU_NO then (setup.menu_key_up, s)
    else if setup.para < CFG_PARA_END then
      (menu, { s with
        temp_cfg := { s.temp_cfg with
          para := setAt s.temp_cfg.para setup.para
            (menu_incr (s.temp_cfg.para setup.para) (s.temp_cfg.para setup.para_cmp)
              setup.para_max) }
        menu_cfg := { s.menu_cfg with changed := 1 } })
    else (menu, s)
  else if s.menu_cfg.key = MENU_KEY_DOWN then
    if setup.menu_key_down < MENU_NO then (setup.menu_key_down, s)
    else if setup.para < CFG_PARA_END then
      (menu, { s with
        temp_cfg := { s.temp_cfg with
          para := setAt s.temp_cfg.para setup.para
            (menu_decr (s.temp_cfg.para setup.para) (s.temp_cfg.para setup.para_cmp)
              setup.para_min) }
        menu_cfg := { s.menu_cfg with changed := 1 } })
    else (menu, s)
  else if s.menu_cfg.key = MENU_KEY_OK then
    let s1 :=
      if setup.para < CFG_PARA_END ∧ setup.para_cmp ≠ PARA_NO then menu_saveConfig s else s
    if setup.menu_key_ok < MENU_NO then (setup.menu_key_ok, s1)
    else if setup.para ≥ MENU_PARA_MAX_CH1 ∧ setup.para ≤ MENU_PARA_MIN_CH2 then
      let s2 :=
        if s1.menu_cfg.minMaxId > 0 then
          { s1 with menu_cfg := { s1.menu_cfg with minMaxId := s1.menu_cfg.minMaxId - 1 } }
        else s1
      (menu, { s2 with menu_cfg := { s2.menu_cfg with changed := 1 } })
    else (menu, s1)
  else (menu, s)

/-- The function `menu_printMenu` as far as the globals of `UiState` go (the
display output is left out); `h` is `temp_hist`, which it only reads. -/
def menu_printMenu (h : TempHist) (s : UiState) : UiState :=
  if s.menu_cfg.changed ≠ 0 then
    let s1 := { s with menu_cfg := { s.menu_cfg with changed := 0 } }
    let menu := s1.menu_cfg.menu
    let setup := menu_setup_tab menu
    let r := menu_keySwitch h setup menu s1
    let s2 :=
      if r.2.menu_cfg.menu ≠ r.1 then
        { r.2 with menu_cfg := { r.2.menu_cfg with menu := r.1, changed := 1 } }
      else r.2
    { s2 with menu_cfg := { s2.menu_cfg with key := 0xFF } }
  else s

/-- The local `id` of `menu_printMenu` after the loop "die gewuenschte
Anzahl Stunden zurueckgehen": the history slot it shows. -/
def histSlot (h : TempHist) (minMaxId : Nat) : Nat :=
  forLoop minMaxId (fun _ id => if id > 0 then id - 1 else 23) h.index

/-- The value `menu_printMenu` puts on the second display row in the four
history menus (`none` for any other `menu_setup.para`). -/
def histShown (para : Nat) (h : TempHist) (minMaxId : Nat) : Option Int :=
  if para = MENU_PARA_MAX_CH1 then some (h.max_array 0 (histSlot h minMaxId))
  else if para = MENU_PARA_MAX_CH2 then some (h.max_array 1 (histSlot h minMaxId))
  else if para = MENU_PARA_MIN_CH1 then some (h.min_array 0 (histSlot h minMaxId))
  else if para = MENU_PARA_MIN_CH2 then some (h.min_array 1 (histSlot h minMaxId))
  else none

/-- The clock part of an acquisition cycle in `main`:
`if (temp_incrSeconds() != 0) temp_updHistMinMax();`. -/
def clockStep (h : TempHist) : TempHist :=
  if (temp_incrSeconds h).1 ≠ 0 then temp_updHistMinMax (temp_incrSeconds h).2
  else (temp_incrSeconds h).2

/-- The state of the history and of the menu. -/
structure Sys where
  hist : TempHist
  ui : UiState

/-- What the main loop does to `Sys`: an acquisition cycle in which
`temp_readTemp` leaves the readings `valid`, `value` (then
`temp_updCurMinMax` and the clock run), a key reported by `menu_readKey`, a
display refresh requested by the main loop, and a call of `menu_printMenu`. -/
inductive UiEvent where
  | cycle : (Nat → Nat) → (Nat → Int) → UiEvent
  | key : Nat → UiEvent
  | refresh : UiEvent
  | print : UiEvent

/-- The history when the clock part of a cycle is reached. -/
def cycleHist (valid : Nat → Nat) (value : Nat → Int) (h : TempHist) : TempHist :=
  temp_updCurMinMax { h with valid := valid, value := value }

/-- One event of the main loop. -/
def sysStep (e : UiEvent) (s : Sys) : Sys :=
  match e with
  | .cycle valid value => { s with hist := clockStep (cycleHist valid value s.hist) }
  | .key k => { s with ui := { s.ui with menu_cfg := { s.ui.menu_cfg with key := k, changed := 1 } } }
  | .refresh => { s with ui := { s.ui with menu_cfg := { s.ui.menu_cfg with changed := 1 } } }
  | .print => { s with ui := menu_printMenu s.hist s.ui }

/-- A run of the main loop. -/
def runSys : List UiEvent → Sys → Sys
  | [], s => s
  | e :: es, s => runSys es (sysStep e s)

/-- The history slots reset by hour rollovers during a run, in order. -/
def resetSlots : List UiEvent → Sys → List Nat
  | [], _ => []
  | e :: es, s =>
    (match e with
     | .cycle valid value =>
       if (temp_incrSeconds (cycleHist valid value s.hist)).1 ≠ 0 then [(sysStep e s).hist.index]
       else []
     | _ => []) ++ resetSlots es (sysStep e s)

/-- The state when the main loop is entered, for an EEPROM content: statics
are zero, `main` has called `menu_loadConfig`, set up the menu and
initialised slot 0 of the history. -/
def powerOnSys (eeprom : Nat → Nat) : Sys :=
  { hist := powerOnHist
    ui :=
      { menu_loadConfig
          { menu_cfg := { menu := 0, changed := 0, flash := 0, key := 0, minMaxId := 0 }
            temp_cfg := { cfg_id := 0, para := fun _ => 0 }
            temp_ee_cfg := { counter := 0, ch1_on := 0, ch1_off := 0, ch2_on := 0, ch2_off := 0,
                             reserved := fun _ => 0 }
            eeprom := eeprom } with
        menu_cfg := { menu := MENU_TEMP_VALUE, changed := 1, flash := 0, key := 0xFF,
                      minMaxId := 0 } } }
/-- What holds of the history and the browse offset, given the set `ini` of
history slots initialised so far: the ranges, and the `hours + 1` slots the
menu can reach from `index` backwards are initialised. -/
def HistInv (ini : Nat → Prop) (s : Sys) : Prop :=
  s.hist.index ≤ 23 ∧ s.hist.hours ≤ 23 ∧ s.ui.menu_cfg.minMaxId ≤ s.hist.hours ∧
  ∀ k, k ≤ s.hist.hours → ini ((s.hist.index + 24 - k) % 24)

/-- The history slots reset by one event of the main loop. -/
def stepSlots (e : UiEvent) (s : Sys) : List Nat :=
  match e with
  | .cycle valid value =>
    if (temp_incrSeconds (cycleHist valid value s.hist)).1 ≠ 0 then [(sysStep e s).hist.index]
    else []
  | _ => []

/-- Undo one pass of the loop body of `oneWire_updateCRC` for a zero input
bit: the low bit of the new accumulator tells whether the polynomial was
applied and is the bit that was shifted out. Used only to show that a pass is
one-to-one. -/
def crcUnstep (y : Nat) : Nat :=
  (y ^^^ (if y % 2 = 1 then CRC_1WIRE_POLY else 0)) / 2 + 128 * (y % 2)

/-- The data line reads low whenever the driver samples it: after a reset
pulse and in every read slot. -/
def StuckLow {W : Type} (hw : Bus W) : Prop :=
  (∀ w, (hw.resetPulse w).1 = false) ∧ ∀ w, (hw.readSlot w).1 = false

/-- A line held low (shorted to ground), whatever the driver does. -/
def stuckLowBus : Bus Unit where
  resetPulse := fun w => (false, w)
  readSlot := fun w => (false, w)
  writeSlot := fun _ w => w

/-- The readings `temp_hist.value[]` are in the range of a 12-bit signed
number. -/
def ReadingsInRange (g : Globals) : Prop :=
  ∀ i, -2048 ≤ g.temp_hist.value i ∧ g.temp_hist.value i ≤ 2047

/-- The states the program can be in as far as `temp_hist.value[]` is
concerned: the array is zero at power-on (a static), `temp_readTemp` is the
only code that writes it (line 1820; the stores of the ADC variant are
compiled out with `ONE_WIRE_ENABLE`), and everything else, `temp_updOutput`
included, leaves it as it is. -/
inductive Reachable : Globals → Prop where
  | powerOn (g : Globals) : (∀ i, g.temp_hist.value i = 0) → Reachable g
  | readTemp {W : Type} (hw : Bus W) (w : W) (g : Globals) :
      Reachable g → Reachable (temp_readTemp hw (w, g)).2
  | other (g g1 : Globals) : Reachable g → g1.temp_hist.value = g.temp_hist.value → Reachable g1

/-- The state `g` with `temp_hist.valid[i]` replaced by `v`. -/
def withValid (g : Globals) (i v : Nat) : Globals :=
  { g with temp_hist := { g.temp_hist with valid := setAt g.temp_hist.valid i v } }

/-- The state `g` with `output_data.current[]` replaced by `cur`. -/
def withCurrent (g : Globals) (cur : Nat → Nat) : Globals :=
  { g with output_data := { g.output_data with current := cur } }

/-- Channel 2 has a valid reading and its source value, the local `temp` of
`temp_updOutput`, lies strictly between the two thresholds `t_on` and
`t_off`, whichever is the larger. -/
def InDeadBand2 (g : Globals) : Prop :=
  g.temp_hist.valid 1 ≠ 0 ∧
    ((t_off g 1 < srcTemp g 1 ∧ srcTemp g 1 < t_on g 1) ∨
     (t_on g 1 < srcTemp g 1 ∧ srcTemp g 1 < t_off g 1))

instance (g : Globals) : Decidable (InDeadBand2 g) := by
  unfold InDeadBand2
  exact inferInstance

def SEGMENT_A : Nat := 0x01
def SEGMENT_B : Nat := 0x02
def SEGMENT_C : Nat := 0x04
def SEGMENT_D : Nat := 0x08
def SEGMENT_E : Nat := 0x10
def SEGMENT_F : Nat := 0x20
def SEGMENT_G : Nat := 0x40
def SEGMENT_DP : Nat := 0x80
def DIGIT_0 : Nat := 0
def DIGIT_E : Nat := 14
def DIGIT_0_ : Nat := 16
def DIGIT_1_ : Nat := 17
def DIGIT_P0 : Nat := 18
def DIGIT_M0 : Nat := 19
def DIGIT_P1 : Nat := 20
def DIGIT_M1 : Nat := 21
def DIGIT_PU : Nat := 22
def DIGIT_PD : Nat := 23
def DIGIT_MINUS : Nat := 24
def DIGIT_H : Nat := 25
def DIGIT_I : Nat := 26
def DIGIT_L : Nat := 27
def DIGIT_L_ : Nat := 28
def DIGIT_N : Nat := 29
def DIGIT_R : Nat := 30
def DIGIT_S : Nat := 31
def DIGIT_U : Nat := 32
def DIGIT_BLANK : Nat := 33
def TEXT_ID_BLANK : Nat := 0
def TEXT_ID_ON_WIRE : Nat := 5
def TEXT_ID_OVF_PLUS : Nat := 6
def TEXT_ID_OVF_MINUS : Nat := 7

/-- The table `digits`: the segments of each character code, in the order of
`enum digit_list`. -/
def digits : List Nat :=
  [ SEGMENT_A ||| SEGMENT_B ||| SEGMENT_C ||| SEGMENT_D ||| SEGMENT_E ||| SEGMENT_F,
    SEGMENT_B ||| SEGMENT_C,
    SEGMENT_A ||| SEGMENT_B ||| SEGMENT_G ||| SEGMENT_E ||| SEGMENT_D,
    SEGMENT_A ||| SEGMENT_B ||| SEGMENT_G ||| SEGMENT_C ||| SEGMENT_D,
    SEGMENT_F ||| SEGMENT_G ||| SEGMENT_B ||| SEGMENT_C,
    SEGMENT_A ||| SEGMENT_F ||| SEGMENT_G ||| SEGMENT_C ||| SEGMENT_D,
    SEGMENT_A ||| SEGMENT_F ||| SEGMENT_E ||| SEGMENT_D ||| SEGMENT_C ||| SEGMENT_G,
    SEGMENT_A ||| SEGMENT_B ||| SEGMENT_C,
    SEGMENT_A ||| SEGMENT_B ||| SEGMENT_C ||| SEGMENT_D ||| SEGMENT_E ||| SEGMENT_F ||| SEGMENT_G,
    SEGMENT_A ||| SEGMENT_B ||| SEGMENT_C ||| SEGMENT_D ||| SEGMENT_F ||| SEGMENT_G,
    SEGMENT_E ||| SEGMENT_F ||| SEGMENT_A ||| SEGMENT_B ||| SEGMENT_C ||| SEGMENT_G,
    SEGMENT_F ||| SEGMENT_E ||| SEGMENT_D ||| SEGMENT_C ||| SEGMENT_G,
    SEGMENT_G ||| SEGMENT_E ||| SEGMENT_D,
    SEGMENT_B ||| SEGMENT_C ||| SEGMENT_D ||| SEGMENT_E ||| SEGMENT_G,
    SEGMENT_A ||| SEGMENT_F ||| SEGMENT_E ||| SEGMENT_D ||| SEGMENT_G,
    SEGMENT_E ||| SEGMENT_F ||| SEGMENT_A ||| SEGMENT_G,
    0,
    SEGMENT_A ||| SEGMENT_B,
    SEGMENT_D ||| SEGMENT_C ||| SEGMENT_E,
    SEGMENT_C,
    SEGMENT_D ||| SEGMENT_C ||| SEGMENT_E ||| SEGMENT_A ||| SEGMENT_B,
    SEGMENT_C ||| SEGMENT_A ||| SEGMENT_B,
    SEGMENT_C ||| SEGMENT_D,
    SEGMENT_C ||| SEGMENT_E,
    SEGMENT_G,
    SEGMENT_E ||| SEGMENT_F ||| SEGMENT_G ||| SEGMENT_B ||| SEGMENT_C,
    SEGMENT_E ||| SEGMENT_F,
    SEGMENT_E ||| SEGMENT_F ||| SEGMENT_D,
    SEGMENT_B ||| SEGMENT_C ||| SEGMENT_D,
    SEGMENT_E ||| SEGMENT_F ||| SEGMENT_A ||| SEGMENT_B ||| SEGMENT_C,
    SEGMENT_E ||| SEGMENT_A ||| SEGMENT_F ||| SEGMENT_G ||| SEGMENT_C ||| SEGMENT_D,
    SEGMENT_A ||| SEGMENT_F ||| SEGMENT_G ||| SEGMENT_C ||| SEGMENT_D,
    SEGMENT_E ||| SEGMENT_F ||| SEGMENT_D ||| SEGMENT_B ||| SEGMENT_C,
    0 ]

/-- The table `text_tab`: four character codes for each text id. -/
def text_tab : List (List Nat) :=
  [ [DIGIT_BLANK, DIGIT_BLANK, DIGIT_BLANK, DIGIT_BLANK],
    [DIGIT_PU, DIGIT_H, DIGIT_E, DIGIT_I],
    [DIGIT_PD, DIGIT_H, DIGIT_E, DIGIT_I],
    [DIGIT_PU, DIGIT_L, DIGIT_U, DIGIT_E],
    [DIGIT_PD, DIGIT_L, DIGIT_U, DIGIT_E],
    [DIGIT_BLANK, DIGIT_S, DIGIT_N, DIGIT_0],
    [DIGIT_P0, DIGIT_MINUS, DIGIT_MINUS, DIGIT_MINUS],
    [DIGIT_M0, DIGIT_MINUS, DIGIT_MINUS, DIGIT_MINUS] ]

/-- The global `dspl` (`struct display_data`): the active digit, the
character memory and the segment memory, eight cells each. -/
structure DisplayData where
  digit : Nat
  mem : Nat → Nat
  seg : Nat → Nat

/-- The step `if (pos != 0) pos = 4;` at the head of the display functions:
the index of the first cell of the row. -/
def rowBase (pos : Nat) : Nat := if pos ≠ 0 then 4 else pos

/-- Conversion of an `int` value to `uint8_t`. -/
def toU8 (x : Int) : Nat := (x % 256).toNat

/-- The function `dspl_mem2seg`: `i` runs from `pos` to `pos + 3`. A code
outside the table `digits` reads as 0 here. -/
def dspl_mem2seg (pos : Nat) (d : DisplayData) : DisplayData :=
  let pos := rowBase pos
  forLoop 4 (fun k s =>
    let i := pos + k
    let value := s.mem i
    let value := value &&& (0xFF ^^^ SEGMENT_DP)
    let value := digits.getD value 0
    let value := value ||| (s.mem i &&& SEGMENT_DP)
    { s with seg := setAt s.seg i value }) d

/-- The function `dspl_text`: `memcpy_P` copies the four codes of the text
to the row. -/
def dspl_text (pos txtId : Nat) (d : DisplayData) : DisplayData :=
  let pos := rowBase pos
  let row := text_tab.getD txtId []
  dspl_mem2seg pos
    { d with mem := fun j => if pos ≤ j ∧ j < pos + 4 then row.getD (j - pos) 0 else d.mem j }

/-- The function `dspl_int16`; `value` is an `int16_t`, the divisions and
remainders are those of C (truncating). -/
def dspl_int16 (pos dp : Nat) (value : Int) (d : DisplayData) : DisplayData :=
  if value > 1999 then dspl_text pos TEXT_ID_OVF_PLUS d
  else if value < -1999 then dspl_text pos TEXT_ID_OVF_MINUS d
  else
    let first : Nat := if value < 0 then 1 else 0
    let value : Int := if value < 0 then wrap16 (value * -1) else value
    let first : Nat := if value ≥ 1000 then (first + DIGIT_P1) % 256 else (first + DIGIT_P0) % 256
    let pos := rowBase pos
    let m := setAt d.mem (pos + 3) (toU8 (Int.tmod value 10))
    let value := Int.tdiv value 10
    let m := setAt m (pos + 2) (toU8 (Int.tmod value 10))
    let value := Int.tdiv value 10
    let m := setAt m (pos + 1) (toU8 (Int.tmod value 10))
    let m := setAt m (pos + 0) first
    let m :=
      if dp = 1 then setAt m (pos + 2) (m (pos + 2) ||| SEGMENT_DP)
      else if dp = 2 then setAt m (pos + 1) (m (pos + 1) ||| SEGMENT_DP)
      else if dp = 3 then setAt m (pos + 0) (m (pos + 0) ||| SEGMENT_DP)
      else m
    dspl_mem2seg pos { d with mem := m }

/-- The code the specification gives for the first cell of a row showing
`v`: plus or minus, with the thousands digit 0 or 1. -/
def specSignCode (v : Int) : Nat :=
  if 0 ≤ v ∧ |v| < 1000 then DIGIT_P0
  else if v < 0 ∧ |v| < 1000 then DIGIT_M0
  else if 0 ≤ v ∧ 1000 ≤ |v| then DIGIT_P1
  else DIGIT_M1

/-- A display with every cell blank, as after the two `dspl_text` calls at
the start of `main`. -/
def blankDisplay : DisplayData :=
  { digit := 0, mem := fun _ => DIGIT_BLANK, seg := fun _ => 0 }

/-- A second scratchpad: temperature bytes `temp_lo = 0x90`, `temp_hi = 0x01`
(raw value 400, i.e. 25.0 degrees) and a correct CRC byte. -/
def demoScratchB : List Nat := [0x90, 0x01, 0x4B, 0x46, 0x7F, 0xFF, 0x10, 0x10, 0x92]

/-- The state after power-on and the discovery of two sensors, before the
first read: no reading stored yet, channel-1 setpoints on = 10, off = 5,
channel-2 setpoints on = 20, off = 10. -/
def demoTwoSensors : Globals :=
  { demoGlobals 0 0 0 0 10 5 20 10 0 0 with
    temp_hist := powerOnHist
    oneWire := { dev_count := 2, last_device := 0, last_disc := 0, crc8 := 0,
                 rom := fun _ _ => 0x28, data := fun _ => 0 } }

/-! ## Facts about the CRC -/

theorem updateCRC_bit_lt (c b : Nat) : updateCRC_bit c b < 256 := by
  unfold updateCRC_bit
  split <;> exact Nat.mod_lt _ (by decide)

theorem updateCRC_bit_parity (c b : Nat) : updateCRC_bit c b = updateCRC_bit c (b % 2) := by
  unfold updateCRC_bit
  simp [Nat.and_one_is_mod]

theorem dallasCrc8Bit_parity (r b : Nat) : dallasCrc8Bit r b = dallasCrc8Bit r (b % 2) := by
  unfold dallasCrc8Bit
  simp

set_option maxRecDepth 1000000 in
theorem crc_bit_table :
    ∀ r, r < 256 → ∀ b, b < 2 →
      dallasCrc8Bit r b < 256 ∧ updateCRC_bit (bitrev8 r) b = bitrev8 (dallasCrc8Bit r b) := by
  decide

theorem dallasCrc8Bit_lt (r b : Nat) (hr : r < 256) : dallasCrc8Bit r b < 256 := by
  rw [dallasCrc8Bit_parity]
  exact (crc_bit_table r hr (b % 2) (Nat.mod_lt _ (by decide))).1

theorem updateCRC_bit_bitrev (r b : Nat) (hr : r < 256) :
    updateCRC_bit (bitrev8 r) b = bitrev8 (dallasCrc8Bit r b) := by
  rw [updateCRC_bit_parity, dallasCrc8Bit_parity r b]
  exact (crc_bit_table r hr (b % 2) (Nat.mod_lt _ (by decide))).2

theorem dallasCrc8Bits_lt (n : Nat) : ∀ r b, r < 256 → dallasCrc8Bits n r b < 256 := by
  induction n with
  | zero => intro r b hr; simpa [dallasCrc8Bits] using hr
  | succ n ih => intro r b hr; exact ih _ _ (dallasCrc8Bit_lt r b hr)

theorem updateCRC_loop_bitrev (n : Nat) :
    ∀ r b, r < 256 → updateCRC_loop n (bitrev8 r) b = bitrev8 (dallasCrc8Bits n r b) := by
  induction n with
  | zero => intro r b _; rfl
  | succ n ih =>
    intro r b hr
    simp only [updateCRC_loop, dallasCrc8Bits]
    rw [updateCRC_bit_bitrev r b hr, Nat.shiftRight_eq_div_pow, pow_one]
    exact ih _ _ (dallasCrc8Bit_lt r b hr)

theorem dallas_fold_lt (m : List Nat) :
    ∀ r, r < 256 → m.foldl (fun reg b => dallasCrc8Bits 8 reg b) r < 256 := by
  induction m with
  | nil => intro r hr; simpa using hr
  | cons b m ih => intro r hr; exact ih _ (dallasCrc8Bits_lt 8 r b hr)

theorem dallasCrc8_lt (m : List Nat) : dallasCrc8 m < 256 :=
  dallas_fold_lt m 0 (by decide)

theorem crcFold_crc8 (m : List Nat) :
    ∀ ow : OneWire, (crcFold ow m).crc8 = m.foldl updateCRC ow.crc8 := by
  induction m with
  | nil => intro ow; rfl
  | cons b m ih => intro ow; simp only [crcFold, List.foldl_cons] at ih ⊢; rw [ih]; rfl

theorem updateCRC_fold_bitrev (m : List Nat) :
    ∀ r, r < 256 →
      m.foldl updateCRC (bitrev8 r) = bitrev8 (m.foldl (fun reg b => dallasCrc8Bits 8 reg b) r) := by
  induction m with
  | nil => intro r _; rfl
  | cons b m ih =>
    intro r hr
    simp only [List.foldl_cons]
    rw [show updateCRC (bitrev8 r) b = bitrev8 (dallasCrc8Bits 8 r b) from
      updateCRC_loop_bitrev 8 r b hr]
    exact ih _ (dallasCrc8Bits_lt 8 r b hr)

set_option maxRecDepth 1000000 in
theorem updateCRC_check_byte : ∀ c, c < 256 → updateCRC (bitrev8 c) c = 0 := by
  decide

/-- The accumulator of the source after a message is the bit reversal of
the Dallas/Maxim CRC-8 of that message. -/
theorem updateCRC_fold_eq (m : List Nat) : m.foldl updateCRC 0 = bitrev8 (dallasCrc8 m) :=
  updateCRC_fold_bitrev m 0 (by decide)

theorem updateCRC_fold_append_crc (m : List Nat) :
    (m ++ [dallasCrc8 m]).foldl updateCRC 0 = 0 := by
  rw [List.foldl_append, updateCRC_fold_eq]
  exact updateCRC_check_byte _ (dallasCrc8_lt m)

/-! ## Facts about the output controller -/

theorem setAt_same {α : Type} (a : Nat → α) (i : Nat) (v : α) : setAt a i v i = v := by
  simp [setAt]

theorem setAt_other {α : Type} (a : Nat → α) (i j : Nat) (v : α) (h : j ≠ i) :
    setAt a i v j = a j := by
  simp [setAt, h]

theorem rawOutput_zero (g : Globals) : rawOutput g 0 = decideOutput g 0 := by
  simp [rawOutput, loop2, setAt]

theorem rawOutput_one (g : Globals) :
    rawOutput g 1 = decideOutput g 1 ||| g.output_data.reg2 0 := by
  simp [rawOutput, loop2, setAt]

theorem delayStep_current (out : Nat → Nat) (i k : Nat) (od : OutputData) :
    (delayStep out i od).current k = if k = i then out i else od.current k := by
  unfold delayStep
  by_cases hk : k = i
  · subst hk
    by_cases hc : od.current k = out k
    · simp only [hc, ne_eq, not_true_eq_false, if_false, if_true]
      split_ifs <;> simp [hc]
    · simp [hc, setAt]
  · by_cases hc : od.current i = out i
    · simp only [hc, ne_eq, not_true_eq_false, if_false, hk]
      split_ifs <;> rfl
    · simp [hc, setAt, hk]

theorem delayStep_count (out : Nat → Nat) (i k : Nat) (od : OutputData) :
    (delayStep out i od).count k =
      if k = i then nextCount (od.current i) (od.count i) (out i) else od.count k := by
  unfold delayStep nextCount
  by_cases hk : k = i
  · subst hk
    by_cases hc : od.current k = out k
    · simp only [hc, ne_eq, not_true_eq_false, if_false, if_true]
      split_ifs <;> simp_all [setAt]
    · simp [hc, setAt]
  · by_cases hc : od.current i = out i
    · simp only [hc, ne_eq, not_true_eq_false, if_false, hk]
      split_ifs <;> simp [setAt, hk]
    · simp [hc, setAt, hk]

theorem delayStep_reg1 (out : Nat → Nat) (i k : Nat) (od : OutputData) :
    (delayStep out i od).reg1 k =
      if k = i ∧ od.current i = out i ∧
          TEMP_OUTPUT_1_COUNT - 1 ≤ nextCount (od.current i) (od.count i) (out i)
      then out i else od.reg1 k := by
  unfold delayStep nextCount
  by_cases hk : k = i
  · subst hk
    by_cases hc : od.current k = out k
    · simp only [hc, ne_eq, not_true_eq_false, if_false, if_true, true_and]
      split_ifs <;> simp_all [setAt]
    · simp [hc, setAt]
  · by_cases hc : od.current i = out i
    · simp only [hc, ne_eq, not_true_eq_false, if_false, hk, false_and]
      split_ifs <;> simp [setAt, hk]
    · simp [hc, setAt, hk]

theorem delayStep_reg2 (out : Nat → Nat) (i k : Nat) (od : OutputData) :
    (delayStep out i od).reg2 k =
      if k = i ∧ od.current i = out i ∧
          TEMP_OUTPUT_2_COUNT - 1 ≤ nextCount (od.current i) (od.count i) (out i)
      then out i else od.reg2 k := by
  unfold delayStep nextCount
  by_cases hk : k = i
  · subst hk
    by_cases hc : od.current k = out k
    · simp only [hc, ne_eq, not_true_eq_false, if_false, if_true, true_and]
      split_ifs <;> simp_all [setAt]
    · simp [hc, setAt]
  · by_cases hc : od.current i = out i
    · simp only [hc, ne_eq, not_true_eq_false, if_false, hk, false_and]
      split_ifs <;> simp [setAt, hk]
    · simp [hc, setAt, hk]

theorem updOutput_output_data (g : Globals) :
    (temp_updOutput g).output_data =
      delayStep (rawOutput g) 1 (delayStep (rawOutput g) 0 g.output_data) := rfl

theorem updOutput_current (g : Globals) (i : Nat) (hi : i < 2) :
    (temp_updOutput g).output_data.current i = rawOutput g i := by
  rw [updOutput_output_data]
  interval_cases i <;> simp [delayStep_current]

theorem updOutput_count (g : Globals) (i : Nat) (hi : i < 2) :
    (temp_updOutput g).output_data.count i =
      nextCount (g.output_data.current i) (g.output_data.count i) (rawOutput g i) := by
  rw [updOutput_output_data]
  interval_cases i <;> simp [delayStep_count, delayStep_current]

theorem updOutput_reg1 (g : Globals) (i : Nat) (hi : i < 2) :
    (temp_updOutput g).output_data.reg1 i =
      if g.output_data.current i = rawOutput g i ∧
          TEMP_OUTPUT_1_COUNT - 1 ≤
            nextCount (g.output_data.current i) (g.output_data.count i) (rawOutput g i)
      then rawOutput g i else g.output_data.reg1 i := by
  rw [updOutput_output_data]
  interval_cases i <;> simp [delayStep_reg1, delayStep_count, delayStep_current]

theorem updOutput_reg2 (g : Globals) (i : Nat) (hi : i < 2) :
    (temp_updOutput g).output_data.reg2 i =
      if g.output_data.current i = rawOutput g i ∧
          TEMP_OUTPUT_2_COUNT - 1 ≤
            nextCount (g.output_data.current i) (g.output_data.count i) (rawOutput g i)
      then rawOutput g i else g.output_data.reg2 i := by
  rw [updOutput_output_data]
  interval_cases i <;> simp [delayStep_reg2, delayStep_count, delayStep_current]

theorem wrap16_times_ten (x : Int) (h : IsInt8 x) : wrap16 (x * 10) = x * 10 := by
  unfold IsInt8 at h
  unfold wrap16
  omega

/-- With channel-1 stage 2 off, or for channel 1 itself, the raw decision is
the channel's own decision. -/
theorem rawOutput_uncoupled (g : Globals) (i : Nat) (hi : i < 2)
    (hc : i = 1 → g.output_data.reg2 0 = 0) : rawOutput g i = decideOutput g i := by
  interval_cases i
  · exact rawOutput_zero g
  · rw [rawOutput_one, hc rfl]
    simp

theorem or_ne_zero_right (a b : Nat) (h : b ≠ 0) : a ||| b ≠ 0 := by
  intro h0
  apply h
  apply Nat.eq_of_testBit_eq
  intro k
  have hk := congrArg (fun x => Nat.testBit x k) h0
  simp only [Nat.testBit_or, Nat.zero_testBit, Bool.or_eq_false_iff] at hk
  simp [hk.2]

theorem cycle_current (inp : Inputs) (g : Globals) (i : Nat) (hi : i < 2) :
    (cycle inp g).output_data.current i = rawOutput (entry inp g) i :=
  updOutput_current (entry inp g) i hi

theorem cycle_count (inp : Inputs) (g : Globals) (i : Nat) (hi : i < 2) :
    (cycle inp g).output_data.count i =
      nextCount (g.output_data.current i) (g.output_data.count i) (rawOutput (entry inp g) i) :=
  updOutput_count (entry inp g) i hi

theorem cycle_reg1 (inp : Inputs) (g : Globals) (i : Nat) (hi : i < 2) :
    (cycle inp g).output_data.reg1 i =
      if g.output_data.current i = rawOutput (entry inp g) i ∧
          TEMP_OUTPUT_1_COUNT - 1 ≤
            nextCount (g.output_data.current i) (g.output_data.count i) (rawOutput (entry inp g) i)
      then rawOutput (entry inp g) i else g.output_data.reg1 i :=
  updOutput_reg1 (entry inp g) i hi

theorem cycle_reg2 (inp : Inputs) (g : Globals) (i : Nat) (hi : i < 2) :
    (cycle inp g).output_data.reg2 i =
      if g.output_data.current i = rawOutput (entry inp g) i ∧
          TEMP_OUTPUT_2_COUNT - 1 ≤
            nextCount (g.output_data.current i) (g.output_data.count i) (rawOutput (entry inp g) i)
      then rawOutput (entry inp g) i else g.output_data.reg2 i :=
  updOutput_reg2 (entry inp g) i hi

theorem writesReg1_iff (g : Globals) (i : Nat) :
    writesReg1 g i = true ↔
      g.output_data.current i = rawOutput g i ∧
        TEMP_OUTPUT_1_COUNT - 1 ≤
          nextCount (g.output_data.current i) (g.output_data.count i) (rawOutput g i) := by
  unfold writesReg1 nextCount
  by_cases hc : g.output_data.current i = rawOutput g i
  · simp only [hc, ne_eq, not_true_eq_false, if_false, true_and]
    split_ifs <;> simp [setAt]
  · simp [hc]

theorem nextCount_le (cur cnt o : Nat) : nextCount cur cnt o ≤ cnt + 1 := by
  unfold nextCount
  split_ifs <;> omega

theorem nextCount_change (cur cnt o : Nat) (h : cur ≠ o) : nextCount cur cnt o = 0 := by
  simp [nextCount, h]

/-- After a call that changed the raw decision of channel `i`, the counter
after `n` further calls is at most `n`, whatever those calls decide. -/
theorem count_after_change (g : Globals) (ins : Nat → Inputs) (i : Nat) (hi : i < 2)
    (h1 : g.output_data.current i ≠ rawOutput (entry (ins 0) g) i) :
    ∀ n, (runCycles ins (n + 1) g).output_data.count i ≤ n := by
  intro n
  induction n with
  | zero =>
    show (cycle (ins 0) g).output_data.count i ≤ 0
    rw [cycle_count _ _ i hi, nextCount_change _ _ _ h1]
  | succ n ih =>
    show (cycle (ins (n + 1)) (runCycles ins (n + 1) g)).output_data.count i ≤ n + 1
    rw [cycle_count _ _ i hi]
    exact le_trans (nextCount_le _ _ _) (by omega)

/-! ## Facts about the temperature engine -/

theorem readScratch_crc8 {W : Type} (hw : Bus W) (n : Nat) :
    ∀ (off : Nat) (w : W) (ow : OneWire),
      (readScratch hw n off w ow).2.crc8 = (readBytes hw n w).foldl updateCRC ow.crc8 := by
  induction n with
  | zero => intro off w ow; rfl
  | succ n ih =>
    intro off w ow
    simp only [readScratch, readBytes, List.foldl_cons]
    rw [ih]
    rfl

theorem readTempSlot_valid {W : Type} (hw : Bus W) (i k : Nat) (s : W × Globals)
    [Decidable (SlotAccepted hw i s)] :
    (readTempSlot hw i s).2.temp_hist.valid k =
      if k = i then (if SlotAccepted hw i s then 1 else 0) else s.2.temp_hist.valid k := by
  unfold SlotAccepted slotBytes slotSelect readTempSlot
  simp only [readScratch_crc8]
  by_cases hsel : (oneWire_selectDev hw i s.1 s.2.oneWire).1 = 0
  · simp [hsel, setAt]
  · by_cases hcrc : List.foldl updateCRC 0
        (readBytes hw 9 (oneWire_writeByte hw ONE_WIRE_CMD_RD_SCRATCH
          (oneWire_selectDev hw i s.1 s.2.oneWire).2)) = 0
    · by_cases hk : k = i <;> simp [hsel, hcrc, setAt, hk]
    · by_cases hk : k = i <;> simp [hsel, hcrc, setAt, hk]

theorem readTempSlot_value {W : Type} (hw : Bus W) (i k : Nat) (s : W × Globals)
    (h : k ≠ i ∨ ¬ SlotAccepted hw i s) :
    (readTempSlot hw i s).2.temp_hist.value k = s.2.temp_hist.value k := by
  unfold SlotAccepted slotBytes slotSelect at h
  unfold readTempSlot
  simp only [readScratch_crc8]
  by_cases hsel : (oneWire_selectDev hw i s.1 s.2.oneWire).1 = 0
  · simp [hsel]
  · by_cases hcrc : List.foldl updateCRC 0
        (readBytes hw 9 (oneWire_writeByte hw ONE_WIRE_CMD_RD_SCRATCH
          (oneWire_selectDev hw i s.1 s.2.oneWire).2)) = 0
    · have hk : k ≠ i := by
        rcases h with h | h
        · exact h
        · exact absurd ⟨hsel, hcrc⟩ h
      simp [hsel, hcrc, setAt, hk]
    · simp [hsel, hcrc]

/-- Passes for slots other than `i` leave `valid[i]` and `value[i]` alone. -/
theorem forLoop_readTemp_before {W : Type} (hw : Bus W) (i : Nat) (s : W × Globals) :
    ∀ n, n ≤ i →
      (forLoop n (readTempSlot hw) s).2.temp_hist.valid i = s.2.temp_hist.valid i ∧
      (forLoop n (readTempSlot hw) s).2.temp_hist.value i = s.2.temp_hist.value i := by
  intro n
  induction n with
  | zero => intro _; exact ⟨rfl, rfl⟩
  | succ n ih =>
    intro hn
    have hne : i ≠ n := by omega
    have h := ih (by omega)
    classical
    refine ⟨?_, ?_⟩
    · show (readTempSlot hw n (forLoop n (readTempSlot hw) s)).2.temp_hist.valid i = _
      rw [readTempSlot_valid, if_neg hne]
      exact h.1
    · show (readTempSlot hw n (forLoop n (readTempSlot hw) s)).2.temp_hist.value i = _
      rw [readTempSlot_value hw n i _ (Or.inl hne)]
      exact h.2

theorem forLoop_readTemp_after {W : Type} (hw : Bus W) (i : Nat) (s : W × Globals) :
    ∀ n, i < n →
      (forLoop n (readTempSlot hw) s).2.temp_hist.valid i
        = (readTempSlot hw i (slotEntry hw i s)).2.temp_hist.valid i ∧
      (forLoop n (readTempSlot hw) s).2.temp_hist.value i
        = (readTempSlot hw i (slotEntry hw i s)).2.temp_hist.value i := by
  intro n
  induction n with
  | zero => intro h; omega
  | succ n ih =>
    intro hn
    rcases Nat.lt_or_ge i n with hlt | hge
    · have h := ih hlt
      have hne : i ≠ n := by omega
      classical
      refine ⟨?_, ?_⟩
      · show (readTempSlot hw n (forLoop n (readTempSlot hw) s)).2.temp_hist.valid i = _
        rw [readTempSlot_valid, if_neg hne]
        exact h.1
      · show (readTempSlot hw n (forLoop n (readTempSlot hw) s)).2.temp_hist.value i = _
        rw [readTempSlot_value hw n i _ (Or.inl hne)]
        exact h.2
    · have hni : n = i := by omega
      subst hni
      exact ⟨rfl, rfl⟩

/-! ## Facts about the search -/

set_option maxRecDepth 1000000 in
theorem bit_store_table :
    ∀ k, k < 8 → ∀ y, y < 256 →
      (y ||| 2 ^ k) % 2 ^ (k + 1) = y % 2 ^ k + 2 ^ k ∧ (y ||| 2 ^ k) < 256 ∧
      (y &&& (0xFF ^^^ 2 ^ k)) % 2 ^ (k + 1) = y % 2 ^ k := by
  decide

theorem or_mod_256 (x m : Nat) (hm : m < 256) : (x ||| m) % 256 = (x % 256) ||| m := by
  have h256 : (256 : Nat) = 2 ^ 8 := by decide
  rw [h256, ← Nat.and_pow_two_sub_one_eq_mod, ← Nat.and_pow_two_sub_one_eq_mod,
    Nat.and_distrib_right, Nat.and_pow_two_sub_one_of_lt_two_pow (show m < 2 ^ 8 from hm)]

theorem and_mask_mod_256 (x m : Nat) (hm : m < 256) : x &&& m = (x % 256) &&& m := by
  have h256 : (256 : Nat) = 2 ^ 8 := by decide
  rw [h256, ← Nat.and_pow_two_sub_one_eq_mod, Nat.and_assoc]
  congr 1
  rw [Nat.and_comm, Nat.and_pow_two_sub_one_of_lt_two_pow (show m < 2 ^ 8 from hm)]

theorem two_pow_lt_256 (k : Nat) (hk : k < 8) : 2 ^ k < 256 := by
  interval_cases k <;> decide

theorem xor_mask_lt_256 (k : Nat) (hk : k < 8) : 0xFF ^^^ 2 ^ k < 256 := by
  interval_cases k <;> decide

theorem mod_two_pow_of_mod_256 (x k : Nat) (hk : k ≤ 8) : (x % 256) % 2 ^ k = x % 2 ^ k := by
  have h256 : (256 : Nat) = 2 ^ 8 := by decide
  rw [h256]
  exact Nat.mod_mod_of_dvd x (pow_dvd_pow 2 hk)

/-- Setting bit `k` of a ROM byte that agrees with `t` below bit `k`, when
bit `k` of `t` is 1, gives a byte that agrees with `t` up to bit `k`. -/
theorem store_one (x t k : Nat) (hk : k < 8) (hx : x % 2 ^ k = t % 2 ^ k)
    (ht : t / 2 ^ k % 2 = 1) :
    ((x ||| 2 ^ k) % 256) % 2 ^ (k + 1) = t % 2 ^ (k + 1) ∧ (x ||| 2 ^ k) % 256 < 256 := by
  refine ⟨?_, Nat.mod_lt _ (by decide)⟩
  rw [or_mod_256 x _ (two_pow_lt_256 k hk),
    (bit_store_table k hk (x % 256) (Nat.mod_lt _ (by decide))).1,
    mod_two_pow_of_mod_256 x k (by omega), hx, Nat.mod_pow_succ, ht, Nat.mul_one]

/-- Clearing bit `k` of a ROM byte that agrees with `t` below bit `k`, when
bit `k` of `t` is 0, gives a byte that agrees with `t` up to bit `k`. -/
theorem store_zero (x t k : Nat) (hk : k < 8) (hx : x % 2 ^ k = t % 2 ^ k)
    (ht : t / 2 ^ k % 2 = 0) :
    (x &&& (0xFF ^^^ 2 ^ k)) % 2 ^ (k + 1) = t % 2 ^ (k + 1) ∧ x &&& (0xFF ^^^ 2 ^ k) < 256 := by
  have hm := xor_mask_lt_256 k hk
  refine ⟨?_, lt_of_le_of_lt Nat.and_le_right hm⟩
  rw [and_mask_mod_256 x _ hm,
    (bit_store_table k hk (x % 256) (Nat.mod_lt _ (by decide))).2.2,
    mod_two_pow_of_mod_256 x k (by omega), hx, Nat.mod_pow_succ, ht, Nat.mul_zero, Nat.add_zero]

theorem mask_shift (k : Nat) (hk : k < 8) :
    (2 ^ k <<< 1) % 256 = if k = 7 then 0 else 2 ^ (k + 1) := by
  interval_cases k <;> decide

theorem searchStore_fields (l : SearchLocals) (ow : OneWire) (dir : Nat) :
    (searchStore l ow dir).dev_count = ow.dev_count ∧
    (searchStore l ow dir).last_device = ow.last_device ∧
    (searchStore l ow dir).last_disc = ow.last_disc ∧
    (searchStore l ow dir).data = ow.data ∧
    (searchStore l ow dir).crc8 = ow.crc8 ∧
    (searchStore l ow dir).rom = setAt2 ow.rom ow.dev_count l.rom_byte_no
      (if dir ≠ 0 then (ow.rom ow.dev_count l.rom_byte_no ||| l.rom_byte_mask) % 256
       else ow.rom ow.dev_count l.rom_byte_no &&& (0xFF ^^^ l.rom_byte_mask)) := by
  unfold searchStore
  split <;> exact ⟨rfl, rfl, rfl, rfl, rfl, rfl⟩

theorem searchStore_facts {ow0 : OneWire} {T : Nat → Nat} {q k lz : Nat} {l : SearchLocals}
    {ow : OneWire} (inv : SearchInv ow0 T q k lz l ow) (dir : Nat)
    (hdir : dir = T q / 2 ^ k % 2) :
    (searchStore l ow dir).dev_count = ow0.dev_count ∧
    (searchStore l ow dir).last_device = ow0.last_device ∧
    (searchStore l ow dir).last_disc = ow0.last_disc ∧
    (searchStore l ow dir).data = ow0.data ∧
    (searchStore l ow dir).crc8 = ow.crc8 ∧
    (∀ s, s ≠ ow0.dev_count → (searchStore l ow dir).rom s = ow0.rom s) ∧
    (∀ j, j ≠ q → (searchStore l ow dir).rom ow0.dev_count j = ow.rom ow0.dev_count j) ∧
    (searchStore l ow dir).rom ow0.dev_count q % 2 ^ (k + 1) = T q % 2 ^ (k + 1) ∧
    (searchStore l ow dir).rom ow0.dev_count q < 256 := by
  obtain ⟨h1, h2, h3, h4, h5, h6⟩ := searchStore_fields l ow dir
  rw [inv.rom_byte_no, inv.rom_byte_mask, inv.dev_count] at h6
  refine ⟨h1.trans inv.dev_count, h2.trans inv.last_device, h3.trans inv.last_disc,
    h4.trans inv.data, h5, ?_, ?_, ?_⟩
  · intro s hs
    rw [h6]
    funext j
    simp [setAt2, hs, inv.rom_other s hs]
  · intro j hj
    rw [h6]
    simp [setAt2, setAt, hj]
  · have hbit : T q / 2 ^ k % 2 = 0 ∨ T q / 2 ^ k % 2 = 1 := by omega
    have hval : (searchStore l ow dir).rom ow0.dev_count q =
        (if dir ≠ 0 then (ow.rom ow0.dev_count q ||| 2 ^ k) % 256
         else ow.rom ow0.dev_count q &&& (0xFF ^^^ 2 ^ k)) := by
      rw [h6]
      simp [setAt2, setAt]
    rw [hval]
    rcases hbit with h0 | h1'
    · have hd : dir = 0 := by omega
      simp only [hd, ne_eq, not_true_eq_false, if_false]
      exact store_zero (ow.rom ow0.dev_count q) (T q) k inv.k_lt inv.rom_part h0
    · have hd : dir = 1 := by omega
      simp only [hd, ne_eq, one_ne_zero, not_false_eq_true, if_true]
      exact store_one (ow.rom ow0.dev_count q) (T q) k inv.k_lt inv.rom_part h1'

/-- The code of one loop pass after the two reads keeps the invariant when
the direction written is the bit of `T` at this position. -/
theorem search_store_advance {ow0 : OneWire} {T : Nat → Nat} {q k lz : Nat} {l : SearchLocals}
    {ow : OneWire} (inv : SearchInv ow0 T q k lz l ow) (hT : T q < 256) (dir : Nat)
    (hdir : dir = T q / 2 ^ k % 2) (lz1 : Nat) :
    SearchInv ow0 T (if k = 7 then q + 1 else q) (if k = 7 then 0 else k + 1) lz1
      (searchAdvance l lz1 (searchStore l ow dir)).1
      (searchAdvance l lz1 (searchStore l ow dir)).2 := by
  obtain ⟨hdc, hld, hlc, hdata, hcrc, hother, hrest, hpart, hlt⟩ := searchStore_facts inv dir hdir
  have hk := inv.k_lt
  unfold searchAdvance
  rw [inv.rom_byte_mask, mask_shift k hk]
  by_cases hk7 : k = 7
  · subst hk7
    have hfull : (searchStore l ow dir).rom ow0.dev_count q = T q := by
      have h1 : (searchStore l ow dir).rom ow0.dev_count q % 256 = T q % 256 := hpart
      rw [Nat.mod_eq_of_lt hlt, Nat.mod_eq_of_lt hT] at h1
      exact h1
    simp only [if_true]
    refine ⟨by decide, ?_, rfl, ?_, ?_, hdc, hld, hlc, hdata, hother, ?_, ?_, ?_⟩
    · show l.id_bit_no + 1 = 8 * (q + 1) + 0 + 1
      rw [inv.id_bit_no]
      omega
    · show l.rom_byte_no + 1 = q + 1
      rw [inv.rom_byte_no]
    · rfl
    · intro j hj
      show (searchStore l ow dir).rom ow0.dev_count j = T j
      rcases Nat.lt_or_ge j q with hjq | hjq
      · rw [hrest j (by omega)]
        exact inv.rom_done j hjq
      · have : j = q := by omega
        subst this
        exact hfull
    · show (searchStore l ow dir).rom ow0.dev_count (q + 1) % 2 ^ 0 = T (q + 1) % 2 ^ 0
      simp [Nat.mod_one]
    · show updateCRC (searchStore l ow dir).crc8
          ((searchStore l ow dir).rom (searchStore l ow dir).dev_count l.rom_byte_no) = _
      rw [hdc, inv.rom_byte_no, hfull, hcrc, inv.crc, List.range_succ, List.map_append,
        List.foldl_append]
      rfl
  · have hne : (2 : Nat) ^ (k + 1) ≠ 0 := by positivity
    simp only [hk7, if_false, hne]
    refine ⟨by omega, ?_, rfl, inv.rom_byte_no, rfl, hdc, hld, hlc, hdata, hother, ?_, hpart, ?_⟩
    · show l.id_bit_no + 1 = 8 * q + (k + 1) + 1
      rw [inv.id_bit_no]
      omega
    · intro j hj
      show (searchStore l ow dir).rom ow0.dev_count j = T j
      rw [hrest j (by omega)]
      exact inv.rom_done j hj
    · show (searchStore l ow dir).crc8 = _
      rw [hcrc]
      exact inv.crc

/-- One pass of the loop body, for a pair read from the bus that is not
`(1,1)` and a direction that is the bit of `T` at this position. -/
theorem searchBody_step {W : Type} (hw : Bus W) {ow0 : OneWire} {T : Nat → Nat} {q k lz : Nat}
    {l : SearchLocals} {ow : OneWire} (w : W) (inv : SearchInv ow0 T q k lz l ow)
    (hT : T q < 256) (hnb : ¬ ((oneWire_readBit hw w).1 = 1 ∧
      (oneWire_readBit hw (oneWire_readBit hw w).2).1 = 1))
    (hdir : searchDirection l ow (oneWire_readBit hw w).1
      (oneWire_readBit hw (oneWire_readBit hw w).2).1 = T q / 2 ^ k % 2) :
    ∃ l1 ow1,
      searchBody hw l w ow =
        (false, l1,
          oneWire_writeBit hw (T q / 2 ^ k % 2) (oneWire_readBit hw (oneWire_readBit hw w).2).2,
          ow1) ∧
      SearchInv ow0 T (if k = 7 then q + 1 else q) (if k = 7 then 0 else k + 1)
        (if (oneWire_readBit hw w).1 = (oneWire_readBit hw (oneWire_readBit hw w).2).1 ∧
            T q / 2 ^ k % 2 = 0 then 8 * q + k + 1 else lz) l1 ow1 := by
  refine ⟨_, _, ?_, search_store_advance inv hT _ hdir _⟩
  unfold searchBody
  simp only [hnb, if_false, hdir, inv.id_bit_no, inv.last_zero]

theorem addrBitNat_eq (a : Nat → Nat) (p : Nat) :
    addrBitNat a p = if addrBit a p then 1 else 0 := by
  unfold addrBitNat addrBit
  by_cases h : a (p / 8) / 2 ^ (p % 8) % 2 = 1
  · simp [h]
  · have h0 : a (p / 8) / 2 ^ (p % 8) % 2 = 0 := by omega
    simp [h0]

theorem ideal_read_phase0 (w : IdealWorld) (p : Nat) (active : List (Nat → Nat))
    (hm : w.mode = .search p 0 active) :
    oneWire_readBit idealBus w =
      (if active.all (fun a => addrBit a p) then 1 else 0,
       { w with mode := .search p 1 active }) := by
  simp [oneWire_readBit, idealBus, idealSlot, hm]

theorem ideal_read_phase1 (w : IdealWorld) (p : Nat) (active : List (Nat → Nat))
    (hm : w.mode = .search p 1 active) :
    oneWire_readBit idealBus w =
      (if active.all (fun a => !addrBit a p) then 1 else 0,
       { w with mode := .search p 2 active }) := by
  simp [oneWire_readBit, idealBus, idealSlot, hm]

theorem ideal_write_phase2 (w : IdealWorld) (p : Nat) (active : List (Nat → Nat)) (dir : Nat)
    (hm : w.mode = .search p 2 active) :
    oneWire_writeBit idealBus dir w =
      { w with mode :=
          if p + 1 < 64 then
            .search (p + 1) 0 (active.filter (fun a => addrBit a p == decide (dir ≠ 0)))
          else .idle } := by
  by_cases hd : dir = 0 <;> simp [oneWire_writeBit, idealBus, idealSlot, hm, hd]

/-- The three slots of one search pass on the ideal bus. -/
theorem ideal_search_slots (w : IdealWorld) (p : Nat) (active : List (Nat → Nat)) (dir : Nat)
    (hm : w.mode = .search p 0 active) :
    (oneWire_readBit idealBus w).1 = (if active.all (fun a => addrBit a p) then 1 else 0) ∧
    (oneWire_readBit idealBus (oneWire_readBit idealBus w).2).1
      = (if active.all (fun a => !addrBit a p) then 1 else 0) ∧
    oneWire_writeBit idealBus dir (oneWire_readBit idealBus (oneWire_readBit idealBus w).2).2
      = { w with mode :=
            if p + 1 < 64 then
              .search (p + 1) 0 (active.filter (fun a => addrBit a p == decide (dir ≠ 0)))
            else .idle } := by
  rw [ideal_read_phase0 w p active hm]
  rw [ideal_read_phase1 { w with mode := .search p 1 active } p active rfl]
  rw [ideal_write_phase2 { w with mode := .search p 2 active } p active dir rfl]
  exact ⟨rfl, rfl, rfl⟩

theorem all_agree (active : List (Nat → Nat)) (p : Nat) (tb : Bool) (hne : active ≠ [])
    (hall : ∀ a, a ∈ active → addrBit a p = tb) :
    active.all (fun a => addrBit a p) = tb ∧ active.all (fun a => !addrBit a p) = !tb ∧
    active.filter (fun a => addrBit a p == tb) = active := by
  obtain ⟨x, hx⟩ := List.exists_mem_of_ne_nil active hne
  refine ⟨?_, ?_, ?_⟩
  · cases tb
    · rw [Bool.eq_false_iff]
      intro h
      rw [List.all_eq_true] at h
      have := h x hx
      rw [hall x hx] at this
      exact Bool.noConfusion this
    · rw [List.all_eq_true]
      intro a ha
      exact hall a ha
  · cases tb
    · rw [Bool.not_false, List.all_eq_true]
      intro a ha
      rw [hall a ha]
      rfl
    · rw [Bool.not_true, Bool.eq_false_iff]
      intro h
      rw [List.all_eq_true] at h
      have := h x hx
      rw [hall x hx] at this
      exact Bool.noConfusion this
  · rw [List.filter_eq_self]
    intro a ha
    rw [hall a ha]
    simp

theorem addrBitNat_ne_zero (a : Nat → Nat) (p : Nat) :
    decide (addrBitNat a p ≠ 0) = addrBit a p := by
  rw [addrBitNat_eq]
  cases addrBit a p <;> simp

theorem next_byte_index (p : Nat) :
    (if p % 8 = 7 then p / 8 + 1 else p / 8) = (p + 1) / 8 ∧
    (if p % 8 = 7 then 0 else p % 8 + 1) = (p + 1) % 8 ∧ 8 * (p / 8) + p % 8 + 1 = p + 1 := by
  refine ⟨?_, ?_, by omega⟩ <;> split_ifs <;> omega

theorem two_devs_mem (devs : List (Nat → Nat)) (T O : Nat → Nat)
    (hdevs : devs = [T, O] ∨ devs = [O, T]) :
    devs ≠ [] ∧ ∀ a, a ∈ devs → a = T ∨ a = O := by
  rcases hdevs with h | h <;> subst h <;> simp

theorem two_devs_split (devs : List (Nat → Nat)) (T O : Nat → Nat) (d : Nat) (tb : Bool)
    (hdevs : devs = [T, O] ∨ devs = [O, T]) (htb : addrBit T d = tb) (hob : addrBit O d = !tb) :
    devs.all (fun a => addrBit a d) = false ∧ devs.all (fun a => !addrBit a d) = false ∧
    devs.filter (fun a => addrBit a d == tb) = [T] := by
  rcases hdevs with h | h <;> subst h <;> cases tb <;> simp_all

/-- One loop pass of `oneWire_search` on the ideal bus with two devices. -/
theorem pass_step (devs : List (Nat → Nat)) (T O : Nat → Nat) (d : Nat) (tb : Bool)
    (ow0 : OneWire) (hdevs : devs = [T, O] ∨ devs = [O, T])
    (hagree : ∀ p, p < d → addrBit O p = addrBit T p)
    (htb : addrBit T d = tb) (hob : addrBit O d = !tb)
    (hTlt : ∀ j, j < 8 → T j < 256)
    (hld : ow0.last_disc = if tb then d + 1 else 0)
    (p : Nat) (hp : p < 64) (l : SearchLocals) (w : IdealWorld) (ow : OneWire)
    (inv : SearchInv ow0 T (p / 8) (p % 8) (passLastZero d tb p) l ow)
    (hw : PassWorld devs T d p w) :
    ∃ l1 w1 ow1, searchBody idealBus l w ow = (false, l1, w1, ow1) ∧
      SearchInv ow0 T ((p + 1) / 8) ((p + 1) % 8) (passLastZero d tb (p + 1)) l1 ow1 ∧
      PassWorld devs T d (p + 1) w1 := by
  obtain ⟨e1, e2, e3⟩ := next_byte_index p
  obtain ⟨hne, hmem⟩ := two_devs_mem devs T O hdevs
  have hm := hw.2 hp
  obtain ⟨hr1, hr2, hwr⟩ :=
    ideal_search_slots w p (if p ≤ d then devs else [T]) (addrBitNat T p) hm
  rw [addrBitNat_ne_zero] at hwr
  have hbitT : T (p / 8) / 2 ^ (p % 8) % 2 = addrBitNat T p := rfl
  by_cases hpd : p = d
  · subst hpd
    obtain ⟨ha1, ha2, hf⟩ := two_devs_split devs T O p tb hdevs htb hob
    simp only [le_refl, if_true, ha1, ha2, Bool.false_eq_true, if_false] at hr1 hr2
    have hnb : ¬ ((oneWire_readBit idealBus w).1 = 1 ∧
        (oneWire_readBit idealBus (oneWire_readBit idealBus w).2).1 = 1) := by
      rw [hr1]
      simp
    have hdir : searchDirection l ow (oneWire_readBit idealBus w).1
        (oneWire_readBit idealBus (oneWire_readBit idealBus w).2).1
          = T (p / 8) / 2 ^ (p % 8) % 2 := by
      rw [hr1, hr2, hbitT, addrBitNat_eq, htb]
      unfold searchDirection
      rw [inv.id_bit_no, inv.last_disc, hld, e3]
      cases tb <;> simp
    obtain ⟨l1, ow1, hbody, hinv⟩ := searchBody_step idealBus w inv (hTlt _ (by omega)) hnb hdir
    rw [e1, e2, e3, hr1, hr2, hbitT, addrBitNat_eq, htb] at hinv
    refine ⟨l1, _, ow1, hbody, ?_, ?_⟩
    · have hlz : (if (0 : Nat) = 0 ∧ (if tb = true then 1 else 0) = 0 then p + 1
          else passLastZero p tb p) = passLastZero p tb (p + 1) := by
        unfold passLastZero
        cases tb <;> simp
      rw [hlz] at hinv
      exact hinv
    · rw [hbitT, hwr]
      refine ⟨hw.1, fun h64 => ?_⟩
      simp only [h64, if_true, le_refl, htb, hf]
      have : ¬ (p + 1 ≤ p) := by omega
      simp [this]
  · have hall : ∀ a, a ∈ (if p ≤ d then devs else [T]) → addrBit a p = addrBit T p := by
      intro a ha
      by_cases hle : p ≤ d
      · rw [if_pos hle] at ha
        rcases hmem a ha with h | h
        · rw [h]
        · rw [h]
          exact hagree p (by omega)
      · rw [if_neg hle] at ha
        simp only [List.mem_singleton] at ha
        rw [ha]
    have hne' : (if p ≤ d then devs else [T]) ≠ [] := by
      split_ifs
      · exact hne
      · simp
    obtain ⟨ha1, ha2, hf⟩ := all_agree _ p (addrBit T p) hne' hall
    rw [ha1] at hr1
    rw [ha2] at hr2
    have hnb : ¬ ((oneWire_readBit idealBus w).1 = 1 ∧
        (oneWire_readBit idealBus (oneWire_readBit idealBus w).2).1 = 1) := by
      rw [hr1, hr2]
      cases addrBit T p <;> simp
    have hdir : searchDirection l ow (oneWire_readBit idealBus w).1
        (oneWire_readBit idealBus (oneWire_readBit idealBus w).2).1
          = T (p / 8) / 2 ^ (p % 8) % 2 := by
      rw [hr1, hr2, hbitT, addrBitNat_eq]
      unfold searchDirection
      cases addrBit T p <;> simp
    obtain ⟨l1, ow1, hbody, hinv⟩ := searchBody_step idealBus w inv (hTlt _ (by omega)) hnb hdir
    rw [e1, e2, hr1, hr2] at hinv
    refine ⟨l1, _, ow1, hbody, ?_, ?_⟩
    · have hlz : (if ((if addrBit T p = true then 1 else 0) : Nat)
            = (if (!addrBit T p) = true then 1 else 0) ∧
            T (p / 8) / 2 ^ (p % 8) % 2 = 0 then 8 * (p / 8) + p % 8 + 1
          else passLastZero d tb p) = passLastZero d tb (p + 1) := by
        have hne2 : ¬ (((if addrBit T p = true then 1 else 0) : Nat)
            = (if (!addrBit T p) = true then 1 else 0)) := by
          cases addrBit T p <;> simp
        rw [if_neg (fun h => hne2 h.1)]
        unfold passLastZero
        have : (d < p + 1 ∧ tb = false) ↔ (d < p ∧ tb = false) := by
          constructor
          · rintro ⟨h1, h2⟩
            exact ⟨by omega, h2⟩
          · rintro ⟨h1, h2⟩
            exact ⟨by omega, h2⟩
        simp only [this]
      rw [hlz] at hinv
      exact hinv
    · rw [hbitT, hwr, hf]
      refine ⟨hw.1, fun h64 => ?_⟩
      simp only [h64, if_true]
      have : (p + 1 ≤ d) ↔ (p ≤ d) := by omega
      simp only [this]

/-- The loop of `oneWire_search` on the ideal bus with two devices runs to
the end of the address: with `n` bits left and `n` passes allowed it stops
after bit 63 with the address `T` assembled. -/
theorem pass_loop (devs : List (Nat → Nat)) (T O : Nat → Nat) (d : Nat) (tb : Bool)
    (ow0 : OneWire) (hdevs : devs = [T, O] ∨ devs = [O, T])
    (hagree : ∀ p, p < d → addrBit O p = addrBit T p)
    (htb : addrBit T d = tb) (hob : addrBit O d = !tb)
    (hTlt : ∀ j, j < 8 → T j < 256)
    (hld : ow0.last_disc = if tb then d + 1 else 0) :
    ∀ n p, p + n = 64 → 0 < n → ∀ (l : SearchLocals) (w : IdealWorld) (ow : OneWire),
      SearchInv ow0 T (p / 8) (p % 8) (passLastZero d tb p) l ow → PassWorld devs T d p w →
      ∃ l1 w1 ow1, searchLoop idealBus n l w ow = some (l1, w1, ow1) ∧
        SearchInv ow0 T 8 0 (passLastZero d tb 64) l1 ow1 ∧ w1.devs = devs := by
  intro n
  induction n with
  | zero => intro p _ h; omega
  | succ n ih =>
    intro p hpn _ l w ow inv hw
    obtain ⟨l1, w1, ow1, hbody, hinv, hw1⟩ :=
      pass_step devs T O d tb ow0 hdevs hagree htb hob hTlt hld p (by omega) l w ow inv hw
    have hrb : l1.rom_byte_no = (p + 1) / 8 := hinv.rom_byte_no
    rcases Nat.eq_zero_or_pos n with hn | hn
    · subst hn
      have hp : p + 1 = 64 := by omega
      rw [hp] at hinv hrb
      refine ⟨l1, w1, ow1, ?_, hinv, hw1.1⟩
      simp only [searchLoop, hbody, Bool.false_eq_true, if_false, hrb]
      simp
    · obtain ⟨l2, w2, ow2, hloop, hinv2, hw2⟩ := ih (p + 1) (by omega) hn l1 w1 ow1 hinv hw1
      refine ⟨l2, w2, ow2, ?_, hinv2, hw2⟩
      have hlt : l1.rom_byte_no < 8 := by
        rw [hrb]
        omega
      simp only [searchLoop, hbody, Bool.false_eq_true, if_false, hlt, if_true]
      exact hloop

theorem ideal_reset (w : IdealWorld) (hne : w.devs ≠ []) :
    oneWire_reset idealBus w = (1, { w with mode := .command 0 0 }) := by
  cases hdevs : w.devs with
  | nil => exact absurd hdevs hne
  | cons a as => simp [oneWire_reset, idealBus, hdevs]

theorem ideal_search_command (w : IdealWorld) :
    oneWire_writeByte idealBus ONE_WIRE_CMD_SRCH_ROM { w with mode := .command 0 0 }
      = { w with mode := .search 0 0 w.devs } := by
  rfl

theorem valid_addr_crc (T : Nat → Nat) (h : ValidAddr T) :
    ((List.range 8).map T).foldl updateCRC 0 = 0 := by
  have h7 := h.2.2
  have hl : (List.range 8).map T = [T 0, T 1, T 2, T 3, T 4, T 5, T 6] ++ [T 7] := by
    simp [List.range_succ]
  rw [hl, h7]
  exact updateCRC_fold_append_crc _

/-- A whole `oneWire_search` call on the ideal bus with the two devices `T`
and `O`, when the discovery state steers towards `T`: `d` is the first bit
where the addresses differ, `tb` the bit of `T` there, and `last_disc` is 0
for the 0 branch and `d + 1` for the 1 branch. The call returns 1 with `T` in
the slot `rom[dev_count]`. -/
theorem search_pass (devs : List (Nat → Nat)) (T O : Nat → Nat) (d : Nat) (tb : Bool)
    (hdevs : devs = [T, O] ∨ devs = [O, T])
    (hagree : ∀ p, p < d → addrBit O p = addrBit T p)
    (htb : addrBit T d = tb) (hob : addrBit O d = !tb) (hd : d < 64)
    (hT : ValidAddr T) (w : IdealWorld) (ow : OneWire)
    (hwd : w.devs = devs) (hdc : ow.dev_count < 2) (hlast : ow.last_device = 0)
    (hld : ow.last_disc = if tb then d + 1 else 0) :
    ∃ w1 ow1, oneWire_search idealBus w ow = some (1, w1, ow1) ∧ w1.devs = devs ∧
      ow1.dev_count = ow.dev_count + 1 ∧
      ow1.last_disc = (if tb then 0 else d + 1) ∧
      ow1.last_device = (if tb then 1 else 0) ∧
      (∀ j, j < 8 → ow1.rom ow.dev_count j = T j) ∧
      (∀ s, s ≠ ow.dev_count → ow1.rom s = ow.rom s) := by
  have hne : w.devs ≠ [] := by
    rw [hwd]
    exact (two_devs_mem devs T O hdevs).1
  have inv0 : SearchInv { ow with crc8 := 0 } T (0 / 8) (0 % 8) (passLastZero d tb 0)
      { id_bit_no := 1, last_zero := 0, rom_byte_no := 0, rom_byte_mask := 1 }
      { ow with crc8 := 0 } := by
    refine ⟨by decide, rfl, ?_, rfl, rfl, rfl, rfl, rfl, rfl, fun _ _ => rfl, ?_, ?_, rfl⟩
    · simp [passLastZero]
    · intro j hj
      omega
    · simp [Nat.mod_one]
  have hw0 : PassWorld devs T d 0 { w with mode := .search 0 0 w.devs } := by
    refine ⟨hwd, fun _ => ?_⟩
    simp [hwd]
  obtain ⟨l1, w1, ow1, hloop, hinv, hw1⟩ :=
    pass_loop devs T O d tb { ow with crc8 := 0 } hdevs hagree htb hob hT.1 hld 64 0 rfl
      (by decide) _ _ _ inv0 hw0
  have hcrc : ow1.crc8 = 0 := by
    rw [hinv.crc]
    exact valid_addr_crc T hT
  have hidn : l1.id_bit_no = 65 := hinv.id_bit_no
  have hlz : l1.last_zero = (if tb then 0 else d + 1) := by
    rw [hinv.last_zero]
    unfold passLastZero
    cases tb <;> simp [hd]
  have hrom0 : ow1.rom ow.dev_count 0 = T 0 := hinv.rom_done 0 (by decide)
  have hfam : T 0 ≠ 0 := hT.2.1
  have hdc1 : ow1.dev_count = ow.dev_count := hinv.dev_count
  have hld1 : ow1.last_device = 0 := hinv.last_device.trans hlast
  have hmod : (ow.dev_count + 1) % 256 = ow.dev_count + 1 := by omega
  have h2 : ¬ (ow.dev_count ≥ ONE_WIRE_DEV_NO) := by
    unfold ONE_WIRE_DEV_NO
    omega
  have hrun : oneWire_search idealBus w ow =
      some (searchFinish 1 w1
        (if l1.last_zero = 0 then { ow1 with last_disc := l1.last_zero, last_device := 1 }
         else { ow1 with last_disc := l1.last_zero })) := by
    unfold oneWire_search
    simp only [h2, if_false]
    rw [if_pos hlast, ideal_reset w hne]
    simp only [one_ne_zero, if_false, ideal_search_command]
    rw [hloop]
    simp only [hidn, hcrc]
    simp
  rw [hrun]
  cases tb
  · have hz : l1.last_zero ≠ 0 := by
      rw [hlz]
      simp
    refine ⟨w1, { ow1 with last_disc := d + 1, dev_count := ow.dev_count + 1 }, ?_, hw1, rfl, rfl,
      hld1, fun j hj => hinv.rom_done j hj, fun s hs => hinv.rom_other s hs⟩
    simp only [if_neg hz]
    simp [searchFinish, hdc1, hrom0, hfam, hmod, hlz]
  · have hz : l1.last_zero = 0 := by
      rw [hlz]
      simp
    refine ⟨w1, { ow1 with last_disc := 0, last_device := 1, dev_count := ow.dev_count + 1 }, ?_,
      hw1, rfl, rfl, rfl, fun j hj => hinv.rom_done j hj, fun s hs => hinv.rom_other s hs⟩
    simp only [if_pos hz]
    simp [searchFinish, hdc1, hrom0, hfam, hmod, hz]

theorem byte_eq_of_bits (x y : Nat) (hx : x < 256) (hy : y < 256)
    (h : ∀ k, k < 8 → x / 2 ^ k % 2 = y / 2 ^ k % 2) : x = y := by
  have h0 := h 0 (by decide)
  have h1 := h 1 (by decide)
  have h2 := h 2 (by decide)
  have h3 := h 3 (by decide)
  have h4 := h 4 (by decide)
  have h5 := h 5 (by decide)
  have h6 := h 6 (by decide)
  have h7 := h 7 (by decide)
  norm_num at h0 h1 h2 h3 h4 h5 h6 h7
  omega

theorem addrBit_iff (a : Nat → Nat) (p : Nat) : addrBit a p = true ↔ addrBitNat a p = 1 := by
  unfold addrBit addrBitNat
  simp

/-- Two different addresses differ at a lowest bit position. -/
theorem exists_first_diff (A B : Nat → Nat) (hA : ∀ j, j < 8 → A j < 256)
    (hB : ∀ j, j < 8 → B j < 256) (hAB : ∃ j, j < 8 ∧ A j ≠ B j) :
    ∃ d, d < 64 ∧ (∀ p, p < d → addrBit A p = addrBit B p) ∧ addrBit A d ≠ addrBit B d := by
  have hex : ∃ p, p < 64 ∧ addrBit A p ≠ addrBit B p := by
    obtain ⟨j, hj, hne⟩ := hAB
    by_contra hcon
    apply hne
    apply byte_eq_of_bits _ _ (hA j hj) (hB j hj)
    intro k hk
    have hp : ¬ (addrBit A (8 * j + k) ≠ addrBit B (8 * j + k)) :=
      fun h => hcon ⟨8 * j + k, by omega, h⟩
    have hq : (8 * j + k) / 8 = j := by omega
    have hr : (8 * j + k) % 8 = k := by omega
    have hbits : addrBit A (8 * j + k) = addrBit B (8 * j + k) := not_not.mp hp
    have ha := addrBit_iff A (8 * j + k)
    have hb := addrBit_iff B (8 * j + k)
    unfold addrBitNat at ha hb
    rw [hq, hr] at ha hb
    rw [hbits] at ha
    have hiff : A j / 2 ^ k % 2 = 1 ↔ B j / 2 ^ k % 2 = 1 := ha.symm.trans hb
    have hA2 : A j / 2 ^ k % 2 < 2 := Nat.mod_lt _ (by decide)
    have hB2 : B j / 2 ^ k % 2 < 2 := Nat.mod_lt _ (by decide)
    omega
  classical
  refine ⟨Nat.find hex, (Nat.find_spec hex).1, ?_, (Nat.find_spec hex).2⟩
  intro p hp
  have hmin := Nat.find_min hex hp
  by_contra hne
  exact hmin ⟨lt_trans hp (Nat.find_spec hex).1, hne⟩

/-- The discovery sequence on the ideal bus with the devices `lo` and `hi`,
where `lo` has the 0 at the first differing bit `d`. -/
theorem two_device_discovery (devs : List (Nat → Nat)) (lo hi : Nat → Nat) (d : Nat)
    (hdevs : devs = [lo, hi] ∨ devs = [hi, lo])
    (hagree : ∀ p, p < d → addrBit lo p = addrBit hi p)
    (hlo : addrBit lo d = false) (hhi : addrBit hi d = true) (hd : d < 64)
    (hvlo : ValidAddr lo) (hvhi : ValidAddr hi) (w : IdealWorld) (ow : OneWire)
    (hwd : w.devs = devs) :
    ∃ w1 ow1 w2 ow2 w3 ow3,
      oneWire_findFirst idealBus w ow = some (1, w1, ow1) ∧
      (∀ j, j < 8 → ow1.rom 0 j = lo j) ∧
      oneWire_findNext idealBus w1 ow1 = some (1, w2, ow2) ∧
      (∀ j, j < 8 → ow2.rom 0 j = lo j ∧ ow2.rom 1 j = hi j) ∧
      oneWire_findNext idealBus w2 ow2 = some (0, w3, ow3) ∧
      ow3.dev_count = 2 ∧
      (∀ j, j < 8 → ow3.rom 0 j = lo j ∧ ow3.rom 1 j = hi j) := by
  obtain ⟨w1, ow1, h1, hw1, hdc1, hdisc1, hlast1, hrom1, _⟩ :=
    search_pass devs lo hi d false hdevs (fun p hp => (hagree p hp).symm) hlo hhi hd hvlo w
      { ow with dev_count := 0, last_device := 0, last_disc := 0 } hwd (show 0 < 2 by decide)
      rfl rfl
  have hdc1' : ow1.dev_count = 1 := hdc1
  obtain ⟨w2, ow2, h2, _, hdc2, _, _, hrom2, hkeep2⟩ :=
    search_pass devs hi lo d true hdevs.symm hagree hhi hlo hd hvhi w1 ow1 hw1
      (by omega) hlast1 hdisc1
  rw [hdc1'] at hdc2 hrom2 hkeep2
  have hrom0 : ∀ j, j < 8 → ow2.rom 0 j = lo j := by
    intro j hj
    rw [hkeep2 0 (by decide)]
    exact hrom1 j hj
  refine ⟨w1, ow1, w2, ow2, w2, { ow2 with crc8 := 0 }, h1, hrom1, h2,
    fun j hj => ⟨hrom0 j hj, hrom2 j hj⟩, ?_, hdc2, fun j hj => ⟨hrom0 j hj, hrom2 j hj⟩⟩
  unfold oneWire_findNext oneWire_search
  have hge : ow2.dev_count ≥ ONE_WIRE_DEV_NO := by
    rw [hdc2]
    decide
  simp only [hge, if_true]

theorem searchAdvance_locals (l : SearchLocals) (lz : Nat) (ow : OneWire) (p : Nat)
    (hb : l.rom_byte_no = p / 8) (hm : l.rom_byte_mask = 2 ^ (p % 8)) :
    (searchAdvance l lz ow).1.rom_byte_no = (p + 1) / 8 ∧
    (searchAdvance l lz ow).1.rom_byte_mask = 2 ^ ((p + 1) % 8) := by
  obtain ⟨e1, e2, _⟩ := next_byte_index p
  have hk : p % 8 < 8 := Nat.mod_lt _ (by decide)
  unfold searchAdvance
  rw [hm, mask_shift _ hk, hb, ← e1, ← e2]
  by_cases h7 : p % 8 = 7
  · simp [h7]
  · have hne : (2 : Nat) ^ (p % 8 + 1) ≠ 0 := by positivity
    simp [h7, hne]

/-- The loop of `oneWire_search` never uses up its 64 passes, whatever the
bus answers: with `n` bit positions left, `n` passes are enough. -/
theorem searchLoop_total {W : Type} (hw : Bus W) :
    ∀ n p, p + n = 64 → 0 < n → ∀ (l : SearchLocals) (w : W) (ow : OneWire),
      l.rom_byte_no = p / 8 → l.rom_byte_mask = 2 ^ (p % 8) →
      ∃ r, searchLoop hw n l w ow = some r := by
  intro n
  induction n with
  | zero => intro p _ h; omega
  | succ n ih =>
    intro p hpn _ l w ow hb hm
    simp only [searchLoop]
    by_cases hbr : (searchBody hw l w ow).1 = true
    · exact ⟨_, by rw [if_pos hbr]⟩
    · rw [if_neg hbr]
      by_cases hlt : (searchBody hw l w ow).2.1.rom_byte_no < 8
      · rw [if_pos hlt]
        have hloc : (searchBody hw l w ow).2.1.rom_byte_no = (p + 1) / 8 ∧
            (searchBody hw l w ow).2.1.rom_byte_mask = 2 ^ ((p + 1) % 8) := by
          unfold searchBody at hbr ⊢
          by_cases h11 : (oneWire_readBit hw w).1 = 1 ∧
              (oneWire_readBit hw (oneWire_readBit hw w).2).1 = 1
          · simp [h11] at hbr
          · simp only [h11, if_false]
            exact searchAdvance_locals l _ _ p hb hm
        have hn : 0 < n := by
          rw [hloc.1] at hlt
          omega
        exact ih (p + 1) (by omega) hn _ _ _ hloc.1 hloc.2
      · exact ⟨_, by rw [if_neg hlt]⟩

/-- The function `oneWire_search` returns for every bus and every state. -/
theorem oneWire_search_total {W : Type} (hw : Bus W) (w : W) (ow : OneWire) :
    ∃ r, oneWire_search hw w ow = some r := by
  unfold oneWire_search
  simp only
  split_ifs
  · exact ⟨_, rfl⟩
  · exact ⟨_, rfl⟩
  · obtain ⟨r, hr⟩ := searchLoop_total hw 64 0 rfl (by decide)
      { id_bit_no := 1, last_zero := 0, rom_byte_no := 0, rom_byte_mask := 1 }
      (oneWire_writeByte hw ONE_WIRE_CMD_SRCH_ROM (oneWire_reset hw w).2)
      { ow with crc8 := 0 } rfl rfl
    rw [hr]
    obtain ⟨l, w2, ow2⟩ := r
    simp only
    split_ifs <;> exact ⟨_, rfl⟩
  · exact ⟨_, rfl⟩

/-! ## Facts about the clock and the rolling history -/

theorem setAt2_same {α : Type} (a : Nat → Nat → α) (i j : Nat) (v : α) :
    setAt2 a i j v i j = v := by
  simp [setAt2, setAt]

theorem setAt2_other {α : Type} (a : Nat → Nat → α) (i j k m : Nat) (v : α)
    (h : k ≠ i ∨ m ≠ j) : setAt2 a i j v k m = a k m := by
  unfold setAt2 setAt
  rcases h with h | h
  · simp [h]
  · by_cases hk : k = i <;> simp [hk, h]

theorem updHist_index (h : TempHist) (hi : h.index ≤ 23) :
    (temp_updHistMinMax h).index = (h.index + 1) % 24 := by
  unfold temp_updHistMinMax
  simp only
  split_ifs <;> omega

theorem updHist_new_slot (h : TempHist) (i : Nat) (hi : i < 2) :
    (temp_updHistMinMax h).min_array i (temp_updHistMinMax h).index = TEMP_VAL_MAX ∧
    (temp_updHistMinMax h).max_array i (temp_updHistMinMax h).index = TEMP_VAL_MIN := by
  unfold temp_updHistMinMax
  interval_cases i <;> simp [setAt2, setAt]

theorem updHist_other_slots (h : TempHist) (i s : Nat)
    (hs : s ≠ (temp_updHistMinMax h).index) :
    (temp_updHistMinMax h).min_array i s = h.min_array i s ∧
    (temp_updHistMinMax h).max_array i s = h.max_array i s := by
  unfold temp_updHistMinMax at hs ⊢
  simp only at hs ⊢
  constructor
  · rw [setAt2_other _ _ _ _ _ _ (Or.inr hs), setAt2_other _ _ _ _ _ _ (Or.inr hs)]
  · rw [setAt2_other _ _ _ _ _ _ (Or.inr hs), setAt2_other _ _ _ _ _ _ (Or.inr hs)]

theorem updHist_iterate_index (h : TempHist) (hi : h.index ≤ 23) :
    ∀ n, (temp_updHistMinMax^[n] h).index = (h.index + n) % 24 := by
  intro n
  induction n with
  | zero => simp; omega
  | succ n ih =>
    rw [Function.iterate_succ_apply', updHist_index _ (by rw [ih]; omega), ih]
    omega

theorem updCur_body_fields (id i : Nat) (h : TempHist) :
    (updCurMinMax_body id i h).index = h.index ∧
    (updCurMinMax_body id i h).valid = h.valid ∧
    (updCurMinMax_body id i h).value = h.value := by
  unfold updCurMinMax_body
  simp only
  split_ifs <;> exact ⟨rfl, rfl, rfl⟩

theorem updCur_body_min (id i k s : Nat) (h : TempHist) :
    (updCurMinMax_body id i h).min_array k s =
      if k = i ∧ s = id ∧ h.valid i ≠ 0 then min (h.min_array i id) (h.value i)
      else h.min_array k s := by
  unfold updCurMinMax_body
  by_cases hv : h.valid i = 0
  · simp [hv]
  · simp only [ne_eq, hv, not_false_eq_true, if_true, and_true]
    by_cases hks : k = i ∧ s = id
    · obtain ⟨hk, hs⟩ := hks
      subst hk hs
      simp only [and_self, if_true]
      split_ifs with h1 h2 h2
      · simp only [setAt2_same]
        exact (min_eq_right (le_of_lt h1)).symm
      · simp only [setAt2_same]
        exact (min_eq_right (le_of_lt h1)).symm
      · exact (min_eq_left (not_lt.mp h1)).symm
      · exact (min_eq_left (not_lt.mp h1)).symm
    · rw [if_neg hks]
      have hne : k ≠ i ∨ s ≠ id := by
        by_contra hc
        push_neg at hc
        exact hks hc
      split_ifs
      · exact setAt2_other _ _ _ _ _ _ hne
      · exact setAt2_other _ _ _ _ _ _ hne
      · rfl
      · rfl

theorem updCur_body_max (id i k s : Nat) (h : TempHist) :
    (updCurMinMax_body id i h).max_array k s =
      if k = i ∧ s = id ∧ h.valid i ≠ 0 then max (h.max_array i id) (h.value i)
      else h.max_array k s := by
  unfold updCurMinMax_body
  by_cases hv : h.valid i = 0
  · simp [hv]
  · simp only [ne_eq, hv, not_false_eq_true, if_true, and_true]
    by_cases hks : k = i ∧ s = id
    · obtain ⟨hk, hs⟩ := hks
      subst hk hs
      simp only [and_self, if_true]
      split_ifs with h1 h2 h2
      · simp only [setAt2_same]
        exact (max_eq_right (le_of_lt h2)).symm
      · exact (max_eq_left (not_lt.mp h2)).symm
      · simp only [setAt2_same]
        exact (max_eq_right (le_of_lt h2)).symm
      · exact (max_eq_left (not_lt.mp h2)).symm
    · rw [if_neg hks]
      have hne : k ≠ i ∨ s ≠ id := by
        by_contra hc
        push_neg at hc
        exact hks hc
      split_ifs
      · exact setAt2_other _ _ _ _ _ _ hne
      · rfl
      · exact setAt2_other _ _ _ _ _ _ hne
      · rfl

theorem updCur_fields (h : TempHist) :
    (temp_updCurMinMax h).index = h.index ∧ (temp_updCurMinMax h).valid = h.valid ∧
    (temp_updCurMinMax h).value = h.value := by
  unfold temp_updCurMinMax loop2
  obtain ⟨a0, b0, c0⟩ := updCur_body_fields h.index 0 h
  obtain ⟨a1, b1, c1⟩ := updCur_body_fields h.index 1 (updCurMinMax_body h.index 0 h)
  exact ⟨a1.trans a0, b1.trans b0, c1.trans c0⟩

theorem updCur_min (h : TempHist) (i s : Nat) (hi : i < 2) :
    (temp_updCurMinMax h).min_array i s =
      if s = h.index ∧ h.valid i ≠ 0 then min (h.min_array i h.index) (h.value i)
      else h.min_array i s := by
  unfold temp_updCurMinMax loop2
  obtain ⟨_, b0, c0⟩ := updCur_body_fields h.index 0 h
  rw [updCur_body_min, updCur_body_min, updCur_body_min, b0, c0]
  interval_cases i <;> simp

theorem updCur_max (h : TempHist) (i s : Nat) (hi : i < 2) :
    (temp_updCurMinMax h).max_array i s =
      if s = h.index ∧ h.valid i ≠ 0 then max (h.max_array i h.index) (h.value i)
      else h.max_array i s := by
  unfold temp_updCurMinMax loop2
  obtain ⟨_, b0, c0⟩ := updCur_body_fields h.index 0 h
  rw [updCur_body_max, updCur_body_max, updCur_body_max, b0, c0]
  interval_cases i <;> simp

theorem updCur_other_slots (h : TempHist) (k s : Nat) (hs : s ≠ h.index) :
    (temp_updCurMinMax h).min_array k s = h.min_array k s ∧
    (temp_updCurMinMax h).max_array k s = h.max_array k s := by
  unfold temp_updCurMinMax loop2
  simp only [updCur_body_min, updCur_body_max]
  simp [hs]

theorem runCur_slot (i : Nat) (hi : i < 2) (rs : List CurInputs) :
    ∀ h : TempHist,
      (runCur rs h).index = h.index ∧
      (runCur rs h).min_array i h.index = (validValues i rs).foldl min (h.min_array i h.index) ∧
      (runCur rs h).max_array i h.index = (validValues i rs).foldl max (h.max_array i h.index) := by
  induction rs with
  | nil => intro h; exact ⟨rfl, rfl, rfl⟩
  | cons r rs ih =>
    intro h
    have hstep : runCur (r :: rs) h = runCur rs (curCycle r h) := rfl
    have hidx : (curCycle r h).index = h.index := (updCur_fields _).1
    obtain ⟨h1, h2, h3⟩ := ih (curCycle r h)
    rw [hstep, h1, hidx]
    rw [hidx] at h2 h3
    rw [h2, h3]
    refine ⟨rfl, ?_, ?_⟩
    · unfold curCycle
      rw [updCur_min _ i _ hi]
      by_cases hv : r.valid i = 0
      · simp [validValues, hv]
      · simp [validValues, hv]
    · unfold curCycle
      rw [updCur_max _ i _ hi]
      by_cases hv : r.valid i = 0
      · simp [validValues, hv]
      · simp [validValues, hv]

theorem foldl_min_spec (vs : List Int) :
    ∀ m0 : Int, vs.foldl min m0 ≤ m0 ∧ (∀ v, v ∈ vs → vs.foldl min m0 ≤ v) ∧
      (vs.foldl min m0 = m0 ∨ vs.foldl min m0 ∈ vs) := by
  induction vs with
  | nil => intro m0; simp
  | cons a vs ih =>
    intro m0
    obtain ⟨h1, h2, h3⟩ := ih (min m0 a)
    simp only [List.foldl_cons, List.mem_cons]
    refine ⟨le_trans h1 (min_le_left _ _), ?_, ?_⟩
    · intro v hv
      rcases hv with hv | hv
      · rw [hv]
        exact le_trans h1 (min_le_right _ _)
      · exact h2 v hv
    · rcases h3 with h3 | h3
      · rcases min_choice m0 a with hc | hc
        · left
          rw [h3, hc]
        · right
          left
          rw [h3, hc]
      · right
        right
        exact h3

theorem foldl_max_spec (vs : List Int) :
    ∀ m0 : Int, m0 ≤ vs.foldl max m0 ∧ (∀ v, v ∈ vs → v ≤ vs.foldl max m0) ∧
      (vs.foldl max m0 = m0 ∨ vs.foldl max m0 ∈ vs) := by
  induction vs with
  | nil => intro m0; simp
  | cons a vs ih =>
    intro m0
    obtain ⟨h1, h2, h3⟩ := ih (max m0 a)
    simp only [List.foldl_cons, List.mem_cons]
    refine ⟨le_trans (le_max_left _ _) h1, ?_, ?_⟩
    · intro v hv
      rcases hv with hv | hv
      · rw [hv]
        exact le_trans (le_max_right _ _) h1
      · exact h2 v hv
    · rcases h3 with h3 | h3
      · rcases max_choice m0 a with hc | hc
        · left
          rw [h3, hc]
        · right
          left
          rw [h3, hc]
      · right
        right
        exact h3

theorem incrSeconds_step (h : TempHist) (hs : h.seconds ≤ 59) (hm : h.minutes ≤ 59) :
    (temp_incrSeconds h).2.seconds ≤ 59 ∧ (temp_incrSeconds h).2.minutes ≤ 59 ∧
    counted h + secondsAdded h = 3600 * (temp_incrSeconds h).1 + counted (temp_incrSeconds h).2 ∧
    ((temp_incrSeconds h).1 = 0 ∨ (temp_incrSeconds h).1 = 1) ∧
    ((temp_incrSeconds h).1 = 1 →
      (temp_incrSeconds h).2.minutes = 0 ∧
      (temp_incrSeconds h).2.hours = if h.hours < 23 then h.hours + 1 else h.hours) ∧
    ((temp_incrSeconds h).1 = 0 → (temp_incrSeconds h).2.hours = h.hours) := by
  unfold temp_incrSeconds counted secondsAdded
  simp only
  by_cases ha : (h.add_sec + 1) % 256 ≥ 2
  · simp only [ha, if_true]
    by_cases h1 : (h.seconds + 1) % 256 + 1 > 59 + 0 ∧ ((h.seconds + 1) % 256 + 1) % 256 > 59
    · have hsec : ((h.seconds + 1) % 256 + 1) % 256 > 59 := h1.2
      simp only [hsec, if_true]
      by_cases h2 : (h.minutes + 1) % 256 > 59
      · simp only [h2, if_true]
        split_ifs <;> simp <;> omega
      · simp only [h2, if_false]
        simp
        omega
    · have hsec : ¬ (((h.seconds + 1) % 256 + 1) % 256 > 59) := by omega
      simp only [hsec, if_false]
      have h2 : ¬ (h.minutes > 59) := by omega
      simp only [h2, if_false]
      simp
      omega
  · simp only [ha, if_false]
    by_cases hsec : (h.seconds + 1) % 256 > 59
    · simp only [hsec, if_true]
      by_cases h2 : (h.minutes + 1) % 256 > 59
      · simp only [h2, if_true]
        split_ifs <;> simp <;> omega
      · simp only [h2, if_false]
        simp
        omega
    · simp only [hsec, if_false]
      have h2 : ¬ (h.minutes > 59) := by omega
      simp only [h2, if_false]
      simp
      omega

theorem incrRun_counted (h : TempHist) (hs : h.seconds ≤ 59) (hm : h.minutes ≤ 59) :
    ∀ n, (incrRun n h).2.2.seconds ≤ 59 ∧ (incrRun n h).2.2.minutes ≤ 59 ∧
      counted h + (incrRun n h).2.1 = 3600 * (incrRun n h).1 + counted (incrRun n h).2.2 := by
  intro n
  induction n with
  | zero => exact ⟨hs, hm, by simp [incrRun]⟩
  | succ n ih =>
    obtain ⟨h1, h2, h3⟩ := ih
    obtain ⟨a, b, c, _⟩ := incrSeconds_step (incrRun n h).2.2 h1 h2
    refine ⟨a, b, ?_⟩
    show counted h + ((incrRun n h).2.1 + secondsAdded (incrRun n h).2.2)
      = 3600 * ((incrRun n h).1 + (temp_incrSeconds (incrRun n h).2.2).1)
        + counted (temp_incrSeconds (incrRun n h).2.2).2
    omega

theorem incrSeconds_add_sec (h : TempHist) :
    (temp_incrSeconds h).2.add_sec =
      if (h.add_sec + 1) % 256 ≥ 2 then 0 else (h.add_sec + 1) % 256 := by
  unfold temp_incrSeconds
  simp only
  split_ifs <;> rfl

theorem incrRun_add_sec (h : TempHist) (h0 : h.add_sec = 0) :
    ∀ n, (incrRun n h).2.2.add_sec = n % 2 := by
  intro n
  induction n with
  | zero => exact h0
  | succ n ih =>
    show (temp_incrSeconds (incrRun n h).2.2).2.add_sec = (n + 1) % 2
    rw [incrSeconds_add_sec, ih]
    split_ifs <;> omega

/-! ## Facts about byte framing -/

theorem writeByte_loop_slots {W : Type} (hw : Bus W) (n : Nat) :
    ∀ (data : Nat) (w : W),
      oneWire_writeByte_loop hw n data w =
        ((List.range n).map (fun k => decide ((data / 2 ^ k) % 2 = 1))).foldl
          (fun w' bit => hw.writeSlot bit w') w := by
  induction n with
  | zero => intro data w; rfl
  | succ n ih =>
    intro data w
    simp only [oneWire_writeByte_loop, List.range_succ_eq_map, List.map_cons, List.map_map,
      List.foldl_cons]
    rw [ih]
    have hfirst : oneWire_writeBit hw (data &&& 1) w
        = hw.writeSlot (decide (data / 2 ^ 0 % 2 = 1)) w := by
      unfold oneWire_writeBit
      rw [Nat.and_one_is_mod]
      by_cases hb : data % 2 = 1
      · simp [hb]
      · have h0 : data % 2 = 0 := by omega
        simp [h0]
    rw [hfirst]
    congr 1
    apply List.map_congr_left
    intro k _
    have hk : (data >>> 1) / 2 ^ k = data / 2 ^ (k + 1) := by
      rw [Nat.shiftRight_eq_div_pow, Nat.div_div_eq_div_mul, Nat.pow_one, Nat.pow_succ,
        Nat.mul_comm]
    simp only [Function.comp, hk]

theorem readByte_loop_fold {W : Type} (hw : Bus W) (n : Nat) :
    ∀ (result : Nat) (w : W),
      oneWire_readByte_loop hw n result w =
        ((readBits hw n w).foldl
            (fun r b => if b ≠ 0 then (r >>> 1) ||| 0x80 else r >>> 1) result,
          afterReadBits hw n w) := by
  induction n with
  | zero => intro result w; rfl
  | succ n ih =>
    intro result w
    simp only [oneWire_readByte_loop, readBits, afterReadBits, List.foldl_cons]
    rw [ih]

theorem readBits_le_one {W : Type} (hw : Bus W) (n : Nat) :
    ∀ (w : W) (b : Nat), b ∈ readBits hw n w → b ≤ 1 := by
  induction n with
  | zero => intro w b hb; simp [readBits] at hb
  | succ n ih =>
    intro w b hb
    simp only [readBits, List.mem_cons] at hb
    rcases hb with hb | hb
    · rw [hb]
      unfold oneWire_readBit
      simp only
      split_ifs <;> omega
    · exact ih _ b hb

theorem readBits_length {W : Type} (hw : Bus W) (n : Nat) :
    ∀ w : W, (readBits hw n w).length = n := by
  induction n with
  | zero => intro w; rfl
  | succ n ih => intro w; simp [readBits, ih]

set_option maxRecDepth 1000000 in
theorem assemble_bits_table :
    ∀ b0, b0 < 2 → ∀ b1, b1 < 2 → ∀ b2, b2 < 2 → ∀ b3, b3 < 2 → ∀ b4, b4 < 2 → ∀ b5, b5 < 2 →
    ∀ b6, b6 < 2 → ∀ b7, b7 < 2 → ∀ k, k < 8 →
      ([b0, b1, b2, b3, b4, b5, b6, b7].foldl
          (fun r b => if b ≠ 0 then (r >>> 1) ||| 0x80 else r >>> 1) 0) / 2 ^ k % 2
        = [b0, b1, b2, b3, b4, b5, b6, b7].getD k 0 := by
  intro b0 h0 b1 h1 b2 h2 b3 h3 b4 h4 b5 h5 b6 h6 b7 h7
  interval_cases b0 <;> interval_cases b1 <;> interval_cases b2 <;> interval_cases b3 <;>
    interval_cases b4 <;> interval_cases b5 <;> interval_cases b6 <;> interval_cases b7 <;>
    decide

theorem readBit_lt_two {W : Type} (hw : Bus W) (w : W) : (oneWire_readBit hw w).1 < 2 := by
  unfold oneWire_readBit
  simp only
  split_ifs <;> omega

theorem log_fold (l : List Bool) :
    ∀ acc : List Bool, l.foldl (fun w' bit => logBus.writeSlot bit w') acc = acc ++ l := by
  induction l with
  | nil => intro acc; simp
  | cons a l ih =>
    intro acc
    simp only [List.foldl_cons]
    rw [ih]
    simp [logBus]

set_option maxRecDepth 1000000 in
theorem read_back_table :
    ∀ b, b < 256 → (oneWire_readByte scriptBus (byteSamples b)).1 = b := by
  decide

/-! ## Facts about `oneWire_search` on any bus -/

theorem searchFrame_refl (ow : OneWire) : SearchFrame ow ow :=
  ⟨rfl, rfl, rfl, rfl, fun _ _ => rfl⟩

theorem searchFrame_trans {a b c : OneWire} (h1 : SearchFrame a b) (h2 : SearchFrame b c) :
    SearchFrame a c := by
  obtain ⟨a1, a2, a3, a4, a5⟩ := h1
  obtain ⟨b1, b2, b3, b4, b5⟩ := h2
  refine ⟨b1.trans a1, b2.trans a2, b3.trans a3, b4.trans a4, fun s hs => ?_⟩
  rw [b5 s (by rw [a1]; exact hs), a5 s hs]

theorem searchStore_frame (l : SearchLocals) (ow : OneWire) (dir : Nat) :
    SearchFrame ow (searchStore l ow dir) := by
  obtain ⟨h1, h2, h3, h4, _, h6⟩ := searchStore_fields l ow dir
  refine ⟨h1, h2, h3, h4, fun s hs => ?_⟩
  rw [h6]
  funext j
  simp [setAt2, hs]

theorem searchAdvance_frame (l : SearchLocals) (lz : Nat) (ow : OneWire) :
    SearchFrame ow (searchAdvance l lz ow).2 := by
  unfold searchAdvance
  split_ifs
  · exact ⟨rfl, rfl, rfl, rfl, fun _ _ => rfl⟩
  · exact searchFrame_refl ow

theorem searchBody_frame {W : Type} (hw : Bus W) (l : SearchLocals) (w : W) (ow : OneWire) :
    SearchFrame ow (searchBody hw l w ow).2.2.2 := by
  unfold searchBody
  by_cases h11 : (oneWire_readBit hw w).1 = 1 ∧
      (oneWire_readBit hw (oneWire_readBit hw w).2).1 = 1
  · simp only [h11, and_self, if_true]
    exact searchFrame_refl ow
  · simp only [h11, if_false]
    exact searchFrame_trans (searchStore_frame _ _ _) (searchAdvance_frame _ _ _)

theorem searchLoop_frame {W : Type} (hw : Bus W) (n : Nat) :
    ∀ (l : SearchLocals) (w : W) (ow : OneWire) (r : SearchLocals × W × OneWire),
      searchLoop hw n l w ow = some r → SearchFrame ow r.2.2 := by
  induction n with
  | zero => intro l w ow r h; simp [searchLoop] at h
  | succ n ih =>
    intro l w ow r h
    simp only [searchLoop] at h
    have hb := searchBody_frame hw l w ow
    split_ifs at h with h1 h2
    · simp only [Option.some.injEq] at h
      rw [← h]
      exact hb
    · exact searchFrame_trans hb (ih _ _ _ r h)
    · simp only [Option.some.injEq] at h
      rw [← h]
      exact hb

theorem searchFinish_cases {W : Type} (result : Nat) (w : W) (ow : OneWire) (hr : result ≤ 1) :
    ((searchFinish result w ow).1 = 0 ∧
      (searchFinish result w ow).2.2 = { ow with last_device := 0, last_disc := 0 }) ∨
    ((searchFinish result w ow).1 = 1 ∧ result = 1 ∧ ow.rom ow.dev_count 0 ≠ 0 ∧
      (searchFinish result w ow).2.2 = { ow with dev_count := (ow.dev_count + 1) % 256 }) := by
  unfold searchFinish
  by_cases h : result = 0 ∨ ow.rom ow.dev_count 0 = 0
  · left
    simp [h]
  · right
    push_neg at h
    have h1 : result = 1 := by omega
    simp [h, h1]

/-- Every way `oneWire_search` can end when there is room in the address
store: it returns 0 with the discovery state reset, or it returns 1 with
`dev_count` incremented, a complete walk, a zero CRC and a non-zero first
byte in the new slot. In both cases only `crc8`, the discovery state and the
slot `rom[dev_count]` can differ from before. -/
theorem search_cases {W : Type} (hw : Bus W) (w w1 : W) (ow ow1 : OneWire) (r : Nat)
    (hdc : ow.dev_count < 2) (h : oneWire_search hw w ow = some (r, w1, ow1)) :
    ow1.data = ow.data ∧ (∀ s, s ≠ ow.dev_count → ow1.rom s = ow.rom s) ∧
    ((r = 0 ∧ ow1.dev_count = ow.dev_count ∧ ow1.last_disc = 0 ∧ ow1.last_device = 0) ∨
     (r = 1 ∧ ow1.dev_count = ow.dev_count + 1 ∧ ow1.crc8 = 0 ∧ ow1.rom ow.dev_count 0 ≠ 0 ∧
        ow.last_device = 0)) := by
  unfold oneWire_search at h
  have h2 : ¬ (ow.dev_count ≥ ONE_WIRE_DEV_NO) := by
    unfold ONE_WIRE_DEV_NO
    omega
  have hmod : (ow.dev_count + 1) % 256 = ow.dev_count + 1 := by omega
  simp only [h2, if_false] at h
  by_cases hld : ow.last_device = 0
  · simp only [hld, if_true] at h
    by_cases hp : (oneWire_reset hw w).1 = 0
    · simp only [hp, if_true, Option.some.injEq, Prod.mk.injEq] at h
      obtain ⟨hr, _, how⟩ := h
      subst how
      exact ⟨rfl, fun _ _ => rfl, Or.inl ⟨hr.symm, rfl, rfl, rfl⟩⟩
    · simp only [hp, if_false] at h
      cases hloop : searchLoop hw 64
          { id_bit_no := 1, last_zero := 0, rom_byte_no := 0, rom_byte_mask := 1 }
          (oneWire_writeByte hw ONE_WIRE_CMD_SRCH_ROM (oneWire_reset hw w).2)
          { ow with crc8 := 0, last_device := 0 } with
      | none =>
        rw [hloop] at h
        simp at h
      | some res =>
        obtain ⟨l, w2, ow2⟩ := res
        rw [hloop] at h
        obtain ⟨f1, f2, f3, f4, f5⟩ := searchLoop_frame hw 64 _ _ _ _ hloop
        simp only at f1 f2 f3 f4 f5
        simp only at h
        by_cases hok : l.id_bit_no < 64 ∨ ow2.crc8 ≠ 0
        · simp only [hok, not_true_eq_false, if_false, Option.some.injEq] at h
          rcases searchFinish_cases 0 w2 ow2 (by omega) with hc | hc
          · rw [h] at hc
            obtain ⟨hr, how⟩ := hc
            simp only at hr how
            subst how
            exact ⟨f4, f5, Or.inl ⟨hr, f1, rfl, rfl⟩⟩
          · exact absurd hc.2.1 (by decide)
        · simp only [hok, not_false_eq_true, if_true, Option.some.injEq] at h
          push_neg at hok
          have hcrc : ow2.crc8 = 0 := hok.2
          by_cases hz : l.last_zero = 0
          · simp only [hz, if_true] at h
            rcases searchFinish_cases 1 w2
                { ow2 with last_disc := 0, last_device := 1 } (by omega) with hc | hc
            · rw [h] at hc
              obtain ⟨hr, how⟩ := hc
              simp only at hr how
              subst how
              exact ⟨f4, f5, Or.inl ⟨hr, f1, rfl, rfl⟩⟩
            · rw [h] at hc
              obtain ⟨hr, _, hrom, how⟩ := hc
              simp only at hr how hrom
              subst how
              rw [f1] at hrom
              refine ⟨f4, f5, Or.inr ⟨hr, ?_, hcrc, hrom, hld⟩⟩
              show (ow2.dev_count + 1) % 256 = ow.dev_count + 1
              rw [f1, hmod]
          · simp only [hz, if_false] at h
            rcases searchFinish_cases 1 w2 { ow2 with last_disc := l.last_zero } (by omega)
              with hc | hc
            · rw [h] at hc
              obtain ⟨hr, how⟩ := hc
              simp only at hr how
              subst how
              exact ⟨f4, f5, Or.inl ⟨hr, f1, rfl, rfl⟩⟩
            · rw [h] at hc
              obtain ⟨hr, _, hrom, how⟩ := hc
              simp only at hr how hrom
              subst how
              rw [f1] at hrom
              refine ⟨f4, f5, Or.inr ⟨hr, ?_, hcrc, hrom, hld⟩⟩
              show (ow2.dev_count + 1) % 256 = ow.dev_count + 1
              rw [f1, hmod]
  · simp only [hld, if_false, Option.some.injEq] at h
    rcases searchFinish_cases 0 w { ow with crc8 := 0 } (by omega) with hc | hc
    · rw [h] at hc
      obtain ⟨hr, how⟩ := hc
      simp only at hr how
      subst how
      exact ⟨rfl, fun _ _ => rfl, Or.inl ⟨hr, rfl, rfl, rfl⟩⟩
    · exact absurd hc.2.1 (by decide)

theorem search_full {W : Type} (hw : Bus W) (w : W) (ow : OneWire) (hdc : ow.dev_count ≥ 2) :
    oneWire_search hw w ow = some (0, w, { ow with crc8 := 0 }) := by
  unfold oneWire_search
  have h2 : ow.dev_count ≥ ONE_WIRE_DEV_NO := hdc
  simp only [h2, if_true]

/-! ## Facts about the source selection -/

/-- The shift `temp >>= 4` on a signed value is the division by 16 rounding
toward minus infinity. -/
theorem shiftRight_four (y : Int) : y >>> (4 : Int) = y / 16 := by
  cases y with
  | ofNat m =>
    show ((m >>> 4 : Nat) : Int) = (m : Int) / 16
    rw [Nat.shiftRight_eq_div_pow]
    norm_num
  | negSucc m =>
    show Int.negSucc (m >>> 4) = Int.negSucc m / 16
    rw [Nat.shiftRight_eq_div_pow]
    simp only [Int.negSucc_eq]
    push_cast
    omega

/-- The conversion of `temp_readTemp` yields values from -2048 to 2047. -/
theorem convertTemp_range (temp_hi temp_lo : Nat) :
    -2048 ≤ convertTemp temp_hi temp_lo ∧ convertTemp temp_hi temp_lo ≤ 2047 := by
  unfold convertTemp
  generalize (((temp_hi <<< 8 ||| temp_lo : Nat) : Int)) = x
  show -2048 ≤ wrap16 (wrap16 x * 10) >>> 4 ∧ wrap16 (wrap16 x * 10) >>> 4 ≤ 2047
  rw [shiftRight_four]
  generalize wrap16 x * 10 = y
  unfold wrap16
  omega

/-- The source value of channel 2 is the absolute difference when that
difference can be held in `int16_t`. -/
theorem srcTemp_one (g : Globals)
    (h : |g.temp_hist.value 0 - g.temp_hist.value 1| ≤ 32767) :
    srcTemp g 1 = |g.temp_hist.value 0 - g.temp_hist.value 1| := by
  have e : srcTemp g 1 =
      if wrap16 (g.temp_hist.value 0 - g.temp_hist.value 1) < 0 then
        wrap16 (wrap16 (g.temp_hist.value 0 - g.temp_hist.value 1) * -1)
      else wrap16 (g.temp_hist.value 0 - g.temp_hist.value 1) := rfl
  rw [e]
  generalize g.temp_hist.value 0 - g.temp_hist.value 1 = d at h ⊢
  have hd := abs_le.mp h
  have hw : wrap16 d = d := by unfold wrap16; omega
  rw [hw]
  by_cases hneg : d < 0
  · rw [if_pos hneg, abs_of_neg hneg]
    unfold wrap16
    omega
  · rw [if_neg hneg, abs_of_nonneg (by omega)]

/-- The source value of channel 1 is the larger reading with `highOn`, the
smaller one without. -/
theorem srcTemp_zero (g : Globals) :
    srcTemp g 0 = if highOn g 0 then max (g.temp_hist.value 0) (g.temp_hist.value 1)
                  else min (g.temp_hist.value 0) (g.temp_hist.value 1) := by
  have e : srcTemp g 0 =
      if highOn g 0 then
        (if g.temp_hist.value 0 > g.temp_hist.value 1 then g.temp_hist.value 0
         else g.temp_hist.value 1)
      else
        (if g.temp_hist.value 0 < g.temp_hist.value 1 then g.temp_hist.value 0
         else g.temp_hist.value 1) := rfl
  rw [e]
  by_cases hh : highOn g 0 = true
  · simp only [hh, if_true]
    by_cases hc : g.temp_hist.value 0 > g.temp_hist.value 1
    · rw [if_pos hc, max_eq_left (le_of_lt hc)]
    · rw [if_neg hc, max_eq_right (not_lt.mp hc)]
  · rw [if_neg hh, if_neg hh]
    by_cases hc : g.temp_hist.value 0 < g.temp_hist.value 1
    · rw [if_pos hc, min_eq_left (le_of_lt hc)]
    · rw [if_neg hc, min_eq_right (not_lt.mp hc)]

/-- The comparison of `temp_updOutput` for a valid channel is the
specification's hysteresis rule on the source value. -/
theorem decideOutput_spec (g : Globals) (i : Nat) (hv : g.temp_hist.valid i ≠ 0)
    (hon : IsInt8 (g.temp_cfg.para (CFG_PARA_CH1_ON + i)))
    (hoff : IsInt8 (g.temp_cfg.para (CFG_PARA_CH1_OFF + i))) :
    decideOutput g i =
      specHysteresis (10 * g.temp_cfg.para (CFG_PARA_CH1_ON + i))
        (10 * g.temp_cfg.para (CFG_PARA_CH1_OFF + i)) (srcTemp g i) (g.output_data.current i) := by
  have hton : t_on g i = 10 * g.temp_cfg.para (CFG_PARA_CH1_ON + i) := by
    rw [t_on, wrap16_times_ten _ hon, mul_comm]
  have htoff : t_off g i = 10 * g.temp_cfg.para (CFG_PARA_CH1_OFF + i) := by
    rw [t_off, wrap16_times_ten _ hoff, mul_comm]
  unfold decideOutput specHysteresis
  simp only [hv, ne_eq, not_false_eq_true, if_true, highOn, hton, htoff, decide_eq_true_eq]

/-- The polarity flag of `temp_updOutput` in terms of the setpoints. -/
theorem highOn_eq (g : Globals) (i : Nat)
    (hon : IsInt8 (g.temp_cfg.para (CFG_PARA_CH1_ON + i)))
    (hoff : IsInt8 (g.temp_cfg.para (CFG_PARA_CH1_OFF + i))) :
    highOn g i
      = decide (g.temp_cfg.para (CFG_PARA_CH1_ON + i) > g.temp_cfg.para (CFG_PARA_CH1_OFF + i)) := by
  unfold highOn
  rw [t_on, t_off, wrap16_times_ten _ hon, wrap16_times_ten _ hoff]
  apply decide_eq_decide.mpr
  constructor <;> intro h <;> omega

/-! ## Facts about the search on an ideal bus with any number of devices -/

/-- The pair read at a bit position of the ideal bus and the direction
`oneWire_search` derives from it. -/
theorem dir_cases (active : List (Nat → Nat)) (hne : active ≠ []) (p : Nat)
    (l : SearchLocals) (ow : OneWire) (hid : l.id_bit_no = p + 1) (r1 r2 : Nat)
    (hr1 : r1 = if active.all (fun a => addrBit a p) then 1 else 0)
    (hr2 : r2 = if active.all (fun a => !addrBit a p) then 1 else 0) :
    ¬ (r1 = 1 ∧ r2 = 1) ∧
    (searchDirection l ow r1 r2 = 0 ∨ searchDirection l ow r1 r2 = 1) ∧
    (((∀ a, a ∈ active → addrBit a p = decide (searchDirection l ow r1 r2 ≠ 0)) ∧ r1 ≠ r2) ∨
     (r1 = r2 ∧ (∃ a, a ∈ active ∧ addrBit a p = false) ∧
       (∃ b, b ∈ active ∧ addrBit b p = true) ∧
       (ow.last_disc ≤ p → searchDirection l ow r1 r2 = 0) ∧
       (ow.last_disc = p + 1 → searchDirection l ow r1 r2 = 1))) := by
  obtain ⟨x, hx⟩ := List.exists_mem_of_ne_nil active hne
  cases h1 : active.all (fun a => addrBit a p) with
  | true =>
    have hall := List.all_eq_true.mp h1
    have h2 : active.all (fun a => !addrBit a p) = false := by
      rw [List.all_eq_false]
      exact ⟨x, hx, by simp [hall x hx]⟩
    rw [h1] at hr1
    rw [h2] at hr2
    simp only [if_true, Bool.false_eq_true, if_false] at hr1 hr2
    subst hr1
    subst hr2
    have hd : searchDirection l ow 1 0 = 1 := by simp [searchDirection]
    rw [hd]
    refine ⟨by simp, Or.inr rfl, Or.inl ⟨fun a ha => ?_, by decide⟩⟩
    simpa using hall a ha
  | false =>
    obtain ⟨a0, ha0, hb0⟩ := List.all_eq_false.mp h1
    have ha0f : addrBit a0 p = false := by simpa using hb0
    rw [h1] at hr1
    simp only [Bool.false_eq_true, if_false] at hr1
    subst hr1
    cases h2 : active.all (fun a => !addrBit a p) with
    | true =>
      have hall := List.all_eq_true.mp h2
      rw [h2] at hr2
      simp only [if_true] at hr2
      subst hr2
      have hd : searchDirection l ow 0 1 = 0 := by simp [searchDirection]
      rw [hd]
      refine ⟨by simp, Or.inl rfl, Or.inl ⟨fun a ha => ?_, by decide⟩⟩
      simpa using hall a ha
    | false =>
      obtain ⟨b0, hb0m, hb0⟩ := List.all_eq_false.mp h2
      have hb0t : addrBit b0 p = true := by simpa using hb0
      rw [h2] at hr2
      simp only [Bool.false_eq_true, if_false] at hr2
      subst hr2
      refine ⟨by simp, ?_, Or.inr ⟨rfl, ⟨a0, ha0, ha0f⟩, ⟨b0, hb0m, hb0t⟩, ?_, ?_⟩⟩
      · unfold searchDirection
        simp only [ne_eq, not_true_eq_false, if_false]
        split_ifs <;> simp
      · intro hle
        unfold searchDirection
        simp only [ne_eq, not_true_eq_false, if_false, hid]
        rw [if_neg (by omega), if_neg (by omega)]
      · intro heq
        unfold searchDirection
        simp only [ne_eq, not_true_eq_false, if_false, hid]
        rw [if_neg (by omega), if_pos (by omega)]
/-- One loop pass of `oneWire_search` on the ideal bus with any devices. -/
theorem gen_step (devs : List (Nat → Nat)) (hlt : ∀ a, a ∈ devs → ∀ j, j < 8 → a j < 256)
    (ow0 : OneWire) (p : Nat) (hp : p < 64) (lz : Nat) (active : List (Nat → Nat))
    (l : SearchLocals) (w : IdealWorld) (ow : OneWire)
    (h : GenPass devs ow0 p lz active l w ow) :
    ∃ l1 w1 ow1 active1 lz1, searchBody idealBus l w ow = (false, l1, w1, ow1) ∧
      GenPass devs ow0 (p + 1) lz1 active1 l1 w1 ow1 ∧
      StepRel ow0.last_disc p active lz active1 lz1 := by
  obtain ⟨e1, e2, e3⟩ := next_byte_index p
  have hm := h.world_mode hp
  obtain ⟨T0, hT0⟩ := List.exists_mem_of_ne_nil active h.act.nonempty
  have inv0 := h.inv T0 hT0
  have hid : l.id_bit_no = p + 1 := by
    rw [inv0.id_bit_no]
    exact e3
  obtain ⟨r1, hr1d⟩ : ∃ r1, (oneWire_readBit idealBus w).1 = r1 := ⟨_, rfl⟩
  obtain ⟨r2, hr2d⟩ : ∃ r2, (oneWire_readBit idealBus (oneWire_readBit idealBus w).2).1 = r2 :=
    ⟨_, rfl⟩
  obtain ⟨dir, hdird⟩ : ∃ dir, searchDirection l ow r1 r2 = dir := ⟨_, rfl⟩
  obtain ⟨hr1, hr2, hwr⟩ := ideal_search_slots w p active dir hm
  rw [hr1d] at hr1
  rw [hr2d] at hr2
  obtain ⟨hnb, hdir01, hcases⟩ := dir_cases active h.act.nonempty p l ow hid r1 r2 hr1 hr2
  rw [hdird] at hdir01 hcases
  rw [inv0.last_disc] at hcases
  have hmem : ∀ a, a ∈ active.filter (fun a => addrBit a p == decide (dir ≠ 0)) ↔
      a ∈ active ∧ addrBit a p = decide (dir ≠ 0) := by
    intro a
    rw [List.mem_filter, beq_iff_eq]
  have hbit : ∀ T, addrBit T p = decide (dir ≠ 0) → T (p / 8) / 2 ^ (p % 8) % 2 = dir := by
    intro T hT
    have hb : T (p / 8) / 2 ^ (p % 8) % 2 = addrBitNat T p := rfl
    rw [hb, addrBitNat_eq, hT]
    rcases hdir01 with h0 | h1
    · simp [h0]
    · simp [h1]
  have hstep : ∀ T, T ∈ active.filter (fun a => addrBit a p == decide (dir ≠ 0)) →
      ∃ l1 ow1, searchBody idealBus l w ow =
        (false, l1,
          ({ w with mode :=
              if p + 1 < 64 then
                .search (p + 1) 0 (active.filter (fun a => addrBit a p == decide (dir ≠ 0)))
              else .idle } : IdealWorld), ow1) ∧
        SearchInv ow0 T ((p + 1) / 8) ((p + 1) % 8)
          (if r1 = r2 ∧ dir = 0 then p + 1 else lz) l1 ow1 := by
    intro T hT
    obtain ⟨hTa, hTb⟩ := (hmem T).mp hT
    have hTbit := hbit T hTb
    have hnb' : ¬ ((oneWire_readBit idealBus w).1 = 1 ∧
        (oneWire_readBit idealBus (oneWire_readBit idealBus w).2).1 = 1) := by
      rw [hr1d, hr2d]
      exact hnb
    have hdir' : searchDirection l ow (oneWire_readBit idealBus w).1
        (oneWire_readBit idealBus (oneWire_readBit idealBus w).2).1
          = T (p / 8) / 2 ^ (p % 8) % 2 := by
      rw [hr1d, hr2d, hdird, hTbit]
    obtain ⟨l1, ow1, hbody, hinv⟩ :=
      searchBody_step idealBus w (h.inv T hTa) (hlt T (h.act.sub T hTa) _ (by omega)) hnb' hdir'
    rw [hTbit, hwr] at hbody
    rw [e1, e2, e3, hr1d, hr2d, hTbit] at hinv
    exact ⟨l1, ow1, hbody, hinv⟩
  have hne1 : active.filter (fun a => addrBit a p == decide (dir ≠ 0)) ≠ [] := by
    rcases hcases with ⟨hall, _⟩ | ⟨_, ⟨a, ha, haf⟩, ⟨b, hb, hbt⟩, _, _⟩
    · exact List.ne_nil_of_mem ((hmem T0).mpr ⟨hT0, hall T0 hT0⟩)
    · rcases hdir01 with h0 | h1
      · refine List.ne_nil_of_mem ((hmem a).mpr ⟨ha, ?_⟩)
        rw [haf, h0]
        simp
      · refine List.ne_nil_of_mem ((hmem b).mpr ⟨hb, ?_⟩)
        rw [hbt, h1]
        simp
  obtain ⟨T1, hT1⟩ := List.exists_mem_of_ne_nil _ hne1
  obtain ⟨l1, ow1, hbody, _⟩ := hstep T1 hT1
  refine ⟨l1, _, ow1, active.filter (fun a => addrBit a p == decide (dir ≠ 0)),
    if r1 = r2 ∧ dir = 0 then p + 1 else lz, hbody, ⟨⟨hne1, ?_, ?_, ?_⟩, h.world_devs, ?_, ?_⟩,
    ⟨decide (dir ≠ 0), hmem, ?_⟩⟩
  · intro a ha
    exact h.act.sub a ((hmem a).mp ha).1
  · intro a b ha hb i hi
    obtain ⟨ha1, ha2⟩ := (hmem a).mp ha
    obtain ⟨hb1, hb2⟩ := (hmem b).mp hb
    rcases Nat.lt_or_ge i p with hlt' | hge
    · exact h.act.agree a b ha1 hb1 i hlt'
    · have : i = p := by omega
      subst this
      rw [ha2, hb2]
  · intro a b ha hb hab
    obtain ⟨ha1, ha2⟩ := (hmem a).mp ha
    refine (hmem b).mpr ⟨h.act.complete a b ha1 hb (fun i hi => hab i (by omega)), ?_⟩
    rw [← hab p (by omega), ha2]
  · intro h64
    simp only [h64, if_true]
  · intro T hT
    obtain ⟨l1', ow1', hbody', hinv'⟩ := hstep T hT
    rw [hbody] at hbody'
    simp only [Prod.mk.injEq, true_and] at hbody'
    obtain ⟨hl, how⟩ := hbody'
    rw [hl, how]
    exact hinv'
  · rcases hcases with ⟨hall, hne⟩ | ⟨heq, hex0, hex1, hle, hat⟩
    · exact Or.inl ⟨hall, by rw [if_neg (fun hc => hne hc.1)]⟩
    · refine Or.inr ⟨hex0, hex1, fun hl => ?_, fun hl => ?_, ?_⟩
      · rw [hle hl]
        simp
      · rw [hat hl]
        simp
      · rcases hdir01 with h0 | h1
        · simp [heq, h0]
        · simp [heq, h1]
/-- The loop of `oneWire_search` on the ideal bus with any devices runs to
the end of the address and keeps every property `Q` of the devices taking
part and of `last_zero` that each loop pass keeps. -/
theorem gen_loop (devs : List (Nat → Nat)) (hlt : ∀ a, a ∈ devs → ∀ j, j < 8 → a j < 256)
    (ow0 : OneWire) (Q : Nat → List (Nat → Nat) → Nat → Prop)
    (hQ : ∀ p active lz active1 lz1, p < 64 → ActiveInv devs p active → Q p active lz →
      StepRel ow0.last_disc p active lz active1 lz1 → Q (p + 1) active1 lz1) :
    ∀ n p, p + n = 64 → 0 < n → ∀ (l : SearchLocals) (w : IdealWorld) (ow : OneWire)
      (active : List (Nat → Nat)) (lz : Nat),
      GenPass devs ow0 p lz active l w ow → Q p active lz →
      ∃ l1 w1 ow1 active1 lz1, searchLoop idealBus n l w ow = some (l1, w1, ow1) ∧
        GenPass devs ow0 64 lz1 active1 l1 w1 ow1 ∧ Q 64 active1 lz1 := by
  intro n
  induction n with
  | zero => intro p _ h; omega
  | succ n ih =>
    intro p hpn _ l w ow active lz hg hq
    obtain ⟨l1, w1, ow1, active1, lz1, hbody, hg1, hrel⟩ :=
      gen_step devs hlt ow0 p (by omega) lz active l w ow hg
    have hq1 := hQ p active lz active1 lz1 (by omega) hg.act hq hrel
    obtain ⟨T, hT⟩ := List.exists_mem_of_ne_nil active1 hg1.act.nonempty
    have hrb : l1.rom_byte_no = (p + 1) / 8 := (hg1.inv T hT).rom_byte_no
    rcases Nat.eq_zero_or_pos n with hn | hn
    · subst hn
      have hp : p + 1 = 64 := by omega
      rw [hp] at hg1 hq1 hrb
      refine ⟨l1, w1, ow1, active1, lz1, ?_, hg1, hq1⟩
      simp only [searchLoop, hbody, Bool.false_eq_true, if_false, hrb]
      simp
    · obtain ⟨l2, w2, ow2, active2, lz2, hloop, hg2, hq2⟩ :=
        ih (p + 1) (by omega) hn l1 w1 ow1 active1 lz1 hg1 hq1
      refine ⟨l2, w2, ow2, active2, lz2, ?_, hg2, hq2⟩
      have hlt' : l1.rom_byte_no < 8 := by
        rw [hrb]
        omega
      simp only [searchLoop, hbody, Bool.false_eq_true, if_false, hlt', if_true]
      exact hloop

/-- A whole `oneWire_search` call on the ideal bus with any well-formed
devices, entered with room in the store and the last-device flag clear: it
returns 1 with the address of a device of the bus in `rom[dev_count]`. -/
theorem gen_search (devs : List (Nat → Nat)) (hne : devs ≠ [])
    (hvalid : ∀ a, a ∈ devs → ValidAddr a) (w : IdealWorld) (ow : OneWire)
    (hwd : w.devs = devs) (hdc : ow.dev_count < 2) (hlast : ow.last_device = 0)
    (Q : Nat → List (Nat → Nat) → Nat → Prop)
    (hQ : ∀ p active lz active1 lz1, p < 64 → ActiveInv devs p active → Q p active lz →
      StepRel ow.last_disc p active lz active1 lz1 → Q (p + 1) active1 lz1)
    (hQ0 : Q 0 devs 0) :
    ∃ w1 ow1 T active lz, oneWire_search idealBus w ow = some (1, w1, ow1) ∧ w1.devs = devs ∧
      ow1.dev_count = ow.dev_count + 1 ∧ ow1.last_disc = lz ∧
      ow1.last_device = (if lz = 0 then 1 else 0) ∧
      (∀ j, j < 8 → ow1.rom ow.dev_count j = T j) ∧
      (∀ s, s ≠ ow.dev_count → ow1.rom s = ow.rom s) ∧
      T ∈ active ∧ ActiveInv devs 64 active ∧ Q 64 active lz := by
  have hne' : w.devs ≠ [] := by
    rw [hwd]
    exact hne
  have hg0 : GenPass devs { ow with crc8 := 0 } 0 0 devs
      { id_bit_no := 1, last_zero := 0, rom_byte_no := 0, rom_byte_mask := 1 }
      { w with mode := .search 0 0 w.devs } { ow with crc8 := 0 } := by
    refine ⟨⟨hne, fun _ h => h, fun _ _ _ _ i hi => absurd hi (Nat.not_lt_zero i),
      fun _ b _ hb _ => hb⟩, hwd, fun _ => by rw [hwd], fun T _ => ?_⟩
    refine ⟨by decide, rfl, rfl, rfl, rfl, rfl, rfl, rfl, rfl, fun _ _ => rfl, ?_, ?_, rfl⟩
    · intro j hj
      omega
    · simp [Nat.mod_one]
  obtain ⟨l1, w1, ow1, active, lz, hloop, hg, hq⟩ :=
    gen_loop devs (fun a ha => (hvalid a ha).1) { ow with crc8 := 0 } Q hQ 64 0 rfl
      (by decide) _ _ _ devs 0 hg0 hQ0
  obtain ⟨T, hT⟩ := List.exists_mem_of_ne_nil active hg.act.nonempty
  have hinv : SearchInv { ow with crc8 := 0 } T 8 0 lz l1 ow1 := hg.inv T hT
  have hTv := hvalid T (hg.act.sub T hT)
  have hcrc : ow1.crc8 = 0 := by
    rw [hinv.crc]
    exact valid_addr_crc T hTv
  have hidn : l1.id_bit_no = 65 := hinv.id_bit_no
  have hlz : l1.last_zero = lz := hinv.last_zero
  have hrom0 : ow1.rom ow.dev_count 0 = T 0 := hinv.rom_done 0 (by decide)
  have hfam : T 0 ≠ 0 := hTv.2.1
  have hdc1 : ow1.dev_count = ow.dev_count := hinv.dev_count
  have hld1 : ow1.last_device = 0 := hinv.last_device.trans hlast
  have hmod : (ow.dev_count + 1) % 256 = ow.dev_count + 1 := by omega
  have h2 : ¬ (ow.dev_count ≥ ONE_WIRE_DEV_NO) := by
    unfold ONE_WIRE_DEV_NO
    omega
  have hrun : oneWire_search idealBus w ow =
      some (searchFinish 1 w1
        (if l1.last_zero = 0 then { ow1 with last_disc := l1.last_zero, last_device := 1 }
         else { ow1 with last_disc := l1.last_zero })) := by
    unfold oneWire_search
    simp only [h2, if_false]
    rw [if_pos hlast, ideal_reset w hne']
    simp only [one_ne_zero, if_false, ideal_search_command]
    rw [hloop]
    simp only [hidn, hcrc]
    simp
  rw [hrun, hlz]
  by_cases hz : lz = 0
  · refine ⟨w1, { ow1 with last_disc := lz, last_device := 1, dev_count := ow.dev_count + 1 }, T,
      active, lz, ?_, hg.world_devs, rfl, rfl, by rw [if_pos hz], fun j hj => hinv.rom_done j hj,
      fun s hs => hinv.rom_other s hs, hT, hg.act, hq⟩
    simp only [if_pos hz]
    simp [searchFinish, hdc1, hrom0, hfam, hmod]
  · refine ⟨w1, { ow1 with last_disc := lz, dev_count := ow.dev_count + 1 }, T,
      active, lz, ?_, hg.world_devs, rfl, rfl, ?_, fun j hj => hinv.rom_done j hj,
      fun s hs => hinv.rom_other s hs, hT, hg.act, hq⟩
    · simp only [if_neg hz]
      simp [searchFinish, hdc1, hrom0, hfam, hmod]
    · rw [if_neg hz]
      exact hld1
theorem firstPassInv_step (devs : List (Nat → Nat)) (p : Nat) (active : List (Nat → Nat))
    (lz : Nat) (active1 : List (Nat → Nat)) (lz1 : Nat) (_ : p < 64)
    (hact : ActiveInv devs p active) (hq : FirstPassInv devs p active lz)
    (hrel : StepRel 0 p active lz active1 lz1) : FirstPassInv devs (p + 1) active1 lz1 := by
  obtain ⟨dirb, hmem, hcase⟩ := hrel
  rcases hcase with ⟨hall, hlz⟩ | ⟨_, ⟨b, hb, hbt⟩, hle, _, hlz⟩
  · have hsame : ∀ a, a ∈ active → a ∈ active1 := fun a ha => (hmem a).mpr ⟨ha, hall a ha⟩
    subst hlz
    refine ⟨fun h0 a ha => hsame a (hq.1 h0 a ha), fun hn => ?_⟩
    obtain ⟨d, U, h1, h2, h3, h4, h5⟩ := hq.2 hn
    exact ⟨d, U, h1, by omega, h3, h4, fun a ha => h5 a ((hmem a).mp ha).1⟩
  · have hdb : dirb = false := hle (Nat.zero_le p)
    subst hdb
    simp only [Bool.false_eq_true, if_false] at hlz
    subst hlz
    refine ⟨fun h0 => absurd h0 (Nat.succ_ne_zero p), fun _ => ?_⟩
    refine ⟨p, b, rfl, by omega, hact.sub b hb, hbt, fun a ha => ?_⟩
    obtain ⟨ha1, ha2⟩ := (hmem a).mp ha
    exact ⟨ha2, hact.agree a b ha1 hb⟩

theorem nextPassInv_step (devs : List (Nat → Nat)) (T1 U : Nat → Nat) (d : Nat)
    (hU : U ∈ devs) (hT1d : addrBit T1 d = false) (hUd : addrBit U d = true)
    (hTU : AgreeTo T1 U d)
    (p : Nat) (active : List (Nat → Nat))
    (lz : Nat) (active1 : List (Nat → Nat)) (lz1 : Nat) (_ : p < 64)
    (hact : ActiveInv devs p active) (hq : NextPassInv T1 d p active lz)
    (hrel : StepRel (d + 1) p active lz active1 lz1) : NextPassInv T1 d (p + 1) active1 lz1 := by
  obtain ⟨dirb, hmem, hcase⟩ := hrel
  rcases hq with ⟨hT1, hpd⟩ | ⟨i, hi, hdiff⟩
  · by_cases hb : addrBit T1 p = dirb
    · have hne : p ≠ d := by
        intro hpd'
        subst hpd'
        have hUa : U ∈ active := hact.complete T1 U hT1 hU hTU
        rw [hT1d] at hb
        subst hb
        rcases hcase with ⟨hall, _⟩ | ⟨_, _, _, hat, _⟩
        · have := hall U hUa
          rw [hUd] at this
          exact Bool.noConfusion this
        · exact Bool.noConfusion (hat rfl)
      exact Or.inl ⟨(hmem T1).mpr ⟨hT1, hb⟩, by omega⟩
    · refine Or.inr ⟨p, by omega, fun a ha => ?_⟩
      rw [((hmem a).mp ha).2]
      exact fun h => hb h.symm
  · exact Or.inr ⟨i, by omega, fun a ha => hdiff a ((hmem a).mp ha).1⟩

theorem addrBit_ne_byte (a b : Nat → Nat) (i : Nat) (h : addrBit a i ≠ addrBit b i) :
    a (i / 8) ≠ b (i / 8) := by
  intro heq
  apply h
  unfold addrBit
  rw [heq]

/-- The start-up discovery on the ideal bus: with at least two devices of
different addresses, all well formed, it ends after `oneWire_findFirst` and
two calls of `oneWire_findNext` with two different device addresses stored. -/
theorem ideal_discovery (devs : List (Nat → Nat)) (hvalid : ∀ a, a ∈ devs → ValidAddr a)
    (A B : Nat → Nat) (hA : A ∈ devs) (hB : B ∈ devs) (hAB : ∃ j, j < 8 ∧ A j ≠ B j)
    (w : IdealWorld) (hwd : w.devs = devs) (ow : OneWire) (fuel : Nat) (hfuel : 2 ≤ fuel) :
    ∃ w1 ow1 T1 T2, startupDiscovery idealBus fuel w ow = some (w1, ow1) ∧
      ow1.dev_count = 2 ∧ T1 ∈ devs ∧ T2 ∈ devs ∧
      (∀ j, j < 8 → ow1.rom 0 j = T1 j) ∧ (∀ j, j < 8 → ow1.rom 1 j = T2 j) ∧
      (∃ j, j < 8 ∧ T1 j ≠ T2 j) := by
  have hne : devs ≠ [] := List.ne_nil_of_mem hA
  obtain ⟨dAB, hdAB, _, hdiffAB⟩ :=
    exists_first_diff A B (hvalid A hA).1 (hvalid B hB).1 hAB
  -- first pass
  obtain ⟨w1, ow1, T1, act1, lz, hs1, hw1, hdc1, hld1, hlast1, hrom1, _, hT1a, hact1, hq1⟩ :=
    gen_search devs hne hvalid w { ow with dev_count := 0, last_device := 0, last_disc := 0 }
      hwd (show 0 < 2 by decide) rfl (FirstPassInv devs)
      (fun p active lz active1 lz1 hp hact hq hrel =>
        firstPassInv_step devs p active lz active1 lz1 hp hact hq hrel)
      ⟨fun _ a ha => ha, fun h => absurd rfl h⟩
  have hlz : lz ≠ 0 := by
    intro h0
    have hAa := hq1.1 h0 A hA
    have hBa := hq1.1 h0 B hB
    exact hdiffAB (hact1.agree A B hAa hBa dAB hdAB)
  obtain ⟨d, U, hlzd, hd, hU, hUd, hall⟩ := hq1.2 hlz
  obtain ⟨hT1d, hTU⟩ := hall T1 hT1a
  have hT1 : T1 ∈ devs := hact1.sub T1 hT1a
  have hdc1' : ow1.dev_count = 1 := hdc1
  rw [if_neg hlz] at hlast1
  -- second pass
  obtain ⟨w2, ow2, T2, act2, lz2, hs2, hw2, hdc2, _, _, hrom2, hkeep2, hT2a, hact2, hq2⟩ :=
    gen_search devs hne hvalid w1 ow1 hw1 (by omega) hlast1 (NextPassInv T1 d)
      (fun p active lz' active1 lz1 hp hact hq hrel =>
        nextPassInv_step devs T1 U d hU hT1d hUd hTU p active lz' active1 lz1 hp hact hq
          (by rw [hld1, hlzd] at hrel; exact hrel))
      (Or.inl ⟨hT1, Nat.zero_le d⟩)
  rw [hdc1'] at hdc2 hrom2 hkeep2
  have hT2 : T2 ∈ devs := hact2.sub T2 hT2a
  have hdiff : ∃ j, j < 8 ∧ T1 j ≠ T2 j := by
    rcases hq2 with ⟨_, h64⟩ | ⟨i, hi, hne'⟩
    · omega
    · exact ⟨i / 8, by omega, fun h => addrBit_ne_byte T2 T1 i (hne' T2 hT2a) h.symm⟩
  have hrom0 : ∀ j, j < 8 → ow2.rom 0 j = T1 j := by
    intro j hj
    rw [hkeep2 0 (by decide)]
    exact hrom1 j hj
  have hs3 : oneWire_findNext idealBus w2 ow2 = some (0, w2, { ow2 with crc8 := 0 }) :=
    search_full idealBus w2 ow2 (by rw [hdc2])
  refine ⟨w2, { ow2 with crc8 := 0 }, T1, T2, ?_, hdc2, hT1, hT2, hrom0, hrom2, hdiff⟩
  obtain ⟨f, rfl⟩ : ∃ f, fuel = f + 2 := ⟨fuel - 2, by omega⟩
  have hff : oneWire_findFirst idealBus w ow = some (1, w1, ow1) := hs1
  have hfn : oneWire_findNext idealBus w1 ow1 = some (1, w2, ow2) := hs2
  simp [startupDiscovery, findNextLoop, hff, hfn, hs3]

/-! ## Facts about the output port -/

theorem writePort_eq (od : OutputData) (i : Nat) (portc : Nat) :
    writePort od i portc =
      if od.reg1 i ≠ 0 then (portc ||| OUTPUT_CHx_BIT i) % 256
      else portc &&& (0xFF ^^^ OUTPUT_CHx_BIT i) := rfl

set_option maxRecDepth 1000000 in
/-- Setting or clearing PC4 and then PC5 in an 8-bit port value: the two
bits take the requested values, the six others keep theirs. -/
theorem port_bits_table :
    ∀ p, p < 256 → ∀ a b : Bool,
      ((if b then ((if a then (p ||| 16) % 256 else p &&& (0xFF ^^^ 16)) ||| 32) % 256
        else (if a then (p ||| 16) % 256 else p &&& (0xFF ^^^ 16)) &&& (0xFF ^^^ 32)) < 256) ∧
      ∀ k, k < 8 →
        (if b then ((if a then (p ||| 16) % 256 else p &&& (0xFF ^^^ 16)) ||| 32) % 256
         else (if a then (p ||| 16) % 256 else p &&& (0xFF ^^^ 16)) &&& (0xFF ^^^ 32)) / 2 ^ k % 2
          = if k = 4 then (if a then 1 else 0) else if k = 5 then (if b then 1 else 0)
            else p / 2 ^ k % 2 := by
  decide

/-- The port value after `temp_updOutput` is the port value before with PC4
and PC5 replaced according to the stage-1 registers after the delay loop. -/
theorem updOutput_port (g : Globals) :
    (temp_updOutput g).PORTC =
      (if decide ((temp_updOutput g).output_data.reg1 1 ≠ 0) then
        ((if decide ((temp_updOutput g).output_data.reg1 0 ≠ 0) then (g.PORTC ||| 16) % 256
          else g.PORTC &&& (0xFF ^^^ 16)) ||| 32) % 256
       else (if decide ((temp_updOutput g).output_data.reg1 0 ≠ 0) then (g.PORTC ||| 16) % 256
          else g.PORTC &&& (0xFF ^^^ 16)) &&& (0xFF ^^^ 32)) := by
  show writePort (temp_updOutput g).output_data 1
    (writePort (temp_updOutput g).output_data 0 g.PORTC) = _
  rw [writePort_eq, writePort_eq]
  have h0 : OUTPUT_CHx_BIT 0 = 16 := by decide
  have h1 : OUTPUT_CHx_BIT 1 = 32 := by decide
  rw [h0, h1]
  by_cases ha : (temp_updOutput g).output_data.reg1 0 ≠ 0 <;>
    by_cases hb : (temp_updOutput g).output_data.reg1 1 ≠ 0 <;> simp [ha, hb]

theorem high_bits_zero (x k : Nat) (hx : x < 256) (hk : 8 ≤ k) : x / 2 ^ k % 2 = 0 := by
  have h : x / 2 ^ k = 0 := by
    apply Nat.div_eq_of_lt
    calc x < 2 ^ 8 := hx
      _ ≤ 2 ^ k := Nat.pow_le_pow_right (by decide) hk
  rw [h]

/-! ## Facts about the counter ranges -/

theorem incrSeconds_hours (h : TempHist) :
    (temp_incrSeconds h).2.hours = h.hours ∨
      (h.hours < 23 ∧ (temp_incrSeconds h).2.hours = h.hours + 1) := by
  unfold temp_incrSeconds
  simp only
  split_ifs with h1 h2 h3 h4 h5 h6 h7 h8 <;>
    first
    | exact Or.inl rfl
    | exact Or.inr ⟨by assumption, rfl⟩

theorem incrSeconds_other (h : TempHist) :
    (temp_incrSeconds h).2.index = h.index ∧ (temp_incrSeconds h).2.min_array = h.min_array ∧
    (temp_incrSeconds h).2.max_array = h.max_array ∧
    (temp_incrSeconds h).2.hours ≤ max h.hours 23 ∧
    ((temp_incrSeconds h).2.add_sec = 0 ∨
      (temp_incrSeconds h).2.add_sec = (h.add_sec + 1) % 256 ∧ (h.add_sec + 1) % 256 < 2) := by
  refine ⟨?_, ?_, ?_, ?_, ?_⟩
  · unfold temp_incrSeconds
    simp only
    split_ifs <;> rfl
  · unfold temp_incrSeconds
    simp only
    split_ifs <;> rfl
  · unfold temp_incrSeconds
    simp only
    split_ifs <;> rfl
  · rcases incrSeconds_hours h with e | ⟨hlt, e⟩
    · rw [e]
      exact le_max_left _ _
    · rw [e]
      exact le_trans (by omega) (le_max_right _ _)
  · rw [incrSeconds_add_sec]
    by_cases ha : (h.add_sec + 1) % 256 ≥ 2
    · exact Or.inl (if_pos ha)
    · exact Or.inr ⟨if_neg ha, by omega⟩

theorem updHist_clock (h : TempHist) :
    (temp_updHistMinMax h).seconds = h.seconds ∧ (temp_updHistMinMax h).minutes = h.minutes ∧
    (temp_updHistMinMax h).hours = h.hours ∧ (temp_updHistMinMax h).add_sec = h.add_sec ∧
    (temp_updHistMinMax h).index ≤ 23 := by
  refine ⟨rfl, rfl, rfl, rfl, ?_⟩
  unfold temp_updHistMinMax
  simp only
  split_ifs <;> omega

theorem updCur_body_clock (id i : Nat) (h : TempHist) :
    (updCurMinMax_body id i h).seconds = h.seconds ∧
    (updCurMinMax_body id i h).minutes = h.minutes ∧
    (updCurMinMax_body id i h).hours = h.hours ∧
    (updCurMinMax_body id i h).add_sec = h.add_sec := by
  unfold updCurMinMax_body
  simp only
  split_ifs <;> exact ⟨rfl, rfl, rfl, rfl⟩

theorem updCur_clock (h : TempHist) :
    (temp_updCurMinMax h).seconds = h.seconds ∧ (temp_updCurMinMax h).minutes = h.minutes ∧
    (temp_updCurMinMax h).hours = h.hours ∧ (temp_updCurMinMax h).add_sec = h.add_sec := by
  unfold temp_updCurMinMax loop2
  obtain ⟨a0, b0, c0, d0⟩ := updCur_body_clock h.index 0 h
  obtain ⟨a1, b1, c1, d1⟩ := updCur_body_clock h.index 1 (updCurMinMax_body h.index 0 h)
  exact ⟨a1.trans a0, b1.trans b0, c1.trans c0, d1.trans d0⟩

/-! ## Facts about the last-device flag -/

/-- A call of `oneWire_search` with the last-device flag set and room in
the store: no walk, the discovery state is reset, 0 is returned. -/
theorem search_after_last {W : Type} (hw : Bus W) (w : W) (ow : OneWire)
    (hdc : ow.dev_count < 2) (hlast : ow.last_device ≠ 0) :
    oneWire_search hw w ow
      = some (0, w, { ow with crc8 := 0, last_device := 0, last_disc := 0 }) := by
  have h2 : ¬ (ow.dev_count ≥ ONE_WIRE_DEV_NO) := by
    unfold ONE_WIRE_DEV_NO
    omega
  unfold oneWire_search
  simp only [h2, if_false, hlast, searchFinish, true_or, if_true]

/-- The search looks at `crc8`, `last_disc` and `last_device` of the state
it is entered with only after clearing `crc8`. -/
theorem search_crc_irrelevant {W : Type} (hw : Bus W) (w : W) (ow : OneWire) (c : Nat) :
    oneWire_search hw w { ow with crc8 := c } = oneWire_search hw w ow := rfl
theorem getLast_append_getD (xs ys : List Nat) (d : Nat) :
    (xs ++ ys).getLast?.getD d = ys.getLast?.getD (xs.getLast?.getD d) := by
  rw [List.getLast?_append]
  cases ys.getLast? <;> rfl

/-- What one loop pass that does not break does to the locals `id_bit_no`
and `last_zero`. -/
theorem searchBody_locals {W : Type} (hw : Bus W) (l : SearchLocals) (w : W) (ow : OneWire)
    (hnb : (searchBody hw l w ow).1 = false) :
    ¬ ((oneWire_readBit hw w).1 = 1 ∧ (oneWire_readBit hw (oneWire_readBit hw w).2).1 = 1) ∧
    (searchBody hw l w ow).2.1.id_bit_no = l.id_bit_no + 1 ∧
    (searchBody hw l w ow).2.1.last_zero =
      if (oneWire_readBit hw w).1 = (oneWire_readBit hw (oneWire_readBit hw w).2).1 ∧
          searchDirection l ow (oneWire_readBit hw w).1
            (oneWire_readBit hw (oneWire_readBit hw w).2).1 = 0
      then l.id_bit_no else l.last_zero := by
  by_cases h11 : (oneWire_readBit hw w).1 = 1 ∧
      (oneWire_readBit hw (oneWire_readBit hw w).2).1 = 1
  · unfold searchBody at hnb
    simp only [h11, and_self, if_true] at hnb
    exact absurd hnb (by decide)
  · refine ⟨h11, ?_, ?_⟩
    · unfold searchBody
      simp only [h11, if_false]
      unfold searchAdvance
      split_ifs <;> rfl
    · unfold searchBody
      simp only [h11, if_false]
      unfold searchAdvance
      split_ifs <;> rfl

/-- A loop pass that breaks leaves the locals as they were. -/
theorem searchBody_break {W : Type} (hw : Bus W) (l : SearchLocals) (w : W) (ow : OneWire)
    (hb : (searchBody hw l w ow).1 = true) :
    ((oneWire_readBit hw w).1 = 1 ∧ (oneWire_readBit hw (oneWire_readBit hw w).2).1 = 1) ∧
    (searchBody hw l w ow).2.1 = l := by
  by_cases h11 : (oneWire_readBit hw w).1 = 1 ∧
      (oneWire_readBit hw (oneWire_readBit hw w).2).1 = 1
  · refine ⟨h11, ?_⟩
    unfold searchBody
    simp only [h11, and_self, if_true]
  · unfold searchBody at hb
    simp only [h11, if_false] at hb
    exact absurd hb (by decide)

/-- The local `last_zero` after the loop of `oneWire_search` is the last
position at which a 0 was picked at a discrepancy, or its initial value when
there was none. -/
theorem zeroChoices_last {W : Type} (hw : Bus W) :
    ∀ n (l : SearchLocals) (w : W) (ow : OneWire) (l1 : SearchLocals) (w1 : W) (ow1 : OneWire),
      searchLoop hw n l w ow = some (l1, w1, ow1) →
      (∀ x, x ∈ zeroChoices hw n l w ow → l.id_bit_no ≤ x) ∧
      l1.last_zero = (zeroChoices hw n l w ow).getLast?.getD l.last_zero := by
  intro n
  induction n with
  | zero => intro l w ow l1 w1 ow1 h; simp [searchLoop] at h
  | succ n ih =>
    intro l w ow l1 w1 ow1 h
    simp only [searchLoop] at h
    simp only [zeroChoices]
    by_cases hb : (searchBody hw l w ow).1 = true
    · obtain ⟨h11, hl⟩ := searchBody_break hw l w ow hb
      rw [if_pos hb] at h
      simp only [Option.some.injEq] at h
      have hl1 : l1 = l := by
        rw [← hl, h]
      simp only [hb, if_true, h11, and_self, not_true_eq_false, false_and, if_false]
      subst hl1
      exact ⟨fun x hx => absurd hx (List.not_mem_nil x), rfl⟩
    · have hb' : (searchBody hw l w ow).1 = false := by
        cases hv : (searchBody hw l w ow).1
        · rfl
        · exact absurd hv hb
      obtain ⟨h11, hid, hlz⟩ := searchBody_locals hw l w ow hb'
      rw [if_neg hb] at h
      simp only [hb', Bool.false_eq_true, if_false, h11, not_false_eq_true, true_and]
      by_cases hlt : (searchBody hw l w ow).2.1.rom_byte_no < 8
      · rw [if_pos hlt] at h
        rw [if_pos hlt]
        obtain ⟨hge, hlast⟩ := ih _ _ _ l1 w1 ow1 h
        rw [hid] at hge
        rw [hlast, hlz, getLast_append_getD]
        refine ⟨fun x hx => ?_, ?_⟩
        · rcases List.mem_append.mp hx with hx1 | hx2
          · split_ifs at hx1 with hc
            · simp only [List.mem_singleton] at hx1
              omega
            · exact absurd hx1 (List.not_mem_nil x)
          · have := hge x hx2
            omega
        · split_ifs <;> rfl
      · rw [if_neg hlt] at h
        rw [if_neg hlt]
        simp only [Option.some.injEq] at h
        have hl1 : l1 = (searchBody hw l w ow).2.1 := by rw [h]
        rw [hl1, hlz]
        refine ⟨fun x hx => ?_, ?_⟩
        · split_ifs at hx with hc
          · simp only [List.mem_singleton] at hx
            omega
          · exact absurd hx (List.not_mem_nil x)
        · split_ifs <;> rfl

/-- A successful `oneWire_search`: the walk was made, and the discovery
state afterwards is set from the local `last_zero` after the loop. -/
theorem search_success_flag {W : Type} (hw : Bus W) (w w1 : W) (ow ow1 : OneWire) (r : Nat)
    (hr : r ≠ 0) (hret : oneWire_search hw w ow = some (r, w1, ow1)) :
    ow.dev_count < 2 ∧ ow.last_device = 0 ∧
    ∃ l w2 ow2, searchLoop hw 64 searchInit (searchStart hw w) { ow with crc8 := 0 }
        = some (l, w2, ow2) ∧
      ow1.last_disc = l.last_zero ∧ ow1.last_device = (if l.last_zero = 0 then 1 else 0) := by
  unfold oneWire_search at hret
  simp only at hret
  by_cases h2 : ow.dev_count ≥ ONE_WIRE_DEV_NO
  · rw [if_pos h2] at hret
    simp only [Option.some.injEq, Prod.mk.injEq] at hret
    exact absurd hret.1.symm hr
  · rw [if_neg h2] at hret
    have hdc : ow.dev_count < 2 := by
      unfold ONE_WIRE_DEV_NO at h2
      omega
    by_cases hlast : ow.last_device = 0
    · rw [if_pos hlast] at hret
      by_cases hres : (oneWire_reset hw w).1 = 0
      · rw [if_pos hres] at hret
        simp only [Option.some.injEq, Prod.mk.injEq] at hret
        exact absurd hret.1.symm hr
      · rw [if_neg hres] at hret
        refine ⟨hdc, hlast, ?_⟩
        have hloopdef : searchLoop hw 64 searchInit (searchStart hw w) { ow with crc8 := 0 }
            = searchLoop hw 64
                { id_bit_no := 1, last_zero := 0, rom_byte_no := 0, rom_byte_mask := 1 }
                (oneWire_writeByte hw ONE_WIRE_CMD_SRCH_ROM (oneWire_reset hw w).2)
                { ow with crc8 := 0 } := rfl
        rw [hloopdef]
        cases hloop : searchLoop hw 64
            { id_bit_no := 1, last_zero := 0, rom_byte_no := 0, rom_byte_mask := 1 }
            (oneWire_writeByte hw ONE_WIRE_CMD_SRCH_ROM (oneWire_reset hw w).2)
            { ow with crc8 := 0 } with
        | none =>
          rw [hloop] at hret
          simp at hret
        | some res =>
          obtain ⟨l, w2, ow2⟩ := res
          rw [hloop] at hret
          simp only at hret
          refine ⟨l, w2, ow2, rfl, ?_⟩
          have hld : ow2.last_device = 0 := by
            have hf := searchLoop_frame hw 64 _ _ _ _ hloop
            exact hf.2.1.trans hlast
          by_cases hok : ¬ (l.id_bit_no < 64 ∨ ow2.crc8 ≠ 0)
          · rw [if_pos hok] at hret
            unfold searchFinish at hret
            split_ifs at hret with hz hfin hfin
            · simp only [Option.some.injEq, Prod.mk.injEq] at hret
              exact absurd hret.1.symm hr
            · simp only [Option.some.injEq, Prod.mk.injEq] at hret
              obtain ⟨_, _, how⟩ := hret
              subst how
              have hz' : l.last_zero = 0 := hz
              simp [hz']
            · simp only [Option.some.injEq, Prod.mk.injEq] at hret
              exact absurd hret.1.symm hr
            · simp only [Option.some.injEq, Prod.mk.injEq] at hret
              obtain ⟨_, _, how⟩ := hret
              subst how
              have hz' : ¬ l.last_zero = 0 := hz
              simp [hz', hld]
          · rw [if_neg hok] at hret
            unfold searchFinish at hret
            simp only [true_or, if_true, Option.some.injEq, Prod.mk.injEq] at hret
            exact absurd hret.1.symm hr
    · rw [if_neg hlast] at hret
      unfold searchFinish at hret
      simp only [true_or, if_true, Option.some.injEq, Prod.mk.injEq] at hret
      exact absurd hret.1.symm hr
/-- The first search on the ideal bus with one well-formed device finds it
and sets the last-device flag. -/
theorem single_device_first (T : Nat → Nat) (hT : ValidAddr T) (w : IdealWorld)
    (hwd : w.devs = [T]) (ow : OneWire) :
    ∃ w1 ow1, oneWire_findFirst idealBus w ow = some (1, w1, ow1) ∧ w1.devs = [T] ∧
      ow1.dev_count = 1 ∧ ow1.last_disc = 0 ∧ ow1.last_device = 1 ∧
      (∀ j, j < 8 → ow1.rom 0 j = T j) ∧ (∀ s, s ≠ 0 → ow1.rom s = ow.rom s) := by
  have hvalid : ∀ a, a ∈ [T] → ValidAddr a := by
    intro a ha
    rw [List.mem_singleton.mp ha]
    exact hT
  obtain ⟨w1, ow1, T1, act, lz, hs, hw1, hdc, hld, hlast, hrom, hkeep, hT1, hact, hq⟩ :=
    gen_search [T] (by simp) hvalid w { ow with dev_count := 0, last_device := 0, last_disc := 0 }
      hwd (show 0 < 2 by decide) rfl (fun _ _ lz => lz = 0)
      (fun p active lz active1 lz1 _ hact hq hrel => by
        obtain ⟨dirb, _, hcase⟩ := hrel
        rcases hcase with ⟨_, hlz⟩ | ⟨⟨a, ha, haf⟩, ⟨b, hb, hbt⟩, _⟩
        · rw [hlz]
          exact hq
        · have ea := List.mem_singleton.mp (hact.sub a ha)
          have eb := List.mem_singleton.mp (hact.sub b hb)
          rw [ea] at haf
          rw [eb, haf] at hbt
          exact Bool.noConfusion hbt)
      rfl
  have hlz : lz = 0 := hq
  have hT1' : T1 = T := List.mem_singleton.mp (hact.sub T1 hT1)
  subst hT1'
  refine ⟨w1, ow1, hs, hw1, hdc, ?_, ?_, hrom, hkeep⟩
  · rw [hld, hlz]
  · rw [hlast, if_pos hlz]
/-! ## Facts about the device selection -/

theorem writeByte_fold {W : Type} (hw : Bus W) (b : Nat) (w : W) :
    oneWire_writeByte hw b w = (byteSamples b).foldl (fun w' bit => hw.writeSlot bit w') w :=
  writeByte_loop_slots hw 8 b w

/-- Write slots on the recording bus: the bus underneath gets the same
slots, the record grows by them. -/
theorem trace_write_fold {W : Type} (hw : Bus W) (bits : List Bool) :
    ∀ (w : W) (t : List BusEvent),
      bits.foldl (fun s b => (traceBus hw).writeSlot b s) (w, t)
        = (bits.foldl (fun w' b => hw.writeSlot b w') w, t ++ bits.map BusEvent.write) := by
  induction bits with
  | nil => intro w t; simp
  | cons b bs ih =>
    intro w t
    simp only [List.foldl_cons, List.map_cons]
    have h1 : (traceBus hw).writeSlot b (w, t) = (hw.writeSlot b w, t ++ [BusEvent.write b]) := rfl
    rw [h1, ih]
    simp

/-- The function `oneWire_selectDev` in terms of bus operations. -/
theorem selectDev_eq {W : Type} (hw : Bus W) (dev : Nat) (w : W) (ow : OneWire) :
    oneWire_selectDev hw dev w ow =
      if (hw.resetPulse w).1 = false then
        (1, (selectSamples ow dev).foldl (fun w' b => hw.writeSlot b w') (hw.resetPulse w).2)
      else (0, (hw.resetPulse w).2) := by
  unfold oneWire_selectDev oneWire_reset
  by_cases hp : (hw.resetPulse w).1 = false
  · simp only [hp, if_true, one_ne_zero, if_false]
    congr 1
    simp only [forLoop, writeByte_fold]
    unfold selectSamples
    have hr : (List.range 8).map (ow.rom dev)
        = [ow.rom dev 0, ow.rom dev 1, ow.rom dev 2, ow.rom dev 3, ow.rom dev 4, ow.rom dev 5,
           ow.rom dev 6, ow.rom dev 7] := rfl
    rw [hr]
    simp only [scratchSamples, List.foldl_append, List.append_nil, List.foldl_nil]
  · have hp' : (hw.resetPulse w).1 = true := by
      cases h : (hw.resetPulse w).1
      · exact absurd h hp
      · rfl
    simp [hp']

/-! ## Facts about the menu -/

theorem wrap8_id (x : Int) (h : IsInt8 x) : wrap8 x = x := by
  unfold IsInt8 at h
  unfold wrap8
  omega

theorem menu_incr_spec (val cmp mn mx : Int) (hmn : IsInt8 mn) (hmx : IsInt8 mx) (hlt : mn < mx)
    (hv : mn ≤ val ∧ val ≤ mx) :
    mn ≤ menu_incr val cmp mx ∧ menu_incr val cmp mx ≤ mx ∧ menu_incr val cmp mx ≠ cmp := by
  unfold IsInt8 at hmn hmx
  unfold menu_incr
  simp only
  by_cases h1 : val < mx
  · rw [if_pos h1, wrap8_id (val + 1) ⟨by omega, by omega⟩]
    by_cases h2 : val + 1 = cmp
    · rw [if_pos h2]
      by_cases h3 : val + 1 < mx
      · rw [if_pos h3, wrap8_id (cmp + 1) ⟨by omega, by omega⟩]
        omega
      · rw [if_neg h3, wrap8_id (mx - 1) ⟨by omega, by omega⟩]
        omega
    · rw [if_neg h2]
      omega
  · rw [if_neg h1]
    by_cases h2 : val = cmp
    · rw [if_pos h2, if_neg (by omega), wrap8_id (mx - 1) ⟨by omega, by omega⟩]
      omega
    · rw [if_neg h2]
      omega

theorem menu_decr_spec (val cmp mn mx : Int) (hmn : IsInt8 mn) (hmx : IsInt8 mx) (hlt : mn < mx)
    (hv : mn ≤ val ∧ val ≤ mx) :
    mn ≤ menu_decr val cmp mn ∧ menu_decr val cmp mn ≤ mx ∧ menu_decr val cmp mn ≠ cmp := by
  unfold IsInt8 at hmn hmx
  unfold menu_decr
  simp only
  by_cases h1 : val > mn
  · rw [if_pos h1, wrap8_id (val - 1) ⟨by omega, by omega⟩]
    by_cases h2 : val - 1 = cmp
    · rw [if_pos h2]
      by_cases h3 : val - 1 > mn
      · rw [if_pos h3, wrap8_id (cmp - 1) ⟨by omega, by omega⟩]
        omega
      · rw [if_neg h3, wrap8_id (mn + 1) ⟨by omega, by omega⟩]
        omega
    · rw [if_neg h2]
      omega
  · rw [if_neg h1]
    by_cases h2 : val = cmp
    · rw [if_pos h2, if_neg (by omega), wrap8_id (mn + 1) ⟨by omega, by omega⟩]
      omega
    · rw [if_neg h2]
      omega

/-- The rows of the four edit menus: the parameter edited and the one it is
compared with are the two setpoints of one channel, the limits are those of
the channel, and the UP and DOWN keys have no follow-up menu. -/
theorem edit_rows (m : Nat) (h1 : MENU_EDIT_CH1_ON ≤ m) (h2 : m ≤ MENU_EDIT_CH2_OFF) :
    (menu_setup_tab m).menu_key_up = MENU_NO ∧ (menu_setup_tab m).menu_key_down = MENU_NO ∧
    (menu_setup_tab m).para < CFG_PARA_END ∧ (menu_setup_tab m).para_cmp < CFG_PARA_END ∧
    (menu_setup_tab m).para ≠ (menu_setup_tab m).para_cmp ∧
    ((menu_setup_tab m).para + 2 = (menu_setup_tab m).para_cmp ∨
      (menu_setup_tab m).para_cmp + 2 = (menu_setup_tab m).para) ∧
    IsInt8 (menu_setup_tab m).para_min ∧ IsInt8 (menu_setup_tab m).para_max ∧
    (menu_setup_tab m).para_min < (menu_setup_tab m).para_max ∧
    (((menu_setup_tab m).para = CFG_PARA_CH1_ON ∨ (menu_setup_tab m).para = CFG_PARA_CH1_OFF) →
      (menu_setup_tab m).para_min = -10 ∧ (menu_setup_tab m).para_max = 100) ∧
    (((menu_setup_tab m).para = CFG_PARA_CH2_ON ∨ (menu_setup_tab m).para = CFG_PARA_CH2_OFF) →
      (menu_setup_tab m).para_min = 0 ∧ (menu_setup_tab m).para_max = 100) := by
  unfold MENU_EDIT_CH1_ON at h1
  unfold MENU_EDIT_CH2_OFF at h2
  interval_cases m <;> decide

/-- The parameters after `menu_printMenu` handled the UP or DOWN key in an
edit menu. -/
theorem printMenu_edit (h : TempHist) (s : UiState) (hch : s.menu_cfg.changed ≠ 0)
    (h1 : MENU_EDIT_CH1_ON ≤ s.menu_cfg.menu) (h2 : s.menu_cfg.menu ≤ MENU_EDIT_CH2_OFF) :
    (s.menu_cfg.key = MENU_KEY_UP →
      (menu_printMenu h s).temp_cfg.para =
        setAt s.temp_cfg.para (menu_setup_tab s.menu_cfg.menu).para
          (menu_incr (s.temp_cfg.para (menu_setup_tab s.menu_cfg.menu).para)
            (s.temp_cfg.para (menu_setup_tab s.menu_cfg.menu).para_cmp)
            (menu_setup_tab s.menu_cfg.menu).para_max)) ∧
    (s.menu_cfg.key = MENU_KEY_DOWN →
      (menu_printMenu h s).temp_cfg.para =
        setAt s.temp_cfg.para (menu_setup_tab s.menu_cfg.menu).para
          (menu_decr (s.temp_cfg.para (menu_setup_tab s.menu_cfg.menu).para)
            (s.temp_cfg.para (menu_setup_tab s.menu_cfg.menu).para_cmp)
            (menu_setup_tab s.menu_cfg.menu).para_min)) := by
  obtain ⟨hup, hdown, hpara, _⟩ := edit_rows s.menu_cfg.menu h1 h2
  have hnu : ¬ (MENU_NO < MENU_NO) := lt_irrefl _
  constructor
  · intro hk
    have hk1 : ¬ (MENU_KEY_UP = MENU_KEY_MENU) := by decide
    unfold menu_printMenu menu_keySwitch
    simp only [hch, ne_eq, not_false_eq_true, if_true, hk, hk1, if_false, hup, hnu, hpara]
    split_ifs <;> rfl
  · intro hk
    have hk1 : ¬ (MENU_KEY_DOWN = MENU_KEY_MENU) := by decide
    have hk2 : ¬ (MENU_KEY_DOWN = MENU_KEY_UP) := by decide
    unfold menu_printMenu menu_keySwitch
    simp only [hch, ne_eq, not_false_eq_true, if_true, hk, hk1, hk2, if_false, hdown, hnu, hpara]
    split_ifs <;> rfl
theorem histSlot_loop (m : Nat) :
    ∀ idx, idx ≤ 23 →
      forLoop m (fun _ id => if id > 0 then id - 1 else 23) idx = (idx + 23 * m) % 24 := by
  induction m with
  | zero => intro idx h; simp [forLoop]; omega
  | succ m ih =>
    intro idx h
    simp only [forLoop]
    rw [ih idx h]
    split_ifs <;> omega

theorem histSlot_eq (h : TempHist) (m : Nat) (hi : h.index ≤ 23) (hm : m ≤ 23) :
    histSlot h m = (h.index + 24 - m) % 24 := by
  unfold histSlot
  rw [histSlot_loop m h.index hi]
  omega

theorem incrSeconds_ret (h : TempHist) :
    ((temp_incrSeconds h).1 = 0 ∧ (temp_incrSeconds h).2.hours = h.hours) ∨
    ((temp_incrSeconds h).1 = 1 ∧
      (temp_incrSeconds h).2.hours = if h.hours < 23 then h.hours + 1 else h.hours) := by
  unfold temp_incrSeconds
  simp only
  split_ifs <;> first
    | exact Or.inl ⟨rfl, rfl⟩
    | exact Or.inr ⟨rfl, rfl⟩

theorem cycleHist_fields (valid : Nat → Nat) (value : Nat → Int) (h : TempHist) :
    (cycleHist valid value h).index = h.index ∧ (cycleHist valid value h).hours = h.hours := by
  unfold cycleHist
  exact ⟨(updCur_fields _).1, (updCur_clock _).2.2.1⟩

/-- The clock part of a cycle: either no rollover, and `hours` and `index`
stay, or a rollover, where `hours` grows up to 23 and `index` moves on. -/
theorem clockStep_cases (h : TempHist) (hi : h.index ≤ 23) :
    ((temp_incrSeconds h).1 = 0 ∧ (clockStep h).hours = h.hours ∧ (clockStep h).index = h.index) ∨
    ((temp_incrSeconds h).1 ≠ 0 ∧
      (clockStep h).hours = (if h.hours < 23 then h.hours + 1 else h.hours) ∧
      (clockStep h).index = (h.index + 1) % 24) := by
  have hidx : (temp_incrSeconds h).2.index = h.index := (incrSeconds_other h).1
  unfold clockStep
  rcases incrSeconds_ret h with ⟨h0, hh⟩ | ⟨h1, hh⟩
  · left
    simp only [h0, ne_eq, not_true_eq_false, if_false]
    exact ⟨trivial, hh, hidx⟩
  · right
    simp only [h1, ne_eq, one_ne_zero, not_false_eq_true, if_true, true_and]
    refine ⟨?_, ?_⟩
    · rw [(updHist_clock _).2.2.1, hh]
    · rw [updHist_index _ (by rw [hidx]; exact hi), hidx]

theorem menu_restore_cfg (setup : MenuSetup) (s : UiState) :
    (menu_restore setup s).menu_cfg = s.menu_cfg := by
  unfold menu_restore
  split_ifs <;> rfl

theorem menu_saveConfig_cfg (s : UiState) : (menu_saveConfig s).menu_cfg = s.menu_cfg := rfl

/-- What the key handling of `menu_printMenu` does to the browse offset. -/
theorem keySwitch_minMaxId (h : TempHist) (setup : MenuSetup) (menu : Nat) (s : UiState) :
    (menu_keySwitch h setup menu s).2.menu_cfg.minMaxId = s.menu_cfg.minMaxId ∨
    (s.menu_cfg.minMaxId < h.hours ∧
      (menu_keySwitch h setup menu s).2.menu_cfg.minMaxId = (s.menu_cfg.minMaxId + 1) % 256) ∨
    (s.menu_cfg.minMaxId > 0 ∧
      (menu_keySwitch h setup menu s).2.menu_cfg.minMaxId = s.menu_cfg.minMaxId - 1) := by
  have hr : ∀ t : UiState,
      (if setup.para < CFG_PARA_END then menu_restore setup t else t).menu_cfg = t.menu_cfg := by
    intro t
    split_ifs
    · exact menu_restore_cfg setup t
    · rfl
  have hs : ∀ t : UiState,
      (if setup.para < CFG_PARA_END ∧ setup.para_cmp ≠ PARA_NO then menu_saveConfig t
        else t).menu_cfg = t.menu_cfg := by
    intro t
    split_ifs <;> rfl
  have er := congrArg MenuCfg.minMaxId (hr s)
  have es := congrArg MenuCfg.minMaxId (hs s)
  unfold menu_keySwitch
  by_cases k1 : s.menu_cfg.key = MENU_KEY_MENU
  · rw [if_pos k1]
    simp only
    by_cases a1 : setup.menu_key_menu < MENU_NO
    · rw [if_pos a1]
      exact Or.inl er
    · rw [if_neg a1]
      by_cases a2 : setup.para ≥ MENU_PARA_MAX_CH1 ∧ setup.para ≤ MENU_PARA_MIN_CH2
      · rw [if_pos a2, hr s]
        by_cases a3 : s.menu_cfg.minMaxId < h.hours
        · rw [if_pos a3]
          exact Or.inr (Or.inl ⟨a3, rfl⟩)
        · rw [if_neg a3]
          exact Or.inl er
      · rw [if_neg a2]
        exact Or.inl er
  · rw [if_neg k1]
    by_cases k2 : s.menu_cfg.key = MENU_KEY_UP
    · rw [if_pos k2]
      split_ifs <;> exact Or.inl rfl
    · rw [if_neg k2]
      by_cases k3 : s.menu_cfg.key = MENU_KEY_DOWN
      · rw [if_pos k3]
        split_ifs <;> exact Or.inl rfl
      · rw [if_neg k3]
        by_cases k4 : s.menu_cfg.key = MENU_KEY_OK
        · rw [if_pos k4]
          simp only
          by_cases a1 : setup.menu_key_ok < MENU_NO
          · rw [if_pos a1]
            exact Or.inl es
          · rw [if_neg a1]
            by_cases a2 : setup.para ≥ MENU_PARA_MAX_CH1 ∧ setup.para ≤ MENU_PARA_MIN_CH2
            · rw [if_pos a2, hs s]
              by_cases a3 : s.menu_cfg.minMaxId > 0
              · rw [if_pos a3]
                exact Or.inr (Or.inr ⟨a3, rfl⟩)
              · rw [if_neg a3]
                exact Or.inl es
            · rw [if_neg a2]
              exact Or.inl es
        · rw [if_neg k4]
          exact Or.inl rfl

/-- What `menu_printMenu` does to the browse offset. -/
theorem printMenu_minMaxId (h : TempHist) (s : UiState) :
    (menu_printMenu h s).menu_cfg.minMaxId = s.menu_cfg.minMaxId ∨
    (s.menu_cfg.minMaxId < h.hours ∧
      (menu_printMenu h s).menu_cfg.minMaxId = (s.menu_cfg.minMaxId + 1) % 256) ∨
    (s.menu_cfg.minMaxId > 0 ∧
      (menu_printMenu h s).menu_cfg.minMaxId = s.menu_cfg.minMaxId - 1) := by
  by_cases hch : s.menu_cfg.changed ≠ 0
  · have hk := keySwitch_minMaxId h (menu_setup_tab s.menu_cfg.menu) s.menu_cfg.menu
      { s with menu_cfg := { s.menu_cfg with changed := 0 } }
    have he : (menu_printMenu h s).menu_cfg.minMaxId =
        (menu_keySwitch h (menu_setup_tab s.menu_cfg.menu) s.menu_cfg.menu
          { s with menu_cfg := { s.menu_cfg with changed := 0 } }).2.menu_cfg.minMaxId := by
      unfold menu_printMenu
      rw [if_pos hch]
      simp only
      split_ifs <;> rfl
    rw [he]
    exact hk
  · left
    unfold menu_printMenu
    rw [if_neg hch]
theorem histInv_mono (ini ini1 : Nat → Prop) (s : Sys) (hm : ∀ x, ini x → ini1 x)
    (h : HistInv ini s) : HistInv ini1 s :=
  ⟨h.1, h.2.1, h.2.2.1, fun k hk => hm _ (h.2.2.2 k hk)⟩

theorem sysStep_cycle (valid : Nat → Nat) (value : Nat → Int) (s : Sys) :
    (sysStep (UiEvent.cycle valid value) s).hist = clockStep (cycleHist valid value s.hist) ∧
    (sysStep (UiEvent.cycle valid value) s).ui = s.ui := by
  simp only [sysStep, and_self]

theorem stepSlots_cycle (valid : Nat → Nat) (value : Nat → Int) (s : Sys) :
    stepSlots (UiEvent.cycle valid value) s =
      if (temp_incrSeconds (cycleHist valid value s.hist)).1 ≠ 0
      then [(clockStep (cycleHist valid value s.hist)).index] else [] := by
  simp only [stepSlots, sysStep]

/-- One event of the main loop keeps `HistInv`, with the slots it resets
added to the initialised ones. -/
theorem histInv_step (ini : Nat → Prop) (e : UiEvent) (s : Sys) (h : HistInv ini s) :
    HistInv (fun x => ini x ∨ x ∈ stepSlots e s) (sysStep e s) := by
  obtain ⟨hi, hh, hm, hini⟩ := h
  cases e with
  | cycle valid value =>
    obtain ⟨ci, ch⟩ := cycleHist_fields valid value s.hist
    obtain ⟨hstep, hui⟩ := sysStep_cycle valid value s
    have hslots := stepSlots_cycle valid value s
    unfold HistInv
    rw [hstep, hui, hslots]
    rcases clockStep_cases (cycleHist valid value s.hist) (by rw [ci]; exact hi) with
      ⟨h0, e1, e2⟩ | ⟨h1, e1, e2⟩
    · rw [e1, e2, ci, ch]
      exact ⟨hi, hh, hm, fun k hk => Or.inl (hini k hk)⟩
    · rw [e1, e2, ci, ch, if_pos h1]
      refine ⟨Nat.le_of_lt_succ (Nat.mod_lt _ (by decide)), by split_ifs <;> omega,
        by split_ifs <;> omega, fun k hk => ?_⟩
      rcases Nat.eq_zero_or_pos k with hk0 | hkpos
      · right
        subst hk0
        simp only [List.mem_singleton]
        omega
      · left
        have hk1 : k - 1 ≤ s.hist.hours := by
          split_ifs at hk <;> omega
        have := hini (k - 1) hk1
        have e : ((s.hist.index + 1) % 24 + 24 - k) % 24 = (s.hist.index + 24 - (k - 1)) % 24 := by
          omega
        rw [e]
        exact this
  | key k =>
    exact ⟨hi, hh, hm, fun k hk => Or.inl (hini k hk)⟩
  | refresh =>
    exact ⟨hi, hh, hm, fun k hk => Or.inl (hini k hk)⟩
  | print =>
    have hhist : (sysStep UiEvent.print s).hist = s.hist := rfl
    have hui : (sysStep UiEvent.print s).ui = menu_printMenu s.hist s.ui := rfl
    unfold HistInv
    rw [hhist, hui]
    refine ⟨hi, hh, ?_, fun k hk => Or.inl (hini k hk)⟩
    rcases printMenu_minMaxId s.hist s.ui with e | ⟨hlt, e⟩ | ⟨hgt, e⟩
    · rw [e]
      exact hm
    · rw [e]
      omega
    · rw [e]
      omega

theorem resetSlots_cons (e : UiEvent) (es : List UiEvent) (s : Sys) :
    resetSlots (e :: es) s = stepSlots e s ++ resetSlots es (sysStep e s) := by
  cases e <;> rfl

/-- Every run of the main loop keeps `HistInv`. -/
theorem histInv_run (es : List UiEvent) :
    ∀ (ini : Nat → Prop) (s : Sys), HistInv ini s →
      HistInv (fun x => ini x ∨ x ∈ resetSlots es s) (runSys es s) := by
  induction es with
  | nil =>
    intro ini s h
    exact histInv_mono ini _ s (fun x hx => Or.inl hx) h
  | cons e es ih =>
    intro ini s h
    have h1 := ih _ (sysStep e s) (histInv_step ini e s h)
    refine histInv_mono _ _ _ (fun x hx => ?_) h1
    rw [resetSlots_cons]
    rcases hx with (hx | hx) | hx
    · exact Or.inl hx
    · exact Or.inr (List.mem_append_left _ hx)
    · exact Or.inr (List.mem_append_right _ hx)

theorem histInv_powerOn (eeprom : Nat → Nat) : HistInv (fun x => x = 0) (powerOnSys eeprom) := by
  refine ⟨Nat.zero_le 23, Nat.zero_le 23, ?_, fun k hk => ?_⟩
  · exact Nat.le_refl 0
  · have h0 : (powerOnSys eeprom).hist.hours = 0 := rfl
    have h1 : (powerOnSys eeprom).hist.index = 0 := rfl
    rw [h0] at hk
    rw [h1]
    have : k = 0 := by omega
    subst this
    rfl

/-! ## Facts about the zeroing byte of the CRC -/

theorem updateCRC_loop_lt (n : Nat) : ∀ c b, c < 256 → updateCRC_loop n c b < 256 := by
  induction n with
  | zero => intro c b hc; simpa [updateCRC_loop] using hc
  | succ n ih => intro c b _; exact ih _ _ (updateCRC_bit_lt c b)

theorem updateCRC_lt (c b : Nat) (hc : c < 256) : updateCRC c b < 256 :=
  updateCRC_loop_lt 8 c b hc

theorem updateCRC_fold_lt (m : List Nat) : ∀ c, c < 256 → m.foldl updateCRC c < 256 := by
  induction m with
  | nil => intro c hc; simpa using hc
  | cons b m ih => intro c hc; exact ih _ (updateCRC_lt c b hc)

theorem updateCRC_loop_snoc (n : Nat) :
    ∀ c b, updateCRC_loop (n + 1) c b = updateCRC_bit (updateCRC_loop n c b) (b >>> n) := by
  induction n with
  | zero => intro c b; rfl
  | succ n ih =>
    intro c b
    show updateCRC_loop (n + 1) (updateCRC_bit c b) (b >>> 1) = _
    rw [ih]
    show _ = updateCRC_bit (updateCRC_loop n (updateCRC_bit c b) (b >>> 1)) (b >>> (n + 1))
    rw [← Nat.shiftRight_add, Nat.add_comm 1 n]

set_option maxRecDepth 1000000 in
theorem crc_top_table : ∀ y, y < 256 → updateCRC_bit y 1 = updateCRC_bit (y ^^^ 128) 0 := by
  decide

set_option maxRecDepth 1000000 in
theorem crc_shift_table :
    ∀ n, n < 8 → ∀ a, a < 256 →
      updateCRC_loop n (a ^^^ 2 ^ (7 - n)) 0 = updateCRC_loop n a 0 ^^^ 128 := by
  decide

set_option maxRecDepth 1000000 in
theorem bitrev8_step_table :
    ∀ n, n < 8 → ∀ b, b < 256 →
      bitrev8 (b % 2 ^ (n + 1)) = bitrev8 (b % 2 ^ n) ^^^ ((b >>> n) % 2 * 2 ^ (7 - n)) := by
  decide

set_option maxRecDepth 1000000 in
theorem bitrev8_table : ∀ b, b < 256 → bitrev8 b < 256 ∧ bitrev8 (bitrev8 b) = b := by
  decide

set_option maxRecDepth 1000000 in
theorem crcUnstep_table : ∀ c, c < 256 → crcUnstep (updateCRC_bit c 0) = c := by
  decide

set_option maxRecDepth 1000000 in
theorem updateCRC_zero_table : ∀ x, x < 256 → updateCRC x 0 = 0 → x = 0 := by
  decide

set_option maxRecDepth 1000000 in
theorem updateCRC_onto_table :
    ∀ c, c < 256 → updateCRC 0 (bitrev8 (crcUnstep^[8] c)) = c := by
  decide

set_option maxRecDepth 1000000 in
theorem bitrev8_bit_table :
    ∀ c, c < 256 → ∀ k, k < 8 → bitrev8 c / 2 ^ k % 2 = c / 2 ^ (7 - k) % 2 := by
  decide

theorem bitrev8_lt (b : Nat) (hb : b < 256) : bitrev8 b < 256 := (bitrev8_table b hb).1

theorem bitrev8_bitrev8 (b : Nat) (hb : b < 256) : bitrev8 (bitrev8 b) = b :=
  (bitrev8_table b hb).2

theorem xor_lt_256 (a b : Nat) (ha : a < 256) (hb : b < 256) : a ^^^ b < 256 :=
  Nat.xor_lt_two_pow (n := 8) ha hb

/-- Feeding the `n` low bits of a byte is the same as toggling the `n` high
bits of the accumulator by the reversed bits and feeding zeros. -/
theorem updateCRC_loop_xor (n : Nat) (hn : n ≤ 8) :
    ∀ c b, c < 256 → b < 256 →
      updateCRC_loop n c b = updateCRC_loop n (c ^^^ bitrev8 (b % 2 ^ n)) 0 := by
  induction n with
  | zero =>
    intro c b _ _
    show c = c ^^^ bitrev8 (b % 1)
    rw [Nat.mod_one]
    show c = c ^^^ 0
    rw [Nat.xor_zero]
  | succ n ih =>
    intro c b hc hb
    have hn8 : n < 8 := hn
    have hr : bitrev8 (b % 2 ^ n) < 256 :=
      bitrev8_lt _ (lt_of_le_of_lt (Nat.mod_le _ _) hb)
    have hx : c ^^^ bitrev8 (b % 2 ^ n) < 256 := xor_lt_256 _ _ hc hr
    rw [updateCRC_loop_snoc, updateCRC_loop_snoc, ih (Nat.le_of_lt hn8) c b hc hb,
      bitrev8_step_table n hn8 b hb, updateCRC_bit_parity _ (b >>> n),
      Nat.zero_shiftRight]
    rcases Nat.mod_two_eq_zero_or_one (b >>> n) with h | h
    · rw [h, Nat.zero_mul, Nat.xor_zero]
    · rw [h, Nat.one_mul, crc_top_table _ (updateCRC_loop_lt n _ 0 hx), ← Nat.xor_assoc,
        crc_shift_table n hn8 _ hx]

theorem updateCRC_xor (c b : Nat) (hc : c < 256) (hb : b < 256) :
    updateCRC c b = updateCRC (c ^^^ bitrev8 b) 0 := by
  have h := updateCRC_loop_xor 8 (Nat.le_refl 8) c b hc hb
  rw [show b % 2 ^ 8 = b from Nat.mod_eq_of_lt hb] at h
  exact h

theorem updateCRC_bit_zero_inj (c d : Nat) (hc : c < 256) (hd : d < 256)
    (h : updateCRC_bit c 0 = updateCRC_bit d 0) : c = d := by
  rw [← crcUnstep_table c hc, ← crcUnstep_table d hd, h]

theorem updateCRC_loop_zero_inj (n : Nat) :
    ∀ c d, c < 256 → d < 256 → updateCRC_loop n c 0 = updateCRC_loop n d 0 → c = d := by
  induction n with
  | zero => intro c d _ _ h; exact h
  | succ n ih =>
    intro c d hc hd h
    exact updateCRC_bit_zero_inj c d hc hd
      (ih _ _ (updateCRC_bit_lt c 0) (updateCRC_bit_lt d 0) h)

/-- For a fixed byte the step of the accumulator is one-to-one. -/
theorem updateCRC_inj_acc (c d b : Nat) (hc : c < 256) (hd : d < 256) (hb : b < 256)
    (h : updateCRC c b = updateCRC d b) : c = d := by
  rw [updateCRC_xor c b hc hb, updateCRC_xor d b hd hb] at h
  have hr := bitrev8_lt b hb
  have e := updateCRC_loop_zero_inj 8 _ _ (xor_lt_256 _ _ hc hr) (xor_lt_256 _ _ hd hr) h
  exact Nat.xor_left_injective e

/-- For a fixed accumulator the step is one-to-one in the byte. -/
theorem updateCRC_inj_byte (c a b : Nat) (hc : c < 256) (ha : a < 256) (hb : b < 256)
    (h : updateCRC c a = updateCRC c b) : a = b := by
  rw [updateCRC_xor c a hc ha, updateCRC_xor c b hc hb] at h
  have e := updateCRC_loop_zero_inj 8 _ _ (xor_lt_256 _ _ hc (bitrev8_lt a ha))
    (xor_lt_256 _ _ hc (bitrev8_lt b hb)) h
  have e2 : bitrev8 a = bitrev8 b := Nat.xor_right_injective e
  rw [← bitrev8_bitrev8 a ha, ← bitrev8_bitrev8 b hb, e2]

/-- The step yields zero exactly for the bit reversal of the accumulator. -/
theorem updateCRC_eq_zero_iff (c b : Nat) (hc : c < 256) (hb : b < 256) :
    updateCRC c b = 0 ↔ b = bitrev8 c := by
  constructor
  · intro h
    have h0 : updateCRC c (bitrev8 c) = 0 := by
      have := updateCRC_check_byte (bitrev8 c) (bitrev8_lt c hc)
      rwa [bitrev8_bitrev8 c hc] at this
    exact updateCRC_inj_byte c b (bitrev8 c) hc hb (bitrev8_lt c hc) (h.trans h0.symm)
  · intro h
    subst h
    have := updateCRC_check_byte (bitrev8 c) (bitrev8_lt c hc)
    rwa [bitrev8_bitrev8 c hc] at this

theorem bitrev8_congr (x y : Nat) (h : ∀ k, k < 8 → x / 2 ^ k % 2 = y / 2 ^ k % 2) :
    bitrev8 x = bitrev8 y := by
  have h0 : x % 2 = y % 2 := by simpa using h 0 (by decide)
  have h1 : x / 2 % 2 = y / 2 % 2 := by simpa using h 1 (by decide)
  have h2 : x / 4 % 2 = y / 4 % 2 := h 2 (by decide)
  have h3 : x / 8 % 2 = y / 8 % 2 := h 3 (by decide)
  have h4 : x / 16 % 2 = y / 16 % 2 := h 4 (by decide)
  have h5 : x / 32 % 2 = y / 32 % 2 := h 5 (by decide)
  have h6 : x / 64 % 2 = y / 64 % 2 := h 6 (by decide)
  have h7 : x / 128 % 2 = y / 128 % 2 := h 7 (by decide)
  unfold bitrev8
  rw [h0, h1, h2, h3, h4, h5, h6, h7]

/-- A byte is the bit reversal of another exactly when bit `k` of the one is
bit `7 - k` of the other. -/
theorem eq_bitrev8_iff (c b : Nat) (hc : c < 256) (hb : b < 256) :
    b = bitrev8 c ↔ ∀ k, k < 8 → b / 2 ^ k % 2 = c / 2 ^ (7 - k) % 2 := by
  constructor
  · intro h k hk
    rw [h]
    exact bitrev8_bit_table c hc k hk
  · intro h
    have e : bitrev8 b = bitrev8 (bitrev8 c) :=
      bitrev8_congr b (bitrev8 c) (fun k hk => (h k hk).trans (bitrev8_bit_table c hc k hk).symm)
    rw [← bitrev8_bitrev8 b hb, e, bitrev8_bitrev8 c hc]

/-- Every accumulator value is the fold of one byte from zero. -/
theorem updateCRC_onto (c : Nat) (hc : c < 256) :
    ∃ b, b < 256 ∧ [b].foldl updateCRC 0 = c := by
  refine ⟨bitrev8 (crcUnstep^[8] c), ?_, updateCRC_onto_table c hc⟩
  unfold bitrev8
  omega

/-- After any message exactly one trailing byte brings the fold to zero: the
bit reversal of the accumulator, which is the Dallas/Maxim CRC-8 of the
message. -/
theorem updateCRC_fold_snoc_zero_iff (m : List Nat) (b : Nat) (hb : b < 256) :
    (m ++ [b]).foldl updateCRC 0 = 0 ↔ b = dallasCrc8 m := by
  rw [List.foldl_append]
  show updateCRC (m.foldl updateCRC 0) b = 0 ↔ _
  rw [updateCRC_eq_zero_iff _ b (updateCRC_fold_lt m 0 (by decide)) hb, updateCRC_fold_eq,
    bitrev8_bitrev8 _ (dallasCrc8_lt m)]

/-! ## Facts about error detection by the CRC -/

/-- The fold over a fixed sequence of bytes is one-to-one in the starting
accumulator. -/
theorem updateCRC_fold_inj (suf : List Nat) (hs : ∀ x ∈ suf, x < 256) :
    ∀ c d, c < 256 → d < 256 → suf.foldl updateCRC c = suf.foldl updateCRC d → c = d := by
  induction suf with
  | nil => intro c d _ _ h; exact h
  | cons b suf ih =>
    intro c d hc hd h
    have hb : b < 256 := hs b (List.mem_cons_self _ _)
    have e := ih (fun x hx => hs x (List.mem_cons_of_mem _ hx)) _ _
      (updateCRC_lt c b hc) (updateCRC_lt d b hd) h
    exact updateCRC_inj_acc c d b hc hd hb e

/-- Two sequences that differ in exactly one byte have different folds. -/
theorem updateCRC_fold_one_byte (pre suf : List Nat) (a b : Nat) (ha : a < 256) (hb : b < 256)
    (hab : a ≠ b) (hs : ∀ x ∈ suf, x < 256) :
    (pre ++ a :: suf).foldl updateCRC 0 ≠ (pre ++ b :: suf).foldl updateCRC 0 := by
  intro h
  rw [List.foldl_append, List.foldl_append, List.foldl_cons, List.foldl_cons] at h
  have hp : pre.foldl updateCRC 0 < 256 := updateCRC_fold_lt pre 0 (by decide)
  have e := updateCRC_fold_inj suf hs _ _ (updateCRC_lt _ a hp) (updateCRC_lt _ b hp) h
  exact hab (updateCRC_inj_byte _ a b hp ha hb e)

theorem flip_bit_lt (a k : Nat) (ha : a < 256) (hk : k < 8) : a ^^^ 2 ^ k < 256 :=
  xor_lt_256 a (2 ^ k) ha
    (lt_of_lt_of_le (Nat.pow_lt_pow_right (by decide) hk) (by decide))

theorem flip_bit_ne (a k : Nat) : a ≠ a ^^^ 2 ^ k := by
  intro h
  have e : a ^^^ 0 = a ^^^ 2 ^ k := by rw [Nat.xor_zero]; exact h
  have := Nat.xor_right_injective e
  exact absurd this.symm (Nat.pos_iff_ne_zero.mp (Nat.two_pow_pos k))

/-- A sequence with fold 0 and any sequence obtained from it by flipping one
bit of one byte: the fold of the latter is not 0. Holds for any length. -/
theorem updateCRC_fold_flip (m : List Nat) (hm : ∀ x ∈ m, x < 256)
    (h0 : m.foldl updateCRC 0 = 0) (j k : Nat) (hj : j < m.length) (hk : k < 8) :
    (m.set j (m.getD j 0 ^^^ 2 ^ k)).foldl updateCRC 0 ≠ 0 := by
  have hmem : m[j] ∈ m := List.getElem_mem hj
  have hsplit : m = m.take j ++ m[j] :: m.drop (j + 1) := by
    rw [List.getElem_cons_drop, List.take_append_drop]
  rw [List.set_eq_take_append_cons_drop, if_pos hj, List.getD_eq_getElem m 0 hj]
  intro h
  have hne := updateCRC_fold_one_byte (m.take j) (m.drop (j + 1)) m[j] (m[j] ^^^ 2 ^ k)
    (hm _ hmem) (flip_bit_lt _ k (hm _ hmem) hk) (flip_bit_ne _ k)
    (fun x hx => hm x (List.mem_of_mem_drop hx))
  rw [← hsplit, h0, h] at hne
  exact hne rfl

/-- After `temp_readTemp`, slot `i` below `min (dev_count, 2)` is valid
exactly when its pass accepted the scratchpad; otherwise the value is
kept. -/
theorem readTemp_slot_valid {W : Type} (hw : Bus W) (w : W) (g : Globals) (i : Nat)
    (hi : i < min g.oneWire.dev_count 2) :
    ((temp_readTemp hw (w, g)).2.temp_hist.valid i = 1
        ↔ SlotAccepted hw i (slotEntry hw i (w, g))) ∧
    (¬ SlotAccepted hw i (slotEntry hw i (w, g)) →
      (temp_readTemp hw (w, g)).2.temp_hist.valid i = 0 ∧
      (temp_readTemp hw (w, g)).2.temp_hist.value i = g.temp_hist.value i) := by
  have himax : (if g.oneWire.dev_count < 2 then g.oneWire.dev_count else 2)
      = min g.oneWire.dev_count 2 := by
    split_ifs <;> omega
  have hrun : temp_readTemp hw (w, g) = forLoop (min g.oneWire.dev_count 2) (readTempSlot hw) (w, g) := by
    unfold temp_readTemp
    simp only [himax]
  have hafter := forLoop_readTemp_after hw i (w, g) _ hi
  have hbefore := forLoop_readTemp_before hw i (w, g) i (le_refl i)
  rw [hrun, hafter.1, hafter.2]
  classical
  rw [readTempSlot_valid, if_pos rfl]
  refine ⟨?_, fun hna => ⟨?_, ?_⟩⟩
  · by_cases hacc : SlotAccepted hw i (slotEntry hw i (w, g)) <;> simp [hacc]
  · simp [hna]
  · rw [readTempSlot_value hw i i _ (Or.inr hna)]
    exact hbefore.2

/-! ## Facts about a line stuck low -/

theorem stuckLowBus_stuck : StuckLow stuckLowBus := ⟨fun _ => rfl, fun _ => rfl⟩

theorem stuck_reset {W : Type} (hw : Bus W) (h : StuckLow hw) (w : W) :
    (oneWire_reset hw w).1 = 1 := by
  unfold oneWire_reset
  simp only [h.1 w, if_true]

theorem stuck_readBit {W : Type} (hw : Bus W) (h : StuckLow hw) (w : W) :
    (oneWire_readBit hw w).1 = 0 := by
  unfold oneWire_readBit
  simp [h.2 w]

theorem stuck_readByte_loop {W : Type} (hw : Bus W) (h : StuckLow hw) (n : Nat) :
    ∀ w : W, (oneWire_readByte_loop hw n 0 w).1 = 0 := by
  induction n with
  | zero => intro w; rfl
  | succ n ih =>
    intro w
    simp only [oneWire_readByte_loop, stuck_readBit hw h w, ne_eq, not_true_eq_false, if_false,
      Nat.zero_shiftRight]
    exact ih _

theorem stuck_readByte {W : Type} (hw : Bus W) (h : StuckLow hw) (w : W) :
    (oneWire_readByte hw w).1 = 0 :=
  stuck_readByte_loop hw h 8 w

theorem stuck_readBytes {W : Type} (hw : Bus W) (h : StuckLow hw) (n : Nat) :
    ∀ w : W, readBytes hw n w = List.replicate n 0 := by
  induction n with
  | zero => intro w; rfl
  | succ n ih =>
    intro w
    simp only [readBytes, stuck_readByte hw h w, ih, List.replicate_succ]

/-- The bytes that the read loop of `temp_readTemp` stores in
`oneWire.data`. -/
theorem readScratch_data {W : Type} (hw : Bus W) (n : Nat) :
    ∀ (off : Nat) (w : W) (ow : OneWire) (j : Nat),
      (readScratch hw n off w ow).2.data j =
        if off ≤ j ∧ j < off + n then (readBytes hw n w).getD (j - off) 0 else ow.data j := by
  induction n with
  | zero =>
    intro off w ow j
    have : ¬ (off ≤ j ∧ j < off + 0) := by omega
    simp only [readScratch, this, if_false]
  | succ n ih =>
    intro off w ow j
    simp only [readScratch, readBytes]
    rw [ih]
    by_cases h1 : off + 1 ≤ j ∧ j < off + 1 + n
    · have h2 : off ≤ j ∧ j < off + (n + 1) := by omega
      rw [if_pos h1, if_pos h2]
      obtain ⟨d, hd⟩ : ∃ d, j - off = d + 1 := ⟨j - off - 1, by omega⟩
      have hd2 : j - (off + 1) = d := by omega
      rw [hd, hd2]
      rfl
    · rw [if_neg h1]
      by_cases h3 : j = off
      · subst h3
        have h2 : j ≤ j ∧ j < j + (n + 1) := by omega
        rw [if_pos h2, Nat.sub_self]
        simp [oneWire_updateCRC, setAt]
      · have h2 : ¬ (off ≤ j ∧ j < off + (n + 1)) := by omega
        rw [if_neg h2]
        simp [oneWire_updateCRC, setAt, h3]

/-- The value stored by an accepted pass: the conversion of the first two
bytes read. -/
theorem readTempSlot_value_accepted {W : Type} (hw : Bus W) (i : Nat) (s : W × Globals)
    (h : SlotAccepted hw i s) :
    (readTempSlot hw i s).2.temp_hist.value i =
      convertTemp ((slotBytes hw i s).getD 1 0) ((slotBytes hw i s).getD 0 0) := by
  unfold SlotAccepted slotBytes slotSelect at h
  unfold slotBytes slotSelect readTempSlot
  have hsel := h.1
  have hcrc := h.2
  simp only [readScratch_crc8, hsel, hcrc, ne_eq, not_false_eq_true, if_true, readScratch_data]
  simp [setAt]

set_option maxRecDepth 1000000 in
theorem zero_scratch_fold : (List.replicate 9 0).foldl updateCRC 0 = 0 := by
  decide

/-- On a line stuck low every pass of `temp_readTemp` is accepted with nine
zero bytes. -/
theorem stuck_slot {W : Type} (hw : Bus W) (h : StuckLow hw) (i : Nat) (s : W × Globals) :
    slotBytes hw i s = List.replicate 9 0 ∧ SlotAccepted hw i s := by
  have hb : slotBytes hw i s = List.replicate 9 0 := stuck_readBytes hw h 9 _
  refine ⟨hb, ?_, ?_⟩
  · unfold slotSelect
    rw [selectDev_eq, if_pos (h.1 _)]
    exact Nat.one_ne_zero
  · rw [hb]
    exact zero_scratch_fold

/-! ## Facts about the search on a line stuck low -/

theorem stuck_search_step {W : Type} (hw : Bus W) (h : StuckLow hw) (ow0 : OneWire)
    (hld : ow0.last_disc = 0) (p : Nat) (l : SearchLocals) (w : W) (ow : OneWire)
    (inv : SearchInv ow0 (fun _ => 0) (p / 8) (p % 8) p l ow) :
    ∃ l1 w1 ow1, searchBody hw l w ow = (false, l1, w1, ow1) ∧
      SearchInv ow0 (fun _ => 0) ((p + 1) / 8) ((p + 1) % 8) (p + 1) l1 ow1 := by
  obtain ⟨e1, e2, e3⟩ := next_byte_index p
  have hr1 := stuck_readBit hw h w
  have hr2 := stuck_readBit hw h (oneWire_readBit hw w).2
  have hnb : ¬ ((oneWire_readBit hw w).1 = 1 ∧
      (oneWire_readBit hw (oneWire_readBit hw w).2).1 = 1) := by
    rw [hr1]
    simp
  have hdir : searchDirection l ow (oneWire_readBit hw w).1
      (oneWire_readBit hw (oneWire_readBit hw w).2).1
        = (fun _ : Nat => 0) (p / 8) / 2 ^ (p % 8) % 2 := by
    rw [hr1, hr2]
    unfold searchDirection
    rw [inv.id_bit_no, inv.last_disc, hld]
    simp
  obtain ⟨l1, ow1, hbody, hinv⟩ := searchBody_step hw w inv (by decide) hnb hdir
  rw [e1, e2, e3, hr1, hr2] at hinv
  simp only [Nat.zero_div, Nat.zero_mod, and_self, if_true] at hinv
  exact ⟨l1, _, ow1, hbody, hinv⟩

theorem stuck_search_loop {W : Type} (hw : Bus W) (h : StuckLow hw) (ow0 : OneWire)
    (hld : ow0.last_disc = 0) :
    ∀ n p, p + n = 64 → 0 < n → ∀ (l : SearchLocals) (w : W) (ow : OneWire),
      SearchInv ow0 (fun _ => 0) (p / 8) (p % 8) p l ow →
      ∃ l1 w1 ow1, searchLoop hw n l w ow = some (l1, w1, ow1) ∧
        SearchInv ow0 (fun _ => 0) 8 0 64 l1 ow1 := by
  intro n
  induction n with
  | zero => intro p _ h0; omega
  | succ n ih =>
    intro p hpn _ l w ow inv
    obtain ⟨l1, w1, ow1, hbody, hinv⟩ := stuck_search_step hw h ow0 hld p l w ow inv
    have hrb : l1.rom_byte_no = (p + 1) / 8 := hinv.rom_byte_no
    rcases Nat.eq_zero_or_pos n with hn | hn
    · subst hn
      have hp : p + 1 = 64 := by omega
      rw [hp] at hinv hrb
      refine ⟨l1, w1, ow1, ?_, hinv⟩
      simp only [searchLoop, hbody, Bool.false_eq_true, if_false, hrb]
      simp
    · obtain ⟨l2, w2, ow2, hloop, hinv2⟩ := ih (p + 1) (by omega) hn l1 w1 ow1 hinv
      refine ⟨l2, w2, ow2, ?_, hinv2⟩
      have hlt : l1.rom_byte_no < 8 := by
        rw [hrb]
        omega
      simp only [searchLoop, hbody, Bool.false_eq_true, if_false, hlt, if_true]
      exact hloop

set_option maxRecDepth 1000000 in
theorem zero_addr_fold : ((List.range 8).map (fun _ : Nat => 0)).foldl updateCRC 0 = 0 := by
  decide

/-- A search on a line stuck low, entered with room in the store and the
discovery state clear: the loop reads all 64 bit positions, the address built
is all zero and its CRC fold is 0, and the call returns 0 with `dev_count`
as before. -/
theorem stuck_search {W : Type} (hw : Bus W) (h : StuckLow hw) (w : W) (ow : OneWire)
    (hdc : ow.dev_count < 2) (hlast : ow.last_device = 0) (hld : ow.last_disc = 0) :
    ∃ l w2 ow2,
      searchLoop hw 64 searchInit (searchStart hw w) { ow with crc8 := 0 } = some (l, w2, ow2) ∧
      l.id_bit_no = 65 ∧ ow2.crc8 = 0 ∧ (∀ j, j < 8 → ow2.rom ow.dev_count j = 0) ∧
      ow2.dev_count = ow.dev_count ∧
      oneWire_search hw w ow = some (0, w2, { ow2 with last_device := 0, last_disc := 0 }) := by
  have hinv0 : SearchInv { ow with crc8 := 0 } (fun _ => 0) (0 / 8) (0 % 8) 0 searchInit
      { ow with crc8 := 0 } := by
    refine ⟨by decide, rfl, rfl, rfl, rfl, rfl, rfl, rfl, rfl, fun _ _ => rfl, ?_, ?_, rfl⟩
    · intro j hj
      exact absurd hj (Nat.not_lt_zero j)
    · simp [Nat.mod_one]
  obtain ⟨l, w2, ow2, hloop, hinv⟩ := stuck_search_loop hw h { ow with crc8 := 0 } hld 64 0 rfl
    (by decide) searchInit (searchStart hw w) { ow with crc8 := 0 } hinv0
  have hidn : l.id_bit_no = 65 := hinv.id_bit_no
  have hlz : l.last_zero = 64 := hinv.last_zero
  have hcrc : ow2.crc8 = 0 := by
    rw [hinv.crc]
    exact zero_addr_fold
  have hrom : ∀ j, j < 8 → ow2.rom ow.dev_count j = 0 := fun j hj => hinv.rom_done j hj
  have hdc2 : ow2.dev_count = ow.dev_count := hinv.dev_count
  have h2 : ¬ (ow.dev_count ≥ ONE_WIRE_DEV_NO) := by
    unfold ONE_WIRE_DEV_NO
    omega
  refine ⟨l, w2, ow2, hloop, hidn, hcrc, hrom, hdc2, ?_⟩
  have hloop2 : searchLoop hw 64
      { id_bit_no := 1, last_zero := 0, rom_byte_no := 0, rom_byte_mask := 1 }
      (oneWire_writeByte hw ONE_WIRE_CMD_SRCH_ROM (oneWire_reset hw w).2)
      { ow with crc8 := 0 } = some (l, w2, ow2) := hloop
  unfold oneWire_search
  simp only [h2, if_false]
  rw [if_pos hlast, stuck_reset hw h w]
  simp only [one_ne_zero, if_false]
  rw [hloop2]
  simp only [hidn, hcrc, hlz]
  simp [searchFinish, hdc2, hrom 0 (by decide)]

/-! ## Facts about the stored readings -/

/-- The value stored by `temp_readTemp` for an accepted slot: the conversion
of the first two bytes read. -/
theorem readTemp_value_accepted {W : Type} (hw : Bus W) (w : W) (g : Globals) (i : Nat)
    (hi : i < min g.oneWire.dev_count 2) (hacc : SlotAccepted hw i (slotEntry hw i (w, g))) :
    (temp_readTemp hw (w, g)).2.temp_hist.value i =
      convertTemp ((slotBytes hw i (slotEntry hw i (w, g))).getD 1 0)
        ((slotBytes hw i (slotEntry hw i (w, g))).getD 0 0) := by
  have himax : (if g.oneWire.dev_count < 2 then g.oneWire.dev_count else 2)
      = min g.oneWire.dev_count 2 := by
    split_ifs <;> omega
  have hrun : temp_readTemp hw (w, g)
      = forLoop (min g.oneWire.dev_count 2) (readTempSlot hw) (w, g) := by
    unfold temp_readTemp
    simp only [himax]
  rw [hrun, (forLoop_readTemp_after hw i (w, g) _ hi).2, readTempSlot_value_accepted hw i _ hacc]

theorem readTempSlot_range {W : Type} (hw : Bus W) (i : Nat) (s : W × Globals)
    (h : ReadingsInRange s.2) : ReadingsInRange (readTempSlot hw i s).2 := by
  intro k
  classical
  by_cases hk : k ≠ i ∨ ¬ SlotAccepted hw i s
  · rw [readTempSlot_value hw i k s hk]
    exact h k
  · have hki : k = i := by
      by_contra hne
      exact hk (Or.inl hne)
    have hacc : SlotAccepted hw i s := by
      by_contra hna
      exact hk (Or.inr hna)
    subst hki
    rw [readTempSlot_value_accepted hw k s hacc]
    exact convertTemp_range _ _

theorem forLoop_readTemp_range {W : Type} (hw : Bus W) (s : W × Globals)
    (h : ReadingsInRange s.2) : ∀ n, ReadingsInRange (forLoop n (readTempSlot hw) s).2 := by
  intro n
  induction n with
  | zero => exact h
  | succ n ih => exact readTempSlot_range hw n _ ih

theorem readTemp_range {W : Type} (hw : Bus W) (w : W) (g : Globals) (h : ReadingsInRange g) :
    ReadingsInRange (temp_readTemp hw (w, g)).2 :=
  forLoop_readTemp_range hw (w, g) h _

theorem reachable_range (g : Globals) (h : Reachable g) : ReadingsInRange g := by
  induction h with
  | powerOn g h0 =>
    intro i
    rw [h0 i]
    decide
  | readTemp hw w g _ ih => exact readTemp_range hw w g ih
  | other g g1 _ he ih =>
    intro i
    rw [he]
    exact ih i

theorem updOutput_temp_hist (g : Globals) : (temp_updOutput g).temp_hist = g.temp_hist := rfl

theorem srcTemp_one_exact (g : Globals) (h : ReadingsInRange g) :
    wrap16 (g.temp_hist.value 0 - g.temp_hist.value 1)
      = g.temp_hist.value 0 - g.temp_hist.value 1 ∧
    wrap16 (wrap16 (g.temp_hist.value 0 - g.temp_hist.value 1) * -1)
      = -(g.temp_hist.value 0 - g.temp_hist.value 1) ∧
    srcTemp g 1 = |g.temp_hist.value 0 - g.temp_hist.value 1| ∧
    0 ≤ srcTemp g 1 ∧ srcTemp g 1 ≤ 4095 := by
  have h0 := h 0
  have h1 := h 1
  have habs : |g.temp_hist.value 0 - g.temp_hist.value 1| ≤ 4095 := by
    rw [abs_le]
    constructor <;> omega
  have e1 : wrap16 (g.temp_hist.value 0 - g.temp_hist.value 1)
      = g.temp_hist.value 0 - g.temp_hist.value 1 := by
    unfold wrap16
    omega
  refine ⟨e1, ?_, srcTemp_one g (by omega), ?_, ?_⟩
  · rw [e1]
    unfold wrap16
    omega
  · rw [srcTemp_one g (by omega)]
    exact abs_nonneg _
  · rw [srcTemp_one g (by omega)]
    exact habs

/-- The conversion is the floor of ten sixteenths of the raw value as long as
the product fits 16 bits. -/
theorem convertTemp_floor (temp_hi temp_lo : Nat)
    (h : -3276 ≤ wrap16 (((temp_hi <<< 8) ||| temp_lo : Nat) : Int) ∧
      wrap16 (((temp_hi <<< 8) ||| temp_lo : Nat) : Int) ≤ 3276) :
    wrap16 (wrap16 (((temp_hi <<< 8) ||| temp_lo : Nat) : Int) * 10)
      = wrap16 (((temp_hi <<< 8) ||| temp_lo : Nat) : Int) * 10 ∧
    convertTemp temp_hi temp_lo
      = wrap16 (((temp_hi <<< 8) ||| temp_lo : Nat) : Int) * 10 / 16 := by
  unfold convertTemp
  generalize (((temp_hi <<< 8 ||| temp_lo : Nat) : Int)) = x at h ⊢
  have e : wrap16 (wrap16 x * 10) = wrap16 x * 10 := by
    generalize wrap16 x = r at h ⊢
    unfold wrap16
    omega
  refine ⟨e, ?_⟩
  show wrap16 (wrap16 x * 10) >>> 4 = wrap16 x * 10 / 16
  rw [shiftRight_four, e]

/-! ## Facts about the gating and the dead band -/

theorem decideOutput_withValid (g : Globals) (i k v : Nat) (hk : k ≠ i) :
    decideOutput (withValid g i v) k = decideOutput g k := by
  unfold decideOutput
  have hv : (withValid g i v).temp_hist.valid k = g.temp_hist.valid k := by
    simp [withValid, setAt, hk]
  rw [hv]
  rfl

theorem decideOutput_deadBand (g : Globals) (h : InDeadBand2 g) :
    decideOutput g 1 = g.output_data.current 1 := by
  obtain ⟨hv, hband⟩ := h
  unfold decideOutput
  rw [if_pos hv]
  rcases hband with ⟨h1, h2⟩ | ⟨h1, h2⟩
  · have hh : highOn g 1 = true := by
      unfold highOn
      exact decide_eq_true (lt_trans h1 h2)
    simp only [hh, if_true]
    rw [if_neg (not_le.mpr h2), if_neg (not_le.mpr h1)]
  · have hh : highOn g 1 = false := by
      unfold highOn
      exact decide_eq_false (not_lt.mpr (le_of_lt (lt_trans h1 h2)))
    simp only [hh, Bool.false_eq_true, if_false]
    rw [if_neg (not_le.mpr h1), if_neg (not_le.mpr h2)]

theorem or_ne_zero_left (a b : Nat) (h : a ≠ 0) : a ||| b ≠ 0 := by
  rw [Nat.or_comm]
  exact or_ne_zero_right b a h

theorem decideOutput_equal (g : Globals) (i : Nat) (t : Int) (ht : IsInt8 t)
    (hon : g.temp_cfg.para (CFG_PARA_CH1_ON + i) = t)
    (hoff : g.temp_cfg.para (CFG_PARA_CH1_OFF + i) = t) (hv : g.temp_hist.valid i ≠ 0) :
    highOn g i = false ∧ decideOutput g i = if srcTemp g i ≤ 10 * t then 1 else 0 := by
  have hton : t_on g i = 10 * t := by
    rw [t_on, hon, wrap16_times_ten _ ht, mul_comm]
  have htoff : t_off g i = 10 * t := by
    rw [t_off, hoff, wrap16_times_ten _ ht, mul_comm]
  have hh : highOn g i = false := by
    unfold highOn
    rw [hton, htoff]
    exact decide_eq_false (lt_irrefl _)
  refine ⟨hh, ?_⟩
  unfold decideOutput
  rw [if_pos hv]
  simp only [hh, Bool.false_eq_true, if_false, hton, htoff]
  by_cases hle : srcTemp g i ≤ 10 * t
  · rw [if_pos hle, if_pos hle]
  · rw [if_neg hle, if_neg hle, if_pos (le_of_lt (not_le.mp hle))]

theorem decideOutput_withCurrent_equal (g : Globals) (i : Nat) (t : Int) (ht : IsInt8 t)
    (hon : g.temp_cfg.para (CFG_PARA_CH1_ON + i) = t)
    (hoff : g.temp_cfg.para (CFG_PARA_CH1_OFF + i) = t) (hv : g.temp_hist.valid i ≠ 0)
    (cur : Nat → Nat) :
    decideOutput (withCurrent g cur) i = decideOutput g i := by
  rw [(decideOutput_equal (withCurrent g cur) i t ht hon hoff hv).2,
    (decideOutput_equal g i t ht hon hoff hv).2]
  rfl

/-! ## Facts about the display -/

theorem mem2seg_mem (pos : Nat) (d : DisplayData) : (dspl_mem2seg pos d).mem = d.mem := rfl

theorem rowBase_cases (pos : Nat) : rowBase pos = 0 ∨ rowBase pos = 4 := by
  unfold rowBase
  split_ifs with h
  · exact Or.inr rfl
  · exact Or.inl (by omega)

theorem rowBase_idem (pos : Nat) : rowBase (rowBase pos) = rowBase pos := by
  rcases rowBase_cases pos with h | h <;> rw [h] <;> rfl

set_option maxRecDepth 1000000 in
theorem dp_bit_table :
    ∀ x, x < 128 → (x ||| SEGMENT_DP) &&& 0x7F = x ∧ x &&& 0x7F = x ∧
      (x ||| SEGMENT_DP) = x + 128 := by
  decide

theorem dspl_text_mem (pos txtId : Nat) (d : DisplayData) (j : Nat) :
    (dspl_text pos txtId d).mem j =
      if rowBase pos ≤ j ∧ j < rowBase pos + 4 then
        (text_tab.getD txtId []).getD (j - rowBase pos) 0
      else d.mem j := rfl

theorem toU8_small (x : Int) (h0 : 0 ≤ x) (h1 : x < 256) : toU8 x = x.toNat := by
  unfold toU8
  rw [Int.emod_eq_of_lt h0 h1]
theorem toU8_tmod (n : Nat) : toU8 (Int.tmod (n : Int) 10) = n % 10 := by
  rw [Int.tmod_eq_emod (Int.ofNat_nonneg n) (by decide)]
  unfold toU8
  have h : ((n : Int) % 10) % 256 = ((n % 10 : Nat) : Int) := by omega
  rw [h]
  rfl

theorem tdiv_ten (n : Nat) : Int.tdiv (n : Int) 10 = ((n / 10 : Nat) : Int) := by
  rw [Int.tdiv_eq_ediv (Int.ofNat_nonneg n) (by decide)]
  rfl

theorem abs_value (v : Int) (hlo : -1999 ≤ v) :
    (if v < 0 then wrap16 (v * -1) else v) = (v.natAbs : Int) := by
  split_ifs with h
  · unfold wrap16
    omega
  · omega

theorem first_code (v : Int) (hlo : -1999 ≤ v) (hhi : v ≤ 1999) :
    (if (v.natAbs : Int) ≥ 1000 then ((if v < 0 then 1 else 0) + DIGIT_P1) % 256
     else ((if v < 0 then 1 else 0) + DIGIT_P0) % 256) = specSignCode v := by
  have habs : |v| = (v.natAbs : Int) := Int.abs_eq_natAbs v
  unfold specSignCode DIGIT_P0 DIGIT_P1 DIGIT_M0 DIGIT_M1
  rw [habs]
  by_cases hneg : v < 0
  · have hn : ¬ (0 ≤ v) := by omega
    by_cases hbig : (v.natAbs : Int) ≥ 1000
    · have hb : ¬ ((v.natAbs : Int) < 1000) := by omega
      rw [if_pos hbig, if_pos hneg, if_neg (fun h => hn h.1), if_neg (fun h => hb h.2),
        if_neg (fun h => hn h.1)]
    · have hb : (v.natAbs : Int) < 1000 := by omega
      rw [if_neg hbig, if_pos hneg, if_neg (fun h => hn h.1), if_pos ⟨hneg, hb⟩]
  · have hn : 0 ≤ v := by omega
    by_cases hbig : (v.natAbs : Int) ≥ 1000
    · have hb : ¬ ((v.natAbs : Int) < 1000) := by omega
      rw [if_pos hbig, if_neg hneg, if_neg (fun h => hb h.2), if_neg (fun h => hneg h.1),
        if_pos ⟨hn, hbig⟩]
    · have hb : (v.natAbs : Int) < 1000 := by omega
      rw [if_neg hbig, if_neg hneg, if_pos ⟨hn, hb⟩]

/-- The character memory after `dspl_int16` for a value in the range
shown as a number. -/
theorem dspl_int16_mem (pos dp : Nat) (v : Int) (d : DisplayData)
    (hlo : -1999 ≤ v) (hhi : v ≤ 1999) (j : Nat) :
    (dspl_int16 pos dp v d).mem j =
      if j = rowBase pos then
        (if dp = 3 then specSignCode v ||| SEGMENT_DP else specSignCode v)
      else if j = rowBase pos + 1 then
        (if dp = 2 then (v.natAbs / 100 % 10) ||| SEGMENT_DP else v.natAbs / 100 % 10)
      else if j = rowBase pos + 2 then
        (if dp = 1 then (v.natAbs / 10 % 10) ||| SEGMENT_DP else v.natAbs / 10 % 10)
      else if j = rowBase pos + 3 then v.natAbs % 10
      else d.mem j := by
  have h1 : ¬ v > 1999 := by omega
  have h2 : ¬ v < -1999 := by omega
  have h100 : v.natAbs / 10 / 10 = v.natAbs / 100 := Nat.div_div_eq_div_mul _ _ _
  unfold dspl_int16
  rw [if_neg h1, if_neg h2]
  simp only [abs_value v hlo, first_code v hlo hhi, toU8_tmod, tdiv_ten, mem2seg_mem, h100,
    Nat.add_zero]
  by_cases hd1 : dp = 1
  · have n2 : ¬ dp = 2 := by omega
    have n3 : ¬ dp = 3 := by omega
    simp only [if_pos hd1, if_neg n2, if_neg n3, setAt]
    split_ifs <;> first | rfl | omega
  · by_cases hd2 : dp = 2
    · have n3 : ¬ dp = 3 := by omega
      simp only [if_neg hd1, if_pos hd2, if_neg n3, setAt]
      split_ifs <;> first | rfl | omega
    · by_cases hd3 : dp = 3
      · simp only [if_neg hd1, if_neg hd2, if_pos hd3, setAt]
        split_ifs <;> rfl
      · simp only [if_neg hd1, if_neg hd2, if_neg hd3, setAt]

theorem specSignCode_cases (v : Int) :
    (0 ≤ v ∧ |v| < 1000 ∧ specSignCode v = DIGIT_P0) ∨
    (v < 0 ∧ |v| < 1000 ∧ specSignCode v = DIGIT_M0) ∨
    (0 ≤ v ∧ 1000 ≤ |v| ∧ specSignCode v = DIGIT_P1) ∨
    (v < 0 ∧ 1000 ≤ |v| ∧ specSignCode v = DIGIT_M1) := by
  unfold specSignCode
  by_cases h0 : 0 ≤ v
  · by_cases h1 : |v| < 1000
    · exact Or.inl ⟨h0, h1, by rw [if_pos ⟨h0, h1⟩]⟩
    · have h2 : 1000 ≤ |v| := not_lt.mp h1
      refine Or.inr (Or.inr (Or.inl ⟨h0, h2, ?_⟩))
      rw [if_neg (fun h => h1 h.2), if_neg (fun h => h1 h.2), if_pos ⟨h0, h2⟩]
  · have hn : v < 0 := not_le.mp h0
    by_cases h1 : |v| < 1000
    · refine Or.inr (Or.inl ⟨hn, h1, ?_⟩)
      rw [if_neg (fun h => h0 h.1), if_pos ⟨hn, h1⟩]
    · have h2 : 1000 ≤ |v| := not_lt.mp h1
      refine Or.inr (Or.inr (Or.inr ⟨hn, h2, ?_⟩))
      rw [if_neg (fun h => h0 h.1), if_neg (fun h => h1 h.2), if_neg (fun h => h0 h.1)]

theorem specSignCode_lt (v : Int) : specSignCode v < 128 := by
  rcases specSignCode_cases v with h | h | h | h <;> rw [h.2.2] <;> decide

/-- The four cells of the row after `dspl_int16`, with the decimal point
bit masked off. -/
theorem dspl_int16_cells (pos dp : Nat) (v : Int) (d : DisplayData)
    (hlo : -1999 ≤ v) (hhi : v ≤ 1999) :
    (dspl_int16 pos dp v d).mem (rowBase pos) &&& 0x7F = specSignCode v ∧
    (dp ≠ 3 → (dspl_int16 pos dp v d).mem (rowBase pos) = specSignCode v) ∧
    (dspl_int16 pos dp v d).mem (rowBase pos + 1) &&& 0x7F = v.natAbs / 100 % 10 ∧
    (dspl_int16 pos dp v d).mem (rowBase pos + 2) &&& 0x7F = v.natAbs / 10 % 10 ∧
    (dspl_int16 pos dp v d).mem (rowBase pos + 3) &&& 0x7F = v.natAbs % 10 := by
  have hc := dp_bit_table (specSignCode v) (specSignCode_lt v)
  have h1 := dp_bit_table (v.natAbs / 100 % 10) (by omega)
  have h2 := dp_bit_table (v.natAbs / 10 % 10) (by omega)
  have h3 := dp_bit_table (v.natAbs % 10) (by omega)
  have e1 : ¬ (rowBase pos + 1 = rowBase pos) := by omega
  have e2 : ¬ (rowBase pos + 2 = rowBase pos) := by omega
  have e3 : ¬ (rowBase pos + 3 = rowBase pos) := by omega
  have e21 : ¬ (rowBase pos + 2 = rowBase pos + 1) := by omega
  have e31 : ¬ (rowBase pos + 3 = rowBase pos + 1) := by omega
  have e32 : ¬ (rowBase pos + 3 = rowBase pos + 2) := by omega
  refine ⟨?_, ?_, ?_, ?_, ?_⟩
  · rw [dspl_int16_mem pos dp v d hlo hhi, if_pos rfl]
    split_ifs
    · exact hc.1
    · exact hc.2.1
  · intro hdp
    rw [dspl_int16_mem pos dp v d hlo hhi, if_pos rfl, if_neg hdp]
  · rw [dspl_int16_mem pos dp v d hlo hhi, if_neg e1, if_pos rfl]
    split_ifs
    · exact h1.1
    · exact h1.2.1
  · rw [dspl_int16_mem pos dp v d hlo hhi, if_neg e2, if_neg e21, if_pos rfl]
    split_ifs
    · exact h2.1
    · exact h2.2.1
  · rw [dspl_int16_mem pos dp v d hlo hhi, if_neg e3, if_neg e31, if_neg e32, if_pos rfl]
    exact h3.2.1

/-- The number shown decodes to the value. -/
theorem display_decode (v : Int) (hlo : -1999 ≤ v) (hhi : v ≤ 1999) :
    (if specSignCode v = DIGIT_M0 ∨ specSignCode v = DIGIT_M1 then (-1 : Int) else 1) *
      (1000 * (if specSignCode v = DIGIT_P1 ∨ specSignCode v = DIGIT_M1 then (1 : Int) else 0)
        + 100 * ((v.natAbs / 100 % 10 : Nat) : Int) + 10 * ((v.natAbs / 10 % 10 : Nat) : Int)
        + ((v.natAbs % 10 : Nat) : Int)) = v := by
  have habs : |v| = (v.natAbs : Int) := Int.abs_eq_natAbs v
  rcases specSignCode_cases v with h | h | h | h
  · obtain ⟨hs, hm, hcode⟩ := h
    rw [habs] at hm
    rw [hcode, if_neg (by decide), if_neg (by decide)]
    omega
  · obtain ⟨hs, hm, hcode⟩ := h
    rw [habs] at hm
    rw [hcode, if_pos (by decide), if_neg (by decide)]
    omega
  · obtain ⟨hs, hm, hcode⟩ := h
    rw [habs] at hm
    rw [hcode, if_neg (by decide), if_pos (by decide)]
    omega
  · obtain ⟨hs, hm, hcode⟩ := h
    rw [habs] at hm
    rw [hcode, if_pos (by decide), if_pos (by decide)]
    omega

/-! ## Facts about the hour boundary -/

/-- What one call of `temp_incrSeconds` does at the hour boundary, for
counters in their ranges. -/
theorem incrSeconds_hour_boundary (h : TempHist) (hs : h.seconds ≤ 59) (hm : h.minutes ≤ 59)
    (hh : h.hours ≤ 23) :
    ((temp_incrSeconds h).1 = 1 ↔ counted h + secondsAdded h ≥ 3600) ∧
    ((temp_incrSeconds h).1 = 1 →
      (temp_incrSeconds h).2.minutes = 0 ∧
      (temp_incrSeconds h).2.hours = min (h.hours + 1) 23) ∧
    ((temp_incrSeconds h).1 ≠ 1 →
      (temp_incrSeconds h).1 = 0 ∧ (temp_incrSeconds h).2.hours = h.hours) ∧
    (∀ n, counted h + (incrRun n h).2.1
        = 3600 * (incrRun n h).1 + counted (incrRun n h).2.2 ∧
      counted (incrRun n h).2.2 < 3600) := by
  obtain ⟨a, b, c, d, e, f⟩ := incrSeconds_step h hs hm
  have hlt : counted (temp_incrSeconds h).2 < 3600 := by
    unfold counted
    omega
  have hlt0 : counted h < 3600 := by
    unfold counted
    omega
  refine ⟨?_, ?_, ?_, ?_⟩
  · constructor
    · intro h1
      rw [h1] at c
      omega
    · intro h1
      rcases d with d | d
      · rw [d] at c
        omega
      · exact d
  · intro h1
    obtain ⟨e1, e2⟩ := e h1
    refine ⟨e1, ?_⟩
    rw [e2]
    split_ifs <;> omega
  · intro h1
    rcases d with d | d
    · exact ⟨d, f d⟩
    · exact absurd d h1
  · intro n
    obtain ⟨a1, b1, c1⟩ := incrRun_counted h hs hm n
    refine ⟨c1, ?_⟩
    unfold counted
    omega

/-- The counter ranges are kept by `temp_incrSeconds`. -/
theorem incrSeconds_ranges (h : TempHist) (hr : CounterRanges h) :
    CounterRanges (temp_incrSeconds h).2 := by
  obtain ⟨hs, hm, hh, ha, hi⟩ := hr
  obtain ⟨s1, s2, _, _, _, _⟩ := incrSeconds_step h hs hm
  obtain ⟨i1, _, _, i4, i5⟩ := incrSeconds_other h
  refine ⟨s1, s2, ?_, ?_, by rw [i1]; exact hi⟩
  · have : max h.hours 23 = 23 := max_eq_right hh
    omega
  · rcases i5 with h0 | ⟨_, h2⟩
    · omega
    · omega

/-- Runs of `temp_incrSeconds` from power-on stay within the counter
ranges. -/
theorem incrRun_ranges (h : TempHist) (hr : CounterRanges h) :
    ∀ n, CounterRanges (incrRun n h).2.2 := by
  intro n
  induction n with
  | zero => exact hr
  | succ n ih => exact incrSeconds_ranges _ ih

/-! ## Claims -/

/-- C1: for every byte sequence `m` and every state of `oneWire`, starting
from `oneWire.crc8 = 0` and applying `oneWire_updateCRC` to each byte of `m`
and then to the Dallas/Maxim CRC-8 of `m` leaves `oneWire.crc8 = 0`. -/
theorem C1_crc8_round_trip (ow : OneWire) (m : List Nat) :
    (crcFold { ow with crc8 := 0 } (m ++ [dallasCrc8 m])).crc8 = 0 := by
  rw [crcFold_crc8]
  exact updateCRC_fold_append_crc m

/-- C2: high-on hysteresis. For a channel `i` with a valid reading whose
on-setpoint is greater than its off-setpoint (and, for channel 2, with
`reg2[0]` off), `temp_updOutput` leaves `current[i] = 1` when the source value
is at least `10*on`, `current[i] = 0` when it is at most `10*off`, and the
previous `current[i]` when it lies strictly between the two thresholds. -/
theorem C2_high_on_hysteresis (g : Globals) (i : Nat) (hi : i < 2)
    (hv : g.temp_hist.valid i ≠ 0)
    (hon : IsInt8 (g.temp_cfg.para (CFG_PARA_CH1_ON + i)))
    (hoff : IsInt8 (g.temp_cfg.para (CFG_PARA_CH1_OFF + i)))
    (hpol : g.temp_cfg.para (CFG_PARA_CH1_ON + i) > g.temp_cfg.para (CFG_PARA_CH1_OFF + i))
    (hc : i = 1 → g.output_data.reg2 0 = 0) :
    (srcTemp g i ≥ 10 * g.temp_cfg.para (CFG_PARA_CH1_ON + i) →
        (temp_updOutput g).output_data.current i = 1) ∧
    (srcTemp g i ≤ 10 * g.temp_cfg.para (CFG_PARA_CH1_OFF + i) →
        (temp_updOutput g).output_data.current i = 0) ∧
    (10 * g.temp_cfg.para (CFG_PARA_CH1_OFF + i) < srcTemp g i →
      srcTemp g i < 10 * g.temp_cfg.para (CFG_PARA_CH1_ON + i) →
        (temp_updOutput g).output_data.current i = g.output_data.current i) := by
  have hton : t_on g i = g.temp_cfg.para (CFG_PARA_CH1_ON + i) * 10 := wrap16_times_ten _ hon
  have htoff : t_off g i = g.temp_cfg.para (CFG_PARA_CH1_OFF + i) * 10 := wrap16_times_ten _ hoff
  have hhigh : highOn g i = true := by
    simp only [highOn, hton, htoff, decide_eq_true_eq]
    omega
  rw [updOutput_current g i hi, rawOutput_uncoupled g i hi hc]
  simp only [decideOutput, hv, ne_eq, not_false_eq_true, if_true, hhigh, hton, htoff]
  refine ⟨fun h => ?_, fun h => ?_, fun h1 h2 => ?_⟩
  · rw [if_pos (by omega)]
  · rw [if_neg (by omega), if_pos (by omega)]
  · rw [if_neg (by omega), if_neg (by omega)]

/-- Witness for C2, the example of the claim: on = 10, off = 5 on channel 1;
source 70 holds the previous state (here on), 110 gives on, 40 gives off. -/
theorem C2_high_on_hysteresis_witness :
    (temp_updOutput (demoGlobals 1 1 70 70 10 5 20 10 1 0)).output_data.current 0 = 1 ∧
    (temp_updOutput (demoGlobals 1 1 110 110 10 5 20 10 0 0)).output_data.current 0 = 1 ∧
    (temp_updOutput (demoGlobals 1 1 40 40 10 5 20 10 1 0)).output_data.current 0 = 0 :=
  ⟨(C2_high_on_hysteresis (demoGlobals 1 1 70 70 10 5 20 10 1 0) 0 (by decide) (by decide)
      (by decide) (by decide) (by decide) (by decide)).2.2 (by decide) (by decide),
   (C2_high_on_hysteresis (demoGlobals 1 1 110 110 10 5 20 10 0 0) 0 (by decide) (by decide)
      (by decide) (by decide) (by decide) (by decide)).1 (by decide),
   (C2_high_on_hysteresis (demoGlobals 1 1 40 40 10 5 20 10 1 0) 0 (by decide) (by decide)
      (by decide) (by decide) (by decide) (by decide)).2.1 (by decide)⟩

/-- C3: low-on hysteresis. The polarity flag computed by `temp_updOutput` is
exactly `on > off` of the channel's two setpoints, whatever the rest of the
state is. For a channel `i` with a valid reading whose on-setpoint is smaller
than its off-setpoint (and, for channel 2, with `reg2[0]` off), the call
leaves `current[i] = 1` when the source value is at most `10*on`,
`current[i] = 0` when it is at least `10*off`, and the previous `current[i]`
when it lies strictly between. -/
theorem C3_low_on_hysteresis (g : Globals) (i : Nat) (hi : i < 2)
    (hon : IsInt8 (g.temp_cfg.para (CFG_PARA_CH1_ON + i)))
    (hoff : IsInt8 (g.temp_cfg.para (CFG_PARA_CH1_OFF + i))) :
    highOn g i
      = decide (g.temp_cfg.para (CFG_PARA_CH1_ON + i) > g.temp_cfg.para (CFG_PARA_CH1_OFF + i)) ∧
    (g.temp_hist.valid i ≠ 0 →
      g.temp_cfg.para (CFG_PARA_CH1_ON + i) < g.temp_cfg.para (CFG_PARA_CH1_OFF + i) →
      (i = 1 → g.output_data.reg2 0 = 0) →
        (srcTemp g i ≤ 10 * g.temp_cfg.para (CFG_PARA_CH1_ON + i) →
            (temp_updOutput g).output_data.current i = 1) ∧
        (srcTemp g i ≥ 10 * g.temp_cfg.para (CFG_PARA_CH1_OFF + i) →
            (temp_updOutput g).output_data.current i = 0) ∧
        (10 * g.temp_cfg.para (CFG_PARA_CH1_ON + i) < srcTemp g i →
          srcTemp g i < 10 * g.temp_cfg.para (CFG_PARA_CH1_OFF + i) →
            (temp_updOutput g).output_data.current i = g.output_data.current i)) := by
  have hton : t_on g i = g.temp_cfg.para (CFG_PARA_CH1_ON + i) * 10 := wrap16_times_ten _ hon
  have htoff : t_off g i = g.temp_cfg.para (CFG_PARA_CH1_OFF + i) * 10 := wrap16_times_ten _ hoff
  constructor
  · simp only [highOn, hton, htoff, gt_iff_lt, decide_eq_decide]
    omega
  · intro hv hpol hc
    have hlow : highOn g i = false := by
      simp only [highOn, hton, htoff, decide_eq_false_iff_not]
      omega
    rw [updOutput_current g i hi, rawOutput_uncoupled g i hi hc]
    simp only [decideOutput, hv, ne_eq, not_false_eq_true, if_true, hlow, hton, htoff]
    refine ⟨fun h => ?_, fun h => ?_, fun h1 h2 => ?_⟩
    · simp only [Bool.false_eq_true, if_false]
      rw [if_pos (by omega)]
    · simp only [Bool.false_eq_true, if_false]
      rw [if_neg (by omega), if_pos (by omega)]
    · simp only [Bool.false_eq_true, if_false]
      rw [if_neg (by omega), if_neg (by omega)]

/-- Witness for C3: on = 5, off = 10 on channel 1 (the power-on defaults);
source 70 holds the previous state (here on), 40 gives on, 110 gives off. -/
theorem C3_low_on_hysteresis_witness :
    (temp_updOutput (demoGlobals 1 1 70 70 5 10 20 10 1 0)).output_data.current 0 = 1 ∧
    (temp_updOutput (demoGlobals 1 1 40 40 5 10 20 10 0 0)).output_data.current 0 = 1 ∧
    (temp_updOutput (demoGlobals 1 1 110 110 5 10 20 10 1 0)).output_data.current 0 = 0 :=
  ⟨((C3_low_on_hysteresis (demoGlobals 1 1 70 70 5 10 20 10 1 0) 0 (by decide) (by decide)
      (by decide)).2 (by decide) (by decide) (by decide)).2.2 (by decide) (by decide),
   ((C3_low_on_hysteresis (demoGlobals 1 1 40 40 5 10 20 10 0 0) 0 (by decide) (by decide)
      (by decide)).2 (by decide) (by decide) (by decide)).1 (by decide),
   ((C3_low_on_hysteresis (demoGlobals 1 1 110 110 5 10 20 10 1 0) 0 (by decide) (by decide)
      (by decide)).2 (by decide) (by decide) (by decide)).2.1 (by decide)⟩

/-- C4 as stated fails: with channel 2 invalid and the channel-1 stage-2
register on, `temp_updOutput` leaves the channel-2 raw decision on. -/
theorem C4_invalid_forces_off_counterexample :
    (demoGlobals 1 0 70 70 5 10 20 10 0 1).temp_hist.valid 1 = 0 ∧
    (temp_updOutput (demoGlobals 1 0 70 70 5 10 20 10 0 1)).output_data.current 1 = 1 := by
  decide

/-- C4 amended: when `valid[i] = 0` on entry, `temp_updOutput` leaves
`current[0] = 0` for channel 1, and for channel 2 it leaves `current[1]` equal
to the channel-1 stage-2 register `reg2[0]` as it was on entry; so the channel
is off unless it is channel 2 and `reg2[0]` is on. -/
theorem C4_invalid_forces_off_amended (g : Globals) (i : Nat) (hi : i < 2)
    (hv : g.temp_hist.valid i = 0) :
    (temp_updOutput g).output_data.current i = (if i = 1 then g.output_data.reg2 0 else 0) ∧
    ((i = 1 → g.output_data.reg2 0 = 0) → (temp_updOutput g).output_data.current i = 0) := by
  have hd : decideOutput g i = 0 := by simp [decideOutput, hv]
  rw [updOutput_current g i hi]
  interval_cases i
  · rw [rawOutput_zero, hd]
    simp
  · rw [rawOutput_one, hd]
    simp

/-- Witness for the amended C4: channel 1 invalid, previous decision on. -/
theorem C4_invalid_forces_off_amended_witness :
    (temp_updOutput (demoGlobals 0 1 70 70 5 10 20 10 1 0)).output_data.current 0 = 0 :=
  (C4_invalid_forces_off_amended (demoGlobals 0 1 70 70 5 10 20 10 1 0) 0 (by decide)
    (by decide)).2 (by decide)

/-- C5: channel-2 coupling. In every state in which the channel-1 stage-2
register `reg2[0]` is on when `temp_updOutput` is entered, the channel-2 raw
decision `current[1]` after the call is on; when channel 2's own comparison
yields off, it is exactly `reg2[0]`. -/
theorem C5_channel2_coupling (g : Globals) (h : g.output_data.reg2 0 ≠ 0) :
    (temp_updOutput g).output_data.current 1 ≠ 0 ∧
    (decideOutput g 1 = 0 → (temp_updOutput g).output_data.current 1 = g.output_data.reg2 0) := by
  rw [updOutput_current g 1 (by decide), rawOutput_one]
  refine ⟨or_ne_zero_right _ _ h, fun h0 => ?_⟩
  rw [h0]
  simp

/-- Witness for C5: both readings valid and equal (difference 0, channel 2
low of its high-on band 20/10, previous decision off), `reg2[0] = 1`. -/
theorem C5_channel2_coupling_witness :
    decideOutput (demoGlobals 1 1 70 70 5 10 20 10 0 1) 1 = 0 ∧
    (temp_updOutput (demoGlobals 1 1 70 70 5 10 20 10 0 1)).output_data.current 1 = 1 :=
  ⟨by decide,
   (C5_channel2_coupling (demoGlobals 1 1 70 70 5 10 20 10 0 1) (by decide)).2 (by decide)⟩

/-- C6: debounce. Let a call of `temp_updOutput` change the raw decision of
channel `i` (call 0 of the sequence `ins`, entered in state `g`) and let the
raw decision change again in call `k + 1` with `k ≤ 28`, that is before 29
further calls with an unchanged raw decision have happened. Then none of the
calls `0 .. k + 1` executes the store to `reg1[i]`, and after each of them
`reg1[i]` has the value it had before the first change. (Whatever else
happens to the inputs between the calls; the calls in between need not even
be assumed unchanged.) -/
theorem C6_debounce (g : Globals) (ins : Nat → Inputs) (i k : Nat) (hi : i < 2) (hk : k ≤ 28)
    (h1 : g.output_data.current i ≠ rawOutput (entry (ins 0) g) i)
    (h2 : (runCycles ins (k + 1) g).output_data.current i ≠
        rawOutput (entry (ins (k + 1)) (runCycles ins (k + 1) g)) i) :
    ∀ n, n ≤ k + 1 →
      writesReg1 (entry (ins n) (runCycles ins n g)) i = false ∧
      (runCycles ins (n + 1) g).output_data.reg1 i = g.output_data.reg1 i := by
  have hno : ∀ n, n ≤ k + 1 →
      ¬ ((runCycles ins n g).output_data.current i
            = rawOutput (entry (ins n) (runCycles ins n g)) i ∧
          TEMP_OUTPUT_1_COUNT - 1 ≤
            nextCount ((runCycles ins n g).output_data.current i)
              ((runCycles ins n g).output_data.count i)
              (rawOutput (entry (ins n) (runCycles ins n g)) i)) := by
    intro n hn
    rcases Nat.eq_zero_or_pos n with h0 | hpos
    · subst h0
      exact fun h => h1 h.1
    · rcases Nat.lt_or_ge n (k + 1) with hlt | hge
      · obtain ⟨m, rfl⟩ : ∃ m, n = m + 1 := ⟨n - 1, by omega⟩
        have hc := count_after_change g ins i hi h1 m
        have hle := nextCount_le ((runCycles ins (m + 1) g).output_data.current i)
          ((runCycles ins (m + 1) g).output_data.count i)
          (rawOutput (entry (ins (m + 1)) (runCycles ins (m + 1) g)) i)
        intro h
        have h29 := h.2
        simp only [TEMP_OUTPUT_1_COUNT] at h29
        omega
      · have hn' : n = k + 1 := by omega
        subst hn'
        exact fun h => h2 h.1
  intro n
  induction n with
  | zero =>
    intro hn
    refine ⟨?_, ?_⟩
    · rw [← Bool.not_eq_true, writesReg1_iff]
      exact hno 0 hn
    · show (cycle (ins 0) g).output_data.reg1 i = _
      rw [cycle_reg1 _ _ i hi]
      exact if_neg (hno 0 hn)
  | succ n ih =>
    intro hn
    refine ⟨?_, ?_⟩
    · rw [← Bool.not_eq_true, writesReg1_iff]
      exact hno (n + 1) hn
    · show (cycle (ins (n + 1)) (runCycles ins (n + 1) g)).output_data.reg1 i = _
      rw [cycle_reg1 _ _ i hi, if_neg (hno (n + 1) hn)]
      exact (ih (by omega)).2

/-- Witness for C6: channel 1 with band on = 10, off = 5, committed and raw
state on; the reading drops to 4.0 (raw decision off), stays there for one
more call and returns to 11.0 (raw decision on again): `reg1[0]` is still on
after the three calls. -/
theorem C6_debounce_witness :
    (runCycles (fun n => if n < 2 then demoInputs 40 else demoInputs 110) 3
        { demoGlobals 1 1 110 110 10 5 20 10 1 0 with
          output_data := { reg1 := fun _ => 1, reg2 := fun _ => 0,
                           current := fun _ => 1, count := fun _ => 200 } }).output_data.reg1 0
      = 1 :=
  (C6_debounce
    { demoGlobals 1 1 110 110 10 5 20 10 1 0 with
      output_data := { reg1 := fun _ => 1, reg2 := fun _ => 0,
                       current := fun _ => 1, count := fun _ => 200 } }
    (fun n => if n < 2 then demoInputs 40 else demoInputs 110) 0 1 (by decide) (by decide)
    (by decide) (by decide) 2 (by decide)).2

/-- C7: commit delays. Let call 0 of the sequence `ins`, entered in state `g`,
change the raw decision of channel `i` to `d`, and let the following `k`
calls all produce the raw decision `d`. Then after those `k` calls the counter
is `min k 255`, `reg1[i]` is still what it was before the changing call as
long as `k ≤ 28` and is `d` from the 29th following call on, and `reg2[i]` is
still what it was as long as `k ≤ 58` and is `d` from the 59th on. -/
theorem C7_commit_delays (g : Globals) (ins : Nat → Inputs) (i d : Nat) (hi : i < 2)
    (h0 : g.output_data.current i ≠ rawOutput (entry (ins 0) g) i)
    (hd : rawOutput (entry (ins 0) g) i = d) (k : Nat)
    (hs : ∀ n, n < k → rawOutput (entry (ins (n + 1)) (runCycles ins (n + 1) g)) i = d) :
    (runCycles ins (k + 1) g).output_data.current i = d ∧
    (runCycles ins (k + 1) g).output_data.count i = min k 255 ∧
    (runCycles ins (k + 1) g).output_data.reg1 i = (if 29 ≤ k then d else g.output_data.reg1 i) ∧
    (runCycles ins (k + 1) g).output_data.reg2 i = (if 59 ≤ k then d else g.output_data.reg2 i) := by
  induction k with
  | zero =>
    show (cycle (ins 0) g).output_data.current i = d ∧
      (cycle (ins 0) g).output_data.count i = min 0 255 ∧
      (cycle (ins 0) g).output_data.reg1 i = _ ∧ (cycle (ins 0) g).output_data.reg2 i = _
    rw [cycle_current _ _ i hi, cycle_count _ _ i hi, cycle_reg1 _ _ i hi, cycle_reg2 _ _ i hi,
      nextCount_change _ _ _ h0]
    simp [h0, hd, TEMP_OUTPUT_1_COUNT, TEMP_OUTPUT_2_COUNT]
  | succ k ih =>
    obtain ⟨hcur, hcnt, hr1, hr2⟩ := ih (fun n hn => hs n (by omega))
    have hraw := hs k (by omega)
    show (cycle (ins (k + 1)) (runCycles ins (k + 1) g)).output_data.current i = d ∧
      (cycle (ins (k + 1)) (runCycles ins (k + 1) g)).output_data.count i = min (k + 1) 255 ∧
      (cycle (ins (k + 1)) (runCycles ins (k + 1) g)).output_data.reg1 i = _ ∧
      (cycle (ins (k + 1)) (runCycles ins (k + 1) g)).output_data.reg2 i = _
    rw [cycle_current _ _ i hi, cycle_count _ _ i hi, cycle_reg1 _ _ i hi, cycle_reg2 _ _ i hi,
      hraw, hcur, hcnt, hr1, hr2]
    have hn : nextCount d (min k 255) d = min (k + 1) 255 := by
      unfold nextCount
      simp only [ne_eq, not_true_eq_false, if_false]
      split_ifs <;> omega
    rw [hn]
    simp only [TEMP_OUTPUT_1_COUNT, TEMP_OUTPUT_2_COUNT, true_and]
    refine ⟨?_, ?_⟩
    · split_ifs <;> first | rfl | omega
    · split_ifs <;> first | rfl | omega

/-- Witness for C7: channel 1 with band on = 10, off = 5, everything off; the
reading rises to 11.0 and stays: after the changing call and two more calls
the counter is 2 and both registers are still off. -/
theorem C7_commit_delays_witness :
    (runCycles (fun _ => demoInputs 110) 3
        (demoGlobals 1 1 40 40 10 5 20 10 0 0)).output_data.count 0 = 2 ∧
    (runCycles (fun _ => demoInputs 110) 3
        (demoGlobals 1 1 40 40 10 5 20 10 0 0)).output_data.reg1 0 = 0 :=
  ⟨(C7_commit_delays (demoGlobals 1 1 40 40 10 5 20 10 0 0) (fun _ => demoInputs 110) 0 1
      (by decide) (by decide) (by decide) 2 (by decide)).2.1,
   (C7_commit_delays (demoGlobals 1 1 40 40 10 5 20 10 0 0) (fun _ => demoInputs 110) 0 1
      (by decide) (by decide) (by decide) 2 (by decide)).2.2.1⟩

set_option maxRecDepth 1000000 in
/-- C8, the code at the failing input: a scratchpad with a correct CRC and
raw value 0xFE6F (-401) is accepted by `temp_readTemp` and stored as -251,
not as the -250 that rounding toward zero gives; the shift `temp >>= 4`
rounds toward minus infinity. Raw 0x0191 (401) is converted to 250. -/
theorem C8_conversion_negative_raw :
    (temp_readTemp scriptBus (demoScript demoScratch, demoSensor)).2.temp_hist.valid 0 = 1 ∧
    (temp_readTemp scriptBus (demoScript demoScratch, demoSensor)).2.temp_hist.value 0 = -251 ∧
    convertTemp 0xFE 0x6F = -251 ∧ convertTemp 0x01 0x91 = 250 := by
  decide

/-- C9: scratchpad acceptance. For each slot `i < min (dev_count, 2)`, let
`s` be the state in which `temp_readTemp` reaches slot `i`. After
`temp_readTemp`, `valid[i] = 1` if and only if `oneWire_selectDev (i)`
succeeded and the CRC accumulator, reset to 0 and folded over the nine bytes
read, is 0; in every other case `valid[i] = 0` and `value[i]` is the value it
had before the call. -/
theorem C9_scratchpad_acceptance {W : Type} (hw : Bus W) (w : W) (g : Globals) (i : Nat)
    (hi : i < min g.oneWire.dev_count 2) :
    ((temp_readTemp hw (w, g)).2.temp_hist.valid i = 1
        ↔ SlotAccepted hw i (slotEntry hw i (w, g))) ∧
    (¬ SlotAccepted hw i (slotEntry hw i (w, g)) →
      (temp_readTemp hw (w, g)).2.temp_hist.valid i = 0 ∧
      (temp_readTemp hw (w, g)).2.temp_hist.value i = g.temp_hist.value i) := by
  have himax : (if g.oneWire.dev_count < 2 then g.oneWire.dev_count else 2)
      = min g.oneWire.dev_count 2 := by
    split_ifs <;> omega
  have hrun : temp_readTemp hw (w, g) = forLoop (min g.oneWire.dev_count 2) (readTempSlot hw) (w, g) := by
    unfold temp_readTemp
    simp only [himax]
  have hafter := forLoop_readTemp_after hw i (w, g) _ hi
  have hbefore := forLoop_readTemp_before hw i (w, g) i (le_refl i)
  rw [hrun, hafter.1, hafter.2]
  classical
  rw [readTempSlot_valid, if_pos rfl]
  refine ⟨?_, fun hna => ⟨?_, ?_⟩⟩
  · by_cases hacc : SlotAccepted hw i (slotEntry hw i (w, g)) <;> simp [hacc]
  · simp [hna]
  · rw [readTempSlot_value hw i i _ (Or.inr hna)]
    exact hbefore.2

set_option maxRecDepth 1000000 in
/-- Witness for C9: one sensor, presence pulse seen and a scratchpad with a
correct CRC read: the slot is accepted and `valid[0] = 1`. -/
theorem C9_scratchpad_acceptance_witness :
    SlotAccepted scriptBus 0 (slotEntry scriptBus 0 (demoScript demoScratch, demoSensor)) ∧
    (temp_readTemp scriptBus (demoScript demoScratch, demoSensor)).2.temp_hist.valid 0 = 1 :=
  ⟨by decide,
   (C9_scratchpad_acceptance scriptBus (demoScript demoScratch) demoSensor 0 (by decide)).1.2
     (by decide)⟩

/-- C10: search with two devices. On the ideal bus carrying exactly the two
devices `A` and `B`, each address eight bytes with a non-zero family byte and
a correct trailing CRC, `A` different from `B`, and for any prior content
of `oneWire`: there is a lowest bit position `d` (LSB-first order) where the
addresses differ; with `lo` the address that has the 0 there and `hi` the
other, `oneWire_findFirst` returns 1 and stores `lo` in `rom[0]`, the
following `oneWire_findNext` returns 1 and stores `hi` in `rom[1]`, and a
third call returns 0 leaving `dev_count = 2` and both addresses in place. -/
theorem C10_search_two_devices (A B : Nat → Nat) (hA : ValidAddr A) (hB : ValidAddr B)
    (hAB : ∃ j, j < 8 ∧ A j ≠ B j) (w : IdealWorld) (hw : w.devs = [A, B]) (ow : OneWire) :
    ∃ d lo hi, d < 64 ∧ (∀ p, p < d → addrBit A p = addrBit B p) ∧
      addrBit A d ≠ addrBit B d ∧ addrBit lo d = false ∧
      ((lo = A ∧ hi = B) ∨ (lo = B ∧ hi = A)) ∧
      ∃ w1 ow1 w2 ow2 w3 ow3,
        oneWire_findFirst idealBus w ow = some (1, w1, ow1) ∧
        (∀ j, j < 8 → ow1.rom 0 j = lo j) ∧
        oneWire_findNext idealBus w1 ow1 = some (1, w2, ow2) ∧
        (∀ j, j < 8 → ow2.rom 0 j = lo j ∧ ow2.rom 1 j = hi j) ∧
        oneWire_findNext idealBus w2 ow2 = some (0, w3, ow3) ∧
        ow3.dev_count = 2 ∧
        (∀ j, j < 8 → ow3.rom 0 j = lo j ∧ ow3.rom 1 j = hi j) := by
  obtain ⟨d, hd, hagree, hdiff⟩ := exists_first_diff A B hA.1 hB.1 hAB
  cases hAd : addrBit A d with
  | false =>
    have hBd : addrBit B d = true := by
      cases hb : addrBit B d with
      | false => rw [hAd, hb] at hdiff; exact absurd rfl hdiff
      | true => rfl
    exact ⟨d, A, B, hd, hagree, by rw [hAd, hBd]; simp, hAd, Or.inl ⟨rfl, rfl⟩,
      two_device_discovery [A, B] A B d (Or.inl rfl) hagree hAd hBd hd hA hB w ow hw⟩
  | true =>
    have hBd : addrBit B d = false := by
      cases hb : addrBit B d with
      | false => rfl
      | true => rw [hAd, hb] at hdiff; exact absurd rfl hdiff
    exact ⟨d, B, A, hd, hagree, by rw [hAd, hBd]; simp, hBd, Or.inr ⟨rfl, rfl⟩,
      two_device_discovery [A, B] B A d (Or.inr rfl) (fun p hp => (hagree p hp).symm) hBd hAd hd
        hB hA w ow hw⟩

set_option maxRecDepth 1000000 in
/-- Witness for C10: the addresses 10 01 02 03 04 05 01 F8 and
20 01 02 03 04 05 02 0E on an idle bus, `oneWire` holding leftovers. -/
theorem C10_search_two_devices_witness :
    ∃ d lo hi, d < 64 ∧ (∀ p, p < d → addrBit demoAddrA p = addrBit demoAddrB p) ∧
      addrBit demoAddrA d ≠ addrBit demoAddrB d ∧ addrBit lo d = false ∧
      ((lo = demoAddrA ∧ hi = demoAddrB) ∨ (lo = demoAddrB ∧ hi = demoAddrA)) ∧
      ∃ w1 ow1 w2 ow2 w3 ow3,
        oneWire_findFirst idealBus { devs := [demoAddrA, demoAddrB], mode := .idle } demoOneWire
          = some (1, w1, ow1) ∧
        (∀ j, j < 8 → ow1.rom 0 j = lo j) ∧
        oneWire_findNext idealBus w1 ow1 = some (1, w2, ow2) ∧
        (∀ j, j < 8 → ow2.rom 0 j = lo j ∧ ow2.rom 1 j = hi j) ∧
        oneWire_findNext idealBus w2 ow2 = some (0, w3, ow3) ∧
        ow3.dev_count = 2 ∧
        (∀ j, j < 8 → ow3.rom 0 j = lo j ∧ ow3.rom 1 j = hi j) :=
  C10_search_two_devices demoAddrA demoAddrB (by decide) (by decide) ⟨0, by decide, by decide⟩
    { devs := [demoAddrA, demoAddrB], mode := .idle } rfl demoOneWire

/-- C12: rolling history wrap. For every state with `temp_hist.index` in
0..23: one call of `temp_updHistMinMax` sets `index` to `(index + 1) mod 24`,
puts `INT16_MAX` / `INT16_MIN` into the new slot of both channels and leaves
every other slot unchanged; after exactly 24 calls `index` has its starting
value again and that slot holds `min = INT16_MAX`, `max = INT16_MIN` for
both channels. -/
theorem C12_history_wrap (h : TempHist) (hi : h.index ≤ 23) :
    (temp_updHistMinMax h).index = (h.index + 1) % 24 ∧
    (∀ i, i < 2 →
      (temp_updHistMinMax h).min_array i ((h.index + 1) % 24) = 32767 ∧
      (temp_updHistMinMax h).max_array i ((h.index + 1) % 24) = -32768) ∧
    (∀ i s, s ≠ (h.index + 1) % 24 →
      (temp_updHistMinMax h).min_array i s = h.min_array i s ∧
      (temp_updHistMinMax h).max_array i s = h.max_array i s) ∧
    (temp_updHistMinMax^[24] h).index = h.index ∧
    (∀ i, i < 2 →
      (temp_updHistMinMax^[24] h).min_array i h.index = 32767 ∧
      (temp_updHistMinMax^[24] h).max_array i h.index = -32768) := by
  have h1 := updHist_index h hi
  have h24 : (temp_updHistMinMax^[24] h).index = h.index := by
    rw [updHist_iterate_index h hi 24]
    omega
  refine ⟨h1, fun i hi2 => ?_, fun i s hs => ?_, h24, fun i hi2 => ?_⟩
  · rw [← h1]
    exact updHist_new_slot h i hi2
  · rw [← h1] at hs
    exact updHist_other_slots h i s hs
  · have hnew := updHist_new_slot (temp_updHistMinMax^[23] h) i hi2
    rw [← Function.iterate_succ_apply' temp_updHistMinMax 23 h, h24] at hnew
    exact hnew

/-- Witness for C12: the power-on state with `index = 7`. -/
theorem C12_history_wrap_witness :
    (temp_updHistMinMax { powerOnHist with index := 7 }).index = 8 ∧
    (temp_updHistMinMax^[24] { powerOnHist with index := 7 }).index = 7 :=
  ⟨(C12_history_wrap { powerOnHist with index := 7 } (by decide)).1,
   (C12_history_wrap { powerOnHist with index := 7 } (by decide)).2.2.2.1⟩

/-- C13: rolling min/max accumulation. Let the current slot of channel `i`
hold the sentinels (as after a rollover or start-up) and let any sequence
`rs` of acquisition cycles follow without a rollover. Then `index` is
unchanged; if no cycle had `valid[i] != 0` the slot still holds `INT16_MAX`
and `INT16_MIN`; otherwise its `min` (`max`) is one of the readings of the
valid cycles and is below (above) or equal to all of them. Moreover
`temp_updCurMinMax` never changes `index`, `value` or `valid` and changes no
slot other than the one at `index`. -/
theorem C13_min_max_accumulation (h0 : TempHist) (rs : List CurInputs) (i : Nat) (hi : i < 2)
    (hmin : h0.min_array i h0.index = 32767) (hmax : h0.max_array i h0.index = -32768)
    (hval : ∀ r, r ∈ rs → IsInt16 (r.value i)) :
    (runCur rs h0).index = h0.index ∧
    (validValues i rs = [] →
      (runCur rs h0).min_array i h0.index = 32767 ∧
      (runCur rs h0).max_array i h0.index = -32768) ∧
    (validValues i rs ≠ [] →
      (runCur rs h0).min_array i h0.index ∈ validValues i rs ∧
      (∀ v, v ∈ validValues i rs → (runCur rs h0).min_array i h0.index ≤ v) ∧
      (runCur rs h0).max_array i h0.index ∈ validValues i rs ∧
      (∀ v, v ∈ validValues i rs → v ≤ (runCur rs h0).max_array i h0.index)) ∧
    (∀ h : TempHist,
      (temp_updCurMinMax h).index = h.index ∧ (temp_updCurMinMax h).valid = h.valid ∧
      (temp_updCurMinMax h).value = h.value ∧
      ∀ k s, s ≠ h.index →
        (temp_updCurMinMax h).min_array k s = h.min_array k s ∧
        (temp_updCurMinMax h).max_array k s = h.max_array k s) := by
  obtain ⟨hidx, hmn, hmx⟩ := runCur_slot i hi rs h0
  rw [hmin] at hmn
  rw [hmax] at hmx
  have hrange : ∀ v, v ∈ validValues i rs → IsInt16 v := by
    intro v hv
    unfold validValues at hv
    rw [List.mem_map] at hv
    obtain ⟨r, hr, rfl⟩ := hv
    exact hval r (List.mem_of_mem_filter hr)
  obtain ⟨_, hle, hch⟩ := foldl_min_spec (validValues i rs) 32767
  obtain ⟨_, hge, hch2⟩ := foldl_max_spec (validValues i rs) (-32768)
  refine ⟨hidx, ?_, ?_, ?_⟩
  · intro hnil
    rw [hmn, hmx, hnil]
    exact ⟨rfl, rfl⟩
  · intro hne
    obtain ⟨v0, hv0⟩ := List.exists_mem_of_ne_nil _ hne
    rw [hmn, hmx]
    refine ⟨?_, hle, ?_, hge⟩
    · rcases hch with hc | hc
      · have h1 := hle v0 hv0
        have h2 := (hrange v0 hv0).2
        rw [hc] at h1
        have : v0 = 32767 := le_antisymm h2 h1
        rw [hc, ← this]
        exact hv0
      · exact hc
    · rcases hch2 with hc | hc
      · have h1 := hge v0 hv0
        have h2 := (hrange v0 hv0).1
        rw [hc] at h1
        have : v0 = -32768 := le_antisymm h1 h2
        rw [hc, ← this]
        exact hv0
      · exact hc
  · intro h
    obtain ⟨a, b, c⟩ := updCur_fields h
    exact ⟨a, b, c, fun k s hs => updCur_other_slots h k s hs⟩

/-- Witness for C13: from power-on, three cycles with channel 1 reading
21.5 (valid), 30.0 (invalid) and -4.0 (valid): the slot holds -40 and 215. -/
theorem C13_min_max_accumulation_witness :
    validValues 0 [demoCycle 1 215, demoCycle 0 300, demoCycle 1 (-40)] = [215, -40] ∧
    (∀ v, v ∈ validValues 0 [demoCycle 1 215, demoCycle 0 300, demoCycle 1 (-40)] →
      (runCur [demoCycle 1 215, demoCycle 0 300, demoCycle 1 (-40)] powerOnHist).min_array 0
        powerOnHist.index ≤ v) :=
  ⟨by decide,
   ((C13_min_max_accumulation powerOnHist
      [demoCycle 1 215, demoCycle 0 300, demoCycle 1 (-40)] 0 (by decide) (by decide) (by decide)
      (by decide)).2.2.1 (by decide)).2.1⟩

/-- C14: hour boundary signal. The states of the program have `hours <= 23`:
`hours` is 0 at power-on and written only by `if (hours < 23) hours++`, so
the counter ranges `CounterRanges` (`seconds <= 59`, `minutes <= 59`,
`hours <= 23`, `add_sec <= 1`, `index <= 23`) hold at power-on, are kept by
`temp_incrSeconds` and hold after every run of calls from power-on. For every
state within these ranges, `temp_incrSeconds` returns 1 if and only if the
counted time `60 * minutes + seconds` plus the seconds this call adds reaches
3600; then `minutes` becomes 0 and `hours` becomes `min (hours + 1, 23)`;
otherwise it returns 0 and `hours` is unchanged. Over any run of `n` calls
the counted seconds satisfy `counted before + seconds added = 3600 * (number
of calls that returned 1) + counted after` with `counted after < 3600`: one
return of 1 per 3600 counted seconds. -/
theorem C14_hour_boundary (h : TempHist) (hr : CounterRanges h) :
    ((temp_incrSeconds h).1 = 1 ↔ counted h + secondsAdded h ≥ 3600) ∧
    ((temp_incrSeconds h).1 = 1 →
      (temp_incrSeconds h).2.minutes = 0 ∧
      (temp_incrSeconds h).2.hours = min (h.hours + 1) 23) ∧
    ((temp_incrSeconds h).1 ≠ 1 →
      (temp_incrSeconds h).1 = 0 ∧ (temp_incrSeconds h).2.hours = h.hours) ∧
    (∀ n, counted h + (incrRun n h).2.1
        = 3600 * (incrRun n h).1 + counted (incrRun n h).2.2 ∧
      counted (incrRun n h).2.2 < 3600) ∧
    CounterRanges powerOnHist ∧
    CounterRanges (temp_incrSeconds h).2 ∧
    (∀ n, CounterRanges (incrRun n powerOnHist).2.2) := by
  obtain ⟨a, b, c, d⟩ := incrSeconds_hour_boundary h hr.1 hr.2.1 hr.2.2.1
  exact ⟨a, b, c, d, by decide, incrSeconds_ranges h hr, incrRun_ranges powerOnHist (by decide)⟩

/-- Witness for C14: 59 min 59 s in hour 5, no leap second due: the call
returns 1 and the hour becomes 6; in hour 23 the hour stays 23. -/
theorem C14_hour_boundary_witness :
    CounterRanges { powerOnHist with seconds := 59, minutes := 59, hours := 5 } ∧
    (temp_incrSeconds { powerOnHist with seconds := 59, minutes := 59, hours := 5 }).1 = 1 ∧
    (temp_incrSeconds { powerOnHist with seconds := 59, minutes := 59, hours := 5 }).2.hours
      = min (5 + 1) 23 ∧
    (temp_incrSeconds { powerOnHist with seconds := 59, minutes := 59, hours := 23 }).2.hours
      = 23 :=
  ⟨by decide,
   (C14_hour_boundary { powerOnHist with seconds := 59, minutes := 59, hours := 5 }
      (by decide)).1.2 (by decide),
   ((C14_hour_boundary { powerOnHist with seconds := 59, minutes := 59, hours := 5 }
      (by decide)).2.1 (by decide)).2,
   ((C14_hour_boundary { powerOnHist with seconds := 59, minutes := 59, hours := 23 }
      (by decide)).2.1 (by decide)).2⟩

/-- C15, the code from power-on: the leap-second branch of
`temp_incrSeconds` is taken in every second call, not in every third. The
call number `n + 1` adds 2 seconds exactly when `n` is odd; the first six
calls add 1, 2, 1, 2, 1, 2 seconds, so the counted time is 4 after three
calls but 9, not 8, after six, and the calls 2, 3, 4 contain two leap
seconds. -/
theorem C15_leap_second_every_second_call :
    (∀ n, secondsAdded (incrRun n powerOnHist).2.2 = if n % 2 = 1 then 2 else 1) ∧
    (List.range 6).map (fun n => secondsAdded (incrRun n powerOnHist).2.2) = [1, 2, 1, 2, 1, 2] ∧
    counted (incrRun 3 powerOnHist).2.2 = 4 ∧ counted (incrRun 6 powerOnHist).2.2 = 9 := by
  refine ⟨?_, by decide, by decide, by decide⟩
  intro n
  unfold secondsAdded
  rw [incrRun_add_sec powerOnHist rfl n]
  split_ifs <;> omega

/-- C16: LSB-first byte framing. For every byte `b` and every bus,
`oneWire_writeByte (b)` is exactly the eight write slots for bit 0, bit 1,
..., bit 7 of `b` in that order (on the recording bus the log is these eight
bits); bit `k` of the byte returned by `oneWire_readByte` is the value
returned by its `k`-th `oneWire_readBit`; reading back the bit stream written
by `oneWire_writeByte (b)` yields `b`. -/
theorem C16_lsb_first_framing (b : Nat) (hb : b < 256) :
    (∀ (W : Type) (hw : Bus W) (w : W),
      oneWire_writeByte hw b w = (byteSamples b).foldl (fun w' bit => hw.writeSlot bit w') w) ∧
    oneWire_writeByte logBus b [] = byteSamples b ∧
    (∀ (W : Type) (hw : Bus W) (w : W) (k : Nat), k < 8 →
      (oneWire_readByte hw w).1 / 2 ^ k % 2 = (readBits hw 8 w).getD k 0) ∧
    (oneWire_readByte scriptBus (oneWire_writeByte logBus b [])).1 = b := by
  have hw1 : ∀ (W : Type) (hw : Bus W) (w : W),
      oneWire_writeByte hw b w = (byteSamples b).foldl (fun w' bit => hw.writeSlot bit w') w :=
    fun W hw w => writeByte_loop_slots hw 8 b w
  have hlog : oneWire_writeByte logBus b [] = byteSamples b := by
    rw [hw1, log_fold]
    rfl
  refine ⟨hw1, hlog, ?_, ?_⟩
  · intro W hw w k hk
    unfold oneWire_readByte
    rw [readByte_loop_fold]
    exact assemble_bits_table _ (readBit_lt_two hw _) _ (readBit_lt_two hw _)
      _ (readBit_lt_two hw _) _ (readBit_lt_two hw _) _ (readBit_lt_two hw _)
      _ (readBit_lt_two hw _) _ (readBit_lt_two hw _) _ (readBit_lt_two hw _) k hk
  · rw [hlog]
    exact read_back_table b hb

/-- Witness for C16: the byte 0xA5 goes out as 1,0,1,0,0,1,0,1 and reads
back as 0xA5. -/
theorem C16_lsb_first_framing_witness :
    oneWire_writeByte logBus 0xA5 [] = [true, false, true, false, false, true, false, true] ∧
    (oneWire_readByte scriptBus (oneWire_writeByte logBus 0xA5 [])).1 = 0xA5 :=
  ⟨(C16_lsb_first_framing 0xA5 (by decide)).2.1.trans (by decide),
   (C16_lsb_first_framing 0xA5 (by decide)).2.2.2⟩

/-- C17: a failed search is atomic for the directory. Whenever
`oneWire_search` is called with room in the address store (`dev_count < 2`,
so that the walk is attempted) and returns 0, whatever the reason (no
presence pulse, a `(1,1)` pair, a non-zero CRC, a zero family byte, or the
last-device flag set), then afterwards `last_disc = 0`, `last_device = 0`,
`dev_count` is unchanged and every slot other than `rom[dev_count]`, in
particular every discovered address `rom[0 .. dev_count-1]`, is unchanged. -/
theorem C17_failed_search_atomic {W : Type} (hw : Bus W) (w w1 : W) (ow ow1 : OneWire)
    (hdc : ow.dev_count < ONE_WIRE_DEV_NO)
    (hret : oneWire_search hw w ow = some (0, w1, ow1)) :
    ow1.last_disc = 0 ∧ ow1.last_device = 0 ∧ ow1.dev_count = ow.dev_count ∧
    (∀ s, s ≠ ow.dev_count → ow1.rom s = ow.rom s) ∧
    (∀ s j, s < ow.dev_count → ow1.rom s j = ow.rom s j) := by
  obtain ⟨_, hrom, hcase⟩ := search_cases hw w w1 ow ow1 0 hdc hret
  rcases hcase with ⟨_, h1, h2, h3⟩ | ⟨h0, _⟩
  · refine ⟨h2, h3, h1, hrom, fun s j hs => ?_⟩
    rw [hrom s (by omega)]
  · exact absurd h0 (by decide)

/-- Witness for C17: one address stored, the bus without any device (line
idle high): the search returns 0, resets the discovery state and keeps
`dev_count = 1` and `rom[0]`. -/
theorem C17_failed_search_atomic_witness :
    oneWire_search scriptBus []
        { demoOneWire with dev_count := 1, last_device := 0 }
      = some (0, [], { demoOneWire with dev_count := 1, last_device := 0, last_disc := 0,
                                        crc8 := 0 }) ∧
    (∀ s j, s < 1 →
      ({ demoOneWire with dev_count := 1, last_device := 0, last_disc := 0,
                          crc8 := 0 } : OneWire).rom s j = demoOneWire.rom s j) :=
  ⟨rfl,
   (C17_failed_search_atomic scriptBus [] []
      { demoOneWire with dev_count := 1, last_device := 0 }
      { demoOneWire with dev_count := 1, last_device := 0, last_disc := 0, crc8 := 0 }
      (by decide) rfl).2.2.2.2⟩

/-- C18: capacity bound. `dev_count <= 2` is kept by `oneWire_findNext` and
established by `oneWire_findFirst` on every bus; a call that returns 1 had
`dev_count < 2` and stored into that slot; and for every state with
`dev_count >= 2`, `oneWire_search` returns 0 at once: the bus is as before
for every bus (no bus operation), and `oneWire` is as before except that
`crc8` is cleared, so `dev_count`, `last_disc`, `last_device` and every
stored address are unchanged and `rom` is not indexed at all. -/
theorem C18_capacity_bound {W : Type} (hw : Bus W) (w : W) (ow : OneWire) :
    (∀ r w1 ow1, ow.dev_count ≤ ONE_WIRE_DEV_NO →
      oneWire_findNext hw w ow = some (r, w1, ow1) → ow1.dev_count ≤ ONE_WIRE_DEV_NO) ∧
    (∀ r w1 ow1,
      oneWire_findFirst hw w ow = some (r, w1, ow1) → ow1.dev_count ≤ ONE_WIRE_DEV_NO) ∧
    (∀ r w1 ow1, oneWire_search hw w ow = some (r, w1, ow1) → r ≠ 0 →
      ow.dev_count < ONE_WIRE_DEV_NO ∧ ow1.dev_count = ow.dev_count + 1) ∧
    (ow.dev_count ≥ ONE_WIRE_DEV_NO →
      oneWire_search hw w ow = some (0, w, { ow with crc8 := 0 })) := by
  have hgen : ∀ (ow0 : OneWire) r w1 ow1, oneWire_search hw w ow0 = some (r, w1, ow1) →
      (r = 0 ∧ ow1.dev_count = ow0.dev_count) ∨
      (r = 1 ∧ ow0.dev_count < 2 ∧ ow1.dev_count = ow0.dev_count + 1) := by
    intro ow0 r w1 ow1 h
    rcases Nat.lt_or_ge ow0.dev_count 2 with hlt | hge
    · obtain ⟨_, _, hcase⟩ := search_cases hw w w1 ow0 ow1 r hlt h
      rcases hcase with ⟨h0, h1, _⟩ | ⟨h0, h1, _⟩
      · exact Or.inl ⟨h0, h1⟩
      · exact Or.inr ⟨h0, hlt, h1⟩
    · rw [search_full hw w ow0 hge] at h
      simp only [Option.some.injEq, Prod.mk.injEq] at h
      obtain ⟨hr, _, how⟩ := h
      subst how
      exact Or.inl ⟨hr.symm, rfl⟩
  unfold ONE_WIRE_DEV_NO
  refine ⟨?_, ?_, ?_, fun hge => search_full hw w ow hge⟩
  · intro r w1 ow1 hle h
    rcases hgen ow r w1 ow1 h with ⟨_, h1⟩ | ⟨_, h1, h2⟩ <;> omega
  · intro r w1 ow1 h
    rcases hgen _ r w1 ow1 h with ⟨_, h1⟩ | ⟨_, h1, h2⟩
    · rw [h1]
      show 0 ≤ 2
      omega
    · rw [h2]
      show 0 + 1 ≤ 2
      omega
  · intro r w1 ow1 h hr
    rcases hgen ow r w1 ow1 h with ⟨h0, _⟩ | ⟨_, h1, h2⟩
    · exact absurd h0 hr
    · exact ⟨h1, h2⟩

/-- Witness for C18: with two addresses stored, a search on the bus with the
two example devices returns 0 and touches nothing but `crc8`. -/
theorem C18_capacity_bound_witness :
    oneWire_search idealBus { devs := [demoAddrA, demoAddrB], mode := .idle }
        { demoOneWire with dev_count := 2 }
      = some (0, { devs := [demoAddrA, demoAddrB], mode := .idle },
          { demoOneWire with dev_count := 2, crc8 := 0 }) :=
  (C18_capacity_bound idealBus { devs := [demoAddrA, demoAddrB], mode := .idle }
    { demoOneWire with dev_count := 2 }).2.2.2 (by decide)

set_option maxRecDepth 1000000 in
/-- C11: the success test of `oneWire_search` lets a `(1,1)` pair at the
last address bit pass. On a bus where the device with address
28 01 02 03 04 05 3D .. answers the first 63 bit positions and nobody answers
the 64th (both samples high, the pair `(1,1)`), the call from the power-on
state returns 1 and increments `dev_count` to 1: the loop is left by `break`
with `id_bit_no = 64`, which the test `id_bit_no < 64` does not reject, and
`crc8` has been folded over the seven complete bytes only (it is 0 for
them). The claim asks for 0 and no recorded device; the stored eight bytes
do not even have CRC 0. -/
theorem C11_break_at_last_bit_accepted :
    (lostAtLastBit demoAddrC).length = 129 ∧
    (lostAtLastBit demoAddrC).drop 127 = [true, true] ∧
    (oneWire_search scriptBus (lostAtLastBit demoAddrC) powerOnOneWire).map
        (fun r => (r.1, r.2.1, r.2.2.dev_count, r.2.2.crc8, r.2.2.last_device,
          (List.range 8).map (r.2.2.rom 0)))
      = some (1, [], 1, 0, 1, [0x28, 1, 2, 3, 4, 5, 0x3D, 0x55]) ∧
    dallasCrc8 [0x28, 1, 2, 3, 4, 5, 0x3D, 0x55] ≠ 0 := by
  refine ⟨by decide, by decide, ?_, by decide⟩
  rfl

/-- C20: source selection. In every reachable state (`value[]` zero at
power-on and stored by `temp_readTemp` only, so both readings lie in
-2048..2047) and for `int8_t` setpoints: with `valid[0] != 0`, the channel-1
decision of `temp_updOutput` (the value left in `current[0]`) is the
hysteresis rule applied to `max(value[0], value[1])` when the channel-1
on-setpoint is greater than its off-setpoint and to `min(value[0], value[1])`
otherwise; with `valid[1] != 0`, the channel-2 own decision (before coupling)
is the hysteresis rule applied to the absolute difference
`|value[0] - value[1]|`, and `current[1]` is that decision OR-ed with
`reg2[0]`. -/
theorem C20_source_selection (g : Globals) (hreach : Reachable g)
    (hpara : ∀ k, k < 4 → IsInt8 (g.temp_cfg.para k)) :
    (g.temp_hist.valid 0 ≠ 0 →
      decideOutput g 0
        = specHysteresis (10 * g.temp_cfg.para CFG_PARA_CH1_ON)
            (10 * g.temp_cfg.para CFG_PARA_CH1_OFF)
            (specSource1 (g.temp_cfg.para CFG_PARA_CH1_ON) (g.temp_cfg.para CFG_PARA_CH1_OFF)
              (g.temp_hist.value 0) (g.temp_hist.value 1))
            (g.output_data.current 0) ∧
      (temp_updOutput g).output_data.current 0 = decideOutput g 0) ∧
    (g.temp_hist.valid 1 ≠ 0 →
      decideOutput g 1
        = specHysteresis (10 * g.temp_cfg.para CFG_PARA_CH2_ON)
            (10 * g.temp_cfg.para CFG_PARA_CH2_OFF)
            |g.temp_hist.value 0 - g.temp_hist.value 1| (g.output_data.current 1) ∧
      (temp_updOutput g).output_data.current 1 = (decideOutput g 1 ||| g.output_data.reg2 0)) := by
  have hr := reachable_range g hreach
  have hsrc : srcTemp g 1 = |g.temp_hist.value 0 - g.temp_hist.value 1| :=
    (srcTemp_one_exact g hr).2.2.1
  refine ⟨fun hv => ⟨?_, ?_⟩, fun hv => ⟨?_, ?_⟩⟩
  · rw [decideOutput_spec g 0 hv (hpara _ (by decide)) (hpara _ (by decide)), srcTemp_zero]
    have hh : highOn g 0
        = decide (g.temp_cfg.para CFG_PARA_CH1_ON > g.temp_cfg.para CFG_PARA_CH1_OFF) :=
      highOn_eq g 0 (hpara _ (by decide)) (hpara _ (by decide))
    rw [hh]
    unfold specSource1
    by_cases hc : g.temp_cfg.para CFG_PARA_CH1_ON > g.temp_cfg.para CFG_PARA_CH1_OFF
    · simp [hc, CFG_PARA_CH1_ON, CFG_PARA_CH1_OFF]
    · simp [hc, CFG_PARA_CH1_ON, CFG_PARA_CH1_OFF]
  · rw [updOutput_current g 0 (by decide), rawOutput_zero]
  · rw [decideOutput_spec g 1 hv (hpara _ (by decide)) (hpara _ (by decide)), hsrc]
    rfl
  · rw [updOutput_current g 1 (by decide), rawOutput_one]

set_option maxRecDepth 1000000 in
/-- Witness for C20: from power-on with two discovered sensors, one read of
the scratchpads of the worked examples stores -25.1 and 25.0 degrees, both
valid. Channel 1 (on = 10, off = 5) decides on the larger reading 250: on;
channel 2 (on = 20, off = 10) decides on the absolute difference 501: on. -/
theorem C20_source_selection_witness :
    Reachable (temp_readTemp scriptBus
      (demoScript demoScratch ++ demoScript demoScratchB, demoTwoSensors)).2 ∧
    (temp_readTemp scriptBus
      (demoScript demoScratch ++ demoScript demoScratchB, demoTwoSensors)).2.temp_hist.value 0
        = -251 ∧
    (temp_readTemp scriptBus
      (demoScript demoScratch ++ demoScript demoScratchB, demoTwoSensors)).2.temp_hist.value 1
        = 250 ∧
    decideOutput (temp_readTemp scriptBus
      (demoScript demoScratch ++ demoScript demoScratchB, demoTwoSensors)).2 0
        = specHysteresis 100 50 (specSource1 10 5 (-251) 250) 0 ∧
    specSource1 10 5 (-251) 250 = 250 ∧
    decideOutput (temp_readTemp scriptBus
      (demoScript demoScratch ++ demoScript demoScratchB, demoTwoSensors)).2 1
        = specHysteresis 200 100 501 0 ∧
    specHysteresis 200 100 501 0 = 1 :=
  ⟨Reachable.readTemp _ _ _ (Reachable.powerOn _ (fun _ => rfl)),
   by decide, by decide,
   ((C20_source_selection _
      (Reachable.readTemp scriptBus (demoScript demoScratch ++ demoScript demoScratchB)
        demoTwoSensors (Reachable.powerOn _ (fun _ => rfl)))
      (by decide)).1 (by decide)).1.trans (by decide),
   by decide,
   ((C20_source_selection _
      (Reachable.readTemp scriptBus (demoScript demoScratch ++ demoScript demoScratchB)
        demoTwoSensors (Reachable.powerOn _ (fun _ => rfl)))
      (by decide)).2 (by decide)).1.trans (by decide),
   by decide⟩

/-- C19: start-up discovery with more devices than capacity. On an ideal bus
carrying `n >= 3` devices with pairwise distinct addresses, each with correct
CRC and non-zero family byte, and for any prior content of `oneWire` (the
address store included), the start-up sequence of `main`
(`oneWire_findFirst`, then `oneWire_findNext` until it returns 0) terminates
(two calls of `oneWire_findNext` are enough) with `dev_count = 2`; `rom[0]`
and `rom[1]` are two different addresses, each of a device on the bus. The
other devices are not enumerated (`dev_count` is less than `n`), and a
further `oneWire_findNext` just returns 0 and changes nothing but `crc8`. -/
theorem C19_startup_discovery_over_capacity (devs : List (Nat → Nat))
    (hn : 3 ≤ devs.length) (hvalid : ∀ a, a ∈ devs → ValidAddr a)
    (hdist : devs.Pairwise (fun a b => ∃ j, j < 8 ∧ a j ≠ b j))
    (w : IdealWorld) (hwd : w.devs = devs) (ow : OneWire) (fuel : Nat) (hfuel : 2 ≤ fuel) :
    ∃ w1 ow1, startupDiscovery idealBus fuel w ow = some (w1, ow1) ∧ ow1.dev_count = 2 ∧
      (∃ T1, T1 ∈ devs ∧ ∀ j, j < 8 → ow1.rom 0 j = T1 j) ∧
      (∃ T2, T2 ∈ devs ∧ ∀ j, j < 8 → ow1.rom 1 j = T2 j) ∧
      (∃ j, j < 8 ∧ ow1.rom 0 j ≠ ow1.rom 1 j) ∧
      ow1.dev_count < devs.length ∧
      oneWire_findNext idealBus w1 ow1 = some (0, w1, { ow1 with crc8 := 0 }) := by
  match devs, hn, hvalid, hdist, hwd with
  | A :: B :: rest, hn, hvalid, hdist, hwd =>
    have hAB : ∃ j, j < 8 ∧ A j ≠ B j :=
      (List.pairwise_cons.mp hdist).1 B (List.mem_cons_self B rest)
    obtain ⟨w1, ow1, T1, T2, hrun, hdc, hT1, hT2, hrom0, hrom1, j, hj, hne⟩ :=
      ideal_discovery (A :: B :: rest) hvalid A B (List.mem_cons_self A _)
        (List.mem_cons_of_mem A (List.mem_cons_self B rest)) hAB w hwd ow fuel hfuel
    refine ⟨w1, ow1, hrun, hdc, ⟨T1, hT1, hrom0⟩, ⟨T2, hT2, hrom1⟩, ⟨j, hj, ?_⟩, ?_,
      search_full idealBus w1 ow1 (by rw [hdc])⟩
    · rw [hrom0 j hj, hrom1 j hj]
      exact hne
    · rw [hdc]
      exact hn

set_option maxRecDepth 1000000 in
/-- Witness for C19: three devices 10 01 02 03 04 05 01 F8,
20 01 02 03 04 05 02 0E and 28 01 02 03 04 05 06 9E on the bus, `oneWire`
holding leftovers. -/
theorem C19_startup_discovery_over_capacity_witness :
    ∃ w1 ow1,
      startupDiscovery idealBus 2 { devs := [demoAddrA, demoAddrB, demoAddrD], mode := .idle }
        demoOneWire = some (w1, ow1) ∧ ow1.dev_count = 2 ∧
      (∃ T1, T1 ∈ [demoAddrA, demoAddrB, demoAddrD] ∧ ∀ j, j < 8 → ow1.rom 0 j = T1 j) ∧
      (∃ T2, T2 ∈ [demoAddrA, demoAddrB, demoAddrD] ∧ ∀ j, j < 8 → ow1.rom 1 j = T2 j) ∧
      (∃ j, j < 8 ∧ ow1.rom 0 j ≠ ow1.rom 1 j) ∧
      ow1.dev_count < [demoAddrA, demoAddrB, demoAddrD].length ∧
      oneWire_findNext idealBus w1 ow1 = some (0, w1, { ow1 with crc8 := 0 }) :=
  C19_startup_discovery_over_capacity [demoAddrA, demoAddrB, demoAddrD] (by decide)
    (by
      intro a ha
      simp only [List.mem_cons, List.mem_singleton, List.not_mem_nil, or_false] at ha
      rcases ha with h | h | h <;> subst h <;> decide)
    (by
      simp only [List.pairwise_cons, List.mem_cons, List.mem_singleton, List.not_mem_nil,
        forall_eq_or_imp, forall_eq, List.Pairwise.nil, and_true, IsEmpty.forall_iff,
        implies_true]
      exact ⟨⟨⟨0, by decide, by decide⟩, ⟨0, by decide, by decide⟩⟩, ⟨0, by decide, by decide⟩⟩)
    { devs := [demoAddrA, demoAddrB, demoAddrD], mode := .idle } rfl demoOneWire 2 (by decide)

/-- C21: the physical output follows stage 1 only. For every state with an
8-bit `PORTC`, after `temp_updOutput` bit PC4 of `PORTC` is set iff
`reg1[0] != 0` and bit PC5 is set iff `reg1[1] != 0` (the registers as the
call leaves them), every other bit of `PORTC` (the 1-Wire line PC3 among
them) is as before the call, and the port value is a function of the port
value before and of the two stage-1 registers only: two states with the
same `PORTC` whose calls leave `reg1[0]` and `reg1[1]` zero or non-zero
alike end with the same `PORTC`, whatever `reg2`, `current` and `count`
are. -/
theorem C21_port_follows_stage1 (g : Globals) (hp : g.PORTC < 256) :
    ((temp_updOutput g).PORTC / 2 ^ 4 % 2 = 1 ↔ (temp_updOutput g).output_data.reg1 0 ≠ 0) ∧
    ((temp_updOutput g).PORTC / 2 ^ 5 % 2 = 1 ↔ (temp_updOutput g).output_data.reg1 1 ≠ 0) ∧
    (∀ k, k ≠ 4 → k ≠ 5 → (temp_updOutput g).PORTC / 2 ^ k % 2 = g.PORTC / 2 ^ k % 2) ∧
    (temp_updOutput g).PORTC < 256 ∧
    (∀ g1 : Globals, g1.PORTC = g.PORTC →
      ((temp_updOutput g1).output_data.reg1 0 ≠ 0 ↔ (temp_updOutput g).output_data.reg1 0 ≠ 0) →
      ((temp_updOutput g1).output_data.reg1 1 ≠ 0 ↔ (temp_updOutput g).output_data.reg1 1 ≠ 0) →
      (temp_updOutput g1).PORTC = (temp_updOutput g).PORTC) := by
  have htab := port_bits_table g.PORTC hp
    (decide ((temp_updOutput g).output_data.reg1 0 ≠ 0))
    (decide ((temp_updOutput g).output_data.reg1 1 ≠ 0))
  rw [← updOutput_port g] at htab
  obtain ⟨hlt, hbits⟩ := htab
  refine ⟨?_, ?_, ?_, hlt, ?_⟩
  · rw [hbits 4 (by decide)]
    by_cases h : (temp_updOutput g).output_data.reg1 0 ≠ 0 <;> simp [h]
  · rw [hbits 5 (by decide)]
    by_cases h : (temp_updOutput g).output_data.reg1 1 ≠ 0 <;> simp [h]
  · intro k h4 h5
    rcases Nat.lt_or_ge k 8 with hk | hk
    · rw [hbits k hk, if_neg h4, if_neg h5]
    · rw [high_bits_zero _ k hlt hk, high_bits_zero _ k hp hk]
  · intro g1 hport h0 h1
    rw [updOutput_port g1, updOutput_port g, hport]
    have e0 : decide ((temp_updOutput g1).output_data.reg1 0 ≠ 0)
        = decide ((temp_updOutput g).output_data.reg1 0 ≠ 0) := decide_eq_decide.mpr h0
    have e1 : decide ((temp_updOutput g1).output_data.reg1 1 ≠ 0)
        = decide ((temp_updOutput g).output_data.reg1 1 ≠ 0) := decide_eq_decide.mpr h1
    rw [e0, e1]

/-- Witness for C21: port value 0x2B (PC5, PC3, PC1, PC0 set), both stage-1
registers off and nothing due: the call clears PC5 and leaves 0x0B. -/
theorem C21_port_follows_stage1_witness :
    (temp_updOutput { demoGlobals 1 1 70 70 10 5 20 10 0 0 with PORTC := 0x2B }).PORTC = 0x0B ∧
    (temp_updOutput { demoGlobals 1 1 70 70 10 5 20 10 0 0 with PORTC := 0x2B }).PORTC
      / 2 ^ 3 % 2 = 0x2B / 2 ^ 3 % 2 :=
  ⟨by decide,
   (C21_port_follows_stage1 { demoGlobals 1 1 70 70 10 5 20 10 0 0 with PORTC := 0x2B }
      (by decide)).2.2.1 3 (by decide) (by decide)⟩

/-- C26: stage 2 never leads stage 1. For each channel `i` and every state,
after `temp_updOutput`: `count[i] >= 29` implies `reg1[i] = current[i]`, and
`count[i] >= 59` implies `reg2[i] = reg1[i] = current[i]`; so whenever the
call changes `reg2[i]`, `reg1[i]` holds the same new value after the call. -/
theorem C26_stage2_never_leads (g : Globals) (i : Nat) (hi : i < 2) :
    ((temp_updOutput g).output_data.count i ≥ 29 →
      (temp_updOutput g).output_data.reg1 i = (temp_updOutput g).output_data.current i) ∧
    ((temp_updOutput g).output_data.count i ≥ 59 →
      (temp_updOutput g).output_data.reg2 i = (temp_updOutput g).output_data.reg1 i ∧
      (temp_updOutput g).output_data.reg1 i = (temp_updOutput g).output_data.current i) ∧
    ((temp_updOutput g).output_data.reg2 i ≠ g.output_data.reg2 i →
      (temp_updOutput g).output_data.reg1 i = (temp_updOutput g).output_data.reg2 i ∧
      (temp_updOutput g).output_data.count i ≥ 59) := by
  rw [updOutput_count g i hi, updOutput_reg1 g i hi, updOutput_reg2 g i hi,
    updOutput_current g i hi]
  have h1 : TEMP_OUTPUT_1_COUNT - 1 = 29 := by decide
  have h2 : TEMP_OUTPUT_2_COUNT - 1 = 59 := by decide
  rw [h1, h2]
  by_cases hc : g.output_data.current i = rawOutput g i
  · have hn : nextCount (g.output_data.current i) (g.output_data.count i) (rawOutput g i)
        = if g.output_data.count i < 0xFF then g.output_data.count i + 1
          else g.output_data.count i := by
      unfold nextCount
      rw [if_neg (not_not.mpr hc)]
    rw [hn]
    simp only [hc, true_and]
    refine ⟨fun h => by rw [if_pos h], fun h => ?_, fun h => ?_⟩
    · rw [if_pos h, if_pos (by omega)]
      exact ⟨rfl, rfl⟩
    · by_cases h59 : 59 ≤ (if g.output_data.count i < 0xFF then g.output_data.count i + 1
          else g.output_data.count i)
      · rw [if_pos h59, if_pos (by omega)]
        exact ⟨rfl, h59⟩
      · rw [if_neg h59] at h
        exact absurd rfl h
  · have hn : nextCount (g.output_data.current i) (g.output_data.count i) (rawOutput g i) = 0 := by
      unfold nextCount
      rw [if_pos hc]
    rw [hn]
    simp only [hc, false_and, if_false]
    refine ⟨fun h => absurd h (by decide), fun h => absurd h (by decide), fun h => absurd rfl h⟩

/-- Witness for C26: channel 1 stable for the 59th call in a row (counter 58
on entry, decision on): the call commits stage 2, and stage 1 holds the same
value. -/
theorem C26_stage2_never_leads_witness :
    (temp_updOutput
      { demoGlobals 1 1 110 110 10 5 20 10 1 0 with
        output_data := { reg1 := fun _ => 1, reg2 := fun _ => 0, current := fun _ => 1,
                         count := fun _ => 58 } }).output_data.reg2 0 = 1 ∧
    (temp_updOutput
      { demoGlobals 1 1 110 110 10 5 20 10 1 0 with
        output_data := { reg1 := fun _ => 1, reg2 := fun _ => 0, current := fun _ => 1,
                         count := fun _ => 58 } }).output_data.reg1 0 = 1 :=
  ⟨by decide,
   ((C26_stage2_never_leads
      { demoGlobals 1 1 110 110 10 5 20 10 1 0 with
        output_data := { reg1 := fun _ => 1, reg2 := fun _ => 0, current := fun _ => 1,
                         count := fun _ => 58 } } 0 (by decide)).2.2 (by decide)).1.trans
    (by decide)⟩

/-- C27: counter ranges. `seconds <= 59`, `minutes <= 59`, `hours <= 23`,
`add_sec <= 1` and `index <= 23` hold in the power-on state and are kept by
every call of `temp_incrSeconds`, `temp_updHistMinMax` and
`temp_updCurMinMax`. So the slot `temp_updCurMinMax` works on (`index`) and
the slot `temp_updHistMinMax` resets (the new `index`) are below 24, and
neither function changes `min_array` / `max_array` outside the 24 slots. -/
theorem C27_counter_ranges :
    CounterRanges powerOnHist ∧
    ∀ h : TempHist, CounterRanges h →
      CounterRanges (temp_incrSeconds h).2 ∧ CounterRanges (temp_updHistMinMax h) ∧
      CounterRanges (temp_updCurMinMax h) ∧
      h.index < 24 ∧ (temp_updHistMinMax h).index < 24 ∧
      (∀ i s, 24 ≤ s →
        (temp_updCurMinMax h).min_array i s = h.min_array i s ∧
        (temp_updCurMinMax h).max_array i s = h.max_array i s ∧
        (temp_updHistMinMax h).min_array i s = h.min_array i s ∧
        (temp_updHistMinMax h).max_array i s = h.max_array i s) := by
  refine ⟨by decide, fun h hr => ?_⟩
  obtain ⟨hs, hm, hh, ha, hi⟩ := hr
  obtain ⟨s1, s2, _, _, _, _⟩ := incrSeconds_step h hs hm
  obtain ⟨i1, _, _, i4, i5⟩ := incrSeconds_other h
  obtain ⟨u1, u2, u3, u4, u5⟩ := updHist_clock h
  obtain ⟨c1, c2, c3, c4⟩ := updCur_clock h
  obtain ⟨c5, _, _⟩ := updCur_fields h
  refine ⟨⟨s1, s2, ?_, ?_, by rw [i1]; exact hi⟩, ⟨by rw [u1]; exact hs, by rw [u2]; exact hm,
    by rw [u3]; exact hh, by rw [u4]; exact ha, u5⟩,
    ⟨by rw [c1]; exact hs, by rw [c2]; exact hm, by rw [c3]; exact hh, by rw [c4]; exact ha,
      by rw [c5]; exact hi⟩, by omega, by omega, fun i s h24 => ?_⟩
  · have : max h.hours 23 = 23 := max_eq_right hh
    omega
  · rcases i5 with h0 | ⟨_, h2⟩
    · omega
    · omega
  · obtain ⟨a, b⟩ := updCur_other_slots h i s (by omega)
    obtain ⟨c, d⟩ := updHist_other_slots h i s (by omega)
    exact ⟨a, b, c, d⟩

/-- Witness for C27: the state at 59 minutes, 59 seconds of hour 23 with
`index = 23`: the tick makes the hour full, `hours` stays 23 and the rollover
wraps `index` to 0. -/
theorem C27_counter_ranges_witness :
    CounterRanges
      (temp_incrSeconds { powerOnHist with seconds := 59, minutes := 59, hours := 23,
                                           add_sec := 1, index := 23 }).2 ∧
    (temp_updHistMinMax { powerOnHist with seconds := 59, minutes := 59, hours := 23,
                                           add_sec := 1, index := 23 }).index < 24 :=
  ⟨(C27_counter_ranges.2 { powerOnHist with seconds := 59, minutes := 59, hours := 23,
                                            add_sec := 1, index := 23 } (by decide)).1,
   (C27_counter_ranges.2 { powerOnHist with seconds := 59, minutes := 59, hours := 23,
                                            add_sec := 1, index := 23 } (by decide)).2.2.2.2.1⟩

set_option maxRecDepth 1000000 in
/-- C22: the replay branch of `oneWire_search` reads the slot it is about to
fill, not the address found before. First run: the ideal bus carries
10 01 02 03 04 05 01 F8, 20 01 02 03 04 05 02 0E and 28 01 02 03 04 05 06 9E,
and every byte of the address store holds 0xAA. `oneWire_findFirst` finds
20 .. into `rom[0]` with `last_disc = 5`. In the following `oneWire_findNext`
the fourth bit position (`id_bit_no = 4`, before `last_disc`) shows the
discrepancy `(0,0)`, and the direction written is 1, the bit of the old
content of `rom[1]`, although that bit of the address found before
(`rom[0][0] = 0x20`) is 0. Second run, from the power-on state: the bus
carries 10 .. and 30 01 02 03 04 05 03 AB in the first call (which finds 10 ..
with `last_disc = 6`) and the device 20 .. in addition in the second call; at
the fifth bit position the pair is `(0,0)` and the direction written is 0,
although that bit of the address found before (`rom[0][0] = 0x10`) is 1. -/
theorem C22_replay_reads_new_slot :
    (oneWire_findFirst idealBus { devs := [demoAddrA, demoAddrB, demoAddrD], mode := .idle }
        demoOneWire).map
      (fun r => (r.1, r.2.2.dev_count, r.2.2.last_device, r.2.2.last_disc,
        (List.range 8).map (r.2.2.rom 0), addrBit (r.2.2.rom (r.2.2.dev_count - 1)) 3))
      = some (1, 1, 0, 5, [0x20, 1, 2, 3, 4, 5, 2, 14], false) ∧
    ((oneWire_findFirst idealBus { devs := [demoAddrA, demoAddrB, demoAddrD], mode := .idle }
        demoOneWire).bind
      (fun r => oneWire_findNext (traceBus idealBus) (r.2.1, []) r.2.2)).map
      (fun r => (r.1, (r.2.1.2.drop (9 + 3 * 3)).take 3))
      = some (1, [BusEvent.read false, BusEvent.read false, BusEvent.write true]) ∧
    (oneWire_findFirst idealBus { devs := [demoAddrA, demoAddrE], mode := .idle }
        powerOnOneWire).map
      (fun r => (r.1, r.2.2.dev_count, r.2.2.last_device, r.2.2.last_disc,
        (List.range 8).map (r.2.2.rom 0), addrBit (r.2.2.rom (r.2.2.dev_count - 1)) 4))
      = some (1, 1, 0, 6, [0x10, 1, 2, 3, 4, 5, 1, 248], true) ∧
    ((oneWire_findFirst idealBus { devs := [demoAddrA, demoAddrE], mode := .idle }
        powerOnOneWire).bind
      (fun r => oneWire_findNext (traceBus idealBus)
        ({ r.2.1 with devs := [demoAddrA, demoAddrE, demoAddrB] }, []) r.2.2)).map
      (fun r => (r.1, (r.2.1.2.drop (9 + 3 * 4)).take 3))
      = some (1, [BusEvent.read false, BusEvent.read false, BusEvent.write false]) := by
  refine ⟨?_, ?_, ?_, ?_⟩ <;> rfl
set_option maxRecDepth 1000000 in
/-- C23 as stated fails: on the ideal bus with the single device
10 01 02 03 04 05 01 F8, after `oneWire_findFirst` has found it and set
`last_device`, the next call `oneWire_findNext` returns 0, whereas
`oneWire_search` from the same state with `last_disc = 0`, `last_device = 0`
walks the bus and returns 1. -/
theorem C23_call_after_last_device_counterexample :
    (oneWire_findFirst idealBus { devs := [demoAddrA], mode := .idle } powerOnOneWire).map
        (fun r => (r.1, r.2.2.dev_count, r.2.2.last_device, r.2.2.last_disc)) = some (1, 1, 1, 0) ∧
    ((oneWire_findFirst idealBus { devs := [demoAddrA], mode := .idle } powerOnOneWire).bind
        (fun r => oneWire_findNext idealBus r.2.1 r.2.2)).map (fun r => r.1) = some 0 ∧
    ((oneWire_findFirst idealBus { devs := [demoAddrA], mode := .idle } powerOnOneWire).bind
        (fun r => oneWire_search idealBus r.2.1
          { r.2.2 with last_disc := 0, last_device := 0 })).map (fun r => r.1) = some 1 := by
  refine ⟨?_, ?_, ?_⟩ <;> rfl

/-- C23 amended: when `oneWire_search` is called with `last_device` set and
`dev_count < 2`, on any bus, the call returns 0 without any bus operation
(the bus is as before), resets `last_disc` and `last_device` to 0 and leaves
`dev_count`, the address store and `data` unchanged; it is the call after
this one that behaves as a fresh first call: it returns what `oneWire_search`
returns on the same bus from the state with `last_disc = 0`,
`last_device = 0`. -/
theorem C23_call_after_last_device_amended {W : Type} (hw : Bus W) (w : W) (ow : OneWire)
    (hdc : ow.dev_count < ONE_WIRE_DEV_NO) (hlast : ow.last_device ≠ 0) :
    ∃ ow1, oneWire_search hw w ow = some (0, w, ow1) ∧
      ow1.last_disc = 0 ∧ ow1.last_device = 0 ∧ ow1.dev_count = ow.dev_count ∧
      ow1.rom = ow.rom ∧ ow1.data = ow.data ∧
      ∀ w2 : W, oneWire_search hw w2 ow1
        = oneWire_search hw w2 { ow with last_disc := 0, last_device := 0 } :=
  ⟨{ ow with crc8 := 0, last_device := 0, last_disc := 0 },
    search_after_last hw w ow hdc hlast, rfl, rfl, rfl, rfl, rfl, fun _ => rfl⟩

set_option maxRecDepth 1000000 in
/-- Witness for the amended C23: the state after the single device was
found (`dev_count = 1`, `last_device = 1`). -/
theorem C23_call_after_last_device_amended_witness :
    ∃ ow1, oneWire_search idealBus { devs := [demoAddrA], mode := .idle }
        { powerOnOneWire with dev_count := 1, last_device := 1 }
        = some (0, { devs := [demoAddrA], mode := .idle }, ow1) ∧
      ow1.last_disc = 0 ∧ ow1.last_device = 0 ∧ ow1.dev_count = 1 ∧
      ow1.rom = powerOnOneWire.rom ∧ ow1.data = powerOnOneWire.data ∧
      ∀ w2 : IdealWorld, oneWire_search idealBus w2 ow1
        = oneWire_search idealBus w2
            { powerOnOneWire with dev_count := 1, last_device := 0, last_disc := 0 } :=
  C23_call_after_last_device_amended idealBus { devs := [demoAddrA], mode := .idle }
    { powerOnOneWire with dev_count := 1, last_device := 1 } (by decide) (by decide)
/-- C24: the last-device flag. On any bus, a successful `oneWire_search`
leaves `last_device = 1` exactly when its loop picked no 0 at a discrepancy
(`zeroChoices` is empty), which is when `last_zero`, stored in `last_disc`,
is 0; otherwise `last_device = 0` and `last_disc` is the last such position.
On an ideal bus with exactly one device (correct CRC, non-zero family byte)
and any prior `oneWire` content, `oneWire_findFirst` returns 1 with `rom[0]`
equal to its address, `dev_count = 1` and `last_device = 1`; the following
`oneWire_findNext` returns 0 on whatever bus it runs, leaving that bus as it
was (no bus operation), `dev_count = 1` and the address store unchanged and
`last_device` cleared. -/
theorem C24_last_device_flag :
    (∀ (W : Type) (hw : Bus W) (w w1 : W) (ow ow1 : OneWire),
      oneWire_search hw w ow = some (1, w1, ow1) →
      (ow1.last_device = 1 ↔
        zeroChoices hw 64 searchInit (searchStart hw w) { ow with crc8 := 0 } = []) ∧
      (ow1.last_device = 1 ↔ ow1.last_disc = 0) ∧
      (ow1.last_device = 0 ∨ ow1.last_device = 1) ∧
      ow1.last_disc =
        (zeroChoices hw 64 searchInit (searchStart hw w) { ow with crc8 := 0 }).getLast?.getD 0) ∧
    (∀ T : Nat → Nat, ValidAddr T → ∀ (w : IdealWorld) (ow : OneWire), w.devs = [T] →
      ∃ w1 ow1, oneWire_findFirst idealBus w ow = some (1, w1, ow1) ∧
        (∀ j, j < 8 → ow1.rom 0 j = T j) ∧ ow1.dev_count = 1 ∧ ow1.last_device = 1 ∧
        ∀ (V : Type) (hv : Bus V) (v : V),
          ∃ ow2, oneWire_findNext hv v ow1 = some (0, v, ow2) ∧ ow2.dev_count = 1 ∧
            ow2.rom = ow1.rom ∧ ow2.last_device = 0) := by
  constructor
  · intro W hw w w1 ow ow1 hret
    obtain ⟨_, _, l, w2, ow2, hloop, hdisc, hdev⟩ :=
      search_success_flag hw w w1 ow ow1 1 (by decide) hret
    obtain ⟨hge, hlast⟩ := zeroChoices_last hw 64 _ _ _ l w2 ow2 hloop
    have hinit : searchInit.last_zero = 0 := rfl
    have hid : searchInit.id_bit_no = 1 := rfl
    rw [hinit] at hlast
    rw [hid] at hge
    have hiff : l.last_zero = 0 ↔
        zeroChoices hw 64 searchInit (searchStart hw w) { ow with crc8 := 0 } = [] := by
      constructor
      · intro h0
        by_contra hne
        obtain ⟨x, hx⟩ := List.getLast?_isSome.mpr hne |> Option.isSome_iff_exists.mp
        have hmem : x ∈ zeroChoices hw 64 searchInit (searchStart hw w) { ow with crc8 := 0 } := by
          obtain ⟨ys, hys⟩ := List.getLast?_eq_some_iff.mp hx
          rw [hys]
          simp
        rw [hx] at hlast
        have := hge x hmem
        simp only [Option.getD_some] at hlast
        omega
      · intro hnil
        rw [hlast, hnil]
        rfl
    refine ⟨?_, ?_, ?_, ?_⟩
    · rw [hdev, ← hiff]
      by_cases h0 : l.last_zero = 0 <;> simp [h0]
    · rw [hdev, hdisc]
      by_cases h0 : l.last_zero = 0 <;> simp [h0]
    · rw [hdev]
      by_cases h0 : l.last_zero = 0 <;> simp [h0]
    · rw [hdisc, hlast]
  · intro T hT w ow hwd
    obtain ⟨w1, ow1, hs, _, hdc, _, hlast, hrom, _⟩ := single_device_first T hT w hwd ow
    refine ⟨w1, ow1, hs, hrom, hdc, hlast, fun V hv v => ?_⟩
    refine ⟨{ ow1 with crc8 := 0, last_device := 0, last_disc := 0 }, ?_, hdc, rfl, rfl⟩
    exact search_after_last hv v ow1 (by omega) (by omega)

set_option maxRecDepth 1000000 in
/-- Witness for C24: the device 10 01 02 03 04 05 01 F8 alone on the bus,
`oneWire` holding leftovers. -/
theorem C24_last_device_flag_witness :
    ∃ w1 ow1, oneWire_findFirst idealBus { devs := [demoAddrA], mode := .idle } demoOneWire
        = some (1, w1, ow1) ∧
      (∀ j, j < 8 → ow1.rom 0 j = demoAddrA j) ∧ ow1.dev_count = 1 ∧ ow1.last_device = 1 ∧
      ∀ (V : Type) (hv : Bus V) (v : V),
        ∃ ow2, oneWire_findNext hv v ow1 = some (0, v, ow2) ∧ ow2.dev_count = 1 ∧
          ow2.rom = ow1.rom ∧ ow2.last_device = 0 :=
  C24_last_device_flag.2 demoAddrA (by decide) { devs := [demoAddrA], mode := .idle }
    demoOneWire rfl
/-- C25: device selection. On any bus, `oneWire_selectDev (dev)` returns 1
if and only if its reset pulse sampled the line low (a presence pulse), and
0 otherwise. With a presence pulse it does, after the reset, exactly the
write slots of the command 0x55 and of the eight bytes `rom[dev][0..7]` in
index order, each byte with the least significant bit first, and no read
slot; without one it does nothing after the reset. The record of a recording
bus shows the same. The function has no access to `oneWire` but the reads
of `rom[dev]`: the model returns no new `oneWire`. -/
theorem C25_device_selection {W : Type} (hw : Bus W) (dev : Nat) (w : W) (ow : OneWire) :
    ((oneWire_selectDev hw dev w ow).1 = 1 ↔ (hw.resetPulse w).1 = false) ∧
    ((hw.resetPulse w).1 = false →
      (oneWire_selectDev hw dev w ow).2
        = (selectSamples ow dev).foldl (fun w' b => hw.writeSlot b w') (hw.resetPulse w).2 ∧
      (oneWire_selectDev (traceBus hw) dev (w, []) ow).2.2
        = BusEvent.reset false :: (selectSamples ow dev).map BusEvent.write) ∧
    ((hw.resetPulse w).1 = true →
      oneWire_selectDev hw dev w ow = (0, (hw.resetPulse w).2) ∧
      (oneWire_selectDev (traceBus hw) dev (w, []) ow).2.2 = [BusEvent.reset true]) ∧
    selectSamples ow dev
      = byteSamples 0x55 ++ byteSamples (ow.rom dev 0) ++ byteSamples (ow.rom dev 1) ++
        byteSamples (ow.rom dev 2) ++ byteSamples (ow.rom dev 3) ++ byteSamples (ow.rom dev 4) ++
        byteSamples (ow.rom dev 5) ++ byteSamples (ow.rom dev 6) ++ byteSamples (ow.rom dev 7) := by
  have ht : ((traceBus hw).resetPulse (w, [])) =
      ((hw.resetPulse w).1, (hw.resetPulse w).2, [BusEvent.reset (hw.resetPulse w).1]) := rfl
  refine ⟨?_, fun hp => ⟨?_, ?_⟩, fun hp => ⟨?_, ?_⟩, ?_⟩
  · rw [selectDev_eq]
    by_cases hp : (hw.resetPulse w).1 = false <;> simp [hp]
  · rw [selectDev_eq, if_pos hp]
  · rw [selectDev_eq, ht, if_pos hp, hp]
    simp only
    rw [trace_write_fold]
    rfl
  · rw [selectDev_eq, hp]
    rfl
  · rw [selectDev_eq, ht, hp]
    rfl
  · unfold selectSamples
    simp [scratchSamples, List.range_succ, ONE_WIRE_CMD_MATCH_ROM]

/-- Witness for C25: slot 0 holds 28 28 .. 28; with a presence pulse the
call returns 1 and the record starts with the reset and the bits of 0x55,
then of 0x28, least significant bit first (72 write slots in all). -/
theorem C25_device_selection_witness :
    (oneWire_selectDev scriptBus 0 [false] demoSensor.oneWire).1 = 1 ∧
    (oneWire_selectDev (traceBus scriptBus) 0 ([false], []) demoSensor.oneWire).2.2.length = 73 ∧
    (oneWire_selectDev (traceBus scriptBus) 0 ([false], []) demoSensor.oneWire).2.2.take 17
      = [BusEvent.reset false,
         BusEvent.write true, BusEvent.write false, BusEvent.write true, BusEvent.write false,
         BusEvent.write true, BusEvent.write false, BusEvent.write true, BusEvent.write false,
         BusEvent.write false, BusEvent.write false, BusEvent.write false, BusEvent.write true,
         BusEvent.write false, BusEvent.write true, BusEvent.write false, BusEvent.write false] :=
  ⟨(C25_device_selection scriptBus 0 [false] demoSensor.oneWire).1.mpr rfl,
   by rw [((C25_device_selection scriptBus 0 [false] demoSensor.oneWire).2.1 rfl).2]; decide,
   by rw [((C25_device_selection scriptBus 0 [false] demoSensor.oneWire).2.1 rfl).2]; decide⟩

/-- C28: setpoint edit helpers. For all `int8_t` limits `min < max` and all
`val`, `cmp` in `min .. max`, `menu_incr (val, cmp, max)` and
`menu_decr (val, cmp, min)` return a value `r` with `min <= r <= max` and
`r != cmp`. `menu_printMenu` calls them, for the UP and the DOWN key in the
four edit menus, with the setpoint edited, the other setpoint of the same
channel and the channel's limit from `menu_setup_tab`; so when both
setpoints of the channel are in range, the edited one is in range after the
step and differs from the other one, which is unchanged like the setpoints
of the other channel. -/
theorem C28_setpoint_edit_helpers :
    (∀ val cmp mn mx : Int, IsInt8 mn → IsInt8 mx → mn < mx → mn ≤ val ∧ val ≤ mx →
      mn ≤ cmp ∧ cmp ≤ mx →
      (mn ≤ menu_incr val cmp mx ∧ menu_incr val cmp mx ≤ mx ∧ menu_incr val cmp mx ≠ cmp) ∧
      (mn ≤ menu_decr val cmp mn ∧ menu_decr val cmp mn ≤ mx ∧ menu_decr val cmp mn ≠ cmp)) ∧
    (∀ (h : TempHist) (s : UiState), s.menu_cfg.changed ≠ 0 →
      MENU_EDIT_CH1_ON ≤ s.menu_cfg.menu → s.menu_cfg.menu ≤ MENU_EDIT_CH2_OFF →
      s.menu_cfg.key = MENU_KEY_UP ∨ s.menu_cfg.key = MENU_KEY_DOWN →
      (menu_setup_tab s.menu_cfg.menu).para_min ≤ s.temp_cfg.para (menu_setup_tab s.menu_cfg.menu).para ∧
        s.temp_cfg.para (menu_setup_tab s.menu_cfg.menu).para ≤ (menu_setup_tab s.menu_cfg.menu).para_max →
      (menu_setup_tab s.menu_cfg.menu).para_min ≤ s.temp_cfg.para (menu_setup_tab s.menu_cfg.menu).para_cmp ∧
        s.temp_cfg.para (menu_setup_tab s.menu_cfg.menu).para_cmp ≤ (menu_setup_tab s.menu_cfg.menu).para_max →
      (menu_setup_tab s.menu_cfg.menu).para_min
          ≤ (menu_printMenu h s).temp_cfg.para (menu_setup_tab s.menu_cfg.menu).para ∧
      (menu_printMenu h s).temp_cfg.para (menu_setup_tab s.menu_cfg.menu).para
          ≤ (menu_setup_tab s.menu_cfg.menu).para_max ∧
      (menu_printMenu h s).temp_cfg.para (menu_setup_tab s.menu_cfg.menu).para
          ≠ (menu_printMenu h s).temp_cfg.para (menu_setup_tab s.menu_cfg.menu).para_cmp ∧
      (∀ k, k ≠ (menu_setup_tab s.menu_cfg.menu).para →
        (menu_printMenu h s).temp_cfg.para k = s.temp_cfg.para k)) := by
  refine ⟨fun val cmp mn mx hmn hmx hlt hv _ =>
    ⟨menu_incr_spec val cmp mn mx hmn hmx hlt hv, menu_decr_spec val cmp mn mx hmn hmx hlt hv⟩,
    fun h s hch h1 h2 hkey hv _ => ?_⟩
  obtain ⟨_, _, _, _, hne, _, hmn, hmx, hlt, _, _⟩ := edit_rows s.menu_cfg.menu h1 h2
  obtain ⟨hup, hdown⟩ := printMenu_edit h s hch h1 h2
  rcases hkey with hk | hk
  · rw [hup hk]
    obtain ⟨a, b, c⟩ := menu_incr_spec _ _ _ _ hmn hmx hlt hv
    rw [setAt_same, setAt_other _ _ _ _ (Ne.symm hne)]
    exact ⟨a, b, c, fun k hk' => setAt_other _ _ _ _ hk'⟩
  · rw [hdown hk]
    obtain ⟨a, b, c⟩ := menu_decr_spec _ _ _ _ hmn hmx hlt hv
    rw [setAt_same, setAt_other _ _ _ _ (Ne.symm hne)]
    exact ⟨a, b, c, fun k hk' => setAt_other _ _ _ _ hk'⟩

/-- Witness for C28: limits -10 and 100, the other threshold at 10: from 9
the increment skips 10 and gives 11; from 100 with the other threshold at
100 it gives 99; the decrement from 11 gives 9. -/
theorem C28_setpoint_edit_helpers_witness :
    menu_incr 9 10 100 = 11 ∧ menu_incr 100 100 100 = 99 ∧ menu_decr 11 10 (-10) = 9 ∧
    (-10 ≤ menu_incr 9 10 100 ∧ menu_incr 9 10 100 ≤ 100 ∧ menu_incr 9 10 100 ≠ 10) :=
  ⟨by decide, by decide, by decide,
   (C28_setpoint_edit_helpers.1 9 10 (-10) 100 (by decide) (by decide) (by decide)
      ⟨by decide, by decide⟩ ⟨by decide, by decide⟩).1⟩
/-- C29: `menu_loadConfig` copies the four setpoints from the EEPROM block
without any range check (the check in the source is inside `#if 0`, and the
branch with the default values is never taken because `cfg_id` is always
0): for every state, the setpoints afterwards are the bytes 1 to 4 of the
block read as `int8_t`. With an erased EEPROM (every byte 0xFF) all four
setpoints are -1 when the main loop starts, below the channel-2 minimum 0;
with the byte 0x7F the channel-1 on-setpoint is 127, above its maximum
100. -/
theorem C29_load_copies_unchecked :
    (∀ s : UiState,
      (menu_loadConfig s).temp_cfg.para CFG_PARA_CH1_ON = int8OfByte (s.eeprom 1) ∧
      (menu_loadConfig s).temp_cfg.para CFG_PARA_CH1_OFF = int8OfByte (s.eeprom 2) ∧
      (menu_loadConfig s).temp_cfg.para CFG_PARA_CH2_ON = int8OfByte (s.eeprom 3) ∧
      (menu_loadConfig s).temp_cfg.para CFG_PARA_CH2_OFF = int8OfByte (s.eeprom 4)) ∧
    ((List.range 4).map (powerOnSys (fun _ => 0xFF)).ui.temp_cfg.para = [-1, -1, -1, -1] ∧
      (powerOnSys (fun _ => 0xFF)).ui.temp_cfg.para CFG_PARA_CH2_ON < TEMP_CFG_CH2_MIN ∧
      (powerOnSys (fun _ => 0xFF)).ui.temp_cfg.para CFG_PARA_CH2_OFF < TEMP_CFG_CH2_MIN) ∧
    (powerOnSys (fun a => if a = 1 then 0x7F else 0)).ui.temp_cfg.para CFG_PARA_CH1_ON = 127 ∧
    TEMP_CFG_CH1_MAX < 127 := by
  refine ⟨fun s => ⟨rfl, rfl, rfl, rfl⟩, ⟨by decide, by decide, by decide⟩, by decide, by decide⟩
/-- C30: history browse bound. In every state reached from power-on (any
EEPROM content) by any run of acquisition cycles with any readings, key
reports with any key value, refresh requests and calls of `menu_printMenu`:
`menu_cfg.minMaxId <= temp_hist.hours <= 23` and `index <= 23`; the slot
`menu_printMenu` shows for the offset `minMaxId` is
`(index - minMaxId) mod 24` (the slot `index` of the current hour for
offset 0), in each of the four history menus the value shown is the entry
of that slot; and that slot is slot 0, which start-up initialises, or one
of the slots reset by an hour rollover during the run. -/
theorem C30_history_browse_bound (eeprom : Nat → Nat) (es : List UiEvent) :
    (runSys es (powerOnSys eeprom)).ui.menu_cfg.minMaxId
      ≤ (runSys es (powerOnSys eeprom)).hist.hours ∧
    (runSys es (powerOnSys eeprom)).hist.hours ≤ 23 ∧
    (runSys es (powerOnSys eeprom)).hist.index ≤ 23 ∧
    histSlot (runSys es (powerOnSys eeprom)).hist
        (runSys es (powerOnSys eeprom)).ui.menu_cfg.minMaxId
      = ((runSys es (powerOnSys eeprom)).hist.index + 24
          - (runSys es (powerOnSys eeprom)).ui.menu_cfg.minMaxId) % 24 ∧
    histSlot (runSys es (powerOnSys eeprom)).hist 0 = (runSys es (powerOnSys eeprom)).hist.index ∧
    (histSlot (runSys es (powerOnSys eeprom)).hist
        (runSys es (powerOnSys eeprom)).ui.menu_cfg.minMaxId = 0 ∨
      histSlot (runSys es (powerOnSys eeprom)).hist
        (runSys es (powerOnSys eeprom)).ui.menu_cfg.minMaxId
          ∈ resetSlots es (powerOnSys eeprom)) ∧
    histShown MENU_PARA_MAX_CH1 (runSys es (powerOnSys eeprom)).hist
        (runSys es (powerOnSys eeprom)).ui.menu_cfg.minMaxId
      = some ((runSys es (powerOnSys eeprom)).hist.max_array 0
          (((runSys es (powerOnSys eeprom)).hist.index + 24
            - (runSys es (powerOnSys eeprom)).ui.menu_cfg.minMaxId) % 24)) ∧
    histShown MENU_PARA_MAX_CH2 (runSys es (powerOnSys eeprom)).hist
        (runSys es (powerOnSys eeprom)).ui.menu_cfg.minMaxId
      = some ((runSys es (powerOnSys eeprom)).hist.max_array 1
          (((runSys es (powerOnSys eeprom)).hist.index + 24
            - (runSys es (powerOnSys eeprom)).ui.menu_cfg.minMaxId) % 24)) ∧
    histShown MENU_PARA_MIN_CH1 (runSys es (powerOnSys eeprom)).hist
        (runSys es (powerOnSys eeprom)).ui.menu_cfg.minMaxId
      = some ((runSys es (powerOnSys eeprom)).hist.min_array 0
          (((runSys es (powerOnSys eeprom)).hist.index + 24
            - (runSys es (powerOnSys eeprom)).ui.menu_cfg.minMaxId) % 24)) ∧
    histShown MENU_PARA_MIN_CH2 (runSys es (powerOnSys eeprom)).hist
        (runSys es (powerOnSys eeprom)).ui.menu_cfg.minMaxId
      = some ((runSys es (powerOnSys eeprom)).hist.min_array 1
          (((runSys es (powerOnSys eeprom)).hist.index + 24
            - (runSys es (powerOnSys eeprom)).ui.menu_cfg.minMaxId) % 24)) := by
  obtain ⟨hi, hh, hm, hini⟩ := histInv_run es _ _ (histInv_powerOn eeprom)
  have hslot := histSlot_eq (runSys es (powerOnSys eeprom)).hist
    (runSys es (powerOnSys eeprom)).ui.menu_cfg.minMaxId hi (le_trans hm hh)
  have hslot0 := histSlot_eq (runSys es (powerOnSys eeprom)).hist 0 hi (by decide)
  refine ⟨hm, hh, hi, hslot, ?_, ?_, ?_, ?_, ?_, ?_⟩
  · rw [hslot0]
    omega
  · rw [hslot]
    exact hini _ hm
  · unfold histShown
    rw [hslot]
    rfl
  · unfold histShown
    rw [hslot]
    rfl
  · unfold histShown
    rw [hslot]
    rfl
  · unfold histShown
    rw [hslot]
    rfl

/-- C31: zeroing byte of the CRC fold. Every accumulator value `c` below 256
is the fold of some byte sequence from 0. For every such `c` and every byte
`b`, `oneWire_updateCRC (b)` with `oneWire.crc8 = c` leaves `oneWire.crc8 = 0`
if and only if bit `k` of `b` is bit `7 - k` of `c` for `k = 0 .. 7`. So after
any message there is exactly one trailing byte whose fold from 0 is 0. -/
theorem C31_zeroing_byte (ow : OneWire) (c b : Nat) (hc : c < 256) (hb : b < 256) :
    (∃ m : List Nat, (∀ x ∈ m, x < 256) ∧ (crcFold { ow with crc8 := 0 } m).crc8 = c) ∧
    ((oneWire_updateCRC b { ow with crc8 := c }).crc8 = 0 ↔
      ∀ k, k < 8 → b / 2 ^ k % 2 = c / 2 ^ (7 - k) % 2) ∧
    (∀ m : List Nat, ∃ t, t < 256 ∧ ∀ u, u < 256 →
      ((crcFold { ow with crc8 := 0 } (m ++ [u])).crc8 = 0 ↔ u = t)) := by
  refine ⟨?_, ?_, fun m => ⟨dallasCrc8 m, dallasCrc8_lt m, fun u hu => ?_⟩⟩
  · obtain ⟨x, hx, e⟩ := updateCRC_onto c hc
    refine ⟨[x], ?_, ?_⟩
    · intro y hy
      rw [List.mem_singleton] at hy
      rw [hy]
      exact hx
    · rw [crcFold_crc8]
      exact e
  · show updateCRC c b = 0 ↔ _
    rw [updateCRC_eq_zero_iff c b hc hb]
    exact eq_bitrev8_iff c b hc hb
  · rw [crcFold_crc8]
    exact updateCRC_fold_snoc_zero_iff m u hu

/-- Witness for C31: from the accumulator 0x13 (0001 0011) the byte 0xC8
(1100 1000) gives 0 and the byte 0xC9 does not. -/
theorem C31_zeroing_byte_witness :
    (oneWire_updateCRC 0xC8 { powerOnOneWire with crc8 := 0x13 }).crc8 = 0 ∧
    (oneWire_updateCRC 0xC9 { powerOnOneWire with crc8 := 0x13 }).crc8 ≠ 0 :=
  ⟨(C31_zeroing_byte powerOnOneWire 0x13 0xC8 (by decide) (by decide)).2.1.mpr (by decide),
   fun h => absurd
     ((C31_zeroing_byte powerOnOneWire 0x13 0xC9 (by decide) (by decide)).2.1.mp h 0 (by decide))
     (by decide)⟩

/-- C32: single-bit error detection. For every sequence `m` of 8 or 9 bytes
whose fold by `oneWire_updateCRC` from accumulator 0 is 0, and every byte
position `j` and bit position `k`, the sequence with bit `k` of byte `j`
flipped has a non-zero fold. So when the nine bytes that `temp_readTemp`
reads for slot `i` are such a corruption of an acceptable scratchpad, the
slot is rejected: `valid[i] = 0` after the call and `value[i]` is kept. -/
theorem C32_single_bit_error_detection (m : List Nat) (hm : ∀ x ∈ m, x < 256)
    (_ : m.length = 8 ∨ m.length = 9) (ow : OneWire)
    (h0 : (crcFold { ow with crc8 := 0 } m).crc8 = 0)
    (j k : Nat) (hj : j < m.length) (hk : k < 8) :
    (crcFold { ow with crc8 := 0 } (m.set j (m.getD j 0 ^^^ 2 ^ k))).crc8 ≠ 0 ∧
    (∀ {W : Type} (hw : Bus W) (w : W) (g : Globals) (i : Nat),
      i < min g.oneWire.dev_count 2 →
      slotBytes hw i (slotEntry hw i (w, g)) = m.set j (m.getD j 0 ^^^ 2 ^ k) →
      (temp_readTemp hw (w, g)).2.temp_hist.valid i = 0 ∧
      (temp_readTemp hw (w, g)).2.temp_hist.value i = g.temp_hist.value i) := by
  rw [crcFold_crc8] at h0
  have hflip := updateCRC_fold_flip m hm h0 j k hj hk
  refine ⟨?_, fun {W} hw w g i hi hb => ?_⟩
  · rw [crcFold_crc8]
    exact hflip
  · refine (readTemp_slot_valid hw w g i hi).2 ?_
    intro hacc
    have h2 := hacc.2
    rw [hb] at h2
    exact hflip h2

set_option maxRecDepth 1000000 in
/-- Witness for C32: the scratchpad 6F FE 4B 46 7F FF 01 10 61 is
acceptable; with bit 3 of its second byte flipped (FE becomes F6) the fold is
not 0 and the sensor read over a scripted line is rejected, the old value 10
staying in place. -/
theorem C32_single_bit_error_detection_witness :
    (crcFold { demoOneWire with crc8 := 0 } demoScratch).crc8 = 0 ∧
    (crcFold { demoOneWire with crc8 := 0 }
      [0x6F, 0xF6, 0x4B, 0x46, 0x7F, 0xFF, 0x01, 0x10, 0x61]).crc8 ≠ 0 ∧
    (temp_readTemp scriptBus
      (demoScript [0x6F, 0xF6, 0x4B, 0x46, 0x7F, 0xFF, 0x01, 0x10, 0x61], demoSensor)).2.temp_hist.valid 0 = 0 ∧
    (temp_readTemp scriptBus
      (demoScript [0x6F, 0xF6, 0x4B, 0x46, 0x7F, 0xFF, 0x01, 0x10, 0x61], demoSensor)).2.temp_hist.value 0 = 10 :=
  ⟨by decide,
   (C32_single_bit_error_detection demoScratch (by decide) (Or.inr rfl) demoOneWire (by decide)
     1 3 (by decide) (by decide)).1,
   ((C32_single_bit_error_detection demoScratch (by decide) (Or.inr rfl) demoOneWire (by decide)
     1 3 (by decide) (by decide)).2 scriptBus
     (demoScript [0x6F, 0xF6, 0x4B, 0x46, 0x7F, 0xFF, 0x01, 0x10, 0x61]) demoSensor 0
     (by decide) (by decide)).1,
   ((C32_single_bit_error_detection demoScratch (by decide) (Or.inr rfl) demoOneWire (by decide)
     1 3 (by decide) (by decide)).2 scriptBus
     (demoScript [0x6F, 0xF6, 0x4B, 0x46, 0x7F, 0xFF, 0x01, 0x10, 0x61]) demoSensor 0
     (by decide) (by decide)).2⟩

/-- C33: all-zero scratchpad is accepted. On a bus whose line reads low
throughout (after every reset pulse and in every read slot),
`oneWire_reset` reports presence and every `oneWire_readBit` returns 0; for
each slot `i < min (dev_count, 2)` `temp_readTemp` reads nine 0x00 bytes,
their CRC fold is 0, and the call ends with `valid[i] = 1` and
`value[i] = 0`. -/
theorem C33_all_zero_scratchpad_accepted {W : Type} (hw : Bus W) (hlow : StuckLow hw)
    (w : W) (g : Globals) (i : Nat) (hi : i < min g.oneWire.dev_count 2) :
    (∀ w1, (oneWire_reset hw w1).1 = 1 ∧ (oneWire_readBit hw w1).1 = 0) ∧
    slotBytes hw i (slotEntry hw i (w, g)) = [0, 0, 0, 0, 0, 0, 0, 0, 0] ∧
    (crcFold { g.oneWire with crc8 := 0 } (slotBytes hw i (slotEntry hw i (w, g)))).crc8 = 0 ∧
    (temp_readTemp hw (w, g)).2.temp_hist.valid i = 1 ∧
    (temp_readTemp hw (w, g)).2.temp_hist.value i = 0 := by
  obtain ⟨hb, hacc⟩ := stuck_slot hw hlow i (slotEntry hw i (w, g))
  have himax : (if g.oneWire.dev_count < 2 then g.oneWire.dev_count else 2)
      = min g.oneWire.dev_count 2 := by
    split_ifs <;> omega
  have hrun : temp_readTemp hw (w, g)
      = forLoop (min g.oneWire.dev_count 2) (readTempSlot hw) (w, g) := by
    unfold temp_readTemp
    simp only [himax]
  refine ⟨fun w1 => ⟨stuck_reset hw hlow w1, stuck_readBit hw hlow w1⟩, hb, ?_,
    (readTemp_slot_valid hw w g i hi).1.mpr hacc, ?_⟩
  · rw [crcFold_crc8]
    exact hacc.2
  · rw [hrun, (forLoop_readTemp_after hw i (w, g) _ hi).2, readTempSlot_value_accepted hw i _ hacc,
      hb]
    decide

/-- Witness for C33: one discovered sensor whose last reading 1.0 degrees is
stored; with the line held low the next read stores 0.0 degrees as valid. -/
theorem C33_all_zero_scratchpad_accepted_witness :
    demoSensor.temp_hist.value 0 = 10 ∧
    (temp_readTemp stuckLowBus ((), demoSensor)).2.temp_hist.valid 0 = 1 ∧
    (temp_readTemp stuckLowBus ((), demoSensor)).2.temp_hist.value 0 = 0 :=
  ⟨by decide,
   (C33_all_zero_scratchpad_accepted stuckLowBus ⟨fun _ => rfl, fun _ => rfl⟩ () demoSensor 0
     (by decide)).2.2.2.1,
   (C33_all_zero_scratchpad_accepted stuckLowBus ⟨fun _ => rfl, fun _ => rfl⟩ () demoSensor 0
     (by decide)).2.2.2.2⟩

/-- C34: zero family byte is rejected. Every call of `oneWire_search`
returns, and with `slot` the value of `dev_count` at entry: when it returns 1
the first byte of `rom[slot]` is not 0; when there was room in the store and
`rom[slot][0] = 0` afterwards, the call returned 0, `last_disc` and
`last_device` are 0 and `dev_count` is unchanged. On a line stuck low, entered
with the discovery state clear, the loop reads all 64 bit positions
(`id_bit_no` ends as 65), the address built in `rom[slot]` is all zero and
its CRC fold is 0, and still the call returns 0 and records nothing. -/
theorem C34_zero_family_rejected {W : Type} (hw : Bus W) (w : W) (ow : OneWire) :
    ∃ r w1 ow1, oneWire_search hw w ow = some (r, w1, ow1) ∧
      (r = 1 → ow1.rom ow.dev_count 0 ≠ 0) ∧
      (ow.dev_count < 2 → ow1.rom ow.dev_count 0 = 0 →
        r = 0 ∧ ow1.last_disc = 0 ∧ ow1.last_device = 0 ∧ ow1.dev_count = ow.dev_count) ∧
      (StuckLow hw → ow.dev_count < 2 → ow.last_device = 0 → ow.last_disc = 0 →
        (∃ l w2 ow2,
          searchLoop hw 64 searchInit (searchStart hw w) { ow with crc8 := 0 }
            = some (l, w2, ow2) ∧
          l.id_bit_no = 65 ∧ ow2.crc8 = 0 ∧ ∀ j, j < 8 → ow2.rom ow.dev_count j = 0) ∧
        r = 0 ∧ ow1.dev_count = ow.dev_count ∧ ow1.last_disc = 0 ∧ ow1.last_device = 0 ∧
        ∀ j, j < 8 → ow1.rom ow.dev_count j = 0) := by
  obtain ⟨⟨r, w1, ow1⟩, hret⟩ := oneWire_search_total hw w ow
  refine ⟨r, w1, ow1, hret, ?_, ?_, ?_⟩
  · intro hr
    rcases Nat.lt_or_ge ow.dev_count 2 with hdc | hdc
    · rcases (search_cases hw w w1 ow ow1 r hdc hret).2.2 with hc | hc
      · rw [hc.1] at hr
        exact absurd hr (by decide)
      · exact hc.2.2.2.1
    · rw [search_full hw w ow hdc] at hret
      simp only [Option.some.injEq, Prod.mk.injEq] at hret
      rw [← hret.1] at hr
      exact absurd hr (by decide)
  · intro hdc hz
    rcases (search_cases hw w w1 ow ow1 r hdc hret).2.2 with hc | hc
    · exact ⟨hc.1, hc.2.2.1, hc.2.2.2, hc.2.1⟩
    · exact absurd hz hc.2.2.2.1
  · intro hlow hdc hlast hld
    obtain ⟨l, w2, ow2, hloop, hidn, hcrc, hrom, hdc2, hrun⟩ :=
      stuck_search hw hlow w ow hdc hlast hld
    rw [hrun] at hret
    simp only [Option.some.injEq, Prod.mk.injEq] at hret
    obtain ⟨hr, _, how⟩ := hret
    subst how
    exact ⟨⟨l, w2, ow2, hloop, hidn, hcrc, hrom⟩, hr.symm, hdc2, rfl, rfl, hrom⟩

set_option maxRecDepth 1000000 in
/-- Witness for C34: `oneWire_findFirst` on a line held low, `oneWire`
holding leftovers: the call returns 0, `dev_count` stays 0 and `rom[0]` is all
zero afterwards. -/
theorem C34_zero_family_rejected_witness :
    ∃ r w1 ow1,
      oneWire_search stuckLowBus ()
          { demoOneWire with dev_count := 0, last_device := 0, last_disc := 0 }
        = some (r, w1, ow1) ∧
      r = 0 ∧ ow1.dev_count = 0 ∧ ow1.last_disc = 0 ∧ ow1.last_device = 0 ∧
      ∀ j, j < 8 → ow1.rom 0 j = 0 := by
  obtain ⟨r, w1, ow1, hret, _, _, h⟩ := C34_zero_family_rejected stuckLowBus ()
    { demoOneWire with dev_count := 0, last_device := 0, last_disc := 0 }
  obtain ⟨_, h1, h2, h3, h4, h5⟩ := h ⟨fun _ => rfl, fun _ => rfl⟩ (by decide) rfl rfl
  exact ⟨r, w1, ow1, hret, h1, h2, h3, h4, h5⟩

/-- C35: conversion is a floor. Let `r` be the 16-bit two's complement value
of `(temp_hi << 8) | temp_lo`. When `-3276 <= r <= 3276`, the product
`r * 10` is representable in 16 bits (the `int16_t` multiplication gives
`r * 10`), and the converted value `v` is the floor of `r * 10 / 16`:
`16 * v <= r * 10 < 16 * v + 16`, which is `Int.fdiv (r * 10) 16`. For every
slot that `temp_readTemp` accepts, the stored `value[i]` is this conversion
of the bytes `temp_hi` (second byte read) and `temp_lo` (first byte read). -/
theorem C35_conversion_floor (temp_hi temp_lo : Nat)
    (hr : -3276 ≤ wrap16 (((temp_hi <<< 8) ||| temp_lo : Nat) : Int) ∧
      wrap16 (((temp_hi <<< 8) ||| temp_lo : Nat) : Int) ≤ 3276) :
    IsInt16 (wrap16 (((temp_hi <<< 8) ||| temp_lo : Nat) : Int) * 10) ∧
    wrap16 (wrap16 (((temp_hi <<< 8) ||| temp_lo : Nat) : Int) * 10)
      = wrap16 (((temp_hi <<< 8) ||| temp_lo : Nat) : Int) * 10 ∧
    convertTemp temp_hi temp_lo
      = Int.fdiv (wrap16 (((temp_hi <<< 8) ||| temp_lo : Nat) : Int) * 10) 16 ∧
    16 * convertTemp temp_hi temp_lo ≤ wrap16 (((temp_hi <<< 8) ||| temp_lo : Nat) : Int) * 10 ∧
    wrap16 (((temp_hi <<< 8) ||| temp_lo : Nat) : Int) * 10 < 16 * convertTemp temp_hi temp_lo + 16 ∧
    (∀ {W : Type} (hw : Bus W) (w : W) (g : Globals) (i : Nat),
      i < min g.oneWire.dev_count 2 → SlotAccepted hw i (slotEntry hw i (w, g)) →
      (slotBytes hw i (slotEntry hw i (w, g))).getD 1 0 = temp_hi →
      (slotBytes hw i (slotEntry hw i (w, g))).getD 0 0 = temp_lo →
      (temp_readTemp hw (w, g)).2.temp_hist.value i = convertTemp temp_hi temp_lo) := by
  obtain ⟨e1, e2⟩ := convertTemp_floor temp_hi temp_lo hr
  refine ⟨?_, e1, ?_, ?_, ?_, ?_⟩
  · unfold IsInt16
    omega
  · rw [e2, Int.fdiv_eq_ediv _ (by decide)]
  · rw [e2]
    omega
  · rw [e2]
    omega
  · intro W hw w g i hi hacc h1 h0
    rw [readTemp_value_accepted hw w g i hi hacc, h1, h0]

set_option maxRecDepth 1000000 in
/-- Witness for C35: the bytes `temp_hi = 0xFE`, `temp_lo = 0x6F` give the raw
value -401; the conversion is -251, the floor of -250.625, and it is what
`temp_readTemp` stores for the scratchpad of the worked example. -/
theorem C35_conversion_floor_witness :
    wrap16 (((0xFE <<< 8) ||| 0x6F : Nat) : Int) = -401 ∧
    convertTemp 0xFE 0x6F = Int.fdiv (-4010) 16 ∧ convertTemp 0xFE 0x6F = -251 ∧
    (temp_readTemp scriptBus (demoScript demoScratch, demoSensor)).2.temp_hist.value 0
      = convertTemp 0xFE 0x6F :=
  ⟨by decide,
   (C35_conversion_floor 0xFE 0x6F (by decide)).2.2.1,
   by decide,
   (C35_conversion_floor 0xFE 0x6F (by decide)).2.2.2.2.2 scriptBus (demoScript demoScratch)
     demoSensor 0 (by decide) (by decide) (by decide) (by decide)⟩

/-- C36: stored readings stay in 12-bit range. For any two temperature bytes
the conversion of `temp_readTemp`, with the 16-bit multiplication taken
modulo 2^16, lies in -2048..2047, and so does the `value[i]` stored for every
accepted slot. Hence in every reachable state (`value[]` zero at power-on and
written by `temp_readTemp` only) both readings lie in that range, the
channel-2 computation `value[0] - value[1]` and its negation in
`temp_updOutput` are representable in `int16_t` and computed without
wrap-around, so that the channel-2 source is the absolute difference; and for
`int8_t` setpoints the threshold products `setpoint * 10` lie in -1280..1270
and are computed without wrap-around. -/
theorem C36_readings_in_range :
    (∀ temp_hi temp_lo : Nat,
      -2048 ≤ convertTemp temp_hi temp_lo ∧ convertTemp temp_hi temp_lo ≤ 2047) ∧
    (∀ {W : Type} (hw : Bus W) (w : W) (g : Globals) (i : Nat),
      i < min g.oneWire.dev_count 2 → SlotAccepted hw i (slotEntry hw i (w, g)) →
      -2048 ≤ (temp_readTemp hw (w, g)).2.temp_hist.value i ∧
      (temp_readTemp hw (w, g)).2.temp_hist.value i ≤ 2047) ∧
    (∀ g : Globals, Reachable g →
      (∀ i, -2048 ≤ g.temp_hist.value i ∧ g.temp_hist.value i ≤ 2047) ∧
      IsInt16 (g.temp_hist.value 0 - g.temp_hist.value 1) ∧
      wrap16 (g.temp_hist.value 0 - g.temp_hist.value 1)
        = g.temp_hist.value 0 - g.temp_hist.value 1 ∧
      IsInt16 (-(g.temp_hist.value 0 - g.temp_hist.value 1)) ∧
      wrap16 (wrap16 (g.temp_hist.value 0 - g.temp_hist.value 1) * -1)
        = -(g.temp_hist.value 0 - g.temp_hist.value 1) ∧
      srcTemp g 1 = |g.temp_hist.value 0 - g.temp_hist.value 1| ∧
      Reachable (temp_updOutput g)) ∧
    (∀ (g : Globals) (i : Nat),
      IsInt8 (g.temp_cfg.para (CFG_PARA_CH1_ON + i)) →
      IsInt8 (g.temp_cfg.para (CFG_PARA_CH1_OFF + i)) →
      t_on g i = g.temp_cfg.para (CFG_PARA_CH1_ON + i) * 10 ∧
      t_off g i = g.temp_cfg.para (CFG_PARA_CH1_OFF + i) * 10 ∧
      -1280 ≤ t_on g i ∧ t_on g i ≤ 1270 ∧ -1280 ≤ t_off g i ∧ t_off g i ≤ 1270) := by
  refine ⟨convertTemp_range, ?_, ?_, ?_⟩
  · intro W hw w g i hi hacc
    rw [readTemp_value_accepted hw w g i hi hacc]
    exact convertTemp_range _ _
  · intro g hg
    have hr := reachable_range g hg
    obtain ⟨e1, e2, e3, _, _⟩ := srcTemp_one_exact g hr
    have h0 := hr 0
    have h1 := hr 1
    refine ⟨hr, ?_, e1, ?_, e2, e3, Reachable.other g _ hg rfl⟩
    · unfold IsInt16
      omega
    · unfold IsInt16
      omega
  · intro g i hon hoff
    have e1 : t_on g i = g.temp_cfg.para (CFG_PARA_CH1_ON + i) * 10 := by
      rw [t_on, wrap16_times_ten _ hon]
    have e2 : t_off g i = g.temp_cfg.para (CFG_PARA_CH1_OFF + i) * 10 := by
      rw [t_off, wrap16_times_ten _ hoff]
    unfold IsInt8 at hon hoff
    refine ⟨e1, e2, ?_, ?_, ?_, ?_⟩ <;> omega

set_option maxRecDepth 1000000 in
/-- Witness for C36: from power-on with one discovered sensor, a read of the
scratchpad of the worked example gives a reachable state with
`value[0] = -251`; the channel-2 source is then 251. -/
theorem C36_readings_in_range_witness :
    Reachable (temp_readTemp scriptBus
      (demoScript demoScratch, { demoSensor with temp_hist := powerOnHist })).2 ∧
    (temp_readTemp scriptBus
      (demoScript demoScratch, { demoSensor with temp_hist := powerOnHist })).2.temp_hist.value 0
        = -251 ∧
    srcTemp (temp_readTemp scriptBus
      (demoScript demoScratch, { demoSensor with temp_hist := powerOnHist })).2 1 = 251 :=
  ⟨Reachable.readTemp _ _ _ (Reachable.powerOn _ (fun _ => rfl)),
   by decide,
   by
    rw [(C36_readings_in_range.2.2.1 _
      (Reachable.readTemp scriptBus (demoScript demoScratch)
        { demoSensor with temp_hist := powerOnHist }
        (Reachable.powerOn _ (fun _ => rfl)))).2.2.2.2.2.1]
    decide⟩

/-- C37: each channel is gated only by its own validity flag. For a state
`g` and the state that differs from it in `valid[1]` only, `temp_updOutput`
leaves the same `current[0]`; for the state that differs in `valid[0]` only,
the same `current[1]`. The source of channel 1 is the larger (high-on) or the
smaller of `value[0]` and `value[1]` whatever `valid[1]` is, and the source of
channel 2 is computed from both values whatever `valid[0]` is: with
`valid[0] = 1`, `valid[1] = 0`, `value[0] = 50` and setpoints on 10, off 5,
channel 1 is off for a stored `value[1] = 0` and on for `value[1] = 200`. -/
theorem C37_own_validity_gate (g : Globals) (v : Nat) :
    (temp_updOutput (withValid g 1 v)).output_data.current 0
      = (temp_updOutput g).output_data.current 0 ∧
    (temp_updOutput (withValid g 0 v)).output_data.current 1
      = (temp_updOutput g).output_data.current 1 ∧
    srcTemp (withValid g 1 v) 0
      = (if highOn g 0 then max (g.temp_hist.value 0) (g.temp_hist.value 1)
         else min (g.temp_hist.value 0) (g.temp_hist.value 1)) ∧
    srcTemp (withValid g 0 v) 1
      = (if wrap16 (g.temp_hist.value 0 - g.temp_hist.value 1) < 0 then
           wrap16 (wrap16 (g.temp_hist.value 0 - g.temp_hist.value 1) * -1)
         else wrap16 (g.temp_hist.value 0 - g.temp_hist.value 1)) ∧
    (temp_updOutput (demoGlobals 1 0 50 0 10 5 20 10 0 0)).output_data.current 0 = 0 ∧
    (temp_updOutput (demoGlobals 1 0 50 200 10 5 20 10 0 0)).output_data.current 0 = 1 := by
  refine ⟨?_, ?_, ?_, rfl, by decide, by decide⟩
  · rw [updOutput_current _ 0 (by decide), updOutput_current _ 0 (by decide), rawOutput_zero,
      rawOutput_zero]
    exact decideOutput_withValid g 1 0 v (by decide)
  · rw [updOutput_current _ 1 (by decide), updOutput_current _ 1 (by decide), rawOutput_one,
      rawOutput_one, decideOutput_withValid g 0 1 v (by decide)]
    rfl
  · exact srcTemp_zero (withValid g 1 v)

/-- C38: coupling latches through the dead band. When channel 2 has a valid
reading and its source value lies strictly between its two thresholds, the
raw decision of `temp_updOutput` for channel 2, which is `current[1]` after
the call, is the previous `current[1]` OR `reg2[0]`. A call with
`reg2[0] != 0` leaves `current[1] != 0`. So from a state with `current[1]`
on, `current[1]` is on after every number of further cycles in which the
source value stays inside the dead band, whatever `reg2[0]` is in those
cycles; with `current[1] = 1` and `reg2[0] = 0` the result is 1. -/
theorem C38_coupling_latches :
    (∀ g : Globals, InDeadBand2 g →
      rawOutput g 1 = g.output_data.current 1 ||| g.output_data.reg2 0 ∧
      (temp_updOutput g).output_data.current 1
        = g.output_data.current 1 ||| g.output_data.reg2 0) ∧
    (∀ g : Globals, g.output_data.reg2 0 ≠ 0 → (temp_updOutput g).output_data.current 1 ≠ 0) ∧
    (∀ (ins : Nat → Inputs) (g : Globals) (n : Nat), g.output_data.current 1 ≠ 0 →
      (∀ k, k < n → InDeadBand2 (entry (ins k) (runCycles ins k g))) →
      (runCycles ins n g).output_data.current 1 ≠ 0) ∧
    (∀ g : Globals, InDeadBand2 g → g.output_data.current 1 = 1 → g.output_data.reg2 0 = 0 →
      (temp_updOutput g).output_data.current 1 = 1) := by
  have hraw : ∀ g : Globals, InDeadBand2 g →
      rawOutput g 1 = g.output_data.current 1 ||| g.output_data.reg2 0 := by
    intro g hg
    rw [rawOutput_one, decideOutput_deadBand g hg]
  refine ⟨fun g hg => ⟨hraw g hg, ?_⟩, ?_, ?_, ?_⟩
  · rw [updOutput_current g 1 (by decide)]
    exact hraw g hg
  · intro g h2
    rw [updOutput_current g 1 (by decide), rawOutput_one]
    exact or_ne_zero_right _ _ h2
  · intro ins g n hcur
    induction n with
    | zero => intro _; exact hcur
    | succ n ih =>
      intro hband
      have hprev := ih (fun k hk => hband k (Nat.lt_succ_of_lt hk))
      show (temp_updOutput (entry (ins n) (runCycles ins n g))).output_data.current 1 ≠ 0
      rw [updOutput_current _ 1 (by decide), hraw _ (hband n (Nat.lt_succ_self n))]
      exact or_ne_zero_left _ _ hprev
  · intro g hg h1 h0
    rw [updOutput_current g 1 (by decide), hraw g hg, h1, h0]
    rfl

/-- Witness for C38: readings 30.0 and 15.0 degrees (difference 150),
channel-2 setpoints on 20, off 10. With `current[1] = 1` and `reg2[0] = 0`
the state is in the dead band and `current[1]` stays 1; with `current[1] = 0`
and `reg2[0] = 1` the call turns `current[1]` on. -/
theorem C38_coupling_latches_witness :
    InDeadBand2 (demoGlobals 1 1 300 150 10 5 20 10 1 0) ∧
    (temp_updOutput (demoGlobals 1 1 300 150 10 5 20 10 1 0)).output_data.current 1 = 1 ∧
    (temp_updOutput (demoGlobals 1 1 300 150 10 5 20 10 0 1)).output_data.current 1 ≠ 0 :=
  ⟨by decide,
   C38_coupling_latches.2.2.2 (demoGlobals 1 1 300 150 10 5 20 10 1 0) (by decide) rfl rfl,
   C38_coupling_latches.2.1 (demoGlobals 1 1 300 150 10 5 20 10 0 1) (by decide)⟩

/-- C39: equal thresholds give no dead band. When both setpoints of channel
`i` are the same `int8_t` value `t` and `valid[i] != 0`, `highOn` is false
(the channel is treated as low-on), the decision of the channel is 1 when
the source value is at most `10 * t` and 0 otherwise, `current[i]` after
`temp_updOutput` is that decision, for channel 2 OR-ed with `reg2[0]`, and it
is the same whatever `output_data.current[]` was before the call. The source
of channel 1 is then the smaller of the two readings. -/
theorem C39_equal_thresholds (g : Globals) (i : Nat) (hi : i < 2) (t : Int) (ht : IsInt8 t)
    (hon : g.temp_cfg.para (CFG_PARA_CH1_ON + i) = t)
    (hoff : g.temp_cfg.para (CFG_PARA_CH1_OFF + i) = t) (hv : g.temp_hist.valid i ≠ 0) :
    highOn g i = false ∧
    decideOutput g i = (if srcTemp g i ≤ 10 * t then 1 else 0) ∧
    (temp_updOutput g).output_data.current i
      = (if i = 1 then (if srcTemp g i ≤ 10 * t then 1 else 0) ||| g.output_data.reg2 0
         else (if srcTemp g i ≤ 10 * t then 1 else 0)) ∧
    (∀ cur : Nat → Nat,
      (temp_updOutput (withCurrent g cur)).output_data.current i
        = (temp_updOutput g).output_data.current i) ∧
    (i = 0 → srcTemp g 0 = min (g.temp_hist.value 0) (g.temp_hist.value 1)) := by
  obtain ⟨hh, hd⟩ := decideOutput_equal g i t ht hon hoff hv
  refine ⟨hh, hd, ?_, ?_, ?_⟩
  · rw [updOutput_current g i hi]
    interval_cases i
    · rw [rawOutput_zero, hd]
      simp
    · rw [rawOutput_one, hd]
      simp
  · intro cur
    rw [updOutput_current _ i hi, updOutput_current g i hi]
    have hdc := decideOutput_withCurrent_equal g i t ht hon hoff hv cur
    interval_cases i
    · rw [rawOutput_zero, rawOutput_zero, hdc]
    · rw [rawOutput_one, rawOutput_one, hdc]
      rfl
  · intro h0
    subst h0
    rw [srcTemp_zero, hh]
    simp

/-- Witness for C39: channel 1 with both setpoints 10 and both readings
valid; readings 12.0 and 9.0 degrees give the source 90, at most 100, so the
channel is on although it was off before. -/
theorem C39_equal_thresholds_witness :
    (temp_updOutput (demoGlobals 1 1 120 90 10 10 20 10 0 0)).output_data.current 0 = 1 ∧
    highOn (demoGlobals 1 1 120 90 10 10 20 10 0 0) 0 = false :=
  ⟨by
    rw [(C39_equal_thresholds (demoGlobals 1 1 120 90 10 10 20 10 0 0) 0 (by decide) 10
      (by decide) rfl rfl (by decide)).2.2.1]
    decide,
   (C39_equal_thresholds (demoGlobals 1 1 120 90 10 10 20 10 0 0) 0 (by decide) 10
      (by decide) rfl rfl (by decide)).1⟩

/-- C40: display encoding of a signed value. Every call of `dspl_int16` in
the program passes `dp = 1` or `dp = 2`; the statement is for every
`dp != 3` (with `dp = 3` the decimal-point bit would be set in the first
cell). With `p` the row base (0 for `pos = 0`, 4 otherwise) and
`-1999 <= v <= 1999`, after `dspl_int16 (pos, dp, v)` the cell `dspl.mem[p]`
holds `DIGIT_P0`, `DIGIT_M0`, `DIGIT_P1` or `DIGIT_M1` according to the sign
of `v` and to `|v| < 1000`; the cells `dspl.mem[p+1..p+3]`, ignoring the
decimal-point bit 0x80, hold the hundreds, tens and units digits of `|v|`;
sign and thousands digit read from the code and the three digits give back
`v`. For `v > 1999` the call is `dspl_text (pos, TEXT_ID_OVF_PLUS)` and for
`v < -1999` `dspl_text (pos, TEXT_ID_OVF_MINUS)`, which put `DIGIT_P0` or
`DIGIT_M0` and three `DIGIT_MINUS` in the row. In every case the cells
outside the row, the four cells of the other row among them, are
unchanged. -/
theorem C40_display_encoding (pos dp : Nat) (v : Int) (d : DisplayData) (hdp : dp ≠ 3) :
    rowBase pos = (if pos = 0 then 0 else 4) ∧
    (-1999 ≤ v → v ≤ 1999 →
      (dspl_int16 pos dp v d).mem (rowBase pos) = specSignCode v ∧
      (dspl_int16 pos dp v d).mem (rowBase pos + 1) &&& 0x7F = v.natAbs / 100 % 10 ∧
      (dspl_int16 pos dp v d).mem (rowBase pos + 2) &&& 0x7F = v.natAbs / 10 % 10 ∧
      (dspl_int16 pos dp v d).mem (rowBase pos + 3) &&& 0x7F = v.natAbs % 10 ∧
      (if (dspl_int16 pos dp v d).mem (rowBase pos) = DIGIT_M0 ∨
          (dspl_int16 pos dp v d).mem (rowBase pos) = DIGIT_M1 then (-1 : Int) else 1) *
        (1000 * (if (dspl_int16 pos dp v d).mem (rowBase pos) = DIGIT_P1 ∨
            (dspl_int16 pos dp v d).mem (rowBase pos) = DIGIT_M1 then (1 : Int) else 0)
          + 100 * (((dspl_int16 pos dp v d).mem (rowBase pos + 1) &&& 0x7F : Nat) : Int)
          + 10 * (((dspl_int16 pos dp v d).mem (rowBase pos + 2) &&& 0x7F : Nat) : Int)
          + (((dspl_int16 pos dp v d).mem (rowBase pos + 3) &&& 0x7F : Nat) : Int)) = v) ∧
    (v > 1999 →
      dspl_int16 pos dp v d = dspl_text pos TEXT_ID_OVF_PLUS d ∧
      (dspl_int16 pos dp v d).mem (rowBase pos) = DIGIT_P0 ∧
      (dspl_int16 pos dp v d).mem (rowBase pos + 1) = DIGIT_MINUS ∧
      (dspl_int16 pos dp v d).mem (rowBase pos + 2) = DIGIT_MINUS ∧
      (dspl_int16 pos dp v d).mem (rowBase pos + 3) = DIGIT_MINUS) ∧
    (v < -1999 →
      dspl_int16 pos dp v d = dspl_text pos TEXT_ID_OVF_MINUS d ∧
      (dspl_int16 pos dp v d).mem (rowBase pos) = DIGIT_M0 ∧
      (dspl_int16 pos dp v d).mem (rowBase pos + 1) = DIGIT_MINUS ∧
      (dspl_int16 pos dp v d).mem (rowBase pos + 2) = DIGIT_MINUS ∧
      (dspl_int16 pos dp v d).mem (rowBase pos + 3) = DIGIT_MINUS) ∧
    (∀ j, ¬ (rowBase pos ≤ j ∧ j < rowBase pos + 4) →
      (dspl_int16 pos dp v d).mem j = d.mem j) := by
  have hrow : ∀ (txtId k : Nat), k < 4 →
      (dspl_text pos txtId d).mem (rowBase pos + k)
        = (text_tab.getD txtId []).getD k 0 := by
    intro txtId k hk
    rw [dspl_text_mem, if_pos ⟨Nat.le_add_right _ _, by omega⟩, Nat.add_sub_cancel_left]
  refine ⟨?_, ?_, ?_, ?_, ?_⟩
  · unfold rowBase
    by_cases h : pos = 0
    · rw [if_neg (fun hn => hn h), if_pos h, h]
    · rw [if_pos h, if_neg h]
  · intro hlo hhi
    obtain ⟨_, c0x, c1, c2, c3⟩ := dspl_int16_cells pos dp v d hlo hhi
    have c0 := c0x hdp
    refine ⟨c0, c1, c2, c3, ?_⟩
    rw [c0, c1, c2, c3]
    exact display_decode v hlo hhi
  · intro hv
    have e : dspl_int16 pos dp v d = dspl_text pos TEXT_ID_OVF_PLUS d := by
      unfold dspl_int16
      rw [if_pos hv]
    refine ⟨e, ?_, ?_, ?_, ?_⟩
    · rw [e]
      exact hrow TEXT_ID_OVF_PLUS 0 (by decide)
    · rw [e]
      exact hrow TEXT_ID_OVF_PLUS 1 (by decide)
    · rw [e]
      exact hrow TEXT_ID_OVF_PLUS 2 (by decide)
    · rw [e]
      exact hrow TEXT_ID_OVF_PLUS 3 (by decide)
  · intro hv
    have hn : ¬ v > 1999 := by omega
    have e : dspl_int16 pos dp v d = dspl_text pos TEXT_ID_OVF_MINUS d := by
      unfold dspl_int16
      rw [if_neg hn, if_pos hv]
    refine ⟨e, ?_, ?_, ?_, ?_⟩
    · rw [e]
      exact hrow TEXT_ID_OVF_MINUS 0 (by decide)
    · rw [e]
      exact hrow TEXT_ID_OVF_MINUS 1 (by decide)
    · rw [e]
      exact hrow TEXT_ID_OVF_MINUS 2 (by decide)
    · rw [e]
      exact hrow TEXT_ID_OVF_MINUS 3 (by decide)
  · intro j hj
    by_cases hhi : v > 1999
    · have e : dspl_int16 pos dp v d = dspl_text pos TEXT_ID_OVF_PLUS d := by
        unfold dspl_int16
        rw [if_pos hhi]
      rw [e, dspl_text_mem, if_neg hj]
    · by_cases hlo : v < -1999
      · have e : dspl_int16 pos dp v d = dspl_text pos TEXT_ID_OVF_MINUS d := by
          unfold dspl_int16
          rw [if_neg hhi, if_pos hlo]
        rw [e, dspl_text_mem, if_neg hj]
      · rw [dspl_int16_mem pos dp v d (by omega) (by omega)]
        have n0 : ¬ j = rowBase pos := by omega
        have n1 : ¬ j = rowBase pos + 1 := by omega
        have n2 : ¬ j = rowBase pos + 2 := by omega
        have n3 : ¬ j = rowBase pos + 3 := by omega
        rw [if_neg n0, if_neg n1, if_neg n2, if_neg n3]

/-- Witness for C40: `dspl_int16 (1, 1, -251)`, as called for the reading
-25.1 degrees of channel 2, on a blank display: the second row holds
`DIGIT_M0`, 2, 5 with the decimal point, 1, and the first row stays blank;
`dspl_int16 (0, 1, 2000)` shows the overflow text. -/
theorem C40_display_encoding_witness :
    (dspl_int16 1 1 (-251) blankDisplay).mem 4 = DIGIT_M0 ∧
    (dspl_int16 1 1 (-251) blankDisplay).mem 5 &&& 0x7F = 2 ∧
    (dspl_int16 1 1 (-251) blankDisplay).mem 6 &&& 0x7F = 5 ∧
    (dspl_int16 1 1 (-251) blankDisplay).mem 7 &&& 0x7F = 1 ∧
    (dspl_int16 1 1 (-251) blankDisplay).mem 6 = 0x85 ∧
    (dspl_int16 1 1 (-251) blankDisplay).mem 0 = DIGIT_BLANK ∧
    (dspl_int16 0 1 2000 blankDisplay).mem 0 = DIGIT_P0 :=
  ⟨((C40_display_encoding 1 1 (-251) blankDisplay (by decide)).2.1 (by decide) (by decide)).1,
   ((C40_display_encoding 1 1 (-251) blankDisplay (by decide)).2.1 (by decide) (by decide)).2.1,
   ((C40_display_encoding 1 1 (-251) blankDisplay (by decide)).2.1 (by decide)
      (by decide)).2.2.1,
   ((C40_display_encoding 1 1 (-251) blankDisplay (by decide)).2.1 (by decide)
      (by decide)).2.2.2.1,
   by decide,
   (C40_display_encoding 1 1 (-251) blankDisplay (by decide)).2.2.2.2 0 (by decide),
   ((C40_display_encoding 0 1 2000 blankDisplay (by decide)).2.2.1 (by decide)).2.1⟩

end TempCtrl
